import Mathlib

/-!
# YUView raw sample file engine: a verification development

A shallow embedding of the pixel-format catalogue, the frame sizing, the
4:4:4 conversion (`yuvfile.cpp`) and the difference engine
(`differenceobject.cpp`), followed by theorems about them.

Conventions of the embedding:

* a byte (`unsigned char`) is a `Fin 256`; a `QByteArray` is a list of bytes;
* `int` values are integers or naturals; an `int` product that leaves the
  32-bit range is undefined in C++ and is a fault, `unsigned` arithmetic
  wraps modulo `2^32`;
* a function that can fault (division by zero, an access outside a buffer,
  a failed assertion) returns `none`.
-/

set_option linter.unusedVariables false
set_option linter.all false

/-- The pixel-format tags used by `yuvfile.cpp` and `differenceobject.cpp`.
The enum declaration lives in a header that is not among the sources; the
constructors are the tags the code names, and `YUVC_OtherPixelFormat k`
stands for any further value of the enum. -/
inductive YUVCPixelFormatType where
  | YUVC_UnknownPixelFormat
  | YUVC_GBR12in16LEPlanarPixelFormat
  | YUVC_32RGBAPixelFormat
  | YUVC_24RGBPixelFormat
  | YUVC_24BGRPixelFormat
  | YUVC_444YpCbCr16LEPlanarPixelFormat
  | YUVC_444YpCbCr16BEPlanarPixelFormat
  | YUVC_444YpCbCr12LEPlanarPixelFormat
  | YUVC_444YpCbCr12BEPlanarPixelFormat
  | YUVC_444YpCbCr8PlanarPixelFormat
  | YUVC_444YpCrCb8PlanarPixelFormat
  | YUVC_422YpCbCr8PlanarPixelFormat
  | YUVC_422YpCrCb8PlanarPixelFormat
  | YUVC_UYVY422PixelFormat
  | YUVC_422YpCbCr10PixelFormat
  | YUVC_UYVY422YpCbCr10PixelFormat
  | YUVC_420YpCbCr10LEPlanarPixelFormat
  | YUVC_420YpCbCr8PlanarPixelFormat
  | YUVC_411YpCbCr8PlanarPixelFormat
  | YUVC_8GrayPixelFormat
  | YUVC_OtherPixelFormat (k : Nat)
  deriving DecidableEq, Repr

open YUVCPixelFormatType

/-- The chroma interpolation modes of `YUVFile::p_interpolationMode`. -/
inductive InterpolationMode where
  | NearestNeighborInterpolation
  | BiLinearInterpolation
  | InterstitialInterpolation
  deriving DecidableEq, Repr

open InterpolationMode

/-- One descriptor of the catalogue: the arguments of `PixelFormat::setParams`
in the order the calls in `YUVFile::pixelFormatList` give them. -/
structure PixelFormat where
  name : String
  bitsPerSample : Nat
  bitsPerPixelNominator : Nat
  bitsPerPixelDenominator : Nat
  subsamplingHorizontal : Nat
  subsamplingVertical : Nat
  isPlanar : Bool
  bytePerComponent : Nat
  deriving DecidableEq, Repr

/-- Modelled from the spec: the default of the last argument of
`PixelFormat::setParams` (the class is declared in a header that is not among
the sources). The spec sizes the destination by the bytes of one sample and
only the 10-bit planar entry passes the argument, as 2; the default is 1. -/
def defaultBytePerComponent : Nat := 1

/-- A byte, the value of an `unsigned char`. -/
abbrev Byte := Fin 256

/-- A byte buffer, the contents of a `QByteArray`. -/
abbrev Buf := List Byte

namespace YUVFile

/-- The entries `YUVFile::pixelFormatList` puts into `g_pixelFormatList`. -/
def pixelFormatList : List (YUVCPixelFormatType × PixelFormat) :=
  [ (YUVC_UnknownPixelFormat, ⟨"Unknown Pixel Format", 0, 0, 0, 0, 0, false, defaultBytePerComponent⟩),
    (YUVC_GBR12in16LEPlanarPixelFormat, ⟨"GBR 12-bit planar", 12, 48, 1, 1, 1, true, defaultBytePerComponent⟩),
    (YUVC_32RGBAPixelFormat, ⟨"RGBA 8-bit", 8, 32, 1, 1, 1, false, defaultBytePerComponent⟩),
    (YUVC_24RGBPixelFormat, ⟨"RGB 8-bit", 8, 24, 1, 1, 1, false, defaultBytePerComponent⟩),
    (YUVC_24BGRPixelFormat, ⟨"BGR 8-bit", 8, 24, 1, 1, 1, false, defaultBytePerComponent⟩),
    (YUVC_444YpCbCr16LEPlanarPixelFormat, ⟨"4:4:4 Y'CbCr 16-bit LE planar", 16, 48, 1, 1, 1, true, defaultBytePerComponent⟩),
    (YUVC_444YpCbCr16BEPlanarPixelFormat, ⟨"4:4:4 Y'CbCr 16-bit BE planar", 16, 48, 1, 1, 1, true, defaultBytePerComponent⟩),
    (YUVC_444YpCbCr12LEPlanarPixelFormat, ⟨"4:4:4 Y'CbCr 12-bit LE planar", 12, 48, 1, 1, 1, true, defaultBytePerComponent⟩),
    (YUVC_444YpCbCr12BEPlanarPixelFormat, ⟨"4:4:4 Y'CbCr 12-bit BE planar", 12, 48, 1, 1, 1, true, defaultBytePerComponent⟩),
    (YUVC_444YpCbCr8PlanarPixelFormat, ⟨"4:4:4 Y'CbCr 8-bit planar", 8, 24, 1, 1, 1, true, defaultBytePerComponent⟩),
    (YUVC_444YpCrCb8PlanarPixelFormat, ⟨"4:4:4 Y'CrCb 8-bit planar", 8, 24, 1, 1, 1, true, defaultBytePerComponent⟩),
    (YUVC_422YpCbCr8PlanarPixelFormat, ⟨"4:2:2 Y'CbCr 8-bit planar", 8, 16, 1, 2, 1, true, defaultBytePerComponent⟩),
    (YUVC_422YpCrCb8PlanarPixelFormat, ⟨"4:2:2 Y'CrCb 8-bit planar", 8, 16, 1, 2, 1, true, defaultBytePerComponent⟩),
    (YUVC_UYVY422PixelFormat, ⟨"4:2:2 8-bit packed", 8, 16, 1, 2, 1, false, defaultBytePerComponent⟩),
    (YUVC_422YpCbCr10PixelFormat, ⟨"4:2:2 10-bit packed 'v210'", 10, 128, 6, 2, 1, false, defaultBytePerComponent⟩),
    (YUVC_UYVY422YpCbCr10PixelFormat, ⟨"4:2:2 10-bit packed (UYVY)", 10, 128, 6, 2, 1, true, defaultBytePerComponent⟩),
    (YUVC_420YpCbCr10LEPlanarPixelFormat, ⟨"4:2:0 Y'CbCr 10-bit LE planar", 10, 24, 1, 2, 2, true, 2⟩),
    (YUVC_420YpCbCr8PlanarPixelFormat, ⟨"4:2:0 Y'CbCr 8-bit planar", 8, 12, 1, 2, 2, true, defaultBytePerComponent⟩),
    (YUVC_411YpCbCr8PlanarPixelFormat, ⟨"4:1:1 Y'CbCr 8-bit planar", 8, 12, 1, 4, 1, true, defaultBytePerComponent⟩),
    (YUVC_8GrayPixelFormat, ⟨"4:0:0 8-bit", 8, 8, 1, 0, 0, true, defaultBytePerComponent⟩) ]

/-- The lookup `pixelFormatList()[pixelFormat]` guarded by
`pixelFormatList().count(pixelFormat)`: `none` when the tag is no key. -/
def describe (pixelFormat : YUVCPixelFormatType) : Option PixelFormat :=
  pixelFormatList.lookup pixelFormat

/-- The accessor `YUVFile::verticalSubSampling`. -/
def verticalSubSampling (pixelFormat : YUVCPixelFormatType) : Nat :=
  match describe pixelFormat with
  | some pf => pf.subsamplingVertical
  | none => 0

/-- The accessor `YUVFile::horizontalSubSampling`. -/
def horizontalSubSampling (pixelFormat : YUVCPixelFormatType) : Nat :=
  match describe pixelFormat with
  | some pf => pf.subsamplingHorizontal
  | none => 0

/-- The accessor `YUVFile::bitsPerSample`. -/
def bitsPerSample (pixelFormat : YUVCPixelFormatType) : Nat :=
  match describe pixelFormat with
  | some pf => pf.bitsPerSample
  | none => 0

/-- The accessor `YUVFile::bytePerComponent`. -/
def bytePerComponent (pixelFormat : YUVCPixelFormatType) : Nat :=
  match describe pixelFormat with
  | some pf => pf.bytePerComponent
  | none => 0

/-- The accessor `YUVFile::isPlanar`. -/
def isPlanar (pixelFormat : YUVCPixelFormatType) : Bool :=
  match describe pixelFormat with
  | some pf => pf.isPlanar
  | none => false

/-- The function `YUVFile::bytesPerFrame`. A tag that is no key of the
catalogue gives 0. Otherwise `width*height` is an `int` product (a fault when
it leaves the 32-bit range) converted to `unsigned`; `%` and `/` by the
bits-per-pixel denominator fault when it is 0; the `unsigned` products and
sums wrap modulo `2^32`. -/
def bytesPerFrame (width height : Int) (cFormat : YUVCPixelFormatType) : Option Nat :=
  match describe cFormat with
  | none => some 0
  | some pf =>
    if width * height < -(2 ^ 31) ∨ 2 ^ 31 ≤ width * height then none
    else
      let numSamples : Nat := ((width * height) % 2 ^ 32).toNat
      if pf.bitsPerPixelDenominator = 0 then none
      else
        let remainder := numSamples % pf.bitsPerPixelDenominator
        let bits := numSamples / pf.bitsPerPixelDenominator
        let bits :=
          if remainder = 0 then (bits * pf.bitsPerPixelNominator) % 2 ^ 32
          else (((bits + 1) % 2 ^ 32) * pf.bitsPerPixelNominator) % 2 ^ 32
        let bits := if bits % 8 ≠ 0 then (bits + 8) % 2 ^ 32 else bits
        some (bits / 8)

end YUVFile

/-- The conversion of an `int` to `unsigned char`: the value modulo 256. -/
def toUChar (x : Int) : Byte := ⟨(x % 256).toNat, by omega⟩

/-- A read `buf[p]` through an `unsigned char` pointer: a fault outside the buffer. -/
def load (buf : Buf) (p : Nat) : Option Byte := buf[p]?

/-- A write `buf[p] = v` through an `unsigned char` pointer: a fault outside the buffer. -/
def store (buf : Buf) (p : Nat) (v : Byte) : Option Buf :=
  if p < buf.length then some (buf.set p v) else none

/-- The conversion of an `int` to `unsigned short`: the value modulo 65536. -/
def toUShort (x : Int) : Nat := (x % 65536).toNat

/-- A read `buf[p]` through an `unsigned short` pointer into a byte buffer:
the two bytes at `2p` and `2p+1` in the byte order of the host. -/
def load16 (hostBigEndian : Bool) (buf : Buf) (p : Nat) : Option Nat :=
  match buf[2 * p]?, buf[2 * p + 1]? with
  | some b0, some b1 =>
    if hostBigEndian then some (256 * b0.val + b1.val) else some (b0.val + 256 * b1.val)
  | _, _ => none

/-- A write `buf[p] = v` through an `unsigned short` pointer into a byte
buffer, `v` below 65536. -/
def store16 (hostBigEndian : Bool) (buf : Buf) (p : Nat) (v : Nat) : Option Buf :=
  if 2 * p + 1 < buf.length then
    if hostBigEndian then
      some ((buf.set (2 * p) (toUChar (v / 256))).set (2 * p + 1) (toUChar v))
    else
      some ((buf.set (2 * p) (toUChar v)).set (2 * p + 1) (toUChar (v / 256)))
  else none

/-- The loop `for (i = 0; i < n; ++i) body(i)` over a buffer that the body
may fail to update. -/
def forLoop : Nat → (Nat → Buf → Option Buf) → Buf → Option Buf
  | 0, _, s => some s
  | n + 1, body, s => (forLoop n body s).bind (body n)

/-- The call `QByteArray::resize(n)`: the first bytes are kept, the bytes
added at the end are not initialised and are whatever `fresh` holds. -/
def resize (buf : Buf) (n : Nat) (fresh : Nat → Byte) : Buf :=
  (List.range n).map (fun i => buf.getD i (fresh i))

namespace DifferenceObject

/-- The body of the 8-bit loop of `DifferenceObject::subtractYUV444`. -/
def subtractBody8 (diffZero : Int) (componentLength : Nat) (src0 src1 : Buf)
    (i : Nat) (dst : Buf) : Option Buf := do
  let y0 ← load src0 i
  let y1 ← load src1 i
  let u0 ← load src0 (componentLength + i)
  let u1 ← load src1 (componentLength + i)
  let v0 ← load src0 (componentLength + componentLength + i)
  let v1 ← load src1 (componentLength + componentLength + i)
  let Y_diff : Int := diffZero + (y0.val : Int) - (y1.val : Int)
  let U_diff : Int := diffZero + (u0.val : Int) - (u1.val : Int)
  let V_diff : Int := diffZero + (v0.val : Int) - (v1.val : Int)
  let dst ← store dst i (toUChar Y_diff)
  let dst ← store dst (componentLength + i) (toUChar U_diff)
  store dst (componentLength + componentLength + i) (toUChar V_diff)

/-- The body of the 16-bit loop of `DifferenceObject::subtractYUV444`: the
buffers are read and written through `unsigned short` pointers, the planes
`componentLength` elements apart. -/
def subtractBody16 (hostBigEndian : Bool) (diffZero : Int) (componentLength : Nat)
    (src0 src1 : Buf) (i : Nat) (dst : Buf) : Option Buf := do
  let y0 ← load16 hostBigEndian src0 i
  let y1 ← load16 hostBigEndian src1 i
  let u0 ← load16 hostBigEndian src0 (componentLength + i)
  let u1 ← load16 hostBigEndian src1 (componentLength + i)
  let v0 ← load16 hostBigEndian src0 (componentLength + componentLength + i)
  let v1 ← load16 hostBigEndian src1 (componentLength + componentLength + i)
  let Y_diff : Int := diffZero + (y0 : Int) - (y1 : Int)
  let U_diff : Int := diffZero + (u0 : Int) - (u1 : Int)
  let V_diff : Int := diffZero + (v0 : Int) - (v1 : Int)
  let dst ← store16 hostBigEndian dst i (toUShort Y_diff)
  let dst ← store16 hostBigEndian dst (componentLength + i) (toUShort U_diff)
  store16 hostBigEndian dst (componentLength + componentLength + i) (toUShort V_diff)

/-- The function `DifferenceObject::subtractYUV444`; the result is the
contents of `outBuffer` on return. The two `Q_ASSERT`s fault when they fail;
`128<<(bps-8)` is a shift by a negative count, a fault, when the catalogue
gives fewer than 8 bits per sample. -/
def subtractYUV444 (hostBigEndian : Bool) (fresh : Nat → Byte)
    (srcBuffer0 srcBuffer1 outBuffer : Buf) (srcPixelFormat : YUVCPixelFormatType) :
    Option Buf :=
  let srcBufferLength0 := srcBuffer0.length
  let srcBufferLength1 := srcBuffer1.length
  if srcBufferLength0 ≠ srcBufferLength1 then none
  else if srcBufferLength0 % 3 ≠ 0 then none
  else
    let outBuffer :=
      if outBuffer.length ≠ srcBufferLength0 then resize outBuffer srcBufferLength0 fresh
      else outBuffer
    let componentLength := srcBufferLength0 / 3
    let bps := YUVFile.bitsPerSample srcPixelFormat
    if bps < 8 then none
    else
      let diffZero : Int := 128 * 2 ^ (bps - 8)
      if bps = 8 then
        forLoop componentLength (subtractBody8 diffZero componentLength srcBuffer0 srcBuffer1)
          outBuffer
      else if 8 < bps ∧ bps ≤ 16 then
        forLoop componentLength
          (subtractBody16 hostBigEndian diffZero componentLength srcBuffer0 srcBuffer1) outBuffer
      else
        some outBuffer

end DifferenceObject

/-- The positions `D` of a buffer of length `L` hold the values `G`. -/
def Agrees (G : Nat → Byte) (D : Nat → Prop) (L : Nat) (s : Buf) : Prop :=
  s.length = L ∧ ∀ k, D k → k < L → s[k]? = some (G k)

/-- A read `(int)(buf[p])` through an `unsigned char` pointer. -/
def loadInt (buf : Buf) (p : Nat) : Option Int :=
  (load buf p).map (fun b => (b.val : Int))

/-- The call `memcpy(dst + dOff, src + sOff, n)` between two buffers. -/
def memcpy (dst : Buf) (dOff : Nat) (src : Buf) (sOff n : Nat) : Option Buf :=
  forLoop n (fun i d => do
    let v ← load src (sOff + i)
    store d (dOff + i) v) dst

/-- The call `memcpy(buf + dOff, buf + sOff, n)` between two parts of one
buffer that do not overlap. -/
def memcpyWithin (buf : Buf) (dOff sOff n : Nat) : Option Buf :=
  forLoop n (fun i d => do
    let v ← load d (sOff + i)
    store d (dOff + i) v) buf

/-- The call `memset(dst + dOff, v, n)`. -/
def memset (dst : Buf) (dOff : Nat) (v : Byte) (n : Nat) : Option Buf :=
  forLoop n (fun i d => store d (dOff + i) v) dst

/-- The machine the program is built for and runs on: its byte order, and
whether the build defines the macros `__BIG_ENDIAN__ || IS_BIG_ENDIAN` and
`__LITTLE_ENDIAN__ || IS_LITTLE_ENDIAN` the byte swaps of `yuvfile.cpp` test. -/
structure Host where
  bigEndian : Bool
  defBigEndian : Bool
  defLittleEndian : Bool

/-- A read `buf[p]` through a `quint32` pointer into a byte buffer: the four
bytes from `4p` on in the byte order of the host. -/
def load32 (hostBigEndian : Bool) (buf : Buf) (p : Nat) : Option Nat :=
  match buf[4 * p]?, buf[4 * p + 1]?, buf[4 * p + 2]?, buf[4 * p + 3]? with
  | some b0, some b1, some b2, some b3 =>
    if hostBigEndian then
      some (b0.val * 2 ^ 24 + b1.val * 2 ^ 16 + b2.val * 2 ^ 8 + b3.val)
    else
      some (b0.val + b1.val * 2 ^ 8 + b2.val * 2 ^ 16 + b3.val * 2 ^ 24)
  | _, _, _, _ => none

/-- The function `SwapInt32` on a 32-bit value. -/
def SwapInt32 (arg : Nat) : Nat :=
  ((((arg &&& 0xFF) <<< 24) % 2 ^ 32) ||| ((arg &&& 0xFF00) <<< 8) |||
    ((arg >>> 8) &&& 0xFF00) ||| ((arg >>> 24) &&& 0xFF))

/-- The function `SwapInt16` on a 16-bit value. -/
def SwapInt16 (arg : Nat) : Nat :=
  (((arg <<< 8) &&& 0xFF00) ||| ((arg >>> 8) &&& 0xFF)) % 2 ^ 16

/-- The function `SwapInt32BigToHost`. -/
def SwapInt32BigToHost (host : Host) (arg : Nat) : Nat :=
  if host.defBigEndian then arg else SwapInt32 arg

/-- The function `SwapInt32LittleToHost`. -/
def SwapInt32LittleToHost (host : Host) (arg : Nat) : Nat :=
  if host.defLittleEndian then arg else SwapInt32 arg

/-- The Qt function `qFromLittleEndian` on a 16-bit value: the bytes are
exchanged on a big-endian host. -/
def qFromLittleEndian (host : Host) (arg : Nat) : Nat :=
  if host.bigEndian then SwapInt16 arg else arg

/-- Modelled from the spec: the tag the macro
`YUVC_444YpCbCr12SwappedPlanarPixelFormat` of the missing header stands for,
the 12-bit planar 4:4:4 format whose byte order is not that of the host. -/
def YUVC_444YpCbCr12SwappedPlanarPixelFormat (host : Host) : YUVCPixelFormatType :=
  if host.bigEndian then YUVC_444YpCbCr12LEPlanarPixelFormat
  else YUVC_444YpCbCr12BEPlanarPixelFormat

/-- Modelled from the spec: the tag the macro
`YUVC_444YpCbCr16SwappedPlanarPixelFormat` of the missing header stands for,
the 16-bit planar 4:4:4 format whose byte order is not that of the host. -/
def YUVC_444YpCbCr16SwappedPlanarPixelFormat (host : Host) : YUVCPixelFormatType :=
  if host.bigEndian then YUVC_444YpCbCr16LEPlanarPixelFormat
  else YUVC_444YpCbCr16BEPlanarPixelFormat

/-- The call `swab(src, dst, n)`: `n` bytes are copied, the two bytes of
every pair exchanged. -/
def swab (src dst : Buf) (n : Nat) : Option Buf :=
  forLoop (n / 2) (fun k d => do
    let a ← load src (2 * k)
    let b ← load src (2 * k + 1)
    let d ← store d (2 * k) b
    store d (2 * k + 1) a) dst

namespace YUVFile

/-- One step of the loops over the first and over the last chroma line of the
bilinear branch; `srcLine` and `dstLine` are `srcLastLine` and `dstLastLine`
for the last line and 0 for the first. -/
def bilinearLineBody (srcUV dstUV srcLine dstLine : Nat) (src : Buf) (i : Nat) (dst : Buf) :
    Option Buf := do
  let a ← loadInt src (srcUV + (srcLine + i))
  let b ← loadInt src (srcUV + (srcLine + i + 1))
  let dst ← store dst (dstUV + (dstLine + i * 2 + 1)) (toUChar ((a + b + 1) >>> (1 : Nat)))
  let b' ← load src (srcUV + (srcLine + i + 1))
  store dst (dstUV + (dstLine + i * 2 + 2)) b'

/-- One chroma line of the bilinear branch taken from one source line: the
first sample, the loop, and the last column copied from the column to its
left. -/
def bilinearLine (componentWidth chromaWidth srcUV dstUV srcLine dstLine : Nat) (src dst : Buf) :
    Option Buf := do
  let v ← load src (srcUV + srcLine)
  let dst ← store dst (dstUV + dstLine) v
  let dst ← forLoop (chromaWidth - 1) (bilinearLineBody srcUV dstUV srcLine dstLine src) dst
  let l ← load dst (dstUV + (dstLine + componentWidth - 2))
  store dst (dstUV + (dstLine + componentWidth - 1)) l

/-- The inner loop `for (int i = 0; i < chromaWidth-1; i++)` of the bilinear
branch. -/
def bilinearInnerBody (srcUV dstUV srcTop srcBot dstTop dstBot : Nat) (src : Buf) (i : Nat)
    (dst : Buf) : Option Buf := do
  let tl ← loadInt src (srcUV + (srcTop + i))
  let tr ← loadInt src (srcUV + (srcTop + i + 1))
  let bl ← loadInt src (srcUV + (srcBot + i))
  let br ← loadInt src (srcUV + (srcBot + i + 1))
  let dst ← store dst (dstUV + (dstTop + i * 2 + 1))
    (toUChar ((6 * tl + 6 * tr + 2 * bl + 2 * br + 8) >>> (4 : Nat)))
  let dst ← store dst (dstUV + (dstBot + i * 2 + 1))
    (toUChar ((2 * tl + 2 * tr + 6 * bl + 6 * br + 8) >>> (4 : Nat)))
  let dst ← store dst (dstUV + (dstTop + i * 2 + 2)) (toUChar ((3 * tr + br + 2) >>> (2 : Nat)))
  store dst (dstUV + (dstBot + i * 2 + 2)) (toUChar ((tr + 3 * br + 2) >>> (2 : Nat)))

/-- The loop `for (j = 0; j < chromaHeight-1; j++)` of the bilinear branch. -/
def bilinearRowsBody (componentWidth chromaWidth srcUV dstUV : Nat) (src : Buf) (j : Nat)
    (dst : Buf) : Option Buf := do
  let dstTop := (j * 2 + 1) * componentWidth
  let dstBot := (j * 2 + 2) * componentWidth
  let srcTop := j * chromaWidth
  let srcBot := (j + 1) * chromaWidth
  let t ← loadInt src (srcUV + srcTop)
  let b ← loadInt src (srcUV + srcBot)
  let dst ← store dst (dstUV + dstTop) (toUChar ((3 * t + b + 2) >>> (2 : Nat)))
  let dst ← store dst (dstUV + dstBot) (toUChar ((t + 3 * b + 2) >>> (2 : Nat)))
  let dst ← forLoop (chromaWidth - 1)
    (bilinearInnerBody srcUV dstUV srcTop srcBot dstTop dstBot src) dst
  let lt ← load dst (dstUV + (dstTop + componentWidth - 2))
  let dst ← store dst (dstUV + (dstTop + componentWidth - 1)) lt
  let lb ← load dst (dstUV + (dstBot + componentWidth - 2))
  store dst (dstUV + (dstBot + componentWidth - 1)) lb

/-- The body of `for (c = 0; c < 2; c++)` of the bilinear branch for one
chroma plane, `srcUV` and `dstUV` the offsets of `srcUV[c]` and `dstUV[c]` in
the two buffers. The branch is entered with `chromaLength != 0`, so that
`chromaWidth-1`, `chromaHeight-1`, `componentWidth-2` and `componentHeight-1`
are not negative. -/
def bilinearPlane (componentWidth componentHeight chromaWidth chromaHeight srcUV dstUV : Nat)
    (src dst : Buf) : Option Buf := do
  let dstLastLine := (componentHeight - 1) * componentWidth
  let srcLastLine := (chromaHeight - 1) * chromaWidth
  let dst ← bilinearLine componentWidth chromaWidth srcUV dstUV 0 0 src dst
  let dst ← forLoop (chromaHeight - 1)
    (bilinearRowsBody componentWidth chromaWidth srcUV dstUV src) dst
  bilinearLine componentWidth chromaWidth srcUV dstUV srcLastLine dstLastLine src dst

/-- The branch of `convert2YUV444` for the 8-bit 4:2:0 planar format in
bilinear mode. -/
def convertBilinear (componentWidth componentHeight chromaWidth chromaHeight : Nat)
    (src dst : Buf) : Option Buf := do
  let componentLength := componentWidth * componentHeight
  let chromaLength := chromaWidth * chromaHeight
  let srcU := componentLength
  let srcV := srcU + chromaLength
  let dstU := componentLength
  let dstV := dstU + componentLength
  let dst ← memcpy dst 0 src 0 componentLength
  let dst ← bilinearPlane componentWidth componentHeight chromaWidth chromaHeight srcU dstU src dst
  bilinearPlane componentWidth componentHeight chromaWidth chromaHeight srcV dstV src dst

/-- One step of the loops over the first and over the last chroma line of the
interstitial branch; `srcLine` and `dstLine` are `srcLastLine` and
`dstLastLine` for the last line and 0 for the first. -/
def interstitialLineBody (srcUV dstUV srcLine dstLine : Nat) (src : Buf) (i : Nat) (dst : Buf) :
    Option Buf := do
  let a ← loadInt src (srcUV + (srcLine + i))
  let b ← loadInt src (srcUV + (srcLine + i + 1))
  let dst ← store dst (dstUV + (dstLine + i * 2 + 1)) (toUChar ((3 * a + b + 2) >>> (2 : Nat)))
  store dst (dstUV + (dstLine + i * 2 + 2)) (toUChar ((a + 3 * b + 2) >>> (2 : Nat)))

/-- One chroma line of the interstitial branch taken from one source line:
the first sample, the loop, and the last sample. -/
def interstitialLine (componentWidth chromaWidth srcUV dstUV srcLine dstLine : Nat)
    (src dst : Buf) : Option Buf := do
  let v ← load src (srcUV + srcLine)
  let dst ← store dst (dstUV + dstLine) v
  let dst ← forLoop (chromaWidth - 1) (interstitialLineBody srcUV dstUV srcLine dstLine src) dst
  let l ← load src (srcUV + (srcLine + chromaWidth - 1))
  store dst (dstUV + (dstLine + componentWidth - 1)) l

/-- The inner loop `for (int i = 0; i < chromaWidth-1; i++)` of the
interstitial branch. -/
def interstitialInnerBody (srcUV dstUV srcTop srcBot dstTop dstBot : Nat) (src : Buf) (i : Nat)
    (dst : Buf) : Option Buf := do
  let tl ← loadInt src (srcUV + (srcTop + i))
  let tr ← loadInt src (srcUV + (srcTop + i + 1))
  let bl ← loadInt src (srcUV + (srcBot + i))
  let br ← loadInt src (srcUV + (srcBot + i + 1))
  let dst ← store dst (dstUV + (dstTop + i * 2 + 1))
    (toUChar ((9 * tl + 3 * tr + 3 * bl + br + 8) >>> (4 : Nat)))
  let dst ← store dst (dstUV + (dstBot + i * 2 + 1))
    (toUChar ((3 * tl + tr + 9 * bl + 3 * br + 8) >>> (4 : Nat)))
  let dst ← store dst (dstUV + (dstTop + i * 2 + 2))
    (toUChar ((3 * tl + 9 * tr + bl + 3 * br + 8) >>> (4 : Nat)))
  store dst (dstUV + (dstBot + i * 2 + 2)) (toUChar ((tl + 3 * tr + 3 * bl + 9 * br + 8) >>> (4 : Nat)))

/-- The loop `for (j = 0; j < chromaHeight-1; j++)` of the interstitial
branch. -/
def interstitialRowsBody (componentWidth chromaWidth srcUV dstUV : Nat) (src : Buf) (j : Nat)
    (dst : Buf) : Option Buf := do
  let dstTop := (j * 2 + 1) * componentWidth
  let dstBot := (j * 2 + 2) * componentWidth
  let srcTop := j * chromaWidth
  let srcBot := (j + 1) * chromaWidth
  let t ← loadInt src (srcUV + srcTop)
  let b ← loadInt src (srcUV + srcBot)
  let dst ← store dst (dstUV + dstTop) (toUChar ((3 * t + b + 2) >>> (2 : Nat)))
  let dst ← store dst (dstUV + dstBot) (toUChar ((t + 3 * b + 2) >>> (2 : Nat)))
  let dst ← forLoop (chromaWidth - 1)
    (interstitialInnerBody srcUV dstUV srcTop srcBot dstTop dstBot src) dst
  let rt ← loadInt src (srcUV + (srcTop + chromaWidth - 1))
  let rb ← loadInt src (srcUV + (srcBot + chromaWidth - 1))
  let dst ← store dst (dstUV + (dstTop + componentWidth - 1)) (toUChar ((3 * rt + rb + 2) >>> (2 : Nat)))
  store dst (dstUV + (dstBot + componentWidth - 1)) (toUChar ((rt + 3 * rb + 2) >>> (2 : Nat)))

/-- The body of `for (c = 0; c < 2; c++)` of the interstitial branch for one
chroma plane, `srcUV` and `dstUV` the offsets of `srcUV[c]` and `dstUV[c]`.
The branch is entered with `chromaLength != 0`, so that `chromaWidth-1`,
`chromaHeight-1`, `componentWidth-1` and `componentHeight-1` are not
negative. -/
def interstitialPlane (componentWidth componentHeight chromaWidth chromaHeight srcUV dstUV : Nat)
    (src dst : Buf) : Option Buf := do
  let dstLastLine := (componentHeight - 1) * componentWidth
  let srcLastLine := (chromaHeight - 1) * chromaWidth
  let dst ← interstitialLine componentWidth chromaWidth srcUV dstUV 0 0 src dst
  let dst ← forLoop (chromaHeight - 1)
    (interstitialRowsBody componentWidth chromaWidth srcUV dstUV src) dst
  interstitialLine componentWidth chromaWidth srcUV dstUV srcLastLine dstLastLine src dst

/-- The branch of `convert2YUV444` for the 8-bit 4:2:0 planar format in
interstitial mode. -/
def convertInterstitial (componentWidth componentHeight chromaWidth chromaHeight : Nat)
    (src dst : Buf) : Option Buf := do
  let componentLength := componentWidth * componentHeight
  let chromaLength := chromaWidth * chromaHeight
  let srcU := componentLength
  let srcV := srcU + chromaLength
  let dstU := componentLength
  let dstV := dstU + componentLength
  let dst ← memcpy dst 0 src 0 componentLength
  let dst ← interstitialPlane componentWidth componentHeight chromaWidth chromaHeight srcU dstU
    src dst
  interstitialPlane componentWidth componentHeight chromaWidth chromaHeight srcV dstV src dst

/-- The loops `while (((1<<tmp) & subsampling) != 0) tmp++;` of the
sample-and-hold branch, started at `tmp`; `1<<tmp` is an `int`, so the count
stops at the latest after `fuel` steps. -/
def shiftWhile : Nat → Nat → Nat → Nat
  | 0, _, tmp => tmp
  | fuel + 1, subsampling, tmp =>
    if ((1 <<< tmp) &&& subsampling) ≠ 0 then shiftWhile fuel subsampling (tmp + 1) else tmp

/-- The inner loop of the sample-and-hold branch for 2 x 2 subsampling. -/
def hold420Body (componentWidth chromaWidth srcU srcV dstU dstV : Nat) (src : Buf) (y x : Nat)
    (dst : Buf) : Option Buf := do
  let u ← load src (srcU + (x + y * chromaWidth))
  let dst ← store dst (dstU + (2 * x + 1 + 2 * y * componentWidth)) u
  let dst ← store dst (dstU + (2 * x + 2 * y * componentWidth)) u
  let v ← load src (srcV + (x + y * chromaWidth))
  let dst ← store dst (dstV + (2 * x + 1 + 2 * y * componentWidth)) v
  store dst (dstV + (2 * x + 2 * y * componentWidth)) v

/-- The outer loop of the sample-and-hold branch for 2 x 2 subsampling: the
inner loop fills the line `2*y`, the two `memcpy` copy it to the line `2*y+1`. -/
def hold420Rows (componentWidth chromaWidth srcU srcV dstU dstV : Nat) (src : Buf) (y : Nat)
    (dst : Buf) : Option Buf := do
  let dst ← forLoop chromaWidth
    (hold420Body componentWidth chromaWidth srcU srcV dstU dstV src y) dst
  let dst ← memcpyWithin dst (dstU + (2 * y + 1) * componentWidth)
    (dstU + (2 * y) * componentWidth) componentWidth
  memcpyWithin dst (dstV + (2 * y + 1) * componentWidth) (dstV + (2 * y) * componentWidth)
    componentWidth

/-- The inner loop of the sample-and-hold branch when both subsampling
factors are the powers of two `1<<horiShift` and `1<<vertShift`. -/
def holdShiftBody (componentWidth chromaWidth horiShift vertShift srcU srcV dstU dstV : Nat)
    (src : Buf) (y x : Nat) (dst : Buf) : Option Buf := do
  let u ← load src (srcU + ((x >>> horiShift) + (y >>> vertShift) * chromaWidth))
  let dst ← store dst (dstU + (x + y * componentWidth)) u
  let v ← load src (srcV + ((x >>> horiShift) + (y >>> vertShift) * chromaWidth))
  store dst (dstV + (x + y * componentWidth)) v

/-- The inner loop of the sample-and-hold branch with integer division. -/
def holdDivBody (componentWidth chromaWidth horiSubsampling vertSubsampling srcU srcV dstU
    dstV : Nat) (src : Buf) (y x : Nat) (dst : Buf) : Option Buf := do
  let u ← load src (srcU + (x / horiSubsampling + y / vertSubsampling * chromaWidth))
  let dst ← store dst (dstU + (x + y * componentWidth)) u
  let v ← load src (srcV + (x / horiSubsampling + y / vertSubsampling * chromaWidth))
  store dst (dstV + (x + y * componentWidth)) v

/-- The flag `reverseUV` of the sample-and-hold branch: the source stores Cr
before Cb. -/
def reverseUV (p_srcPixelFormat : YUVCPixelFormatType) : Bool :=
  p_srcPixelFormat = YUVC_444YpCrCb8PlanarPixelFormat ∨
    p_srcPixelFormat = YUVC_422YpCrCb8PlanarPixelFormat

/-- The branch of `convert2YUV444` for the planar 8-bit formats, sample and
hold. It is entered with `chromaLength != 0`, so neither subsampling factor
is 0. -/
def convertHold (p_srcPixelFormat : YUVCPixelFormatType)
    (componentWidth componentHeight chromaWidth chromaHeight horiSubsampling
      vertSubsampling : Nat) (src dst : Buf) : Option Buf := do
  let componentLength := componentWidth * componentHeight
  let chromaLength := chromaWidth * chromaHeight
  let srcU := componentLength + (if reverseUV p_srcPixelFormat then chromaLength else 0)
  let srcV := componentLength + (if reverseUV p_srcPixelFormat then 0 else chromaLength)
  let dstU := componentLength
  let dstV := dstU + componentLength
  let horiShift := shiftWhile 31 horiSubsampling 0
  let vertShift := shiftWhile 31 vertSubsampling 0
  let dst ← memcpy dst 0 src 0 componentLength
  if 2 = horiSubsampling ∧ 2 = vertSubsampling then
    forLoop chromaHeight (hold420Rows componentWidth chromaWidth srcU srcV dstU dstV src) dst
  else if (1 <<< horiShift) = horiSubsampling ∧ (1 <<< vertShift) = vertSubsampling then
    forLoop componentHeight (fun y d => forLoop componentWidth
      (holdShiftBody componentWidth chromaWidth horiShift vertShift srcU srcV dstU dstV src y) d)
      dst
  else if horiSubsampling = 0 ∨ vertSubsampling = 0 then none
  else
    forLoop componentHeight (fun y d => forLoop componentWidth
      (holdDivBody componentWidth chromaWidth horiSubsampling vertSubsampling srcU srcV dstU dstV
        src y) d) dst

/-- The branch of `convert2YUV444` without chroma (`chromaLength == 0`). -/
def convertNoChroma (componentLength : Nat) (src dst : Buf) : Option Buf := do
  let dstU := componentLength
  let dst ← memcpy dst 0 src 0 componentLength
  memset dst dstU 128 (2 * componentLength)

/-- The inner loop of the branch for the packed 8-bit format `UYVY`. -/
def uyvyBody (componentWidth componentLength : Nat) (src : Buf) (y x : Nat) (dst : Buf) :
    Option Buf := do
  let dstU := componentLength
  let dstV := dstU + componentLength
  let a ← load src (((x + y * componentWidth) <<< 1) + 1)
  let dst ← store dst (x + y * componentWidth) a
  let b ← load src ((((x >>> 1) <<< 1) + y * componentWidth) <<< 1)
  let dst ← store dst (dstU + (x + y * componentWidth)) b
  let c ← load src (((((x >>> 1) <<< 1) + y * componentWidth) <<< 1) + 2)
  store dst (dstV + (x + y * componentWidth)) c

/-- The branch of `convert2YUV444` for the packed 8-bit format `UYVY`. -/
def convertUYVY (componentWidth componentHeight : Nat) (src dst : Buf) : Option Buf :=
  forLoop componentHeight (fun y d => forLoop componentWidth
    (uyvyBody componentWidth (componentWidth * componentHeight) src y) d) dst

/-- The conversion of a `quint32` value to `quint16`. -/
def toUInt16 (x : Nat) : Nat := x % 65536

/-- A run of writes `buf[p] = v` through a `quint16` pointer, in order. -/
def storeAll16 (hostBigEndian : Bool) : List (Nat × Nat) → Buf → Option Buf
  | [], d => some d
  | (p, v) :: ws, d => (store16 hostBigEndian d p v).bind (storeAll16 hostBigEndian ws)

/-- The loop body of the branch for the packed 10-bit format `UYVY`, with
`BIT_INCREASE` 6; the element offsets `dstU`, `dstV` are those of `quint16`
pointers. A chained assignment `a = b = v` writes `b` first. -/
def uyvy10Body (host : Host) (componentLength : Nat) (src : Buf) (i : Nat) (dst : Buf) :
    Option Buf := do
  let dstU := componentLength
  let dstV := dstU + componentLength
  let srcPos := i * 4
  let dstPos := i * 6
  let srcVal := SwapInt32BigToHost host (← load32 host.bigEndian src srcPos)
  let dst ← storeAll16 host.bigEndian
    [ (dstV + (dstPos + 1), toUInt16 ((srcVal &&& 0xffc00000) >>> (22 - 6))),
      (dstV + dstPos, toUInt16 ((srcVal &&& 0xffc00000) >>> (22 - 6))),
      (dstPos, toUInt16 ((srcVal &&& 0x003ff000) >>> (12 - 6))),
      (dstU + (dstPos + 1), toUInt16 ((srcVal &&& 0x00000ffc) <<< (6 - 2))),
      (dstU + dstPos, toUInt16 ((srcVal &&& 0x00000ffc) <<< (6 - 2))) ] dst
  let srcVal := SwapInt32BigToHost host (← load32 host.bigEndian src (srcPos + 1))
  let dst ← storeAll16 host.bigEndian
    [ (dstPos + 1, toUInt16 ((srcVal &&& 0xffc00000) >>> (22 - 6))),
      (dstV + (dstPos + 3), toUInt16 ((srcVal &&& 0x003ff000) >>> (12 - 6))),
      (dstV + (dstPos + 2), toUInt16 ((srcVal &&& 0x003ff000) >>> (12 - 6))),
      (dstPos + 2, toUInt16 ((srcVal &&& 0x00000ffc) <<< (6 - 2))) ] dst
  let srcVal := SwapInt32BigToHost host (← load32 host.bigEndian src (srcPos + 2))
  let dst ← storeAll16 host.bigEndian
    [ (dstU + (dstPos + 3), toUInt16 ((srcVal &&& 0xffc00000) >>> (22 - 6))),
      (dstU + (dstPos + 2), toUInt16 ((srcVal &&& 0xffc00000) >>> (22 - 6))),
      (dstPos + 3, toUInt16 ((srcVal &&& 0x003ff000) >>> (12 - 6))),
      (dstV + (dstPos + 5), toUInt16 ((srcVal &&& 0x00000ffc) <<< (6 - 2))),
      (dstV + (dstPos + 4), toUInt16 ((srcVal &&& 0x00000ffc) <<< (6 - 2))) ] dst
  let srcVal := SwapInt32BigToHost host (← load32 host.bigEndian src (srcPos + 3))
  storeAll16 host.bigEndian
    [ (dstPos + 4, toUInt16 ((srcVal &&& 0xffc00000) >>> (22 - 6))),
      (dstU + (dstPos + 5), toUInt16 ((srcVal &&& 0x003ff000) >>> (12 - 6))),
      (dstU + (dstPos + 4), toUInt16 ((srcVal &&& 0x003ff000) >>> (12 - 6))),
      (dstPos + 5, toUInt16 ((srcVal &&& 0x00000ffc) <<< (6 - 2))) ] dst

/-- The loop body of the branch for the packed 10-bit format `v210`, with
`BIT_INCREASE` 6. -/
def v210Body (host : Host) (componentLength : Nat) (src : Buf) (i : Nat) (dst : Buf) :
    Option Buf := do
  let dstU := componentLength
  let dstV := dstU + componentLength
  let srcPos := i * 4
  let dstPos := i * 6
  let srcVal := SwapInt32LittleToHost host (← load32 host.bigEndian src srcPos)
  let dst ← storeAll16 host.bigEndian
    [ (dstV + (dstPos + 1), toUInt16 ((srcVal &&& 0x3ff00000) >>> (20 - 6))),
      (dstV + dstPos, toUInt16 ((srcVal &&& 0x3ff00000) >>> (20 - 6))),
      (dstPos, toUInt16 ((srcVal &&& 0x000ffc00) >>> (10 - 6))),
      (dstU + (dstPos + 1), toUInt16 ((srcVal &&& 0x000003ff) <<< 6)),
      (dstU + dstPos, toUInt16 ((srcVal &&& 0x000003ff) <<< 6)) ] dst
  let srcVal := SwapInt32LittleToHost host (← load32 host.bigEndian src (srcPos + 1))
  let dst ← storeAll16 host.bigEndian
    [ (dstPos + 1, toUInt16 ((srcVal &&& 0x000003ff) <<< 6)),
      (dstU + (dstPos + 3), toUInt16 ((srcVal &&& 0x000ffc00) >>> (10 - 6))),
      (dstU + (dstPos + 2), toUInt16 ((srcVal &&& 0x000ffc00) >>> (10 - 6))),
      (dstPos + 2, toUInt16 ((srcVal &&& 0x3ff00000) >>> (20 - 6))) ] dst
  let srcVal := SwapInt32LittleToHost host (← load32 host.bigEndian src (srcPos + 2))
  let dst ← storeAll16 host.bigEndian
    [ (dstU + (dstPos + 5), toUInt16 ((srcVal &&& 0x3ff00000) >>> (20 - 6))),
      (dstU + (dstPos + 4), toUInt16 ((srcVal &&& 0x3ff00000) >>> (20 - 6))),
      (dstPos + 3, toUInt16 ((srcVal &&& 0x000ffc00) >>> (10 - 6))),
      (dstV + (dstPos + 3), toUInt16 ((srcVal &&& 0x000003ff) <<< 6)),
      (dstV + (dstPos + 2), toUInt16 ((srcVal &&& 0x000003ff) <<< 6)) ] dst
  let srcVal := SwapInt32LittleToHost host (← load32 host.bigEndian src (srcPos + 3))
  storeAll16 host.bigEndian
    [ (dstPos + 4, toUInt16 ((srcVal &&& 0x000003ff) <<< 6)),
      (dstV + (dstPos + 5), toUInt16 ((srcVal &&& 0x000ffc00) >>> (10 - 6))),
      (dstV + (dstPos + 4), toUInt16 ((srcVal &&& 0x000ffc00) >>> (10 - 6))),
      (dstPos + 5, toUInt16 ((srcVal &&& 0x3ff00000) >>> (20 - 6))) ] dst

/-- The inner loop of the branch for the planar 10-bit 4:2:0 format; the
offsets are those of `unsigned short` pointers. -/
def planar10Body (host : Host) (componentWidth chromaWidth componentLength chromaLength : Nat)
    (src : Buf) (y x : Nat) (dst : Buf) : Option Buf := do
  let srcU := componentLength
  let srcV := srcU + chromaLength
  let dstU := componentLength
  let dstV := dstU + componentLength
  let a ← load16 host.bigEndian src (x + y * componentWidth)
  let dst ← store16 host.bigEndian dst (x + y * componentWidth) (qFromLittleEndian host a)
  let a ← load16 host.bigEndian src (x + y * componentWidth)
  let dst ← store16 host.bigEndian dst (x + y * componentWidth) (qFromLittleEndian host a)
  let u ← load16 host.bigEndian src (srcU + (x / 2 + (y / 2) * chromaWidth))
  let dst ← store16 host.bigEndian dst (dstU + (x + y * componentWidth))
    (qFromLittleEndian host u)
  let v ← load16 host.bigEndian src (srcV + (x / 2 + (y / 2) * chromaWidth))
  store16 host.bigEndian dst (dstV + (x + y * componentWidth)) (qFromLittleEndian host v)

/-- The function `YUVFile::convert2YUV444`; the result is the contents of
`targetBuffer` on return. `p_srcPixelFormat` and `p_interpolationMode` are
the fields of the object, `fresh` the contents of memory a `resize` adds.
The sizes are `int`s: a product that leaves the 32-bit range is a fault. -/
def convert2YUV444 (host : Host) (fresh : Nat → Byte) (p_srcPixelFormat : YUVCPixelFormatType)
    (p_interpolationMode : InterpolationMode) (sourceBuffer : Buf) (lumaWidth lumaHeight : Nat)
    (targetBuffer : Buf) : Option Buf :=
  let componentWidth := lumaWidth
  let componentHeight := lumaHeight
  let componentLength := componentWidth * componentHeight
  let horiSubsampling := horizontalSubSampling p_srcPixelFormat
  let vertSubsampling := verticalSubSampling p_srcPixelFormat
  let chromaWidth := if horiSubsampling = 0 then 0 else lumaWidth / horiSubsampling
  let chromaHeight := if vertSubsampling = 0 then 0 else lumaHeight / vertSubsampling
  let chromaLength := chromaWidth * chromaHeight
  let targetBufferLength :=
    3 * componentWidth * componentHeight * bytePerComponent p_srcPixelFormat
  if 2 ^ 31 ≤ componentLength ∨ 2 ^ 31 ≤ 3 * componentWidth ∨
      2 ^ 31 ≤ 3 * componentWidth * componentHeight ∨ 2 ^ 31 ≤ targetBufferLength then none
  else
    let targetBuffer :=
      if targetBuffer.length ≠ targetBufferLength then
        resize targetBuffer targetBufferLength fresh
      else targetBuffer
    if chromaLength = 0 then
      convertNoChroma componentLength sourceBuffer targetBuffer
    else if p_srcPixelFormat = YUVC_UYVY422PixelFormat then
      convertUYVY componentWidth componentHeight sourceBuffer targetBuffer
    else if p_srcPixelFormat = YUVC_UYVY422YpCbCr10PixelFormat then
      forLoop ((componentLength + 5) / 6) (uyvy10Body host componentLength sourceBuffer)
        targetBuffer
    else if p_srcPixelFormat = YUVC_422YpCbCr10PixelFormat then
      forLoop ((componentLength + 5) / 6) (v210Body host componentLength sourceBuffer)
        targetBuffer
    else if p_srcPixelFormat = YUVC_420YpCbCr8PlanarPixelFormat ∧
        p_interpolationMode = BiLinearInterpolation then
      convertBilinear componentWidth componentHeight chromaWidth chromaHeight sourceBuffer
        targetBuffer
    else if p_srcPixelFormat = YUVC_420YpCbCr8PlanarPixelFormat ∧
        p_interpolationMode = InterstitialInterpolation then
      convertInterstitial componentWidth componentHeight chromaWidth chromaHeight sourceBuffer
        targetBuffer
    else if isPlanar p_srcPixelFormat = true ∧ bitsPerSample p_srcPixelFormat = 8 then
      convertHold p_srcPixelFormat componentWidth componentHeight chromaWidth chromaHeight
        horiSubsampling vertSubsampling sourceBuffer targetBuffer
    else if p_srcPixelFormat = YUVC_420YpCbCr10LEPlanarPixelFormat then
      forLoop componentHeight (fun y d => forLoop componentWidth
        (planar10Body host componentWidth chromaWidth componentLength chromaLength sourceBuffer y)
        d) targetBuffer
    else if p_srcPixelFormat = YUVC_444YpCbCr12SwappedPlanarPixelFormat host ∨
        p_srcPixelFormat = YUVC_444YpCbCr16SwappedPlanarPixelFormat host then
      match bytesPerFrame componentWidth componentHeight p_srcPixelFormat with
      | some n => swab sourceBuffer targetBuffer n
      | none => none
    else
      some targetBuffer

end YUVFile

/-- The samples `D` of a planar 4:4:4 buffer of three `w` x `h` planes hold
the values `G`: sample `(x, y)` of plane `c` is the byte `c*(w*h) + y*w + x`. -/
def Agrees3 (w h : Nat) (G : Nat → Nat → Nat → Byte) (D : Nat → Nat → Nat → Prop) (s : Buf) :
    Prop :=
  s.length = 3 * (w * h) ∧
    ∀ c x y, c < 3 → x < w → y < h → D c x y → s[c * (w * h) + y * w + x]? = some (G c x y)

/-- The chroma sample the bilinear branch leaves at `(x, y)` of a plane of
`2*cw` x `2*ch` samples, `S k r` the source chroma sample in column `k` of
row `r`: the last column repeats the column to its left, rows `0` and
`2*ch-1` come from the first and the last source row, rows `2j+1` and `2j+2`
from the source rows `j` and `j+1`. -/
def bilinearChroma (S : Nat → Nat → Int) (cw ch x y : Nat) : Int :=
  let xe := if x = 2 * cw - 1 then x - 1 else x
  let k := xe / 2
  let j := (y - 1) / 2
  if y = 0 then
    if xe % 2 = 0 then S k 0 else (S k 0 + S (k + 1) 0 + 1) >>> (1 : Nat)
  else if y = 2 * ch - 1 then
    if xe % 2 = 0 then S k (ch - 1) else (S k (ch - 1) + S (k + 1) (ch - 1) + 1) >>> (1 : Nat)
  else if y % 2 = 1 then
    if xe % 2 = 0 then (3 * S k j + S k (j + 1) + 2) >>> (2 : Nat)
    else (6 * S k j + 6 * S (k + 1) j + 2 * S k (j + 1) + 2 * S (k + 1) (j + 1) + 8) >>> (4 : Nat)
  else
    if xe % 2 = 0 then (S k j + 3 * S k (j + 1) + 2) >>> (2 : Nat)
    else (2 * S k j + 2 * S (k + 1) j + 6 * S k (j + 1) + 6 * S (k + 1) (j + 1) + 8) >>> (4 : Nat)

/-- The source chroma sample in column `k` of row `r` of the chroma plane
`c` (1 for the first stored plane, 2 for the second) of a planar frame. -/
def chromaAt (src : Buf) (w h cw ch c k r : Nat) : Int :=
  ((src.getD (w * h + (c - 1) * (cw * ch) + (r * cw + k)) 0).val : Int)

/-- The contents of the destination after the bilinear branch: plane 0 is
the luma of the source, planes 1 and 2 the interpolated chroma. -/
def bilinearOut (src : Buf) (w h cw ch : Nat) (c x y : Nat) : Byte :=
  if c = 0 then src.getD (y * w + x) 0
  else toUChar (bilinearChroma (chromaAt src w h cw ch c) cw ch x y)

/-- The sample `(x, y)` of plane `c` (0 luma, 1 and 2 chroma) of a planar
4:4:4 buffer of 8-bit samples, as an integer. -/
def sampleAt (buf : Buf) (w h c x y : Nat) : Int :=
  ((buf.getD (c * (w * h) + y * w + x) 0).val : Int)

/-- The chroma sample the interstitial branch leaves at `(x, y)` of a plane
of `2*cw` x `2*ch` samples, `S k r` the source chroma sample in column `k` of
row `r`: the first and last column and row come from one source column or
row, the columns `2k+1`, `2k+2` from the source columns `k`, `k+1`, the rows
`2j+1`, `2j+2` from the source rows `j`, `j+1`; `(x-1)/2` and `(y-1)/2` are
natural, 0 for `x = 0` and `y = 0`. -/
def interstitialChroma (S : Nat → Nat → Int) (cw ch x y : Nat) : Int :=
  let k := (x - 1) / 2
  let j := (y - 1) / 2
  if y = 0 ∨ y = 2 * ch - 1 then
    if x = 0 ∨ x = 2 * cw - 1 then S k j
    else if x % 2 = 1 then (3 * S k j + S (k + 1) j + 2) >>> (2 : Nat)
    else (S k j + 3 * S (k + 1) j + 2) >>> (2 : Nat)
  else if y % 2 = 1 then
    if x = 0 ∨ x = 2 * cw - 1 then (3 * S k j + S k (j + 1) + 2) >>> (2 : Nat)
    else if x % 2 = 1 then
      (9 * S k j + 3 * S (k + 1) j + 3 * S k (j + 1) + S (k + 1) (j + 1) + 8) >>> (4 : Nat)
    else (3 * S k j + 9 * S (k + 1) j + S k (j + 1) + 3 * S (k + 1) (j + 1) + 8) >>> (4 : Nat)
  else
    if x = 0 ∨ x = 2 * cw - 1 then (S k j + 3 * S k (j + 1) + 2) >>> (2 : Nat)
    else if x % 2 = 1 then
      (3 * S k j + S (k + 1) j + 9 * S k (j + 1) + 3 * S (k + 1) (j + 1) + 8) >>> (4 : Nat)
    else (S k j + 3 * S (k + 1) j + 3 * S k (j + 1) + 9 * S (k + 1) (j + 1) + 8) >>> (4 : Nat)

/-- The contents of the destination after the interstitial branch: plane 0
is the luma of the source, planes 1 and 2 the interpolated chroma. -/
def interstitialOut (src : Buf) (w h cw ch : Nat) (c x y : Nat) : Byte :=
  if c = 0 then src.getD (y * w + x) 0
  else toUChar (interstitialChroma (chromaAt src w h cw ch c) cw ch x y)

/-- An index clamped to `[0, n-1]`. -/
def clampIdx (i : Int) (n : Nat) : Nat := (max 0 (min i ((n : Int) - 1))).toNat

/-- The interstitial chroma sample at `(x, y)` in the words of the spec: the
sum over the 2 x 2 neighbouring source samples of `wx*wy*s`, plus 8, shifted
right by 4; the source columns are `floor((x-1)/2)` and `floor((x-1)/2)+1`
clamped to `[0, cw-1]`, with weights 3 and 1 when `x` is odd and 1 and 3 when
`x` is even, and likewise for the rows. -/
def interstitialSpec (S : Nat → Nat → Int) (cw ch x y : Nat) : Int :=
  let c0 := clampIdx (((x : Int) - 1) / 2) cw
  let c1 := clampIdx (((x : Int) - 1) / 2 + 1) cw
  let wx0 : Int := if x % 2 = 1 then 3 else 1
  let wx1 : Int := if x % 2 = 1 then 1 else 3
  let r0 := clampIdx (((y : Int) - 1) / 2) ch
  let r1 := clampIdx (((y : Int) - 1) / 2 + 1) ch
  let wy0 : Int := if y % 2 = 1 then 3 else 1
  let wy1 : Int := if y % 2 = 1 then 1 else 3
  (wx0 * wy0 * S c0 r0 + wx1 * wy0 * S c1 r0 + wx0 * wy1 * S c0 r1 + wx1 * wy1 * S c1 r1 + 8)
    >>> (4 : Nat)

/-- The contents of the destination after the sample-and-hold branch: plane
0 is the luma of the source, the sample `(x, y)` of plane 1 (and 2) is the
source sample `(x / hs, y / vs)` of the chroma plane stored at `srcU` (and
`srcV`), `cw` samples wide. -/
def holdOut (src : Buf) (w cw hs vs srcU srcV : Nat) (c x y : Nat) : Byte :=
  if c = 0 then src.getD (y * w + x) 0
  else if c = 1 then src.getD (srcU + (x / hs + y / vs * cw)) 0
  else src.getD (srcV + (x / hs + y / vs * cw)) 0

/-- A planar frame with its two chroma planes exchanged: the luma plane of
`componentLength` bytes stays, the two planes of `chromaLength` bytes that
follow it trade places. -/
def swapChroma (src : Buf) (componentLength chromaLength : Nat) : Buf :=
  (List.range src.length).map (fun p =>
    if p < componentLength then src.getD p 0
    else if p < componentLength + chromaLength then src.getD (p + chromaLength) 0
    else src.getD (p - chromaLength) 0)

/-- The contents of the destination after the branch for the packed 8-bit
format `UYVY`, by the source positions its inner loop reads. -/
def uyvyOut (src : Buf) (w : Nat) (c x y : Nat) : Byte :=
  if c = 0 then src.getD (((x + y * w) <<< 1) + 1) 0
  else if c = 1 then src.getD ((((x >>> 1) <<< 1) + y * w) <<< 1) 0
  else src.getD (((((x >>> 1) <<< 1) + y * w) <<< 1) + 2) 0

/-- The 16-bit sample number `p` of a buffer, read in little-endian byte
order. -/
def sample16LE (buf : Buf) (p : Nat) : Nat :=
  (buf.getD (2 * p) 0).val + 256 * (buf.getD (2 * p + 1) 0).val

/-- The 16-bit samples `D` of a planar 4:4:4 buffer of three `w` x `h` planes
of 16-bit samples hold the values `G`, read through an `unsigned short`
pointer: sample `(x, y)` of plane `c` is the element `c*(w*h) + y*w + x`. -/
def Agrees16 (be : Bool) (w h : Nat) (G : Nat → Nat → Nat → Nat) (D : Nat → Nat → Nat → Prop)
    (s : Buf) : Prop :=
  s.length = 2 * (3 * (w * h)) ∧
    ∀ c x y, c < 3 → x < w → y < h → D c x y →
      load16 be s (c * (w * h) + y * w + x) = some (G c x y)

/-- The contents of the destination after the branch for the planar 10-bit
4:2:0 format: every sample is a source sample, the chroma sample of
`(x, y)` the one at `(x/2, y/2)` of its plane. -/
def planar10Out (src : Buf) (w h cw ch : Nat) (c x y : Nat) : Nat :=
  if c = 0 then sample16LE src (x + y * w)
  else if c = 1 then sample16LE src (w * h + (x / 2 + (y / 2) * cw))
  else sample16LE src (w * h + cw * ch + (x / 2 + (y / 2) * cw))

/-- The 10-bit field number `k` (0 the lowest) of a 32-bit word whose lowest
field starts at bit `lo`. -/
def field10 (lo word k : Nat) : Nat := (word / 2 ^ (lo + 10 * k)) % 1024

/-- One assignment of the loop body of a packed 10-bit branch: the plane
written (0 luma, 1 U, 2 V), the position in the group of six samples, and the
word of the group of four and the field of that word the value comes from. -/
structure Tap where
  plane : Nat
  pos : Nat
  word : Nat
  field : Nat
  deriving DecidableEq, Repr

/-- The assignments of the loop body of the branch for the packed 10-bit
format `UYVY`, in the order they are executed. -/
def uyvy10Taps : List Tap :=
  [ ⟨2, 1, 0, 2⟩, ⟨2, 0, 0, 2⟩, ⟨0, 0, 0, 1⟩, ⟨1, 1, 0, 0⟩, ⟨1, 0, 0, 0⟩,
    ⟨0, 1, 1, 2⟩, ⟨2, 3, 1, 1⟩, ⟨2, 2, 1, 1⟩, ⟨0, 2, 1, 0⟩,
    ⟨1, 3, 2, 2⟩, ⟨1, 2, 2, 2⟩, ⟨0, 3, 2, 1⟩, ⟨2, 5, 2, 0⟩, ⟨2, 4, 2, 0⟩,
    ⟨0, 4, 3, 2⟩, ⟨1, 5, 3, 1⟩, ⟨1, 4, 3, 1⟩, ⟨0, 5, 3, 0⟩ ]

/-- The assignments of the loop body of the branch for the packed 10-bit
format `v210`, in the order they are executed. -/
def v210Taps : List Tap :=
  [ ⟨2, 1, 0, 2⟩, ⟨2, 0, 0, 2⟩, ⟨0, 0, 0, 1⟩, ⟨1, 1, 0, 0⟩, ⟨1, 0, 0, 0⟩,
    ⟨0, 1, 1, 0⟩, ⟨1, 3, 1, 1⟩, ⟨1, 2, 1, 1⟩, ⟨0, 2, 1, 2⟩,
    ⟨1, 5, 2, 2⟩, ⟨1, 4, 2, 2⟩, ⟨0, 3, 2, 1⟩, ⟨2, 3, 2, 0⟩, ⟨2, 2, 2, 0⟩,
    ⟨0, 4, 3, 0⟩, ⟨2, 5, 3, 1⟩, ⟨2, 4, 3, 1⟩, ⟨0, 5, 3, 2⟩ ]

/-- The element of a `quint16` destination an assignment of group `i` writes,
the planes `componentLength` elements apart. -/
def tapPos (componentLength i : Nat) (t : Tap) : Nat :=
  t.plane * componentLength + (i * 6 + t.pos)

/-- The value an assignment writes: its 10-bit field of its word of the
group, shifted left by 6. -/
def tapVal (lo : Nat) (words : List Nat) (t : Tap) : Nat :=
  field10 lo (words.getD t.word 0) t.field <<< 6

/-- The writes of one group of four words, by a table of assignments. -/
def groupWrites (lo componentLength i : Nat) (words : List Nat) (taps : List Tap) :
    List (Nat × Nat) :=
  taps.map (fun t => (tapPos componentLength i t, tapVal lo words t))

/-- The word and field that give the sample at position `pos` of plane
`plane` of a group. -/
def tapSource (taps : List Tap) (plane pos : Nat) : Option (Nat × Nat) :=
  (taps.find? (fun t => t.plane = plane ∧ t.pos = pos)).map (fun t => (t.word, t.field))

/-- The twelve fields of a group of four words of three fields. -/
def groupFields : List (Nat × Nat) :=
  (List.range 4).flatMap (fun j => (List.range 3).map (fun k => (j, k)))

/-- The table of assignments writes every one of the six positions of every
plane once; the two positions `2m` and `2m+1` of a chroma plane get the same
field; and the fields behind the six luma, three U and three V values are
the twelve fields of the group, each once. -/
def tapsUseEachFieldOnce (taps : List Tap) : Prop :=
  (taps.map (fun t => (t.plane, t.pos))).Perm
      ((List.range 3).flatMap (fun c => (List.range 6).map (fun p => (c, p)))) ∧
    (∀ c, c < 3 → 0 < c → ∀ m, m < 3 →
      tapSource taps c (2 * m) = tapSource taps c (2 * m + 1)) ∧
    (((List.range 6).map (fun p => tapSource taps 0 p) ++
        (List.range 3).map (fun m => tapSource taps 1 (2 * m)) ++
        (List.range 3).map (fun m => tapSource taps 2 (2 * m))).Perm
      (groupFields.map some))

/-- The conversion of an integer to `int`: the value modulo `2^32` in the
signed range. -/
def toInt32 (x : Int) : Int := (x + 2 ^ 31) % 2 ^ 32 - 2 ^ 31

/-- An open `QFile`: the bytes of the file and the position of the next
read. -/
structure QFile where
  data : Buf
  pos : Nat
  deriving DecidableEq, Repr

/-- The Qt call `QFile::seek(pos)` on a file opened for reading: the position
is set, also when it lies beyond the end of the file. -/
def QFile.seek (f : QFile) (pos : Nat) : QFile := { f with pos := pos }

/-- The Qt call `QIODevice::read(data, maxSize)`: up to `maxSize` bytes, as
many as the file holds from the position on, are copied to the front of
`target`, a fault when they do not fit; the result is the file after the
read, the target and the number of bytes read. -/
def QFile.read (f : QFile) (target : Buf) (maxSize : Nat) : Option (QFile × Buf × Nat) :=
  let got := (f.data.drop f.pos).take maxSize
  if got.length ≤ target.length then
    some ({ f with pos := f.pos + got.length }, got ++ target.drop got.length, got.length)
  else none

namespace YUVFile

/-- The function `YUVFile::getNumberFrames`, `fileSize` the value of
`getFileSize()`, the size of the file. The division is one of `qint64`
values, a fault when the frame size is 0; the quotient is converted to the
`int` that is returned. -/
def getNumberFrames (fileSize : Nat) (p_srcPixelFormat : YUVCPixelFormatType)
    (width height : Int) : Option Int :=
  if width > 0 ∧ height > 0 then
    match bytesPerFrame width height p_srcPixelFormat with
    | none => none
    | some bpf => if bpf = 0 then none else some (toInt32 ((fileSize / bpf : Nat) : Int))
  else some (-1)

/-- The function `YUVFile::readBytes`; the result is the file and the target
after the call. The value `QFile::read` returns is dropped. -/
def readBytes (p_srcFile : Option QFile) (targetBuffer : Buf) (startPos length : Nat) :
    Option (Option QFile × Buf) :=
  match p_srcFile with
  | none => some (none, targetBuffer)
  | some f =>
    match (f.seek startPos).read targetBuffer length with
    | none => none
    | some (f, buf, _) => some (some f, buf)

/-- The position `readFrame` passes to `readBytes`: `int startPos = frameIdx * bpf`
is a product of `unsigned int` values, modulo `2^32`, converted to `int`,
and converted back to `unsigned int` at the call. -/
def readFrameStart (frameIdx bpf : Nat) : Nat :=
  (toInt32 (((frameIdx * bpf) % 2 ^ 32 : Nat) : Int) % 2 ^ 32).toNat

/-- The function `YUVFile::readFrame`; the result is the file and the target
after the call and the value returned. -/
def readFrame (p_srcFile : Option QFile) (p_srcPixelFormat : YUVCPixelFormatType)
    (fresh : Nat → Byte) (targetBuffer : Buf) (frameIdx : Nat) (width height : Int) :
    Option (Option QFile × Buf × Int) :=
  match p_srcFile with
  | none => some (none, targetBuffer, 0)
  | some f =>
    match bytesPerFrame width height p_srcPixelFormat with
    | none => none
    | some bpf =>
      let startPos := readFrameStart frameIdx bpf
      let targetBuffer :=
        if targetBuffer.length ≠ bpf then resize targetBuffer bpf fresh else targetBuffer
      match readBytes (some f) targetBuffer startPos bpf with
      | none => none
      | some (file, buf) => some (file, buf, (bpf : Int))

end YUVFile

/-- Modelled from the spec: the constant `INT_INVALID` of a header that is
not among the sources, the sentinel for an invalid or unknown number. -/
def INT_INVALID : Int := -1

/-- Modelled from the spec: the tag the macro
`YUVC_444YpCbCr12NativePlanarPixelFormat` of the missing header stands for,
the 12-bit planar 4:4:4 format in the byte order of the host. -/
def YUVC_444YpCbCr12NativePlanarPixelFormat (host : Host) : YUVCPixelFormatType :=
  if host.bigEndian then YUVC_444YpCbCr12BEPlanarPixelFormat
  else YUVC_444YpCbCr12LEPlanarPixelFormat

/-- Modelled from the spec: the tag the macro
`YUVC_444YpCbCr16NativePlanarPixelFormat` of the missing header stands for,
the 16-bit planar 4:4:4 format in the byte order of the host. -/
def YUVC_444YpCbCr16NativePlanarPixelFormat (host : Host) : YUVCPixelFormatType :=
  if host.bigEndian then YUVC_444YpCbCr16BEPlanarPixelFormat
  else YUVC_444YpCbCr16LEPlanarPixelFormat

/-- The fields of a `YUVFile` object the functions below use. -/
structure YUVFileState where
  p_srcFile : Option QFile
  p_srcPixelFormat : YUVCPixelFormatType
  p_interpolationMode : InterpolationMode
  p_tmpBufferYUV : Buf

/-- A `FrameObject` as the difference engine sees it: what its `numFrames()`
returns and its `getYUVFile()`, which may be `NULL`. -/
structure FrameObject where
  numFrames : Int
  yuvFile : Option YUVFileState

namespace YUVFile

/-- The function `YUVFile::getStatus`, `fileSize` the value of
`getFileSize()`. The remainder is one of `qint64` values, a fault when the
frame size is 0. -/
def getStatus (fileSize : Nat) (p_srcPixelFormat : YUVCPixelFormatType) (width height : Int) :
    Option String :=
  match bytesPerFrame width height p_srcPixelFormat with
  | none => none
  | some nrBytesPerFrame =>
    if nrBytesPerFrame = 0 then none
    else if fileSize % nrBytesPerFrame ≠ 0 then
      some "Error: File Size and resolution do not match."
    else some "OK"

/-- The function `YUVFile::getOneFrame`; the result is the object and the
target after the call. The model of `convert2YUV444` takes a width and a
height that are not negative; a call with a negative one is outside the
model. -/
def getOneFrame (host : Host) (fresh : Nat → Byte) (self : YUVFileState)
    (targetByteArray : Buf) (frameIdx : Nat) (width height : Int) :
    Option (YUVFileState × Buf) :=
  if self.p_srcPixelFormat ≠ YUVC_444YpCbCr8PlanarPixelFormat ∧
      self.p_srcPixelFormat ≠ YUVC_444YpCbCr12NativePlanarPixelFormat host ∧
      self.p_srcPixelFormat ≠ YUVC_444YpCbCr16NativePlanarPixelFormat host ∧
      self.p_srcPixelFormat ≠ YUVC_24RGBPixelFormat then
    match readFrame self.p_srcFile self.p_srcPixelFormat fresh self.p_tmpBufferYUV frameIdx
        width height with
    | none => none
    | some (file, tmp, _) =>
      if width < 0 ∨ height < 0 then none
      else
        match convert2YUV444 host fresh self.p_srcPixelFormat self.p_interpolationMode tmp
            width.toNat height.toNat targetByteArray with
        | none => none
        | some target => some ({ self with p_srcFile := file, p_tmpBufferYUV := tmp }, target)
  else
    match readFrame self.p_srcFile self.p_srcPixelFormat fresh targetByteArray frameIdx
        width height with
    | none => none
    | some (file, target, _) => some ({ self with p_srcFile := file }, target)

end YUVFile

/-- A read `(int)(buf[p])` through a plain `char` pointer: the byte as a
signed value where `char` is signed on the platform, as an unsigned value
where it is not. -/
def loadChar (charIsSigned : Bool) (buf : Buf) (p : Nat) : Option Int :=
  (load buf p).map (fun b =>
    if charIsSigned ∧ 128 ≤ b.val then (b.val : Int) - 256 else (b.val : Int))

namespace DifferenceObject

/-- The function `DifferenceObject::numFrames`. -/
def numFrames (p_frameObjects0 p_frameObjects1 : Option FrameObject) : Int :=
  let minNumFrames := INT_INVALID
  let minNumFrames :=
    match p_frameObjects0 with
    | some f0 => f0.numFrames
    | none => minNumFrames
  match p_frameObjects1 with
  | some f1 => if f1.numFrames < minNumFrames then f1.numFrames else minNumFrames
  | none => minNumFrames

/-- The function `DifferenceObject::getValuesAt`: the labels and the numbers
of the pairs returned. `p_width`, `p_height` and `p_lastIdx` are the fields of
the object; the two arrays start empty. `planeLength` is `unsigned`, so the
sums with it are taken modulo `2^32`; `y*p_width+x` is an `int`. -/
def getValuesAt (charIsSigned : Bool) (host : Host) (fresh : Nat → Byte)
    (p_frameObjects0 p_frameObjects1 : Option FrameObject) (p_width p_height p_lastIdx : Int)
    (x y : Int) : Option (List (String × Int)) :=
  match p_frameObjects0, p_frameObjects1 with
  | some f0, some f1 =>
    match f0.yuvFile, f1.yuvFile with
    | some file0, some file1 =>
      if x < 0 ∨ y < 0 ∨ x ≥ p_width ∨ y ≥ p_height then some []
      else
        let frameIdx := (p_lastIdx % 2 ^ 32).toNat
        match YUVFile.getOneFrame host fresh file0 [] frameIdx p_width p_height,
            YUVFile.getOneFrame host fresh file1 [] frameIdx p_width p_height with
        | some (_, a0), some (_, a1) =>
          if 2 ^ 31 ≤ p_width * p_height ∨ 2 ^ 31 ≤ y * p_width + x then none
          else
            let planeLength : Nat := (p_width * p_height).toNat
            let idx : Nat := (y * p_width + x).toNat
            match loadChar charIsSigned a0 idx, loadChar charIsSigned a1 idx,
                loadChar charIsSigned a0 ((planeLength + idx) % 2 ^ 32),
                loadChar charIsSigned a1 ((planeLength + idx) % 2 ^ 32),
                loadChar charIsSigned a0 ((2 * planeLength + idx) % 2 ^ 32),
                loadChar charIsSigned a1 ((2 * planeLength + idx) % 2 ^ 32) with
            | some y0, some y1, some u0, some u1, some v0, some v1 =>
              some [("Diff Y", y0 - y1), ("Diff U", u0 - u1), ("Diff V", v0 - v1)]
            | _, _, _, _, _, _ => none
        | _, _ => none
    | _, _ => some []
  | _, _ => some []

end DifferenceObject

/-- The number a string of the digits `0` to `9` writes in decimal. -/
def decimalValue (ds : List Char) : Nat :=
  ds.foldl (fun acc c => 10 * acc + (c.toNat - 48)) 0

/-- The Qt call `QString::toInt()` on a string of digits: the number, and 0
when it does not fit an `int`. -/
def toInt (ds : List Char) : Int :=
  if decimalValue ds < 2 ^ 31 then (decimalValue ds : Int) else 0

/-- The `double` nearest to a natural number, ties to the even significand
of 53 bits: numbers below `2^53` are kept. -/
def roundToDouble (n : Nat) : Nat :=
  if n < 2 ^ 53 then n
  else
    let k := Nat.log2 n - 52
    let q := n / 2 ^ k
    let r := n % 2 ^ k
    let half := 2 ^ (k - 1)
    if r < half then q * 2 ^ k
    else if half < r then (q + 1) * 2 ^ k
    else if q % 2 = 0 then q * 2 ^ k
    else (q + 1) * 2 ^ k

/-- The Qt call `QString::toDouble()` on a string of digits. Every frame rate
of the program is a whole number or -1, so a `double` is an integer here. What
Qt returns for a number beyond the range of `double` depends on its version
and is outside the model. -/
def toDouble (ds : List Char) : Option Int :=
  if decimalValue ds < 2 ^ 53 then some (decimalValue ds : Int)
  else if roundToDouble (decimalValue ds) < 2 ^ 1024 then
    some (roundToDouble (decimalValue ds) : Int)
  else none

/-- The longest run of digits at the front of a string, and what follows. -/
def spanDigits (s : List Char) : List Char × List Char := s.span Char.isDigit

/-- The rest of a match of `([0-9]+)x([0-9]+)_([0-9]+)` behind its first
group: the second and third group and what follows the match. A group takes
the longest run of digits: a shorter one is followed by a digit, where the
pattern goes on with `x`, with `_` or with nothing. -/
def matchDefaultTail (s : List Char) : Option (List Char × List Char × List Char) :=
  match s with
  | 'x' :: r2 =>
    let (h, r3) := spanDigits r2
    if h = [] then none
    else
      match r3 with
      | '_' :: r4 =>
        let (f, r5) := spanDigits r4
        if f = [] then none else some (h, f, r5)
      | _ => none
  | _ => none

/-- A match of `([0-9]+)x([0-9]+)_([0-9]+)` at the front of a string: the
three groups. -/
def matchDefaultAt (s : List Char) : Option (List Char × List Char × List Char) :=
  let (w, r1) := spanDigits s
  if w = [] then none
  else (matchDefaultTail r1).map (fun (h, f, _) => (w, h, f))

/-- The rest of a match of `([0-9]+)x([0-9]+)_([0-9]+)_([0-9]+)` behind its
first group: the other three groups. -/
def matchExtendedTail (s : List Char) : Option (List Char × List Char × List Char) :=
  match matchDefaultTail s with
  | some (h, f, '_' :: r6) =>
    let (b, _) := spanDigits r6
    if b = [] then none else some (h, f, b)
  | _ => none

/-- A match of `([0-9]+)x([0-9]+)_([0-9]+)_([0-9]+)` at the front of a
string: the four groups. -/
def matchExtendedAt (s : List Char) : Option (List Char × List Char × List Char × List Char) :=
  let (w, r1) := spanDigits s
  if w = [] then none
  else (matchExtendedTail r1).map (fun (h, f, b) => (w, h, f, b))

/-- The Qt call `rxDefault.indexIn(s)` with the groups `cap(1)` to `cap(3)` of
the match it finds, the one that starts first; `none` for the result -1. -/
def indexInDefault : List Char → Option (List Char × List Char × List Char)
  | [] => none
  | c :: s =>
    match matchDefaultAt (c :: s) with
    | some m => some m
    | none => indexInDefault s

/-- The Qt call `rxExtended.indexIn(s)` with the groups `cap(1)` to `cap(4)`
of the match it finds, the one that starts first; `none` for the result -1. -/
def indexInExtended : List Char → Option (List Char × List Char × List Char × List Char)
  | [] => none
  | c :: s =>
    match matchExtendedAt (c :: s) with
    | some m => some m
    | none => indexInExtended s

/-- The Qt call `s.contains(pat, Qt::CaseInsensitive)` for a pattern of
ASCII characters. -/
def containsCaseInsensitive (s pat : List Char) : Bool :=
  s.tails.any (fun t => (pat.map Char.toLower).isPrefixOf (t.map Char.toLower))

/-- The values `formatFromFilename` returns through its pointers. -/
structure FilenameFormat where
  width : Int
  height : Int
  frameRate : Int
  numFrames : Int
  bitDepth : Int
  deriving DecidableEq, Repr

/-- Modelled from the spec: the default of the parameter `isYUV` of
`formatFromFilename`, declared in a header that is not among the sources; the
spec derives the frame count whenever width, height and bit depth are
resolved. -/
def isYUVDefault : Bool := true

namespace YUVFile

/-- The first part of `YUVFile::formatFromFilename` for a path that is not
empty: the presets and what the name gives. -/
def parseFilename (filePath : List Char) : Option FilenameFormat :=
  let preset : FilenameFormat := ⟨-1, -1, -1, -1, -1⟩
  match indexInExtended filePath with
  | some (widthString, heightString, rateString, bitDepthString) =>
    (toDouble rateString).map (fun rate =>
      { preset with width := toInt widthString, height := toInt heightString,
                    frameRate := rate, bitDepth := toInt bitDepthString })
  | none =>
    match indexInDefault filePath with
    | some (widthString, heightString, rateString) =>
      (toDouble rateString).map (fun rate =>
        { preset with width := toInt widthString, height := toInt heightString,
                      frameRate := rate, bitDepth := 8 })
    | none =>
      if containsCaseInsensitive filePath "_cif".toList then
        some { preset with width := 352, height := 288 }
      else if containsCaseInsensitive filePath "_qcif".toList then
        some { preset with width := 176, height := 144 }
      else if containsCaseInsensitive filePath "_4cif".toList then
        some { preset with width := 704, height := 576 }
      else some preset

/-- The function `YUVFile::formatFromFilename`: `out` holds the values behind
the five pointers before the call, the result those after it; `fileSize` is
the size `QFileInfo(filePath).size()` gives. The quotient of the `qint64`
division, a fault when the frame size is 0, is converted to `int`. -/
def formatFromFilename (fileSize : Nat) (filePath : List Char) (out : FilenameFormat)
    (isYUV : Bool) : Option FilenameFormat :=
  if filePath = [] then some out
  else
    match parseFilename filePath with
    | none => none
    | some p =>
      if isYUV = true ∧ p.width > 0 ∧ p.height > 0 ∧ p.bitDepth > 0 then
        if p.bitDepth = 8 then
          match bytesPerFrame p.width p.height YUVC_420YpCbCr8PlanarPixelFormat with
          | none => none
          | some bpf =>
            if bpf = 0 then none
            else some { p with numFrames := toInt32 ((fileSize / bpf : Nat) : Int) }
        else if p.bitDepth = 10 then
          match bytesPerFrame p.width p.height YUVC_420YpCbCr10LEPlanarPixelFormat with
          | none => none
          | some bpf =>
            if bpf = 0 then none
            else some { p with numFrames := toInt32 ((fileSize / bpf : Nat) : Int) }
        else some p
      else some p

end YUVFile

/-- A file name of the long form: a front, then the decimal digits of four
numbers as in `foo_WxH_R_B.yuv`. -/
def extendedName (front : List Char) (W H R B : Nat) : List Char :=
  front ++ (Nat.toDigits 10 W ++ 'x' :: (Nat.toDigits 10 H ++ '_' :: (Nat.toDigits 10 R ++
    '_' :: (Nat.toDigits 10 B ++ ".yuv".toList))))

/-- A file name of the short form: a front, then the decimal digits of three
numbers as in `foo_WxH_R.yuv`. -/
def defaultName (front : List Char) (W H R : Nat) : List Char :=
  front ++ (Nat.toDigits 10 W ++ 'x' :: (Nat.toDigits 10 H ++ '_' :: (Nat.toDigits 10 R ++
    ".yuv".toList)))

/-- One entry of the table `candidateModes`, the type `candMode_t`; the
`float` error value is kept as the rational number it stands for. -/
structure candMode_t where
  width : Int
  height : Int
  pixelFormat : YUVCPixelFormatType
  interesting : Bool
  mseY : ℚ

/-- The global table `candidateModes` as the program starts with it; the last
entry ends it. -/
def candidateModes : List candMode_t :=
  [ ⟨176, 144, YUVC_420YpCbCr8PlanarPixelFormat, false, 0⟩,
    ⟨352, 240, YUVC_420YpCbCr8PlanarPixelFormat, false, 0⟩,
    ⟨352, 288, YUVC_420YpCbCr8PlanarPixelFormat, false, 0⟩,
    ⟨480, 480, YUVC_420YpCbCr8PlanarPixelFormat, false, 0⟩,
    ⟨480, 576, YUVC_420YpCbCr8PlanarPixelFormat, false, 0⟩,
    ⟨704, 480, YUVC_420YpCbCr8PlanarPixelFormat, false, 0⟩,
    ⟨720, 480, YUVC_420YpCbCr8PlanarPixelFormat, false, 0⟩,
    ⟨704, 576, YUVC_420YpCbCr8PlanarPixelFormat, false, 0⟩,
    ⟨720, 576, YUVC_420YpCbCr8PlanarPixelFormat, false, 0⟩,
    ⟨1024, 768, YUVC_420YpCbCr8PlanarPixelFormat, false, 0⟩,
    ⟨1280, 720, YUVC_420YpCbCr8PlanarPixelFormat, false, 0⟩,
    ⟨1280, 960, YUVC_420YpCbCr8PlanarPixelFormat, false, 0⟩,
    ⟨1920, 1072, YUVC_420YpCbCr8PlanarPixelFormat, false, 0⟩,
    ⟨1920, 1080, YUVC_420YpCbCr8PlanarPixelFormat, false, 0⟩,
    ⟨176, 144, YUVC_422YpCbCr8PlanarPixelFormat, false, 0⟩,
    ⟨352, 240, YUVC_422YpCbCr8PlanarPixelFormat, false, 0⟩,
    ⟨352, 288, YUVC_422YpCbCr8PlanarPixelFormat, false, 0⟩,
    ⟨480, 480, YUVC_422YpCbCr8PlanarPixelFormat, false, 0⟩,
    ⟨480, 576, YUVC_422YpCbCr8PlanarPixelFormat, false, 0⟩,
    ⟨704, 480, YUVC_422YpCbCr8PlanarPixelFormat, false, 0⟩,
    ⟨720, 480, YUVC_422YpCbCr8PlanarPixelFormat, false, 0⟩,
    ⟨720, 486, YUVC_422YpCbCr8PlanarPixelFormat, false, 0⟩,
    ⟨704, 576, YUVC_422YpCbCr8PlanarPixelFormat, false, 0⟩,
    ⟨720, 576, YUVC_422YpCbCr8PlanarPixelFormat, false, 0⟩,
    ⟨1024, 768, YUVC_422YpCbCr8PlanarPixelFormat, false, 0⟩,
    ⟨1280, 720, YUVC_422YpCbCr8PlanarPixelFormat, false, 0⟩,
    ⟨1280, 960, YUVC_422YpCbCr8PlanarPixelFormat, false, 0⟩,
    ⟨1920, 1072, YUVC_422YpCbCr8PlanarPixelFormat, false, 0⟩,
    ⟨1920, 1080, YUVC_422YpCbCr8PlanarPixelFormat, false, 0⟩,
    ⟨-1, -1, YUVC_UnknownPixelFormat, false, 0⟩ ]

/-- The part of a table entry that no code changes: width, height and pixel
format. -/
def candMode_t.key (c : candMode_t) : Int × Int × YUVCPixelFormatType :=
  (c.width, c.height, c.pixelFormat)

/-- A state of the global table at some point of a run: the entries of
`candidateModes` with whatever flags and error values earlier calls left. -/
def TableState (table : List candMode_t) : Prop :=
  table.map candMode_t.key = candidateModes.map candMode_t.key

/-- The rounding of the `float` arithmetic (IEEE binary32, round to nearest,
ties to even) on a rational number within the range of the normal numbers:
the nearest multiple of `2^(e-23)` for `2^e ≤ |q| < 2^(e+1)`. Overflow and
the subnormal numbers are not modelled; `computeMSE` on bytes stays within
the normal range and 0. -/
def roundFloat (q : ℚ) : ℚ :=
  if q = 0 then 0
  else
    let e : Int := Int.log 2 |q|
    let ulp : ℚ := 2 ^ (e - 23)
    let t : ℚ := |q| / ulp
    let m : Int := ⌊t⌋
    let r : ℚ := t - m
    let m : Int :=
      if r < 1 / 2 then m
      else if 1 / 2 < r then m + 1
      else if m % 2 = 0 then m
      else m + 1
    if q < 0 then -((m : ℚ) * ulp) else (m : ℚ) * ulp

/-- The constant `FLT_MAX` of `float.h`, the largest finite `float`. -/
def FLT_MAX : ℚ := (2 ^ 24 - 1) * 2 ^ 104

/-- The loop of `computeMSE`: `n` samples are left, `i` is the index of the
next one and `mse` the sum so far; the result is `mse` after the loop, a
fault when a sample lies outside the buffer `ptr` and `ptr2` point into. -/
def mseLoop (buf : Buf) (ptr ptr2 : Nat) : Nat → Nat → ℚ → Option ℚ
  | 0, _, mse => some mse
  | n + 1, i, mse =>
    match load buf (ptr + i), load buf (ptr2 + i) with
    | some a, some b =>
      let diff := roundFloat (roundFloat (a.val : ℚ) - roundFloat (b.val : ℚ))
      mseLoop buf ptr ptr2 n (i + 1) (roundFloat (mse + roundFloat (diff * diff)))
    | _, _ => none

/-- The function `computeMSE`; `ptr` and `ptr2` are positions in `buf`. -/
def computeMSE (buf : Buf) (ptr ptr2 : Nat) (numPixels : Int) : Option ℚ :=
  if numPixels > 0 then
    match mseLoop buf ptr ptr2 numPixels.toNat 0 0 with
    | none => none
    | some mse => some (roundFloat (mse / roundFloat (numPixels : ℚ)))
  else some 0

/-- The four values behind the pointers `formatFromCorrelation` is given. -/
structure CorrelationFormat where
  width : Int
  height : Int
  cFormat : YUVCPixelFormatType
  numFrames : Int
  deriving DecidableEq, Repr

/-- What a call of `formatFromCorrelation` leaves: the global table, the
file, the four values behind the pointers, and the calls of `readBytes` it
made, each with its start position and length. -/
structure CorrelationResult where
  table : List candMode_t
  file : QFile
  out : CorrelationFormat
  reads : List (Nat × Nat)

namespace YUVFile

/-- Step 1 of `formatFromCorrelation`, the first loop over the table from
the entry at the head on: the entries after the loop and the flag `found`.
The loop ends at the entry with the unknown format; without one it leaves
the array, a fault. `fileSize % picSize` is a fault for `picSize` 0. -/
def markInteresting (fileSize : Nat) : List candMode_t → Option (List candMode_t × Bool)
  | [] => none
  | c :: cs =>
    if c.pixelFormat = YUVC_UnknownPixelFormat then some (c :: cs, false)
    else
      match bytesPerFrame c.width c.height c.pixelFormat with
      | none => none
      | some picSize =>
        if picSize * 2 ≤ fileSize then
          if picSize = 0 then none
          else if fileSize % picSize = 0 then
            match markInteresting fileSize cs with
            | none => none
            | some (rest, _) => some ({ c with interesting := true } :: rest, true)
          else
            match markInteresting fileSize cs with
            | none => none
            | some (rest, found) => some (c :: rest, found)
        else
          match markInteresting fileSize cs with
          | none => none
          | some (rest, found) => some (c :: rest, found)

/-- Step 2 of `formatFromCorrelation`, the second loop: the entries, the
file and the calls of `readBytes` after it. For each flagged entry a buffer
of two frames of zero bytes takes what the file holds of its first two
frames, and the error value of the entry is set from it. -/
def measureInteresting (file : QFile) :
    List candMode_t → Option (List candMode_t × QFile × List (Nat × Nat))
  | [] => none
  | c :: cs =>
    if c.pixelFormat = YUVC_UnknownPixelFormat then some (c :: cs, file, [])
    else if c.interesting = true then
      match bytesPerFrame c.width c.height c.pixelFormat with
      | none => none
      | some picSize =>
        if 2 ^ 31 ≤ picSize * 2 then none
        else
          let yuvBytes : Buf := List.replicate (picSize * 2) 0
          match readBytes (some file) yuvBytes 0 (picSize * 2) with
          | some (some file, yuvBytes) =>
            match computeMSE yuvBytes 0 picSize picSize with
            | none => none
            | some mse =>
              match measureInteresting file cs with
              | none => none
              | some (rest, file, reads) =>
                some ({ c with mseY := mse } :: rest, file, (0, picSize * 2) :: reads)
          | _ => none
    else
      match measureInteresting file cs with
      | none => none
      | some (rest, file, reads) => some (c :: rest, file, reads)

/-- Step 3 of `formatFromCorrelation`, the third loop from the entry with
index `i` on: `leastMSE` and `bestMode` after it. -/
def selectBest : List candMode_t → Nat → ℚ → Nat → Option (ℚ × Nat)
  | [], _, _, _ => none
  | c :: cs, i, leastMSE, bestMode =>
    if c.pixelFormat = YUVC_UnknownPixelFormat then some (leastMSE, bestMode)
    else if c.interesting = true ∧ c.mseY < leastMSE then selectBest cs (i + 1) c.mseY i
    else selectBest cs (i + 1) leastMSE bestMode

/-- The function `YUVFile::formatFromCorrelation`. `fileName` is the name of
the file object `p_srcFile`, `file` the open file, the size of which
`QFileInfo` reports; `table` is the global table `candidateModes` as earlier
calls left it, `out` the values behind the four pointers before the call.
The quotient of the `qint64` division, a fault when the frame size is 0, is
converted to `int`. -/
def formatFromCorrelation (fileName : List Char) (file : QFile) (table : List candMode_t)
    (out : CorrelationFormat) : Option CorrelationResult :=
  if fileName = [] then some ⟨table, file, out, []⟩
  else
    let fileSize := file.data.length
    if fileSize < 1 then some ⟨table, file, out, []⟩
    else
      match markInteresting fileSize table with
      | none => none
      | some (table, found) =>
        if found = false then some ⟨table, file, out, []⟩
        else
          match measureInteresting file table with
          | none => none
          | some (table, file, reads) =>
            match selectBest table 0 FLT_MAX 0 with
            | none => none
            | some (leastMSE, bestMode) =>
              if leastMSE < 100 then
                match table[bestMode]? with
                | none => none
                | some best =>
                  match bytesPerFrame best.width best.height best.pixelFormat with
                  | none => none
                  | some bpf =>
                    if bpf = 0 then none
                    else
                      some ⟨table, file,
                        ⟨best.width, best.height, best.pixelFormat,
                          toInt32 ((fileSize / bpf : Nat) : Int)⟩, reads⟩
              else some ⟨table, file, out, reads⟩

/-- The macro `MAX(a,b)`, `((a)>(b)?(a):(b))`, on numbers. -/
def MAX {α : Type} [LT α] [DecidableRel (fun (a b : α) => a < b)] (a b : α) : α :=
  if b < a then a else b

/-- What a call of `extractFormat` leaves: the values behind the four
pointers, the member `p_srcPixelFormat`, the global table and the file. -/
structure ExtractedFormat where
  width : Int
  height : Int
  numFrames : Int
  frameRate : ℚ
  p_srcPixelFormat : YUVCPixelFormatType
  table : List candMode_t
  file : QFile

/-- The function `YUVFile::extractFormat`. `formatValue` gives the numbers
of the enumeration constants, which `MAX` compares; `frameRate` is the value
behind the pointer before the call, the only one a call can leave as it was.
Both strategies look at the same file, of the name `fileName`. -/
def extractFormat (formatValue : YUVCPixelFormatType → Int) (fileName : List Char)
    (file : QFile) (table : List candMode_t) (frameRate : ℚ) : Option ExtractedFormat :=
  let cFormat1 := YUVC_UnknownPixelFormat
  let frameRate2 : ℚ := -1
  match formatFromFilename file.data.length fileName ⟨-1, -1, -1, -1, -1⟩ isYUVDefault with
  | none => none
  | some o1 =>
    match formatFromCorrelation fileName file table ⟨-1, -1, YUVC_UnknownPixelFormat, -1⟩ with
    | none => none
    | some r2 =>
      let p_srcPixelFormat :=
        if formatValue r2.out.cFormat < formatValue cFormat1 then cFormat1 else r2.out.cFormat
      let p_srcPixelFormat :=
        if p_srcPixelFormat = YUVC_UnknownPixelFormat then
          if o1.bitDepth = 8 then YUVC_420YpCbCr8PlanarPixelFormat
          else if o1.bitDepth = 10 then YUVC_420YpCbCr10LEPlanarPixelFormat
          else p_srcPixelFormat
        else p_srcPixelFormat
      some
        { width := MAX o1.width r2.out.width
          height := MAX o1.height r2.out.height
          numFrames := MAX o1.numFrames r2.out.numFrames
          frameRate :=
            if (o1.frameRate : ℚ) > 0 ∨ frameRate2 > 0 then MAX (o1.frameRate : ℚ) frameRate2
            else frameRate
          p_srcPixelFormat := p_srcPixelFormat
          table := r2.table
          file := r2.file }

end YUVFile

/-- The frame size `bytesPerFrame` gives for a table entry, 0 when the call
is a fault. -/
def candMode_t.picSize (c : candMode_t) : Nat :=
  (YUVFile.bytesPerFrame c.width c.height c.pixelFormat).getD 0

/-- The test of step 1 of `formatFromCorrelation` on an entry before the end
of the table: the file holds at least two frames and a whole number of them. -/
def candMode_t.passes (fileSize : Nat) (c : candMode_t) : Bool :=
  decide (c.pixelFormat ≠ YUVC_UnknownPixelFormat ∧ 0 < c.picSize ∧
    c.picSize * 2 ≤ fileSize ∧ fileSize % c.picSize = 0)

/-- What `readBytes` leaves in the buffer of two frames of zero bytes that
step 2 of `formatFromCorrelation` reads into: the bytes the file holds of its
first two frames, then zero bytes. -/
def firstFrames (data : Buf) (picSize : Nat) : Buf :=
  data.take (picSize * 2) ++ (List.replicate (picSize * 2) 0).drop (data.take (picSize * 2)).length

/-- The entry step 1 of `formatFromCorrelation` leaves of an entry. -/
def candMode_t.mark (fileSize : Nat) (c : candMode_t) : candMode_t :=
  if c.passes fileSize = true then { c with interesting := true } else c

/-- The pair `(leastMSE, bestMode)` the third loop leaves, over the entries
before the end of the table. -/
def selectFold : List candMode_t → Nat → ℚ → Nat → ℚ × Nat
  | [], _, leastMSE, bestMode => (leastMSE, bestMode)
  | c :: cs, i, leastMSE, bestMode =>
    if c.interesting = true ∧ c.mseY < leastMSE then selectFold cs (i + 1) c.mseY i
    else selectFold cs (i + 1) leastMSE bestMode

/-- The error value step 2 of `formatFromCorrelation` computes for an entry
with the frame size `picSize`, 0 if `computeMSE` is a fault. -/
def errorValue (data : Buf) (picSize : Nat) : ℚ :=
  (computeMSE (firstFrames data picSize) 0 picSize picSize).getD 0

/-- The entry step 2 of `formatFromCorrelation` leaves of an entry. -/
def candMode_t.measure (data : Buf) (c : candMode_t) : candMode_t :=
  if c.interesting = true then { c with mseY := errorValue data c.picSize } else c

/-- The calls of `readBytes` in step 2 of `formatFromCorrelation`: one for
each flagged entry. -/
def readsOf (cs : List candMode_t) : List (Nat × Nat) :=
  (cs.filter (fun c => c.interesting)).map (fun c => (0, c.picSize * 2))

/-- An entry before the end of the table with a frame size the loops can
work with: not 0, and two frames within the range of `int`. -/
@[reducible]
def LiveEntry (c : candMode_t) : Prop :=
  c.pixelFormat ≠ YUVC_UnknownPixelFormat ∧ 0 < c.picSize ∧ c.picSize * 2 < 2 ^ 31

theorem describe_keys (f : YUVCPixelFormatType) (pf : PixelFormat)
    (h : YUVFile.describe f = some pf) (hne : f ≠ YUVC_UnknownPixelFormat) :
    (pf.bitsPerPixelDenominator = 1 ∧ (pf.bitsPerPixelNominator = 8 ∨ pf.bitsPerPixelNominator = 12
      ∨ pf.bitsPerPixelNominator = 16 ∨ pf.bitsPerPixelNominator = 24 ∨ pf.bitsPerPixelNominator = 32
      ∨ pf.bitsPerPixelNominator = 48)) ∨
    (pf.bitsPerPixelDenominator = 6 ∧ pf.bitsPerPixelNominator = 128) := by
  cases f <;>
    first
    | exact absurd rfl hne
    | (cases (Option.some.inj h); decide)
    | exact Option.noConfusion h

theorem numSamples_ofNat (w h : Nat) (hb : w * h < 2 ^ 31) :
    ¬ (((w : Int) * (h : Int) < -(2 ^ 31)) ∨ (2 ^ 31 ≤ (w : Int) * (h : Int))) ∧
    (((w : Int) * (h : Int)) % 2 ^ 32).toNat = w * h := by
  have h1 : ((w : Int) * (h : Int)) = ((w * h : Nat) : Int) := by push_cast; rfl
  rw [h1]
  constructor
  · omega
  · omega

theorem bytesPerFrame_eval (f : YUVCPixelFormatType) (pf : PixelFormat)
    (hf : YUVFile.describe f = some pf) (hne : f ≠ YUVC_UnknownPixelFormat) (w h : Nat)
    (hb : w * h * pf.bitsPerPixelNominator + 8 ≤ 2 ^ 32) :
    YUVFile.bytesPerFrame w h f =
      some (((w * h + pf.bitsPerPixelDenominator - 1) / pf.bitsPerPixelDenominator
        * pf.bitsPerPixelNominator + 7) / 8) := by
  have hk := describe_keys f pf hf hne
  have hwh : w * h < 2 ^ 31 := by
    rcases hk with ⟨_, hn⟩ | ⟨_, hn⟩
    · rcases hn with hn | hn | hn | hn | hn | hn <;> rw [hn] at hb <;> omega
    · rw [hn] at hb; omega
  obtain ⟨h1, h2⟩ := numSamples_ofNat w h hwh
  unfold YUVFile.bytesPerFrame
  rw [hf]
  simp only [h2, if_neg h1]
  generalize w * h = m at *
  rcases hk with ⟨hd, hn⟩ | ⟨hd, hn⟩
  · rcases hn with hn | hn | hn | hn | hn | hn <;>
      simp only [hd, hn] at hb ⊢ <;> simp <;> split_ifs <;> omega
  · simp only [hd, hn] at hb ⊢
    simp
    split_ifs <;> omega

/-- C1 (as stated, refuted): a catalogue format other than the unknown one
gets 0 bytes for a 16384 x 16384 frame, because the 32-bit bit count wraps;
and for the unknown format itself the function divides by the zero
denominator of its catalogue entry instead of returning 0. -/
theorem bytesPerFrame_zero_iff_unknown_counterexample :
    ¬ (YUVFile.bytesPerFrame 16384 16384 YUVC_444YpCbCr16LEPlanarPixelFormat = some 0 ↔
        YUVC_444YpCbCr16LEPlanarPixelFormat = YUVC_UnknownPixelFormat) ∧
      (YUVFile.describe YUVC_444YpCbCr16LEPlanarPixelFormat).isSome = true ∧
      YUVFile.bytesPerFrame 1 1 YUVC_UnknownPixelFormat = none := by
  decide

/-- C1 (amended): for every catalogue format other than the unknown one and
all widths and heights of at least 1 whose bit count `w*h*n + 8` stays within
32 bits, `bytesPerFrame` returns a byte count that is not 0. -/
theorem bytesPerFrame_nonzero (f : YUVCPixelFormatType) (pf : PixelFormat)
    (hf : YUVFile.describe f = some pf) (hne : f ≠ YUVC_UnknownPixelFormat) (w h : Int)
    (hw : 1 ≤ w) (hh : 1 ≤ h) (hb : w * h * pf.bitsPerPixelNominator + 8 ≤ 2 ^ 32) :
    ∃ b, YUVFile.bytesPerFrame w h f = some b ∧ b ≠ 0 := by
  lift w to Nat using (by omega)
  lift h to Nat using (by omega)
  have hb' : w * h * pf.bitsPerPixelNominator + 8 ≤ 2 ^ 32 := by exact_mod_cast hb
  refine ⟨_, bytesPerFrame_eval f pf hf hne w h hb', ?_⟩
  have hpos : 1 ≤ w * h := Nat.mul_pos (by omega) (by omega)
  generalize w * h = m at *
  rcases describe_keys f pf hf hne with ⟨hd, hn⟩ | ⟨hd, hn⟩
  · rcases hn with hn | hn | hn | hn | hn | hn <;> rw [hd, hn] <;> omega
  · rw [hd, hn]; omega

/-- C1 (amended), at a 4 x 2 frame of the 8-bit 4:2:0 planar format. -/
theorem bytesPerFrame_nonzero_witness :
    ∃ b, YUVFile.bytesPerFrame 4 2 YUVC_420YpCbCr8PlanarPixelFormat = some b ∧ b ≠ 0 :=
  bytesPerFrame_nonzero YUVC_420YpCbCr8PlanarPixelFormat _ rfl (by decide) 4 2 (by decide)
    (by decide) (by decide)

/-- C2 (as stated, refuted): for the 8-bit 4:2:0 planar format (12 bits per
pixel) and a 7161 x 49981 frame the product `w*h*n` is below `2^32`, yet the
function returns 0 and not the rounded-up 536870912 bytes: adding 8 to the
bit count wraps. -/
theorem bytesPerFrame_rounds_up_counterexample :
    7161 * 49981 * 12 < 2 ^ 32 ∧
      YUVFile.bytesPerFrame 7161 49981 YUVC_420YpCbCr8PlanarPixelFormat = some 0 ∧
      ((7161 * 49981 + 1 - 1) / 1 * 12 + 7) / 8 = 536870912 := by
  decide

/-- C2 (amended): for every catalogue format other than the unknown one, with
numerator `n` and denominator `d`, and all `w`, `h` with `w*h*n + 8 ≤ 2^32`,
`bytesPerFrame` is `ceil(ceil(w*h/d)*n/8)`; it is the exact `w*h*n/(8*d)` when
`d` divides `w*h` and 8 divides `w*h*n/d`, and never below that exact value. -/
theorem bytesPerFrame_rounds_up (f : YUVCPixelFormatType) (pf : PixelFormat)
    (hf : YUVFile.describe f = some pf) (hne : f ≠ YUVC_UnknownPixelFormat) (w h : Nat)
    (hb : w * h * pf.bitsPerPixelNominator + 8 ≤ 2 ^ 32) :
    YUVFile.bytesPerFrame w h f =
        some (((w * h + pf.bitsPerPixelDenominator - 1) / pf.bitsPerPixelDenominator
          * pf.bitsPerPixelNominator + 7) / 8) ∧
      (pf.bitsPerPixelDenominator ∣ w * h →
        8 ∣ w * h * pf.bitsPerPixelNominator / pf.bitsPerPixelDenominator →
        YUVFile.bytesPerFrame w h f =
          some (w * h * pf.bitsPerPixelNominator / (8 * pf.bitsPerPixelDenominator))) ∧
      w * h * pf.bitsPerPixelNominator ≤
        ((w * h + pf.bitsPerPixelDenominator - 1) / pf.bitsPerPixelDenominator
          * pf.bitsPerPixelNominator + 7) / 8 * (8 * pf.bitsPerPixelDenominator) := by
  have he := bytesPerFrame_eval f pf hf hne w h hb
  refine ⟨he, ?_, ?_⟩
  · intro h1 h2
    rw [he]
    congr 1
    generalize w * h = m at *
    rcases describe_keys f pf hf hne with ⟨hd, hn⟩ | ⟨hd, hn⟩
    · rcases hn with hn | hn | hn | hn | hn | hn <;> simp only [hd, hn] at h1 h2 ⊢ <;> omega
    · simp only [hd, hn] at h1 h2 ⊢; omega
  · generalize w * h = m at *
    rcases describe_keys f pf hf hne with ⟨hd, hn⟩ | ⟨hd, hn⟩
    · rcases hn with hn | hn | hn | hn | hn | hn <;> rw [hd, hn] <;> omega
    · rw [hd, hn]; omega

/-- C2 (amended), at a 4 x 2 frame of the 8-bit 4:2:0 planar format: 12 bytes. -/
theorem bytesPerFrame_rounds_up_witness :
    YUVFile.bytesPerFrame 4 2 YUVC_420YpCbCr8PlanarPixelFormat = some 12 :=
  (bytesPerFrame_rounds_up YUVC_420YpCbCr8PlanarPixelFormat _ rfl (by decide) 4 2 (by decide)).1

theorem load_of_lt (buf : Buf) (p : Nat) (h : p < buf.length) :
    load buf p = some (buf.getD p 0) := by
  unfold load
  rw [List.getElem?_eq_getElem h, List.getD_eq_getElem _ _ h]

theorem store_agrees (G : Nat → Byte) (D D' : Nat → Prop) (L : Nat) (s : Buf) (p : Nat) (v : Byte)
    (hs : Agrees G D L s) (hp : p < L) (hv : v = G p) (hD : ∀ k, D' k → D k ∨ k = p) :
    ∃ s', store s p v = some s' ∧ Agrees G D' L s' := by
  obtain ⟨hl, hg⟩ := hs
  refine ⟨s.set p v, ?_, ?_, ?_⟩
  · unfold store
    rw [if_pos (by omega)]
  · simp [hl]
  · intro k hk hkL
    rcases hD k hk with h | h
    · by_cases hkp : p = k
      · subst hkp
        simp [hl, hp, hv]
      · rw [List.getElem?_set_ne hkp]
        exact hg k h hkL
    · subst h
      simp [hl, hp, hv]

theorem forLoop_inv (I : Nat → Buf → Prop) (body : Nat → Buf → Option Buf) (n : Nat) (s0 : Buf)
    (h0 : I 0 s0)
    (hstep : ∀ i s, i < n → I i s → ∃ s', body i s = some s' ∧ I (i + 1) s') :
    ∃ s', forLoop n body s0 = some s' ∧ I n s' := by
  induction n with
  | zero => exact ⟨s0, rfl, h0⟩
  | succ n ih =>
    obtain ⟨s1, h1, i1⟩ := ih (fun i s hi hI => hstep i s (by omega) hI)
    obtain ⟨s2, h2, i2⟩ := hstep n s1 (by omega) i1
    exact ⟨s2, by simp [forLoop, h1, h2], i2⟩

theorem agrees_mono (G : Nat → Byte) (D D' : Nat → Prop) (L : Nat) (s : Buf)
    (hs : Agrees G D L s) (hD : ∀ k, D' k → k < L → D k) : Agrees G D' L s :=
  ⟨hs.1, fun k hk hkL => hs.2 k (hD k hk hkL) hkL⟩

theorem resize_length (buf : Buf) (n : Nat) (fresh : Nat → Byte) :
    (resize buf n fresh).length = n := by
  simp [resize]

/-- The byte the 8-bit difference holds at position `k`. -/
theorem subtractBody8_step (dz : Int) (N : Nat) (src0 src1 : Buf)
    (h0 : src0.length = N + N + N) (h1 : src1.length = N + N + N) (i : Nat) (hi : i < N) (s : Buf)
    (hs : Agrees (fun k => toUChar (dz + ((src0.getD k 0).val : Int) - ((src1.getD k 0).val : Int)))
      (fun k => k < i ∨ (N ≤ k ∧ k < N + i) ∨ (N + N ≤ k ∧ k < N + N + i)) (N + N + N) s) :
    ∃ s', DifferenceObject.subtractBody8 dz N src0 src1 i s = some s' ∧
      Agrees (fun k => toUChar (dz + ((src0.getD k 0).val : Int) - ((src1.getD k 0).val : Int)))
        (fun k => k < i + 1 ∨ (N ≤ k ∧ k < N + (i + 1)) ∨ (N + N ≤ k ∧ k < N + N + (i + 1)))
        (N + N + N) s' := by
  unfold DifferenceObject.subtractBody8
  rw [load_of_lt src0 i (by omega), load_of_lt src1 i (by omega),
    load_of_lt src0 (N + i) (by omega), load_of_lt src1 (N + i) (by omega),
    load_of_lt src0 (N + N + i) (by omega), load_of_lt src1 (N + N + i) (by omega)]
  simp only [Option.bind_eq_bind, Option.some_bind]
  obtain ⟨s1, e1, a1⟩ := store_agrees _ _
    (fun k => k < i + 1 ∨ (N ≤ k ∧ k < N + i) ∨ (N + N ≤ k ∧ k < N + N + i)) _ s i _ hs
    (by omega) rfl (by intro k hk; omega)
  rw [e1]
  simp only [Option.some_bind]
  obtain ⟨s2, e2, a2⟩ := store_agrees _ _
    (fun k => k < i + 1 ∨ (N ≤ k ∧ k < N + (i + 1)) ∨ (N + N ≤ k ∧ k < N + N + i)) _ s1 (N + i) _ a1
    (by omega) rfl (by intro k hk; omega)
  rw [e2]
  simp only [Option.some_bind]
  exact store_agrees _ _ _ _ s2 (N + N + i) _ a2 (by omega) rfl (by intro k hk; omega)

theorem subtractYUV444_8bit (hostBigEndian : Bool) (fresh : Nat → Byte) (A B out : Buf)
    (fmt : YUVCPixelFormatType) (N : Nat) (hbps : YUVFile.bitsPerSample fmt = 8)
    (hA : A.length = 3 * N) (hB : B.length = 3 * N) :
    ∃ D, DifferenceObject.subtractYUV444 hostBigEndian fresh A B out fmt = some D ∧
      D.length = 3 * N ∧
      ∀ k, k < 3 * N →
        D[k]? = some (toUChar (128 + ((A.getD k 0).val : Int) - ((B.getD k 0).val : Int))) := by
  unfold DifferenceObject.subtractYUV444
  have hN : A.length / 3 = N := by omega
  have e3 : 3 * N = N + N + N := by omega
  simp only [hA, hB, hbps, ne_eq, not_true_eq_false, if_false, if_true, Nat.lt_irrefl,
    Nat.mul_mod_right, Nat.sub_self, pow_zero, mul_one]
  rw [show 3 * N / 3 = N by omega]
  obtain ⟨D, hD, aD⟩ := forLoop_inv
    (fun i s => Agrees
      (fun k => toUChar (128 + ((A.getD k 0).val : Int) - ((B.getD k 0).val : Int)))
      (fun k => k < i ∨ (N ≤ k ∧ k < N + i) ∨ (N + N ≤ k ∧ k < N + N + i)) (N + N + N) s)
    (DifferenceObject.subtractBody8 128 N A B) N
    (if ¬ out.length = 3 * N then resize out (3 * N) fresh else out)
    (by
      constructor
      · split_ifs with h
        · omega
        · rw [resize_length]; omega
      · intro k hk; omega)
    (fun i s hi hI => subtractBody8_step 128 N A B (by omega) (by omega) i hi s hI)
  refine ⟨D, hD, by rw [aD.1]; omega, fun k hk => aD.2 k (by omega) (by omega)⟩

theorem forLoop_last_faults (n : Nat) (body : Nat → Buf → Option Buf) (s : Buf)
    (h : ∀ t, body n t = none) : forLoop (n + 1) body s = none := by
  unfold forLoop
  cases forLoop n body s with
  | none => rfl
  | some t => exact h t

theorem load16_out_of_bounds (hostBigEndian : Bool) (buf : Buf) (p : Nat)
    (h : buf.length ≤ 2 * p + 1) : load16 hostBigEndian buf p = none := by
  unfold load16
  rw [List.getElem?_eq_none (l := buf) (n := 2 * p + 1) h]
  cases buf[2 * p]? <;> rfl

theorem subtractBody16_faults (hostBigEndian : Bool) (dz : Int) (N : Nat) (src0 src1 : Buf)
    (i : Nat) (s : Buf) (h0 : src0.length ≤ 2 * (N + N + i) + 1) :
    DifferenceObject.subtractBody16 hostBigEndian dz N src0 src1 i s = none := by
  unfold DifferenceObject.subtractBody16
  rw [load16_out_of_bounds hostBigEndian src0 (N + N + i) h0]
  simp only [Option.bind_eq_bind]
  cases load16 hostBigEndian src0 i <;> simp only [Option.none_bind, Option.some_bind]
  cases load16 hostBigEndian src1 i <;> simp only [Option.none_bind, Option.some_bind]
  cases load16 hostBigEndian src0 (N + i) <;> simp only [Option.none_bind, Option.some_bind]
  cases load16 hostBigEndian src1 (N + i) <;> simp only [Option.none_bind, Option.some_bind]

/-- The 16-bit path of `subtractYUV444` faults on every pair of non-empty
frames: it takes the byte length of a plane for its length in samples. -/
theorem subtractYUV444_16bit_faults (hostBigEndian : Bool) (fresh : Nat → Byte) (A B out : Buf)
    (fmt : YUVCPixelFormatType) (N : Nat) (hN : 1 ≤ N)
    (hbps : 8 < YUVFile.bitsPerSample fmt ∧ YUVFile.bitsPerSample fmt ≤ 16)
    (hA : A.length = 6 * N) (hB : B.length = 6 * N) :
    DifferenceObject.subtractYUV444 hostBigEndian fresh A B out fmt = none := by
  unfold DifferenceObject.subtractYUV444
  simp only [hA, hB, ne_eq, not_true_eq_false, if_false]
  rw [if_neg (by omega), if_neg (by omega), if_neg (by omega), if_pos hbps]
  obtain ⟨m, hm⟩ : ∃ m, 6 * N / 3 = m + 1 := ⟨6 * N / 3 - 1, by omega⟩
  rw [hm]
  apply forLoop_last_faults
  intro t
  apply subtractBody16_faults
  omega

/-- C3: for an 8-bit source format and two buffers of `3*N` bytes each,
`subtractYUV444` returns a buffer of `3*N` bytes whose byte at every position
`k` is `(128 + A[k] - B[k]) mod 256`. -/
theorem subtractYUV444_8bit_wraps (hostBigEndian : Bool) (fresh : Nat → Byte) (A B out : Buf)
    (fmt : YUVCPixelFormatType) (N : Nat) (hbps : YUVFile.bitsPerSample fmt = 8)
    (hA : A.length = 3 * N) (hB : B.length = 3 * N) :
    ∃ D, DifferenceObject.subtractYUV444 hostBigEndian fresh A B out fmt = some D ∧
      D.length = 3 * N ∧
      ∀ k, k < 3 * N →
        ((D.getD k 0).val : Int) =
          (128 + ((A.getD k 0).val : Int) - ((B.getD k 0).val : Int)) % 256 := by
  obtain ⟨D, hD, hl, hv⟩ := subtractYUV444_8bit hostBigEndian fresh A B out fmt N hbps hA hB
  refine ⟨D, hD, hl, fun k hk => ?_⟩
  have h1 := hv k hk
  have h2 : D.getD k 0 = toUChar (128 + ((A.getD k 0).val : Int) - ((B.getD k 0).val : Int)) := by
    rw [List.getD_eq_getElem?_getD, h1]
    rfl
  rw [h2]
  simp only [toUChar]
  omega

/-- C3, at two frames of two pixels: the fourth byte, `128 + 4 - 255`, wraps
to 133. -/
theorem subtractYUV444_8bit_wraps_witness :
    ∃ D, DifferenceObject.subtractYUV444 false (fun _ => 0) [1, 2, 3, 4, 5, 6]
        [3, 2, 0, 255, 3, 9] [] YUVC_444YpCbCr8PlanarPixelFormat = some D ∧
      D.length = 3 * 2 ∧
      ∀ k, k < 3 * 2 →
        ((D.getD k 0).val : Int) =
          (128 + ((([1, 2, 3, 4, 5, 6] : Buf).getD k 0).val : Int)
            - ((([3, 2, 0, 255, 3, 9] : Buf).getD k 0).val : Int)) % 256 :=
  subtractYUV444_8bit_wraps false (fun _ => 0) [1, 2, 3, 4, 5, 6] [3, 2, 0, 255, 3, 9] []
    YUVC_444YpCbCr8PlanarPixelFormat 2 (by decide) (by decide) (by decide)

/-- C4 (code at the failing input): for a 12-bit format and two frames of one
pixel (three 16-bit samples, 6 bytes) the function faults on either byte
order: the loop runs over 2 elements per plane and reads the element 4 of a
buffer of 3. -/
theorem subtractYUV444_16bit_leaves_buffers :
    DifferenceObject.subtractYUV444 false (fun _ => 0) [0, 8, 0, 8, 0, 8] [1, 0, 2, 0, 3, 0] []
        YUVC_444YpCbCr12LEPlanarPixelFormat = none ∧
      DifferenceObject.subtractYUV444 true (fun _ => 0) [8, 0, 8, 0, 8, 0] [0, 1, 0, 2, 0, 3] []
        YUVC_444YpCbCr12BEPlanarPixelFormat = none ∧
      load16 false [0, 8, 0, 8, 0, 8] (2 + 2 + 0) = none := by
  decide

/-- C5 (code at the failing input): the difference of a 10-bit one-pixel
frame with itself is no frame of midpoints, the function faults. -/
theorem subtractYUV444_self_10bit_faults :
    DifferenceObject.subtractYUV444 false (fun _ => 0) [0, 2, 0, 2, 0, 2] [0, 2, 0, 2, 0, 2]
        [0, 0, 0, 0, 0, 0] YUVC_420YpCbCr10LEPlanarPixelFormat = none := by
  decide

/-- C6 (code at the failing input): for two 16-bit one-pixel frames the
function returns no difference from which the first frame can be recovered,
it faults. -/
theorem subtractYUV444_recover_16bit_faults :
    DifferenceObject.subtractYUV444 false (fun _ => 0) [7, 1, 9, 0, 255, 255] [8, 1, 0, 0, 1, 0]
        [0, 0, 0, 0, 0, 0] YUVC_444YpCbCr16LEPlanarPixelFormat = none := by
  decide

theorem idx_lt (x y w h : Nat) (hx : x < w) (hy : y < h) : y * w + x < w * h := by
  have h1 : (y + 1) * w ≤ h * w := Nat.mul_le_mul_right w hy
  have h2 : (y + 1) * w = y * w + w := by ring
  have h3 : h * w = w * h := Nat.mul_comm h w
  omega

theorem pos_lt (c x y w h : Nat) (hc : c < 3) (hx : x < w) (hy : y < h) :
    c * (w * h) + y * w + x < 3 * (w * h) := by
  have h1 := idx_lt x y w h hx hy
  have h2 : (c + 1) * (w * h) ≤ 3 * (w * h) := Nat.mul_le_mul_right (w * h) hc
  have h3 : (c + 1) * (w * h) = c * (w * h) + w * h := by ring
  omega

theorem idx_inj (x y x' y' w : Nat) (hx : x < w) (hx' : x' < w)
    (he : y * w + x = y' * w + x') : x = x' ∧ y = y' := by
  have h1 : (y * w + x) % w = x := by
    rw [Nat.add_comm, Nat.add_mul_mod_self_right, Nat.mod_eq_of_lt hx]
  have h2 : (y' * w + x') % w = x' := by
    rw [Nat.add_comm, Nat.add_mul_mod_self_right, Nat.mod_eq_of_lt hx']
  have hxx : x = x' := by rw [← h1, ← h2, he]
  subst hxx
  have hw : 0 < w := by omega
  have h3 : y * w = y' * w := by omega
  exact ⟨rfl, Nat.eq_of_mul_eq_mul_right hw h3⟩

theorem pos_inj (c x y c' x' y' w h : Nat) (hx : x < w) (hy : y < h) (hx' : x' < w)
    (hy' : y' < h) (he : c * (w * h) + y * w + x = c' * (w * h) + y' * w + x') :
    c = c' ∧ x = x' ∧ y = y' := by
  have h1 := idx_lt x y w h hx hy
  have h2 := idx_lt x' y' w h hx' hy'
  have he' : c * (w * h) + (y * w + x) = c' * (w * h) + (y' * w + x') := by omega
  have h3 := idx_inj (y * w + x) c (y' * w + x') c' (w * h) h1 h2 he'
  have h4 := idx_inj x y x' y' w hx hx' h3.1
  exact ⟨h3.2, h4.1, h4.2⟩

theorem store_agrees3 (w h : Nat) (G : Nat → Nat → Nat → Byte) (D D' : Nat → Nat → Nat → Prop)
    (s : Buf) (p : Nat) (v : Byte) (c x y : Nat)
    (hs : Agrees3 w h G D s) (hc : c < 3) (hx : x < w) (hy : y < h)
    (hp : p = c * (w * h) + y * w + x) (hv : v = G c x y)
    (hD : ∀ c' x' y', c' < 3 → x' < w → y' < h → D' c' x' y' →
      D c' x' y' ∨ (c' = c ∧ x' = x ∧ y' = y)) :
    ∃ s', store s p v = some s' ∧ Agrees3 w h G D' s' := by
  obtain ⟨hl, hg⟩ := hs
  have hpl := pos_lt c x y w h hc hx hy
  refine ⟨s.set p v, ?_, ?_, ?_⟩
  · unfold store
    rw [if_pos (by omega)]
  · simp [hl]
  · intro c' x' y' hc' hx' hy' hd
    by_cases hpp : p = c' * (w * h) + y' * w + x'
    · obtain ⟨e1, e2, e3⟩ := pos_inj c x y c' x' y' w h hx hy hx' hy' (by omega)
      subst e1 e2 e3
      rw [← hpp, hv, List.getElem?_set_self (by omega)]
    · rw [List.getElem?_set_ne hpp]
      rcases hD c' x' y' hc' hx' hy' hd with hd' | ⟨e1, e2, e3⟩
      · exact hg c' x' y' hc' hx' hy' hd'
      · subst e1 e2 e3
        exact absurd hp hpp

theorem load_agrees3 (w h : Nat) (G : Nat → Nat → Nat → Byte) (D : Nat → Nat → Nat → Prop)
    (s : Buf) (p : Nat) (c x y : Nat)
    (hs : Agrees3 w h G D s) (hc : c < 3) (hx : x < w) (hy : y < h)
    (hp : p = c * (w * h) + y * w + x) (hd : D c x y) :
    load s p = some (G c x y) := by
  unfold load
  rw [hp]
  exact hs.2 c x y hc hx hy hd

theorem agrees3_mono (w h : Nat) (G : Nat → Nat → Nat → Byte) (D D' : Nat → Nat → Nat → Prop)
    (s : Buf) (hs : Agrees3 w h G D s)
    (hD : ∀ c x y, c < 3 → x < w → y < h → D' c x y → D c x y) : Agrees3 w h G D' s :=
  ⟨hs.1, fun c x y hc hx hy hd => hs.2 c x y hc hx hy (hD c x y hc hx hy hd)⟩

theorem loadInt_of_lt (buf : Buf) (p : Nat) (h : p < buf.length) :
    loadInt buf p = some ((buf.getD p 0).val : Int) := by
  unfold loadInt
  rw [load_of_lt buf p h]
  rfl

theorem toUChar_val (b : Byte) : toUChar (b.val : Int) = b := by
  apply Fin.ext
  simp only [toUChar]
  omega

theorem store_bind3 {w h : Nat} {G : Nat → Nat → Nat → Byte} {D : Nat → Nat → Nat → Prop}
    {s : Buf} {p : Nat} {v : Byte} {k : Buf → Option Buf} {Q : Buf → Prop}
    (c x y : Nat)
    (hs : Agrees3 w h G D s) (hc : c < 3) (hx : x < w) (hy : y < h)
    (hp : p = c * (w * h) + y * w + x) (hv : v = G c x y)
    (hk : ∀ s1, Agrees3 w h G (fun c' x' y' => D c' x' y' ∨ (c' = c ∧ x' = x ∧ y' = y)) s1 →
      ∃ s', k s1 = some s' ∧ Q s') :
    ∃ s', (store s p v).bind k = some s' ∧ Q s' := by
  obtain ⟨s1, e1, a1⟩ := store_agrees3 w h G D _ s p v c x y hs hc hx hy hp hv
    (fun c' x' y' _ _ _ hd => hd)
  rw [e1]
  exact hk s1 a1

theorem load_bind3 {w h : Nat} {G : Nat → Nat → Nat → Byte} {D : Nat → Nat → Nat → Prop}
    {s : Buf} {p : Nat} {k : Byte → Option Buf} {Q : Buf → Prop}
    (c x y : Nat) (hs : Agrees3 w h G D s) (hc : c < 3) (hx : x < w) (hy : y < h)
    (hp : p = c * (w * h) + y * w + x) (hd : D c x y)
    (hk : ∃ s', k (G c x y) = some s' ∧ Q s') :
    ∃ s', (load s p).bind k = some s' ∧ Q s' := by
  rw [load_agrees3 w h G D s p c x y hs hc hx hy hp hd]
  exact hk

theorem forLoop_bind {I : Nat → Buf → Prop} {n : Nat} {body : Nat → Buf → Option Buf} {s : Buf}
    {k : Buf → Option Buf} {Q : Buf → Prop} (h0 : I 0 s)
    (hstep : ∀ i t, i < n → I i t → ∃ t', body i t = some t' ∧ I (i + 1) t')
    (hk : ∀ s1, I n s1 → ∃ s', k s1 = some s' ∧ Q s') :
    ∃ s', (forLoop n body s).bind k = some s' ∧ Q s' := by
  obtain ⟨s1, e1, a1⟩ := forLoop_inv I body n s h0 hstep
  rw [e1]
  exact hk s1 a1

theorem plane_offset_le (pc n : Nat) (h1 : 1 ≤ pc) (h2 : pc ≤ 2) :
    (pc - 1) * n + n ≤ 2 * n := by
  have h3 : pc = 1 ∨ pc = 2 := by omega
  rcases h3 with h3 | h3 <;> subst h3 <;> omega

theorem odd_mod (i : Nat) : (i * 2 + 1) % 2 = 1 := by omega

theorem odd_div (i : Nat) : (i * 2 + 1) / 2 = i := by omega

theorem odd_pred_div (i : Nat) : (i * 2 + 1 - 1) / 2 = i := by omega

theorem even_mod (i : Nat) : (i * 2 + 2) % 2 = 0 := by omega

theorem even_div (i : Nat) : (i * 2 + 2) / 2 = i + 1 := by omega

theorem even_pred_div (i : Nat) : (i * 2 + 2 - 1) / 2 = i := by omega

theorem bilinearLineBody_step (src : Buf) (w h cw ch pc r y0 i : Nat) (t : Buf)
    (hw : w = 2 * cw) (hh : h = 2 * ch) (hp1 : 1 ≤ pc) (hp2 : pc ≤ 2) (hi : i < cw - 1)
    (hr : (y0 = 0 ∧ r = 0) ∨ (y0 = 2 * ch - 1 ∧ r = ch - 1)) (hch : 1 ≤ ch)
    (hsrc : w * h + 2 * (cw * ch) ≤ src.length)
    (ht : Agrees3 w h (bilinearOut src w h cw ch)
      (fun c x y => c < pc ∨ (c = pc ∧ y < y0) ∨ (c = pc ∧ y = y0 ∧ x ≤ 2 * i)) t) :
    ∃ t', YUVFile.bilinearLineBody (w * h + (pc - 1) * (cw * ch)) (pc * (w * h)) (r * cw)
        (y0 * w) src i t = some t' ∧
      Agrees3 w h (bilinearOut src w h cw ch)
        (fun c x y => c < pc ∨ (c = pc ∧ y < y0) ∨ (c = pc ∧ y = y0 ∧ x ≤ 2 * (i + 1))) t' := by
  have hc2 := plane_offset_le pc (cw * ch) hp1 hp2
  have hb1 := idx_lt i r cw ch (by omega) (by omega)
  have hb2 := idx_lt (i + 1) r cw ch (by omega) (by omega)
  have g2 : (pc = 0) = False := eq_false (by omega)
  have g5 : (2 * ch - 1 = 0) = False := eq_false (by omega)
  have o1 : (i * 2 + 1 = 2 * cw - 1) = False := eq_false (by omega)
  have e1 : (i * 2 + 2 = 2 * cw - 1) = False := eq_false (by omega)
  unfold YUVFile.bilinearLineBody
  rw [loadInt_of_lt src _ (by omega), loadInt_of_lt src _ (by omega),
    load_of_lt src _ (by omega)]
  simp only [Option.bind_eq_bind, Option.some_bind]
  refine store_bind3 pc (i * 2 + 1) y0 ht (by omega) (by omega) (by omega) (by omega) ?_ ?_
  · rcases hr with ⟨rfl, rfl⟩ | ⟨rfl, rfl⟩ <;>
      simp only [bilinearOut, bilinearChroma, chromaAt, o1, g2, g5, if_true, if_false,
        Nat.add_assoc, one_ne_zero, odd_mod, odd_div, odd_pred_div, even_mod, even_div,
      even_pred_div]
  · intro s2 a2
    refine store_agrees3 w h _ _ _ s2 _ _ pc (i * 2 + 2) y0 a2
      (by omega) (by omega) (by omega) (by omega) ?_ (by intro c' x' y' _ _ _ hd; omega)
    rcases hr with ⟨rfl, rfl⟩ | ⟨rfl, rfl⟩ <;>
      simp only [bilinearOut, bilinearChroma, chromaAt, e1, g2, g5, if_true, if_false,
        Nat.add_assoc, toUChar_val, odd_mod, odd_div, odd_pred_div, even_mod, even_div,
      even_pred_div]

theorem bilinearLine_spec (src : Buf) (w h cw ch pc r y0 : Nat) (s : Buf)
    (hw : w = 2 * cw) (hh : h = 2 * ch) (hp1 : 1 ≤ pc) (hp2 : pc ≤ 2)
    (hr : (y0 = 0 ∧ r = 0) ∨ (y0 = 2 * ch - 1 ∧ r = ch - 1)) (hcw : 1 ≤ cw) (hch : 1 ≤ ch)
    (hsrc : w * h + 2 * (cw * ch) ≤ src.length)
    (hs : Agrees3 w h (bilinearOut src w h cw ch)
      (fun c x y => c < pc ∨ (c = pc ∧ y < y0)) s) :
    ∃ s', YUVFile.bilinearLine w cw (w * h + (pc - 1) * (cw * ch)) (pc * (w * h)) (r * cw)
        (y0 * w) src s = some s' ∧
      Agrees3 w h (bilinearOut src w h cw ch)
        (fun c x y => c < pc ∨ (c = pc ∧ y < y0 + 1)) s' := by
  have hc2 := plane_offset_le pc (cw * ch) hp1 hp2
  have hb1 := idx_lt 0 r cw ch (by omega) (by omega)
  have g2 : (pc = 0) = False := eq_false (by omega)
  have g5 : (2 * ch - 1 = 0) = False := eq_false (by omega)
  have z1 : (0 = 2 * cw - 1) = False := eq_false (by omega)
  have f1 : (w - 1 = 2 * cw - 1) = True := eq_true (by omega)
  have f2 : (w - 2 = 2 * cw - 1) = False := eq_false (by omega)
  have f3 : (w - 2) % 2 = 0 := by omega
  have f4 : (w - 2) / 2 = cw - 1 := by omega
  have f5 : (w - 1 - 1) % 2 = 0 := by omega
  have f6 : (w - 1 - 1) / 2 = cw - 1 := by omega
  unfold YUVFile.bilinearLine
  rw [load_of_lt src _ (by omega)]
  simp only [Option.bind_eq_bind, Option.some_bind]
  refine store_bind3 pc 0 y0 hs (by omega) (by omega) (by omega) (by omega) ?_ ?_
  · rcases hr with ⟨rfl, rfl⟩ | ⟨rfl, rfl⟩ <;>
      simp only [bilinearOut, bilinearChroma, chromaAt, z1, g2, g5, if_true, if_false,
        Nat.add_assoc, toUChar_val, Nat.zero_mod, Nat.zero_div, Nat.add_zero]
  intro s1 a1
  refine forLoop_bind
    (I := fun i t => Agrees3 w h (bilinearOut src w h cw ch)
      (fun c x y => c < pc ∨ (c = pc ∧ y < y0) ∨ (c = pc ∧ y = y0 ∧ x ≤ 2 * i)) t)
    (agrees3_mono w h _ _ _ s1 a1 (by intro c x y _ _ _ hd; omega))
    (fun i t hi ht => bilinearLineBody_step src w h cw ch pc r y0 i t hw hh hp1 hp2 hi hr hch
      hsrc ht) ?_
  intro s3 a3
  refine load_bind3 pc (w - 2) y0 a3 (by omega) (by omega) (by omega) (by omega) (by omega) ?_
  refine store_agrees3 w h _ _ _ s3 _ _ pc (w - 1) y0 a3
    (by omega) (by omega) (by omega) (by omega) ?_ (by intro c' x' y' _ _ _ hd; omega)
  rcases hr with ⟨rfl, rfl⟩ | ⟨rfl, rfl⟩ <;>
    simp only [bilinearOut, bilinearChroma, chromaAt, f1, f2, g2, f3, f4, f5, f6, g5, if_true,
      if_false, Nat.add_assoc]

set_option maxHeartbeats 1000000 in

theorem bilinearInnerBody_step (src : Buf) (w h cw ch pc j i : Nat) (t : Buf)
    (hw : w = 2 * cw) (hh : h = 2 * ch) (hp1 : 1 ≤ pc) (hp2 : pc ≤ 2) (hj : j < ch - 1)
    (hi : i < cw - 1) (hsrc : w * h + 2 * (cw * ch) ≤ src.length)
    (ht : Agrees3 w h (bilinearOut src w h cw ch)
      (fun c x y => c < pc ∨ (c = pc ∧ y < 2 * j + 1) ∨
        (c = pc ∧ (y = 2 * j + 1 ∨ y = 2 * j + 2) ∧ x ≤ 2 * i)) t) :
    ∃ t', YUVFile.bilinearInnerBody (w * h + (pc - 1) * (cw * ch)) (pc * (w * h)) (j * cw)
        ((j + 1) * cw) ((j * 2 + 1) * w) ((j * 2 + 2) * w) src i t = some t' ∧
      Agrees3 w h (bilinearOut src w h cw ch)
        (fun c x y => c < pc ∨ (c = pc ∧ y < 2 * j + 1) ∨
          (c = pc ∧ (y = 2 * j + 1 ∨ y = 2 * j + 2) ∧ x ≤ 2 * (i + 1))) t' := by
  have hc2 := plane_offset_le pc (cw * ch) hp1 hp2
  have hi1 := idx_lt i j cw ch (by omega) (by omega)
  have hi2 := idx_lt (i + 1) j cw ch (by omega) (by omega)
  have hi3 := idx_lt i (j + 1) cw ch (by omega) (by omega)
  have hi4 := idx_lt (i + 1) (j + 1) cw ch (by omega) (by omega)
  have g2 : (pc = 0) = False := eq_false (by omega)
  have t1 : (j * 2 + 1 = 0) = False := eq_false (by omega)
  have t2 : (j * 2 + 1 = 2 * ch - 1) = False := eq_false (by omega)
  have b1 : (j * 2 + 2 = 0) = False := eq_false (by omega)
  have b2 : (j * 2 + 2 = 2 * ch - 1) = False := eq_false (by omega)
  have o1 : (i * 2 + 1 = 2 * cw - 1) = False := eq_false (by omega)
  have e1 : (i * 2 + 2 = 2 * cw - 1) = False := eq_false (by omega)
  unfold YUVFile.bilinearInnerBody
  rw [loadInt_of_lt src _ (by omega), loadInt_of_lt src _ (by omega),
    loadInt_of_lt src _ (by omega), loadInt_of_lt src _ (by omega)]
  simp only [Option.bind_eq_bind, Option.some_bind]
  refine store_bind3 pc (i * 2 + 1) (j * 2 + 1) ht (by omega) (by omega) (by omega) (by omega)
    ?_ ?_
  · simp only [bilinearOut, bilinearChroma, chromaAt, g2, t1, t2, o1, if_true,
      if_false, Nat.add_assoc, one_ne_zero, odd_mod, odd_div, odd_pred_div, even_mod, even_div,
      even_pred_div]
  intro u1 c1
  refine store_bind3 pc (i * 2 + 1) (j * 2 + 2) c1 (by omega) (by omega) (by omega) (by omega)
    ?_ ?_
  · simp only [bilinearOut, bilinearChroma, chromaAt, g2, b1, b2, o1, if_true,
      if_false, Nat.add_assoc, one_ne_zero, zero_ne_one, odd_mod, odd_div, odd_pred_div, even_mod, even_div,
      even_pred_div]
  intro u2 c2
  refine store_bind3 pc (i * 2 + 2) (j * 2 + 1) c2 (by omega) (by omega) (by omega) (by omega)
    ?_ ?_
  · simp only [bilinearOut, bilinearChroma, chromaAt, g2, t1, t2, e1, if_true,
      if_false, Nat.add_assoc, one_ne_zero, odd_mod, odd_div, odd_pred_div, even_mod, even_div,
      even_pred_div]
  intro u3 c3
  refine store_agrees3 w h _ _ _ u3 _ _ pc (i * 2 + 2) (j * 2 + 2) c3
    (by omega) (by omega) (by omega) (by omega) ?_ ?_
  · simp only [bilinearOut, bilinearChroma, chromaAt, g2, b1, b2, e1, if_true,
      if_false, Nat.add_assoc, one_ne_zero, zero_ne_one, odd_mod, odd_div, odd_pred_div, even_mod, even_div,
      even_pred_div]
  · intro c' x' y' _ _ _ hd
    clear ht c1 c2 c3 hi1 hi2 hi3 hi4 hc2 hsrc
    rcases hd with hd | hd | ⟨hd1, hd2 | hd2, hd3⟩ <;> omega

set_option maxHeartbeats 1000000 in

theorem bilinearRowsBody_step (src : Buf) (w h cw ch pc j : Nat) (s : Buf)
    (hw : w = 2 * cw) (hh : h = 2 * ch) (hp1 : 1 ≤ pc) (hp2 : pc ≤ 2) (hj : j < ch - 1)
    (hcw : 1 ≤ cw) (hsrc : w * h + 2 * (cw * ch) ≤ src.length)
    (hs : Agrees3 w h (bilinearOut src w h cw ch)
      (fun c x y => c < pc ∨ (c = pc ∧ y < 2 * j + 1)) s) :
    ∃ s', YUVFile.bilinearRowsBody w cw (w * h + (pc - 1) * (cw * ch)) (pc * (w * h)) src j s
        = some s' ∧
      Agrees3 w h (bilinearOut src w h cw ch)
        (fun c x y => c < pc ∨ (c = pc ∧ y < 2 * (j + 1) + 1)) s' := by
  have hc2 := plane_offset_le pc (cw * ch) hp1 hp2
  have hb1 := idx_lt 0 j cw ch (by omega) (by omega)
  have hb2 := idx_lt 0 (j + 1) cw ch (by omega) (by omega)
  have g2 : (pc = 0) = False := eq_false (by omega)
  have t1 : (j * 2 + 1 = 0) = False := eq_false (by omega)
  have t2 : (j * 2 + 1 = 2 * ch - 1) = False := eq_false (by omega)
  have b1 : (j * 2 + 2 = 0) = False := eq_false (by omega)
  have b2 : (j * 2 + 2 = 2 * ch - 1) = False := eq_false (by omega)
  have z1 : (0 = 2 * cw - 1) = False := eq_false (by omega)
  have f1 : (w - 1 = 2 * cw - 1) = True := eq_true (by omega)
  have f2 : (w - 2 = 2 * cw - 1) = False := eq_false (by omega)
  have f3 : (w - 2) % 2 = 0 := by omega
  have f4 : (w - 2) / 2 = cw - 1 := by omega
  have f5 : (w - 1 - 1) % 2 = 0 := by omega
  have f6 : (w - 1 - 1) / 2 = cw - 1 := by omega
  unfold YUVFile.bilinearRowsBody
  simp only []
  rw [loadInt_of_lt src _ (by omega), loadInt_of_lt src _ (by omega)]
  simp only [Option.bind_eq_bind, Option.some_bind]
  refine store_bind3 pc 0 (j * 2 + 1) hs (by omega) (by omega) (by omega) (by omega) ?_ ?_
  · simp only [bilinearOut, bilinearChroma, chromaAt, g2, t1, t2, z1, if_true, if_false,
      Nat.add_assoc, Nat.zero_mod, Nat.zero_div, Nat.add_zero, odd_mod, odd_div, odd_pred_div, even_mod, even_div,
      even_pred_div]
  intro s1 a1
  refine store_bind3 pc 0 (j * 2 + 2) a1 (by omega) (by omega) (by omega) (by omega) ?_ ?_
  · simp only [bilinearOut, bilinearChroma, chromaAt, g2, b1, b2, z1, if_true, if_false,
      Nat.add_assoc, Nat.zero_mod, Nat.zero_div, Nat.add_zero, zero_ne_one, odd_mod, odd_div, odd_pred_div, even_mod, even_div,
      even_pred_div]
  intro s2 a2
  refine forLoop_bind
    (I := fun i t => Agrees3 w h (bilinearOut src w h cw ch)
      (fun c x y => c < pc ∨ (c = pc ∧ y < 2 * j + 1) ∨
        (c = pc ∧ (y = 2 * j + 1 ∨ y = 2 * j + 2) ∧ x ≤ 2 * i)) t)
    (agrees3_mono w h _ _ _ s2 a2 (by intro c x y _ _ _ hd; omega))
    (fun i t hi ht => bilinearInnerBody_step src w h cw ch pc j i t hw hh hp1 hp2 hj hi hsrc ht)
    ?_
  intro s3 a3
  refine load_bind3 pc (w - 2) (j * 2 + 1) a3 (by omega) (by omega) (by omega) (by omega)
    (by omega) ?_
  refine store_bind3 pc (w - 1) (j * 2 + 1) a3 (by omega) (by omega) (by omega) (by omega) ?_ ?_
  · simp only [bilinearOut, bilinearChroma, chromaAt, g2, t1, t2, f1, f2, f3, f4, f5, f6,
      if_true, if_false, Nat.add_assoc, odd_mod, odd_div, odd_pred_div, even_mod, even_div,
      even_pred_div]
  intro s4 a4
  refine load_bind3 pc (w - 2) (j * 2 + 2) a4 (by omega) (by omega) (by omega) (by omega)
    (by omega) ?_
  refine store_agrees3 w h _ _ _ s4 _ _ pc (w - 1) (j * 2 + 2) a4
    (by omega) (by omega) (by omega) (by omega) ?_ ?_
  · simp only [bilinearOut, bilinearChroma, chromaAt, g2, b1, b2, f1, f2, f3, f4, f5, f6,
      if_true, if_false, Nat.add_assoc, odd_mod, odd_div, odd_pred_div, even_mod, even_div,
      even_pred_div]
  · intro c' x' y' _ _ _ hd
    clear hs a1 a2 a3 a4 hb1 hb2 hc2 hsrc f3 f4 f5 f6
    rcases hd with hd | ⟨hd1, hd2⟩ <;> omega

theorem memcpy_luma (src dst : Buf) (w h : Nat) (G : Nat → Nat → Nat → Byte)
    (hG : ∀ x y, G 0 x y = src.getD (y * w + x) 0) (hsrc : w * h ≤ src.length)
    (hdst : dst.length = 3 * (w * h)) :
    ∃ s', memcpy dst 0 src 0 (w * h) = some s' ∧ Agrees3 w h G (fun c x y => c < 1) s' := by
  obtain ⟨s', e, a⟩ := forLoop_inv
    (fun i s => Agrees (fun p => src.getD p 0) (fun p => p < i) (3 * (w * h)) s)
    (fun i d => do
      let v ← load src (0 + i)
      store d (0 + i) v) (w * h) dst ⟨hdst, fun k hk => by omega⟩
    (by
      intro i s hi hs
      dsimp only
      rw [load_of_lt src _ (by omega)]
      simp only [Option.bind_eq_bind, Option.some_bind]
      exact store_agrees _ _ _ _ s (0 + i) _ hs (by omega) (by simp) (by intro k hk; omega))
  refine ⟨s', e, a.1, ?_⟩
  intro c x y hc hx hy hd
  have hc0 : c = 0 := by omega
  subst hc0
  have hlt := idx_lt x y w h hx hy
  rw [hG, Nat.zero_mul, Nat.zero_add]
  exact a.2 (y * w + x) hlt (by omega)

theorem bilinearPlane_spec (src : Buf) (w h cw ch pc : Nat) (s : Buf)
    (hw : w = 2 * cw) (hh : h = 2 * ch) (hp1 : 1 ≤ pc) (hp2 : pc ≤ 2)
    (hcw : 1 ≤ cw) (hch : 1 ≤ ch) (hsrc : w * h + 2 * (cw * ch) ≤ src.length)
    (hs : Agrees3 w h (bilinearOut src w h cw ch) (fun c x y => c < pc) s) :
    ∃ s', YUVFile.bilinearPlane w h cw ch (w * h + (pc - 1) * (cw * ch)) (pc * (w * h)) src s
        = some s' ∧
      Agrees3 w h (bilinearOut src w h cw ch) (fun c x y => c < pc + 1) s' := by
  unfold YUVFile.bilinearPlane
  simp only [Option.bind_eq_bind]
  have l0 := bilinearLine_spec src w h cw ch pc 0 0 s hw hh hp1 hp2 (Or.inl ⟨rfl, rfl⟩) hcw hch
    hsrc (agrees3_mono w h _ _ _ s hs (by intro c x y _ _ _ hd; omega))
  simp only [Nat.zero_mul] at l0
  obtain ⟨s1, e1, a1⟩ := l0
  rw [e1, Option.some_bind]
  refine forLoop_bind
    (I := fun j t => Agrees3 w h (bilinearOut src w h cw ch)
      (fun c x y => c < pc ∨ (c = pc ∧ y < 2 * j + 1)) t)
    (agrees3_mono w h _ _ _ s1 a1 (by intro c x y _ _ _ hd; omega))
    (fun j t hj ht => bilinearRowsBody_step src w h cw ch pc j t hw hh hp1 hp2 hj hcw hsrc ht) ?_
  intro s2 a2
  have l1 := bilinearLine_spec src w h cw ch pc (ch - 1) (2 * ch - 1) s2 hw hh hp1 hp2
    (Or.inr ⟨rfl, rfl⟩) hcw hch hsrc
    (agrees3_mono w h _ _ _ s2 a2 (by intro c x y _ _ _ hd; omega))
  obtain ⟨s3, e3, a3⟩ := l1
  have hh1 : h - 1 = 2 * ch - 1 := by omega
  rw [hh1]
  exact ⟨s3, e3, agrees3_mono w h _ _ _ s3 a3 (by intro c x y _ _ hy hd; omega)⟩

theorem convertBilinear_spec (src dst : Buf) (w h cw ch : Nat)
    (hw : w = 2 * cw) (hh : h = 2 * ch) (hcw : 1 ≤ cw) (hch : 1 ≤ ch)
    (hsrc : w * h + 2 * (cw * ch) ≤ src.length) (hdst : dst.length = 3 * (w * h)) :
    ∃ s', YUVFile.convertBilinear w h cw ch src dst = some s' ∧
      Agrees3 w h (bilinearOut src w h cw ch) (fun c x y => True) s' := by
  unfold YUVFile.convertBilinear
  simp only [Option.bind_eq_bind]
  obtain ⟨s0, e0, a0⟩ := memcpy_luma src dst w h (bilinearOut src w h cw ch)
    (fun x y => by simp [bilinearOut]) (by omega) hdst
  rw [e0, Option.some_bind]
  have p1 := bilinearPlane_spec src w h cw ch 1 s0 hw hh (by omega) (by omega) hcw hch hsrc a0
  simp only [Nat.sub_self, Nat.zero_mul, Nat.add_zero, Nat.one_mul] at p1
  obtain ⟨s1, e1, a1⟩ := p1
  rw [e1, Option.some_bind]
  have p2 := bilinearPlane_spec src w h cw ch 2 s1 hw hh (by omega) (by omega) hcw hch hsrc a1
  simp only [Nat.add_one_sub_one, Nat.one_mul, Nat.two_mul] at p2
  obtain ⟨s2, e2, a2⟩ := p2
  exact ⟨s2, e2, agrees3_mono w h _ _ _ s2 a2 (by intro c x y hc _ _ _; omega)⟩

theorem toUChar_of_range (v : Int) (h0 : 0 ≤ v) (h1 : v < 256) : ((toUChar v).val : Int) = v := by
  simp only [toUChar]
  omega

theorem bilinearChroma_range (S : Nat → Nat → Int) (cw ch x y : Nat)
    (hS : ∀ k r, 0 ≤ S k r ∧ S k r < 256) :
    0 ≤ bilinearChroma S cw ch x y ∧ bilinearChroma S cw ch x y < 256 := by
  unfold bilinearChroma
  simp only [Int.shiftRight_eq_div_pow]
  have a1 := hS ((if x = 2 * cw - 1 then x - 1 else x) / 2) 0
  have a2 := hS ((if x = 2 * cw - 1 then x - 1 else x) / 2 + 1) 0
  have a3 := hS ((if x = 2 * cw - 1 then x - 1 else x) / 2) (ch - 1)
  have a4 := hS ((if x = 2 * cw - 1 then x - 1 else x) / 2 + 1) (ch - 1)
  have a5 := hS ((if x = 2 * cw - 1 then x - 1 else x) / 2) ((y - 1) / 2)
  have a6 := hS ((if x = 2 * cw - 1 then x - 1 else x) / 2 + 1) ((y - 1) / 2)
  have a7 := hS ((if x = 2 * cw - 1 then x - 1 else x) / 2) ((y - 1) / 2 + 1)
  have a8 := hS ((if x = 2 * cw - 1 then x - 1 else x) / 2 + 1) ((y - 1) / 2 + 1)
  generalize S ((if x = 2 * cw - 1 then x - 1 else x) / 2) 0 = v1 at *
  generalize S ((if x = 2 * cw - 1 then x - 1 else x) / 2 + 1) 0 = v2 at *
  generalize S ((if x = 2 * cw - 1 then x - 1 else x) / 2) (ch - 1) = v3 at *
  generalize S ((if x = 2 * cw - 1 then x - 1 else x) / 2 + 1) (ch - 1) = v4 at *
  generalize S ((if x = 2 * cw - 1 then x - 1 else x) / 2) ((y - 1) / 2) = v5 at *
  generalize S ((if x = 2 * cw - 1 then x - 1 else x) / 2 + 1) ((y - 1) / 2) = v6 at *
  generalize S ((if x = 2 * cw - 1 then x - 1 else x) / 2) ((y - 1) / 2 + 1) = v7 at *
  generalize S ((if x = 2 * cw - 1 then x - 1 else x) / 2 + 1) ((y - 1) / 2 + 1) = v8 at *
  clear hS
  split_ifs <;> norm_num <;> omega

theorem chromaAt_range (src : Buf) (w h cw ch c k r : Nat) :
    0 ≤ chromaAt src w h cw ch c k r ∧ chromaAt src w h cw ch c k r < 256 := by
  unfold chromaAt
  omega

/-- A sample of the output of the bilinear branch, as an integer. -/
theorem bilinearOut_val (src : Buf) (w h cw ch c x y : Nat) (hc : c ≠ 0) :
    ((bilinearOut src w h cw ch c x y).val : Int) =
      bilinearChroma (chromaAt src w h cw ch c) cw ch x y := by
  unfold bilinearOut
  rw [if_neg hc]
  have hr := bilinearChroma_range (chromaAt src w h cw ch c) cw ch x y
    (fun k r => chromaAt_range src w h cw ch c k r)
  exact toUChar_of_range _ hr.1 hr.2

theorem agrees3_getD (w h : Nat) (G : Nat → Nat → Nat → Byte) (s : Buf) (c x y : Nat)
    (hs : Agrees3 w h G (fun c x y => True) s) (hc : c < 3) (hx : x < w) (hy : y < h) :
    s.getD (c * (w * h) + y * w + x) 0 = G c x y := by
  rw [List.getD_eq_getElem?_getD, hs.2 c x y hc hx hy trivial]
  rfl

theorem convert2YUV444_bilinear (host : Host) (fresh : Nat → Byte) (src dst : Buf) (w h cw ch : Nat)
    (hw : w = 2 * cw) (hh : h = 2 * ch) (hcw : 1 ≤ cw) (hch : 1 ≤ ch)
    (hsrc : src.length = w * h + 2 * (cw * ch)) (hov : 3 * w * h < 2 ^ 31) :
    ∃ out, YUVFile.convert2YUV444 host fresh YUVC_420YpCbCr8PlanarPixelFormat
        BiLinearInterpolation src w h dst = some out ∧
      Agrees3 w h (bilinearOut src w h cw ch) (fun c x y => True) out := by
  have h1 : YUVFile.horizontalSubSampling YUVC_420YpCbCr8PlanarPixelFormat = 2 := rfl
  have h2 : YUVFile.verticalSubSampling YUVC_420YpCbCr8PlanarPixelFormat = 2 := rfl
  have h3 : YUVFile.bytePerComponent YUVC_420YpCbCr8PlanarPixelFormat = 1 := rfl
  have h4 : w / 2 = cw := by omega
  have h5 : h / 2 = ch := by omega
  have h6 : 1 ≤ cw * ch := Nat.mul_pos hcw hch
  have h7 : w ≤ w * h := Nat.le_mul_of_pos_right w (by omega)
  have h8 : 3 * w * h = 3 * (w * h) := Nat.mul_assoc 3 w h
  have h9 : ((2 : Nat) = 0) = False := eq_false (by decide)
  have c1 : ¬ (2 ^ 31 ≤ w * h ∨ 2 ^ 31 ≤ 3 * w ∨ 2 ^ 31 ≤ 3 * w * h ∨ 2 ^ 31 ≤ 3 * w * h) := by
    omega
  have c2 : ¬ (cw * ch = 0) := by omega
  unfold YUVFile.convert2YUV444
  simp only [h1, h2, h3, h4, h5, h9, if_false, Nat.mul_one]
  rw [if_neg c1, if_neg c2, if_neg (by decide), if_neg (by decide), if_neg (by decide),
    if_pos (by decide)]
  apply convertBilinear_spec src _ w h cw ch hw hh hcw hch (by omega)
  split_ifs with hl
  · rw [resize_length]; omega
  · omega

theorem bilinear_sample (src out : Buf) (w h cw ch c x y : Nat)
    (ha : Agrees3 w h (bilinearOut src w h cw ch) (fun c x y => True) out)
    (hc : c = 1 ∨ c = 2) (hx : x < w) (hy : y < h) :
    sampleAt out w h c x y = bilinearChroma (chromaAt src w h cw ch c) cw ch x y := by
  unfold sampleAt
  rw [agrees3_getD w h _ out c x y ha (by omega) hx hy, bilinearOut_val _ _ _ _ _ _ _ _ (by omega)]

/-- C8: for an 8-bit 4:2:0 planar frame with even `w`, `h` of at least 2 in
bilinear mode, with `S k r` the source chroma sample of column `k` and row `r`
of either chroma plane: output rows `0` and `h-1` hold `S k r` in column `2k`,
`(S k r + S (k+1) r + 1) >> 1` in column `2k+1` and `S (w/2-1) r` in the last
column, `r` the first and the last chroma row; rows `2j+1` and `2j+2` hold the
`{3,1}/4` and `{1,3}/4` sums in even columns, the `{6,6,2,2}/16` and
`{2,2,6,6}/16` sums in odd columns, and the last column repeats the column to
its left. -/
theorem convert2YUV444_bilinear_taps (host : Host) (fresh : Nat → Byte) (src dst : Buf)
    (w h : Nat) (hw : w % 2 = 0) (hw2 : 2 ≤ w) (hh : h % 2 = 0) (hh2 : 2 ≤ h)
    (hsrc : src.length = w * h + 2 * ((w / 2) * (h / 2))) (hov : 3 * w * h < 2 ^ 31) :
    ∃ out, YUVFile.convert2YUV444 host fresh YUVC_420YpCbCr8PlanarPixelFormat
        BiLinearInterpolation src w h dst = some out ∧
      out.length = 3 * (w * h) ∧
      ∀ c, c = 1 ∨ c = 2 →
        (∀ y r, (y = 0 ∧ r = 0) ∨ (y = h - 1 ∧ r = h / 2 - 1) →
          (∀ k, k < w / 2 → sampleAt out w h c (2 * k) y = chromaAt src w h (w / 2) (h / 2) c k r) ∧
          (∀ k, k + 1 < w / 2 → sampleAt out w h c (2 * k + 1) y =
            (chromaAt src w h (w / 2) (h / 2) c k r
              + chromaAt src w h (w / 2) (h / 2) c (k + 1) r + 1) >>> (1 : Nat)) ∧
          sampleAt out w h c (w - 1) y = chromaAt src w h (w / 2) (h / 2) c (w / 2 - 1) r) ∧
        (∀ j, j + 1 < h / 2 →
          (∀ k, k < w / 2 →
            sampleAt out w h c (2 * k) (2 * j + 1) =
              (3 * chromaAt src w h (w / 2) (h / 2) c k j
                + chromaAt src w h (w / 2) (h / 2) c k (j + 1) + 2) >>> (2 : Nat) ∧
            sampleAt out w h c (2 * k) (2 * j + 2) =
              (chromaAt src w h (w / 2) (h / 2) c k j
                + 3 * chromaAt src w h (w / 2) (h / 2) c k (j + 1) + 2) >>> (2 : Nat)) ∧
          (∀ k, k + 1 < w / 2 →
            sampleAt out w h c (2 * k + 1) (2 * j + 1) =
              (6 * chromaAt src w h (w / 2) (h / 2) c k j
                + 6 * chromaAt src w h (w / 2) (h / 2) c (k + 1) j
                + 2 * chromaAt src w h (w / 2) (h / 2) c k (j + 1)
                + 2 * chromaAt src w h (w / 2) (h / 2) c (k + 1) (j + 1) + 8) >>> (4 : Nat) ∧
            sampleAt out w h c (2 * k + 1) (2 * j + 2) =
              (2 * chromaAt src w h (w / 2) (h / 2) c k j
                + 2 * chromaAt src w h (w / 2) (h / 2) c (k + 1) j
                + 6 * chromaAt src w h (w / 2) (h / 2) c k (j + 1)
                + 6 * chromaAt src w h (w / 2) (h / 2) c (k + 1) (j + 1) + 8) >>> (4 : Nat)) ∧
          sampleAt out w h c (w - 1) (2 * j + 1) = sampleAt out w h c (w - 2) (2 * j + 1) ∧
          sampleAt out w h c (w - 1) (2 * j + 2) = sampleAt out w h c (w - 2) (2 * j + 2)) := by
  obtain ⟨out, ho, ha⟩ := convert2YUV444_bilinear host fresh src dst w h (w / 2) (h / 2)
    (by omega) (by omega) (by omega) (by omega) hsrc hov
  refine ⟨out, ho, ha.1, ?_⟩
  intro c hc
  generalize hcw : w / 2 = cw at *
  generalize hch : h / 2 = ch at *
  have f1 : (w - 1 = 2 * cw - 1) = True := eq_true (by omega)
  have f2 : (w - 2 = 2 * cw - 1) = False := eq_false (by omega)
  have f5 : (w - 1 - 1) = w - 2 := by omega
  have g5 : (2 * ch - 1 = 0) = False := eq_false (by omega)
  have g6 : (h - 1 = 0) = False := eq_false (by omega)
  have g7 : (h - 1 = 2 * ch - 1) = True := eq_true (by omega)
  have f3 : (w - 2) % 2 = 0 := by omega
  have f4 : (w - 2) / 2 = cw - 1 := by omega
  refine ⟨?_, ?_⟩
  · intro y r hyr
    refine ⟨?_, ?_, ?_⟩
    · intro k hk
      have e1 : (2 * k = 2 * cw - 1) = False := eq_false (by omega)
      have e3 : (2 * k) % 2 = 0 := by omega
      have e4 : (2 * k) / 2 = k := by omega
      rw [bilinear_sample src out w h cw ch c (2 * k) y ha hc (by omega) (by omega)]
      rcases hyr with ⟨rfl, rfl⟩ | ⟨rfl, rfl⟩ <;>
        simp only [bilinearChroma, e1, e3, e4, g5, g6, g7, if_true, if_false]
    · intro k hk
      have o1 : (2 * k + 1 = 2 * cw - 1) = False := eq_false (by omega)
      have o3 : (2 * k + 1) % 2 = 1 := by omega
      have o4 : (2 * k + 1) / 2 = k := by omega
      rw [bilinear_sample src out w h cw ch c (2 * k + 1) y ha hc (by omega) (by omega)]
      rcases hyr with ⟨rfl, rfl⟩ | ⟨rfl, rfl⟩ <;>
        simp only [bilinearChroma, o1, o3, o4, g5, g6, g7, if_true, if_false, one_ne_zero]
    · rw [bilinear_sample src out w h cw ch c (w - 1) y ha hc (by omega) (by omega)]
      rcases hyr with ⟨rfl, rfl⟩ | ⟨rfl, rfl⟩ <;>
        simp only [bilinearChroma, f1, f5, f3, f4, g5, g6, g7, if_true, if_false]
  · intro j hj
    have t1 : (2 * j + 1 = 0) = False := eq_false (by omega)
    have t2 : (2 * j + 1 = 2 * ch - 1) = False := eq_false (by omega)
    have t3 : (2 * j + 1) % 2 = 1 := by omega
    have t4 : (2 * j + 1 - 1) / 2 = j := by omega
    have b1 : (2 * j + 2 = 0) = False := eq_false (by omega)
    have b2 : (2 * j + 2 = 2 * ch - 1) = False := eq_false (by omega)
    have b3 : (2 * j + 2) % 2 = 0 := by omega
    have b4 : (2 * j + 2 - 1) / 2 = j := by omega
    refine ⟨?_, ?_, ?_, ?_⟩
    · intro k hk
      have e1 : (2 * k = 2 * cw - 1) = False := eq_false (by omega)
      have e3 : (2 * k) % 2 = 0 := by omega
      have e4 : (2 * k) / 2 = k := by omega
      rw [bilinear_sample src out w h cw ch c (2 * k) (2 * j + 1) ha hc (by omega) (by omega),
        bilinear_sample src out w h cw ch c (2 * k) (2 * j + 2) ha hc (by omega) (by omega)]
      simp only [bilinearChroma, e1, e3, e4, t1, t2, t3, t4, b1, b2, b3, b4, if_true, if_false,
        zero_ne_one, and_self]
    · intro k hk
      have o1 : (2 * k + 1 = 2 * cw - 1) = False := eq_false (by omega)
      have o3 : (2 * k + 1) % 2 = 1 := by omega
      have o4 : (2 * k + 1) / 2 = k := by omega
      rw [bilinear_sample src out w h cw ch c (2 * k + 1) (2 * j + 1) ha hc (by omega) (by omega),
        bilinear_sample src out w h cw ch c (2 * k + 1) (2 * j + 2) ha hc (by omega) (by omega)]
      simp only [bilinearChroma, o1, o3, o4, t1, t2, t3, t4, b1, b2, b3, b4, if_true, if_false,
        zero_ne_one, one_ne_zero, and_self]
    · rw [bilinear_sample src out w h cw ch c (w - 1) (2 * j + 1) ha hc (by omega) (by omega),
        bilinear_sample src out w h cw ch c (w - 2) (2 * j + 1) ha hc (by omega) (by omega)]
      simp only [bilinearChroma, f1, f2, f5, if_true, if_false]
    · rw [bilinear_sample src out w h cw ch c (w - 1) (2 * j + 2) ha hc (by omega) (by omega),
        bilinear_sample src out w h cw ch c (w - 2) (2 * j + 2) ha hc (by omega) (by omega)]
      simp only [bilinearChroma, f1, f2, f5, if_true, if_false]

theorem interstitialLineBody_step (src : Buf) (w h cw ch pc r y0 i : Nat) (t : Buf)
    (hw : w = 2 * cw) (hh : h = 2 * ch) (hp1 : 1 ≤ pc) (hp2 : pc ≤ 2) (hi : i < cw - 1)
    (hr : (y0 = 0 ∧ r = 0) ∨ (y0 = 2 * ch - 1 ∧ r = ch - 1)) (hch : 1 ≤ ch)
    (hsrc : w * h + 2 * (cw * ch) ≤ src.length)
    (ht : Agrees3 w h (interstitialOut src w h cw ch)
      (fun c x y => c < pc ∨ (c = pc ∧ y < y0) ∨ (c = pc ∧ y = y0 ∧ x ≤ 2 * i)) t) :
    ∃ t', YUVFile.interstitialLineBody (w * h + (pc - 1) * (cw * ch)) (pc * (w * h)) (r * cw)
        (y0 * w) src i t = some t' ∧
      Agrees3 w h (interstitialOut src w h cw ch)
        (fun c x y => c < pc ∨ (c = pc ∧ y < y0) ∨ (c = pc ∧ y = y0 ∧ x ≤ 2 * (i + 1))) t' := by
  have hc2 := plane_offset_le pc (cw * ch) hp1 hp2
  have hb1 := idx_lt i r cw ch (by omega) (by omega)
  have hb2 := idx_lt (i + 1) r cw ch (by omega) (by omega)
  have g2 : (pc = 0) = False := eq_false (by omega)
  have g5 : (2 * ch - 1 = 0) = False := eq_false (by omega)
  have g6 : (2 * ch - 1 - 1) / 2 = ch - 1 := by omega
  have o0 : (i * 2 + 1 = 0) = False := eq_false (by omega)
  have o1 : (i * 2 + 1 = 2 * cw - 1) = False := eq_false (by omega)
  have e0 : (i * 2 + 2 = 0) = False := eq_false (by omega)
  have e1 : (i * 2 + 2 = 2 * cw - 1) = False := eq_false (by omega)
  unfold YUVFile.interstitialLineBody
  rw [loadInt_of_lt src _ (by omega), loadInt_of_lt src _ (by omega)]
  simp only [Option.bind_eq_bind, Option.some_bind]
  refine store_bind3 pc (i * 2 + 1) y0 ht (by omega) (by omega) (by omega) (by omega) ?_ ?_
  · rcases hr with ⟨rfl, rfl⟩ | ⟨rfl, rfl⟩ <;>
      simp only [interstitialOut, interstitialChroma, chromaAt, o0, o1, g2, g5, g6, Nat.zero_sub, Nat.zero_div, true_or, or_true, if_true,
        or_self, or_false, false_or, if_false, Nat.add_assoc, one_ne_zero, or_self, odd_mod, odd_div, odd_pred_div, even_mod, even_div,
      even_pred_div]
  · intro s2 a2
    refine store_agrees3 w h _ _ _ s2 _ _ pc (i * 2 + 2) y0 a2
      (by omega) (by omega) (by omega) (by omega) ?_ (by intro c' x' y' _ _ _ hd; omega)
    rcases hr with ⟨rfl, rfl⟩ | ⟨rfl, rfl⟩ <;>
      simp only [interstitialOut, interstitialChroma, chromaAt, e0, e1, g2, g5, g6, Nat.zero_sub, Nat.zero_div, true_or, or_true, if_true,
        or_self, or_false, false_or, if_false, Nat.add_assoc, zero_ne_one, or_self, odd_mod, odd_div, odd_pred_div, even_mod, even_div,
      even_pred_div]

theorem interstitialLine_spec (src : Buf) (w h cw ch pc r y0 : Nat) (s : Buf)
    (hw : w = 2 * cw) (hh : h = 2 * ch) (hp1 : 1 ≤ pc) (hp2 : pc ≤ 2)
    (hr : (y0 = 0 ∧ r = 0) ∨ (y0 = 2 * ch - 1 ∧ r = ch - 1)) (hcw : 1 ≤ cw) (hch : 1 ≤ ch)
    (hsrc : w * h + 2 * (cw * ch) ≤ src.length)
    (hs : Agrees3 w h (interstitialOut src w h cw ch)
      (fun c x y => c < pc ∨ (c = pc ∧ y < y0)) s) :
    ∃ s', YUVFile.interstitialLine w cw (w * h + (pc - 1) * (cw * ch)) (pc * (w * h)) (r * cw)
        (y0 * w) src s = some s' ∧
      Agrees3 w h (interstitialOut src w h cw ch)
        (fun c x y => c < pc ∨ (c = pc ∧ y < y0 + 1)) s' := by
  have hc2 := plane_offset_le pc (cw * ch) hp1 hp2
  have hb1 := idx_lt 0 r cw ch (by omega) (by omega)
  have hb2 := idx_lt (cw - 1) r cw ch (by omega) (by omega)
  have g2 : (pc = 0) = False := eq_false (by omega)
  have g5 : (2 * ch - 1 = 0) = False := eq_false (by omega)
  have g6 : (2 * ch - 1 - 1) / 2 = ch - 1 := by omega
  have f1 : (w - 1 = 2 * cw - 1) = True := eq_true (by omega)
  have f6 : (w - 1 - 1) / 2 = cw - 1 := by omega
  have f7 : r * cw + cw - 1 = r * cw + (cw - 1) := by omega
  unfold YUVFile.interstitialLine
  rw [load_of_lt src _ (by omega), load_of_lt src _ (by omega)]
  simp only [Option.bind_eq_bind, Option.some_bind]
  refine store_bind3 pc 0 y0 hs (by omega) (by omega) (by omega) (by omega) ?_ ?_
  · rcases hr with ⟨rfl, rfl⟩ | ⟨rfl, rfl⟩ <;>
      simp only [interstitialOut, interstitialChroma, chromaAt, g2, g5, g6, Nat.zero_sub, Nat.zero_div, true_or, or_true, if_true, or_self, or_false, false_or, if_false,
        Nat.add_assoc, toUChar_val, Nat.zero_div, Nat.add_zero, Nat.zero_sub, true_or]
  intro s1 a1
  refine forLoop_bind
    (I := fun i t => Agrees3 w h (interstitialOut src w h cw ch)
      (fun c x y => c < pc ∨ (c = pc ∧ y < y0) ∨ (c = pc ∧ y = y0 ∧ x ≤ 2 * i)) t)
    (agrees3_mono w h _ _ _ s1 a1 (by intro c x y _ _ _ hd; omega))
    (fun i t hi ht => interstitialLineBody_step src w h cw ch pc r y0 i t hw hh hp1 hp2 hi hr hch
      hsrc ht) ?_
  intro s3 a3
  refine store_agrees3 w h _ _ _ s3 _ _ pc (w - 1) y0 a3
    (by omega) (by omega) (by omega) (by omega) ?_ (by intro c' x' y' _ _ _ hd; omega)
  rcases hr with ⟨rfl, rfl⟩ | ⟨rfl, rfl⟩ <;>
    simp only [interstitialOut, interstitialChroma, chromaAt, f1, g2, f6, f7, g5, g6, Nat.zero_sub, Nat.zero_div, true_or, or_true, if_true,
      or_self, or_false, false_or, if_false, Nat.add_assoc, toUChar_val, or_true]

set_option maxHeartbeats 1000000 in
theorem interstitialInnerBody_step (src : Buf) (w h cw ch pc j i : Nat) (t : Buf)
    (hw : w = 2 * cw) (hh : h = 2 * ch) (hp1 : 1 ≤ pc) (hp2 : pc ≤ 2) (hj : j < ch - 1)
    (hi : i < cw - 1) (hsrc : w * h + 2 * (cw * ch) ≤ src.length)
    (ht : Agrees3 w h (interstitialOut src w h cw ch)
      (fun c x y => c < pc ∨ (c = pc ∧ y < 2 * j + 1) ∨
        (c = pc ∧ (y = 2 * j + 1 ∨ y = 2 * j + 2) ∧ x ≤ 2 * i)) t) :
    ∃ t', YUVFile.interstitialInnerBody (w * h + (pc - 1) * (cw * ch)) (pc * (w * h)) (j * cw)
        ((j + 1) * cw) ((j * 2 + 1) * w) ((j * 2 + 2) * w) src i t = some t' ∧
      Agrees3 w h (interstitialOut src w h cw ch)
        (fun c x y => c < pc ∨ (c = pc ∧ y < 2 * j + 1) ∨
          (c = pc ∧ (y = 2 * j + 1 ∨ y = 2 * j + 2) ∧ x ≤ 2 * (i + 1))) t' := by
  have hc2 := plane_offset_le pc (cw * ch) hp1 hp2
  have hi1 := idx_lt i j cw ch (by omega) (by omega)
  have hi2 := idx_lt (i + 1) j cw ch (by omega) (by omega)
  have hi3 := idx_lt i (j + 1) cw ch (by omega) (by omega)
  have hi4 := idx_lt (i + 1) (j + 1) cw ch (by omega) (by omega)
  have g2 : (pc = 0) = False := eq_false (by omega)
  have t1 : (j * 2 + 1 = 0) = False := eq_false (by omega)
  have t2 : (j * 2 + 1 = 2 * ch - 1) = False := eq_false (by omega)
  have b1 : (j * 2 + 2 = 0) = False := eq_false (by omega)
  have b2 : (j * 2 + 2 = 2 * ch - 1) = False := eq_false (by omega)
  have o0 : (i * 2 + 1 = 0) = False := eq_false (by omega)
  have o1 : (i * 2 + 1 = 2 * cw - 1) = False := eq_false (by omega)
  have e0 : (i * 2 + 2 = 0) = False := eq_false (by omega)
  have e1 : (i * 2 + 2 = 2 * cw - 1) = False := eq_false (by omega)
  unfold YUVFile.interstitialInnerBody
  rw [loadInt_of_lt src _ (by omega), loadInt_of_lt src _ (by omega),
    loadInt_of_lt src _ (by omega), loadInt_of_lt src _ (by omega)]
  simp only [Option.bind_eq_bind, Option.some_bind]
  refine store_bind3 pc (i * 2 + 1) (j * 2 + 1) ht (by omega) (by omega) (by omega) (by omega)
    ?_ ?_
  · simp only [interstitialOut, interstitialChroma, chromaAt, g2, t1, t2, o0, o1, if_true, or_self, or_false, false_or, if_false, Nat.add_assoc, one_ne_zero, or_self, odd_mod, odd_div, odd_pred_div, even_mod, even_div,
      even_pred_div]
  intro u1 c1
  refine store_bind3 pc (i * 2 + 1) (j * 2 + 2) c1 (by omega) (by omega) (by omega) (by omega)
    ?_ ?_
  · simp only [interstitialOut, interstitialChroma, chromaAt, g2, b1, b2, o0, o1, if_true, or_self, or_false, false_or, if_false, Nat.add_assoc, one_ne_zero, zero_ne_one, or_self, odd_mod, odd_div, odd_pred_div, even_mod, even_div,
      even_pred_div]
  intro u2 c2
  refine store_bind3 pc (i * 2 + 2) (j * 2 + 1) c2 (by omega) (by omega) (by omega) (by omega)
    ?_ ?_
  · simp only [interstitialOut, interstitialChroma, chromaAt, g2, t1, t2, e0, e1, if_true, or_self, or_false, false_or, if_false, Nat.add_assoc, one_ne_zero, zero_ne_one, or_self, odd_mod, odd_div, odd_pred_div, even_mod, even_div,
      even_pred_div]
  intro u3 c3
  refine store_agrees3 w h _ _ _ u3 _ _ pc (i * 2 + 2) (j * 2 + 2) c3
    (by omega) (by omega) (by omega) (by omega) ?_ ?_
  · simp only [interstitialOut, interstitialChroma, chromaAt, g2, b1, b2, e0, e1, if_true, or_self, or_false, false_or, if_false, Nat.add_assoc, one_ne_zero, zero_ne_one, or_self, odd_mod, odd_div, odd_pred_div, even_mod, even_div,
      even_pred_div]
  · intro c' x' y' _ _ _ hd
    clear ht c1 c2 c3 hi1 hi2 hi3 hi4 hc2 hsrc
    rcases hd with hd | hd | ⟨hd1, hd2 | hd2, hd3⟩ <;> omega

set_option maxHeartbeats 1000000 in
theorem interstitialRowsBody_step (src : Buf) (w h cw ch pc j : Nat) (s : Buf)
    (hw : w = 2 * cw) (hh : h = 2 * ch) (hp1 : 1 ≤ pc) (hp2 : pc ≤ 2) (hj : j < ch - 1)
    (hcw : 1 ≤ cw) (hsrc : w * h + 2 * (cw * ch) ≤ src.length)
    (hs : Agrees3 w h (interstitialOut src w h cw ch)
      (fun c x y => c < pc ∨ (c = pc ∧ y < 2 * j + 1)) s) :
    ∃ s', YUVFile.interstitialRowsBody w cw (w * h + (pc - 1) * (cw * ch)) (pc * (w * h)) src j s
        = some s' ∧
      Agrees3 w h (interstitialOut src w h cw ch)
        (fun c x y => c < pc ∨ (c = pc ∧ y < 2 * (j + 1) + 1)) s' := by
  have hc2 := plane_offset_le pc (cw * ch) hp1 hp2
  have hb1 := idx_lt 0 j cw ch (by omega) (by omega)
  have hb2 := idx_lt 0 (j + 1) cw ch (by omega) (by omega)
  have hb3 := idx_lt (cw - 1) j cw ch (by omega) (by omega)
  have hb4 := idx_lt (cw - 1) (j + 1) cw ch (by omega) (by omega)
  have g2 : (pc = 0) = False := eq_false (by omega)
  have t1 : (j * 2 + 1 = 0) = False := eq_false (by omega)
  have t2 : (j * 2 + 1 = 2 * ch - 1) = False := eq_false (by omega)
  have b1 : (j * 2 + 2 = 0) = False := eq_false (by omega)
  have b2 : (j * 2 + 2 = 2 * ch - 1) = False := eq_false (by omega)
  have f1 : (w - 1 = 2 * cw - 1) = True := eq_true (by omega)
  have f6 : (w - 1 - 1) / 2 = cw - 1 := by omega
  have f7 : j * cw + cw - 1 = j * cw + (cw - 1) := by omega
  have f8 : (j + 1) * cw + cw - 1 = (j + 1) * cw + (cw - 1) := by omega
  unfold YUVFile.interstitialRowsBody
  simp only []
  rw [loadInt_of_lt src _ (by omega), loadInt_of_lt src _ (by omega),
    loadInt_of_lt src _ (by omega), loadInt_of_lt src _ (by omega)]
  simp only [Option.bind_eq_bind, Option.some_bind]
  refine store_bind3 pc 0 (j * 2 + 1) hs (by omega) (by omega) (by omega) (by omega) ?_ ?_
  · simp only [interstitialOut, interstitialChroma, chromaAt, g2, t1, t2, if_true,
      or_self, or_false, false_or, if_false, Nat.add_assoc, Nat.zero_div, Nat.add_zero, Nat.zero_sub, true_or, odd_mod, odd_div, odd_pred_div, even_mod, even_div,
      even_pred_div]
  intro s1 a1
  refine store_bind3 pc 0 (j * 2 + 2) a1 (by omega) (by omega) (by omega) (by omega) ?_ ?_
  · simp only [interstitialOut, interstitialChroma, chromaAt, g2, b1, b2, if_true,
      or_self, or_false, false_or, if_false, Nat.add_assoc, Nat.zero_div, Nat.add_zero, Nat.zero_sub, true_or, zero_ne_one, odd_mod, odd_div, odd_pred_div, even_mod, even_div,
      even_pred_div]
  intro s2 a2
  refine forLoop_bind
    (I := fun i t => Agrees3 w h (interstitialOut src w h cw ch)
      (fun c x y => c < pc ∨ (c = pc ∧ y < 2 * j + 1) ∨
        (c = pc ∧ (y = 2 * j + 1 ∨ y = 2 * j + 2) ∧ x ≤ 2 * i)) t)
    (agrees3_mono w h _ _ _ s2 a2 (by intro c x y _ _ _ hd; omega))
    (fun i t hi ht => interstitialInnerBody_step src w h cw ch pc j i t hw hh hp1 hp2 hj hi hsrc
      ht) ?_
  intro s3 a3
  refine store_bind3 pc (w - 1) (j * 2 + 1) a3 (by omega) (by omega) (by omega) (by omega) ?_ ?_
  · simp only [interstitialOut, interstitialChroma, chromaAt, g2, t1, t2, f1, f6, f7, f8,
      if_true, or_self, or_false, false_or, if_false, Nat.add_assoc, or_true, odd_mod, odd_div, odd_pred_div, even_mod, even_div,
      even_pred_div]
  intro s4 a4
  refine store_agrees3 w h _ _ _ s4 _ _ pc (w - 1) (j * 2 + 2) a4
    (by omega) (by omega) (by omega) (by omega) ?_ ?_
  · simp only [interstitialOut, interstitialChroma, chromaAt, g2, b1, b2, f1, f6, f7, f8,
      if_true, or_self, or_false, false_or, if_false, Nat.add_assoc, or_true, zero_ne_one, odd_mod, odd_div, odd_pred_div, even_mod, even_div,
      even_pred_div]
  · intro c' x' y' _ _ _ hd
    clear hs a1 a2 a3 a4 hb1 hb2 hb3 hb4 hc2 hsrc f6 f7 f8
    rcases hd with hd | ⟨hd1, hd2⟩ <;> omega

theorem interstitialPlane_spec (src : Buf) (w h cw ch pc : Nat) (s : Buf)
    (hw : w = 2 * cw) (hh : h = 2 * ch) (hp1 : 1 ≤ pc) (hp2 : pc ≤ 2)
    (hcw : 1 ≤ cw) (hch : 1 ≤ ch) (hsrc : w * h + 2 * (cw * ch) ≤ src.length)
    (hs : Agrees3 w h (interstitialOut src w h cw ch) (fun c x y => c < pc) s) :
    ∃ s', YUVFile.interstitialPlane w h cw ch (w * h + (pc - 1) * (cw * ch)) (pc * (w * h)) src s
        = some s' ∧
      Agrees3 w h (interstitialOut src w h cw ch) (fun c x y => c < pc + 1) s' := by
  unfold YUVFile.interstitialPlane
  simp only [Option.bind_eq_bind]
  have l0 := interstitialLine_spec src w h cw ch pc 0 0 s hw hh hp1 hp2 (Or.inl ⟨rfl, rfl⟩) hcw
    hch hsrc (agrees3_mono w h _ _ _ s hs (by intro c x y _ _ _ hd; omega))
  simp only [Nat.zero_mul] at l0
  obtain ⟨s1, e1, a1⟩ := l0
  rw [e1, Option.some_bind]
  refine forLoop_bind
    (I := fun j t => Agrees3 w h (interstitialOut src w h cw ch)
      (fun c x y => c < pc ∨ (c = pc ∧ y < 2 * j + 1)) t)
    (agrees3_mono w h _ _ _ s1 a1 (by intro c x y _ _ _ hd; omega))
    (fun j t hj ht => interstitialRowsBody_step src w h cw ch pc j t hw hh hp1 hp2 hj hcw hsrc ht)
    ?_
  intro s2 a2
  have l1 := interstitialLine_spec src w h cw ch pc (ch - 1) (2 * ch - 1) s2 hw hh hp1 hp2
    (Or.inr ⟨rfl, rfl⟩) hcw hch hsrc
    (agrees3_mono w h _ _ _ s2 a2 (by intro c x y _ _ _ hd; omega))
  obtain ⟨s3, e3, a3⟩ := l1
  have hh1 : h - 1 = 2 * ch - 1 := by omega
  rw [hh1]
  exact ⟨s3, e3, agrees3_mono w h _ _ _ s3 a3 (by intro c x y _ _ hy hd; omega)⟩

theorem convertInterstitial_spec (src dst : Buf) (w h cw ch : Nat)
    (hw : w = 2 * cw) (hh : h = 2 * ch) (hcw : 1 ≤ cw) (hch : 1 ≤ ch)
    (hsrc : w * h + 2 * (cw * ch) ≤ src.length) (hdst : dst.length = 3 * (w * h)) :
    ∃ s', YUVFile.convertInterstitial w h cw ch src dst = some s' ∧
      Agrees3 w h (interstitialOut src w h cw ch) (fun c x y => True) s' := by
  unfold YUVFile.convertInterstitial
  simp only [Option.bind_eq_bind]
  obtain ⟨s0, e0, a0⟩ := memcpy_luma src dst w h (interstitialOut src w h cw ch)
    (fun x y => by simp [interstitialOut]) (by omega) hdst
  rw [e0, Option.some_bind]
  have p1 := interstitialPlane_spec src w h cw ch 1 s0 hw hh (by omega) (by omega) hcw hch hsrc a0
  simp only [Nat.sub_self, Nat.zero_mul, Nat.add_zero, Nat.one_mul] at p1
  obtain ⟨s1, e1, a1⟩ := p1
  rw [e1, Option.some_bind]
  have p2 := interstitialPlane_spec src w h cw ch 2 s1 hw hh (by omega) (by omega) hcw hch hsrc a1
  simp only [Nat.add_one_sub_one, Nat.one_mul, Nat.two_mul] at p2
  obtain ⟨s2, e2, a2⟩ := p2
  exact ⟨s2, e2, agrees3_mono w h _ _ _ s2 a2 (by intro c x y hc _ _ _; omega)⟩

theorem convert2YUV444_interstitial (host : Host) (fresh : Nat → Byte) (src dst : Buf)
    (w h cw ch : Nat) (hw : w = 2 * cw) (hh : h = 2 * ch) (hcw : 1 ≤ cw) (hch : 1 ≤ ch)
    (hsrc : src.length = w * h + 2 * (cw * ch)) (hov : 3 * w * h < 2 ^ 31) :
    ∃ out, YUVFile.convert2YUV444 host fresh YUVC_420YpCbCr8PlanarPixelFormat
        InterstitialInterpolation src w h dst = some out ∧
      Agrees3 w h (interstitialOut src w h cw ch) (fun c x y => True) out := by
  have h1 : YUVFile.horizontalSubSampling YUVC_420YpCbCr8PlanarPixelFormat = 2 := rfl
  have h2 : YUVFile.verticalSubSampling YUVC_420YpCbCr8PlanarPixelFormat = 2 := rfl
  have h3 : YUVFile.bytePerComponent YUVC_420YpCbCr8PlanarPixelFormat = 1 := rfl
  have h4 : w / 2 = cw := by omega
  have h5 : h / 2 = ch := by omega
  have h6 : 1 ≤ cw * ch := Nat.mul_pos hcw hch
  have h7 : w ≤ w * h := Nat.le_mul_of_pos_right w (by omega)
  have h8 : 3 * w * h = 3 * (w * h) := Nat.mul_assoc 3 w h
  have h9 : ((2 : Nat) = 0) = False := eq_false (by decide)
  have c1 : ¬ (2 ^ 31 ≤ w * h ∨ 2 ^ 31 ≤ 3 * w ∨ 2 ^ 31 ≤ 3 * w * h ∨ 2 ^ 31 ≤ 3 * w * h) := by
    omega
  have c2 : ¬ (cw * ch = 0) := by omega
  unfold YUVFile.convert2YUV444
  simp only [h1, h2, h3, h4, h5, h9, if_false, Nat.mul_one]
  rw [if_neg c1, if_neg c2, if_neg (by decide), if_neg (by decide), if_neg (by decide),
    if_neg (by decide), if_pos (by decide)]
  apply convertInterstitial_spec src _ w h cw ch hw hh hcw hch (by omega)
  split_ifs with hl
  · rw [resize_length]; omega
  · omega

theorem clampIdx_first (x n : Nat) (hx : x < 2 * n) :
    clampIdx (((x : Int) - 1) / 2) n = (x - 1) / 2 := by
  unfold clampIdx
  omega

theorem clampIdx_second (x n : Nat) (hx : x < 2 * n) :
    clampIdx (((x : Int) - 1) / 2 + 1) n =
      if x = 0 ∨ x = 2 * n - 1 then (x - 1) / 2 else (x - 1) / 2 + 1 := by
  unfold clampIdx
  split_ifs <;> omega

/-- The closed form of the interstitial branch is the weighted 2 x 2 sum of
the spec. -/
theorem interstitialChroma_eq_spec (S : Nat → Nat → Int) (cw ch x y : Nat) (hx : x < 2 * cw)
    (hy : y < 2 * ch) : interstitialChroma S cw ch x y = interstitialSpec S cw ch x y := by
  unfold interstitialSpec interstitialChroma
  simp only [clampIdx_first x cw hx, clampIdx_second x cw hx, clampIdx_first y ch hy,
    clampIdx_second y ch hy, Int.shiftRight_eq_div_pow]
  generalize (x - 1) / 2 = k
  generalize (y - 1) / 2 = j
  by_cases hX : (x = 0 ∨ x = 2 * cw - 1) <;> by_cases hY : (y = 0 ∨ y = 2 * ch - 1) <;>
    by_cases hxo : x % 2 = 1 <;> by_cases hyo : y % 2 = 1 <;>
    simp only [hX, hY, hxo, hyo, if_true, if_false] <;>
    generalize S k j = a <;> generalize S (k + 1) j = b <;> generalize S k (j + 1) = c <;>
    generalize S (k + 1) (j + 1) = d <;> norm_num <;> omega

theorem interstitialChroma_range (S : Nat → Nat → Int) (cw ch x y : Nat)
    (hS : ∀ k r, 0 ≤ S k r ∧ S k r < 256) :
    0 ≤ interstitialChroma S cw ch x y ∧ interstitialChroma S cw ch x y < 256 := by
  unfold interstitialChroma
  simp only [Int.shiftRight_eq_div_pow]
  have a1 := hS ((x - 1) / 2) ((y - 1) / 2)
  have a2 := hS ((x - 1) / 2 + 1) ((y - 1) / 2)
  have a3 := hS ((x - 1) / 2) ((y - 1) / 2 + 1)
  have a4 := hS ((x - 1) / 2 + 1) ((y - 1) / 2 + 1)
  generalize S ((x - 1) / 2) ((y - 1) / 2) = v1 at *
  generalize S ((x - 1) / 2 + 1) ((y - 1) / 2) = v2 at *
  generalize S ((x - 1) / 2) ((y - 1) / 2 + 1) = v3 at *
  generalize S ((x - 1) / 2 + 1) ((y - 1) / 2 + 1) = v4 at *
  clear hS
  split_ifs <;> norm_num <;> omega

theorem interstitial_sample (src out : Buf) (w h cw ch c x y : Nat)
    (ha : Agrees3 w h (interstitialOut src w h cw ch) (fun c x y => True) out)
    (hc : c = 1 ∨ c = 2) (hx : x < w) (hy : y < h) :
    sampleAt out w h c x y = interstitialChroma (chromaAt src w h cw ch c) cw ch x y := by
  unfold sampleAt
  rw [agrees3_getD w h _ out c x y ha (by omega) hx hy]
  unfold interstitialOut
  rw [if_neg (by omega)]
  have hr := interstitialChroma_range (chromaAt src w h cw ch c) cw ch x y
    (fun k r => chromaAt_range src w h cw ch c k r)
  exact toUChar_of_range _ hr.1 hr.2

/-- C7: for an 8-bit 4:2:0 planar frame with even `w`, `h` of at least 2 in
interstitial mode, every output sample `(x, y)` of both chroma planes is the
weighted sum of the spec over the 2 x 2 neighbouring source chroma samples,
plus 8, shifted right by 4; and for a 4 x 2 frame whose chroma row is
`[a, b]` both output chroma rows are
`[a, (3a+b+2)>>2, (a+3b+2)>>2, b]`. -/
theorem convert2YUV444_interstitial_kernel (host : Host) (fresh : Nat → Byte) (src dst : Buf)
    (w h : Nat) (hw : w % 2 = 0) (hw2 : 2 ≤ w) (hh : h % 2 = 0) (hh2 : 2 ≤ h)
    (hsrc : src.length = w * h + 2 * ((w / 2) * (h / 2))) (hov : 3 * w * h < 2 ^ 31) :
    ∃ out, YUVFile.convert2YUV444 host fresh YUVC_420YpCbCr8PlanarPixelFormat
        InterstitialInterpolation src w h dst = some out ∧
      out.length = 3 * (w * h) ∧
      (∀ c, c = 1 ∨ c = 2 → ∀ x y, x < w → y < h →
        sampleAt out w h c x y =
          interstitialSpec (chromaAt src w h (w / 2) (h / 2) c) (w / 2) (h / 2) x y) ∧
      (w = 4 → h = 2 → ∀ c, c = 1 ∨ c = 2 → ∀ y, y < 2 →
        sampleAt out w h c 0 y = chromaAt src w h 2 1 c 0 0 ∧
        sampleAt out w h c 1 y =
          (3 * chromaAt src w h 2 1 c 0 0 + chromaAt src w h 2 1 c 1 0 + 2) >>> (2 : Nat) ∧
        sampleAt out w h c 2 y =
          (chromaAt src w h 2 1 c 0 0 + 3 * chromaAt src w h 2 1 c 1 0 + 2) >>> (2 : Nat) ∧
        sampleAt out w h c 3 y = chromaAt src w h 2 1 c 1 0) := by
  obtain ⟨out, ho, ha⟩ := convert2YUV444_interstitial host fresh src dst w h (w / 2) (h / 2)
    (by omega) (by omega) (by omega) (by omega) hsrc hov
  refine ⟨out, ho, ha.1, ?_, ?_⟩
  · intro c hc x y hx hy
    rw [interstitial_sample src out w h (w / 2) (h / 2) c x y ha hc hx hy]
    exact interstitialChroma_eq_spec _ _ _ x y (by omega) (by omega)
  · intro hw4 hh2' c hc y hy
    subst hw4 hh2'
    have hy' : y = 0 ∨ y = 1 := by omega
    rw [interstitial_sample src out 4 2 (4 / 2) (2 / 2) c 0 y ha hc (by omega) (by omega),
      interstitial_sample src out 4 2 (4 / 2) (2 / 2) c 1 y ha hc (by omega) (by omega),
      interstitial_sample src out 4 2 (4 / 2) (2 / 2) c 2 y ha hc (by omega) (by omega),
      interstitial_sample src out 4 2 (4 / 2) (2 / 2) c 3 y ha hc (by omega) (by omega)]
    rcases hy' with rfl | rfl <;> simp [interstitialChroma]

theorem holdDivBody_step (src : Buf) (w h cw ch hs vs srcU srcV y x : Nat) (t : Buf)
    (hw : w = hs * cw) (hh : h = vs * ch) (hy : y < h) (hx : x < w)
    (hU : srcU + cw * ch ≤ src.length) (hV : srcV + cw * ch ≤ src.length)
    (ht : Agrees3 w h (holdOut src w cw hs vs srcU srcV)
      (fun c x' y' => c = 0 ∨ y' < y ∨ (y' = y ∧ x' < x)) t) :
    ∃ t', YUVFile.holdDivBody w cw hs vs srcU srcV (w * h) (w * h + w * h) src y x t = some t' ∧
      Agrees3 w h (holdOut src w cw hs vs srcU srcV)
        (fun c x' y' => c = 0 ∨ y' < y ∨ (y' = y ∧ x' < x + 1)) t' := by
  have hxd : x / hs < cw := Nat.div_lt_of_lt_mul (by omega)
  have hyd : y / vs < ch := Nat.div_lt_of_lt_mul (by omega)
  have hb := idx_lt (x / hs) (y / vs) cw ch hxd hyd
  unfold YUVFile.holdDivBody
  rw [load_of_lt src _ (by omega), load_of_lt src _ (by omega)]
  simp only [Option.bind_eq_bind, Option.some_bind]
  refine store_bind3 1 x y ht (by omega) (by omega) (by omega) (by omega) ?_ ?_
  · simp only [holdOut, one_ne_zero, if_true, if_false]
  intro s1 a1
  refine store_agrees3 w h _ _ _ s1 _ _ 2 x y a1 (by omega) (by omega) (by omega) (by omega) ?_ ?_
  · simp only [holdOut, OfNat.ofNat_ne_zero, OfNat.ofNat_ne_one, if_true, if_false]
  · intro c' x' y' _ _ _ hd
    clear ht a1 hb hU hV hxd hyd
    omega

theorem holdDiv_loops (src dst : Buf) (w h cw ch hs vs srcU srcV : Nat)
    (hw : w = hs * cw) (hh : h = vs * ch)
    (hU : srcU + cw * ch ≤ src.length) (hV : srcV + cw * ch ≤ src.length)
    (hs0 : Agrees3 w h (holdOut src w cw hs vs srcU srcV) (fun c x y => c < 1) dst) :
    ∃ out, forLoop h (fun y d => forLoop w
        (YUVFile.holdDivBody w cw hs vs srcU srcV (w * h) (w * h + w * h) src y) d) dst
        = some out ∧
      Agrees3 w h (holdOut src w cw hs vs srcU srcV) (fun c x y => True) out := by
  obtain ⟨out, e, a⟩ := forLoop_inv
    (fun y s => Agrees3 w h (holdOut src w cw hs vs srcU srcV) (fun c x' y' => c = 0 ∨ y' < y) s)
    (fun y d => forLoop w
      (YUVFile.holdDivBody w cw hs vs srcU srcV (w * h) (w * h + w * h) src y) d) h dst
    (agrees3_mono w h _ _ _ dst hs0 (by intro c x y _ _ _ hd; omega))
    (by
      intro y s hy hst
      obtain ⟨s', e', a'⟩ := forLoop_inv
        (fun x t => Agrees3 w h (holdOut src w cw hs vs srcU srcV)
          (fun c x' y' => c = 0 ∨ y' < y ∨ (y' = y ∧ x' < x)) t)
        (YUVFile.holdDivBody w cw hs vs srcU srcV (w * h) (w * h + w * h) src y) w s
        (agrees3_mono w h _ _ _ s hst (by intro c x' y' _ _ _ hd; omega))
        (fun x t hx ht => holdDivBody_step src w h cw ch hs vs srcU srcV y x t hw hh hy hx hU hV
          ht)
      exact ⟨s', e', agrees3_mono w h _ _ _ s' a' (by intro c x' y' _ _ _ hd; omega)⟩)
  exact ⟨out, e, agrees3_mono w h _ _ _ out a (by intro c x' y' _ _ _ hd; omega)⟩

theorem hold420Body_step (src : Buf) (w h cw ch srcU srcV y x : Nat) (t : Buf)
    (hw : w = 2 * cw) (hh : h = 2 * ch) (hy : y < ch) (hx : x < cw)
    (hU : srcU + cw * ch ≤ src.length) (hV : srcV + cw * ch ≤ src.length)
    (ht : Agrees3 w h (holdOut src w cw 2 2 srcU srcV)
      (fun c x' y' => c = 0 ∨ y' < 2 * y ∨ (y' = 2 * y ∧ x' < 2 * x)) t) :
    ∃ t', YUVFile.hold420Body w cw srcU srcV (w * h) (w * h + w * h) src y x t = some t' ∧
      Agrees3 w h (holdOut src w cw 2 2 srcU srcV)
        (fun c x' y' => c = 0 ∨ y' < 2 * y ∨ (y' = 2 * y ∧ x' < 2 * (x + 1))) t' := by
  have hb := idx_lt x y cw ch hx hy
  have o4 : (2 * x + 1) / 2 = x := by omega
  have e4 : (2 * x) / 2 = x := by omega
  have y4 : (2 * y) / 2 = y := by omega
  unfold YUVFile.hold420Body
  rw [load_of_lt src _ (by omega), load_of_lt src _ (by omega)]
  simp only [Option.bind_eq_bind, Option.some_bind]
  refine store_bind3 1 (2 * x + 1) (2 * y) ht (by omega) (by omega) (by omega) (by omega) ?_ ?_
  · simp only [holdOut, one_ne_zero, if_true, if_false, o4, y4]
  intro s1 a1
  refine store_bind3 1 (2 * x) (2 * y) a1 (by omega) (by omega) (by omega) (by omega) ?_ ?_
  · simp only [holdOut, one_ne_zero, if_true, if_false, e4, y4]
  intro s2 a2
  refine store_bind3 2 (2 * x + 1) (2 * y) a2 (by omega) (by omega) (by omega) (by omega) ?_ ?_
  · simp only [holdOut, OfNat.ofNat_ne_zero, OfNat.ofNat_ne_one, if_true, if_false, o4, y4]
  intro s3 a3
  refine store_agrees3 w h _ _ _ s3 _ _ 2 (2 * x) (2 * y) a3
    (by omega) (by omega) (by omega) (by omega) ?_ ?_
  · simp only [holdOut, OfNat.ofNat_ne_zero, OfNat.ofNat_ne_one, if_true, if_false, e4, y4]
  · intro c' x' y' _ _ _ hd
    clear ht a1 a2 a3 hb hU hV o4 e4 y4
    rcases hd with hd | hd | ⟨hd1, hd2⟩ <;> omega

theorem hold420Copy_step (src : Buf) (w h cw ch srcU srcV y pc i : Nat) (t : Buf)
    (hw : w = 2 * cw) (hh : h = 2 * ch) (hy : y < ch) (hi : i < w) (hp1 : 1 ≤ pc) (hp2 : pc ≤ 2)
    (ht : Agrees3 w h (holdOut src w cw 2 2 srcU srcV)
      (fun c x' y' => c = 0 ∨ y' < 2 * y + 1 ∨ (y' = 2 * y + 1 ∧ (c < pc ∨ (c = pc ∧ x' < i))))
      t) :
    ∃ t', (do
        let v ← load t (pc * (w * h) + (2 * y) * w + i)
        store t (pc * (w * h) + (2 * y + 1) * w + i) v) = some t' ∧
      Agrees3 w h (holdOut src w cw 2 2 srcU srcV)
        (fun c x' y' => c = 0 ∨ y' < 2 * y + 1 ∨
          (y' = 2 * y + 1 ∧ (c < pc ∨ (c = pc ∧ x' < i + 1)))) t' := by
  have y4 : (2 * y) / 2 = y := by omega
  have y5 : (2 * y + 1) / 2 = y := by omega
  have g2 : (pc = 0) = False := eq_false (by omega)
  simp only [Option.bind_eq_bind]
  refine load_bind3 pc i (2 * y) ht (by omega) (by omega) (by omega) (by omega) (by omega) ?_
  refine store_agrees3 w h _ _ _ t _ _ pc i (2 * y + 1) ht
    (by omega) (by omega) (by omega) (by omega) ?_ ?_
  · simp only [holdOut, y4, y5, g2, if_false]
  · intro c' x' y' _ _ _ hd
    clear ht
    omega

theorem hold420Rows_step (src : Buf) (w h cw ch srcU srcV y : Nat) (s : Buf)
    (hw : w = 2 * cw) (hh : h = 2 * ch) (hy : y < ch)
    (hU : srcU + cw * ch ≤ src.length) (hV : srcV + cw * ch ≤ src.length)
    (hst : Agrees3 w h (holdOut src w cw 2 2 srcU srcV) (fun c x' y' => c = 0 ∨ y' < 2 * y) s) :
    ∃ s', YUVFile.hold420Rows w cw srcU srcV (w * h) (w * h + w * h) src y s = some s' ∧
      Agrees3 w h (holdOut src w cw 2 2 srcU srcV)
        (fun c x' y' => c = 0 ∨ y' < 2 * (y + 1)) s' := by
  unfold YUVFile.hold420Rows memcpyWithin
  simp only [Option.bind_eq_bind]
  refine forLoop_bind
    (I := fun x t => Agrees3 w h (holdOut src w cw 2 2 srcU srcV)
      (fun c x' y' => c = 0 ∨ y' < 2 * y ∨ (y' = 2 * y ∧ x' < 2 * x)) t)
    (agrees3_mono w h _ _ _ s hst (by intro c x' y' _ _ _ hd; omega))
    (fun x t hx ht => hold420Body_step src w h cw ch srcU srcV y x t hw hh hy hx hU hV ht) ?_
  intro s1 a1
  refine forLoop_bind
    (I := fun i t => Agrees3 w h (holdOut src w cw 2 2 srcU srcV)
      (fun c x' y' => c = 0 ∨ y' < 2 * y + 1 ∨
        (y' = 2 * y + 1 ∧ (c < 1 ∨ (c = 1 ∧ x' < i)))) t)
    (agrees3_mono w h _ _ _ s1 a1 (by intro c x' y' _ _ _ hd; omega)) ?_ ?_
  · intro i t hi ht
    have hc := hold420Copy_step src w h cw ch srcU srcV y 1 i t hw hh hy hi (by omega) (by omega)
      ht
    simp only [Nat.one_mul, Nat.add_assoc] at hc ⊢
    exact hc
  intro s2 a2
  obtain ⟨s3, e3, a3⟩ := forLoop_inv
    (fun i t => Agrees3 w h (holdOut src w cw 2 2 srcU srcV)
      (fun c x' y' => c = 0 ∨ y' < 2 * y + 1 ∨
        (y' = 2 * y + 1 ∧ (c < 2 ∨ (c = 2 ∧ x' < i)))) t)
    (fun i d => do
      let v ← load d (w * h + w * h + (2 * y) * w + i)
      store d (w * h + w * h + (2 * y + 1) * w + i) v) w s2
    (agrees3_mono w h _ _ _ s2 a2 (by intro c x' y' _ _ _ hd; omega))
    (by
      intro i t hi ht
      have hc := hold420Copy_step src w h cw ch srcU srcV y 2 i t hw hh hy hi (by omega)
        (by omega) ht
      simp only [Nat.two_mul (w * h)] at hc
      exact hc)
  exact ⟨s3, e3, agrees3_mono w h _ _ _ s3 a3 (by intro c x' y' hc _ _ hd; omega)⟩

theorem hold420_loops (src dst : Buf) (w h cw ch srcU srcV : Nat)
    (hw : w = 2 * cw) (hh : h = 2 * ch)
    (hU : srcU + cw * ch ≤ src.length) (hV : srcV + cw * ch ≤ src.length)
    (hs0 : Agrees3 w h (holdOut src w cw 2 2 srcU srcV) (fun c x y => c < 1) dst) :
    ∃ out, forLoop ch (YUVFile.hold420Rows w cw srcU srcV (w * h) (w * h + w * h) src) dst
        = some out ∧
      Agrees3 w h (holdOut src w cw 2 2 srcU srcV) (fun c x y => True) out := by
  obtain ⟨out, e, a⟩ := forLoop_inv
    (fun y s => Agrees3 w h (holdOut src w cw 2 2 srcU srcV)
      (fun c x' y' => c = 0 ∨ y' < 2 * y) s)
    (YUVFile.hold420Rows w cw srcU srcV (w * h) (w * h + w * h) src) ch dst
    (agrees3_mono w h _ _ _ dst hs0 (by intro c x y _ _ _ hd; omega))
    (fun y s hy hst => hold420Rows_step src w h cw ch srcU srcV y s hw hh hy hU hV hst)
  exact ⟨out, e, agrees3_mono w h _ _ _ out a (by intro c x' y' _ _ _ hd; omega)⟩

theorem convertHold_spec (fmt : YUVCPixelFormatType) (src dst : Buf) (w h cw ch hs vs : Nat)
    (hfmt : (hs = 2 ∧ vs = 2) ∨ (vs = 1 ∧ (hs = 1 ∨ hs = 2 ∨ hs = 4)))
    (hw : w = hs * cw) (hh : h = vs * ch)
    (hsrc : w * h + 2 * (cw * ch) ≤ src.length) (hdst : dst.length = 3 * (w * h)) :
    ∃ out, YUVFile.convertHold fmt w h cw ch hs vs src dst = some out ∧
      Agrees3 w h (holdOut src w cw hs vs
        (w * h + (if YUVFile.reverseUV fmt then cw * ch else 0))
        (w * h + (if YUVFile.reverseUV fmt then 0 else cw * ch))) (fun c x y => True) out := by
  unfold YUVFile.convertHold
  simp only [Option.bind_eq_bind]
  have hU : w * h + (if YUVFile.reverseUV fmt then cw * ch else 0) + cw * ch ≤ src.length := by
    split_ifs <;> omega
  have hV : w * h + (if YUVFile.reverseUV fmt then 0 else cw * ch) + cw * ch ≤ src.length := by
    split_ifs <;> omega
  obtain ⟨s0, e0, a0⟩ := memcpy_luma src dst w h
    (holdOut src w cw hs vs (w * h + (if YUVFile.reverseUV fmt then cw * ch else 0))
      (w * h + (if YUVFile.reverseUV fmt then 0 else cw * ch)))
    (fun x y => by simp [holdOut]) (by omega) hdst
  rw [e0, Option.some_bind]
  rcases hfmt with ⟨rfl, rfl⟩ | ⟨rfl, rfl | rfl | rfl⟩
  · rw [if_pos (by decide)]
    exact hold420_loops src s0 w h cw ch _ _ hw hh hU hV a0
  · rw [if_neg (by decide), if_neg (by decide), if_neg (by decide)]
    exact holdDiv_loops src s0 w h cw ch 1 1 _ _ hw hh hU hV a0
  · rw [if_neg (by decide), if_neg (by decide), if_neg (by decide)]
    exact holdDiv_loops src s0 w h cw ch 2 1 _ _ hw hh hU hV a0
  · rw [if_neg (by decide), if_neg (by decide), if_neg (by decide)]
    exact holdDiv_loops src s0 w h cw ch 4 1 _ _ hw hh hU hV a0

/-- The planar 8-bit formats with chroma, and their subsampling. -/
theorem hold_formats (fmt : YUVCPixelFormatType) (hpl : YUVFile.isPlanar fmt = true)
    (hbps : YUVFile.bitsPerSample fmt = 8) (hchroma : YUVFile.horizontalSubSampling fmt ≠ 0) :
    YUVFile.bytePerComponent fmt = 1 ∧
    fmt ≠ YUVC_UYVY422PixelFormat ∧ fmt ≠ YUVC_UYVY422YpCbCr10PixelFormat ∧
    fmt ≠ YUVC_422YpCbCr10PixelFormat ∧
    ((YUVFile.horizontalSubSampling fmt = 2 ∧ YUVFile.verticalSubSampling fmt = 2 ∧
        fmt = YUVC_420YpCbCr8PlanarPixelFormat) ∨
      (YUVFile.verticalSubSampling fmt = 1 ∧ fmt ≠ YUVC_420YpCbCr8PlanarPixelFormat ∧
        (YUVFile.horizontalSubSampling fmt = 1 ∨ YUVFile.horizontalSubSampling fmt = 2 ∨
          YUVFile.horizontalSubSampling fmt = 4))) := by
  cases fmt <;> first
    | exact absurd hpl (by decide)
    | exact absurd hbps (by decide)
    | exact absurd rfl hchroma
    | decide

theorem convert2YUV444_hold (host : Host) (fresh : Nat → Byte) (fmt : YUVCPixelFormatType)
    (mode : InterpolationMode) (src dst : Buf) (w h cw ch : Nat)
    (hpl : YUVFile.isPlanar fmt = true) (hbps : YUVFile.bitsPerSample fmt = 8)
    (hchroma : YUVFile.horizontalSubSampling fmt ≠ 0)
    (hmode : fmt = YUVC_420YpCbCr8PlanarPixelFormat → mode = NearestNeighborInterpolation)
    (hw : w = YUVFile.horizontalSubSampling fmt * cw)
    (hh : h = YUVFile.verticalSubSampling fmt * ch) (hcw : 1 ≤ cw) (hch : 1 ≤ ch)
    (hsrc : src.length = w * h + 2 * (cw * ch)) (hov : 3 * w * h < 2 ^ 31) :
    ∃ out, YUVFile.convert2YUV444 host fresh fmt mode src w h dst = some out ∧
      Agrees3 w h (holdOut src w cw (YUVFile.horizontalSubSampling fmt)
        (YUVFile.verticalSubSampling fmt)
        (w * h + (if YUVFile.reverseUV fmt then cw * ch else 0))
        (w * h + (if YUVFile.reverseUV fmt then 0 else cw * ch))) (fun c x y => True) out := by
  obtain ⟨e3, n1, n2, n3, hsub⟩ := hold_formats fmt hpl hbps hchroma
  generalize ehs : YUVFile.horizontalSubSampling fmt = hs at *
  generalize evs : YUVFile.verticalSubSampling fmt = vs at *
  have hfmt : (hs = 2 ∧ vs = 2) ∨ (vs = 1 ∧ (hs = 1 ∨ hs = 2 ∨ hs = 4)) := by
    rcases hsub with ⟨a, b, _⟩ | ⟨a, _, b⟩
    · exact Or.inl ⟨a, b⟩
    · exact Or.inr ⟨a, b⟩
  have n4 : ¬ (fmt = YUVC_420YpCbCr8PlanarPixelFormat ∧ mode = BiLinearInterpolation) := by
    rintro ⟨a, b⟩
    rw [hmode a] at b
    exact absurd b (by decide)
  have n5 : ¬ (fmt = YUVC_420YpCbCr8PlanarPixelFormat ∧ mode = InterstitialInterpolation) := by
    rintro ⟨a, b⟩
    rw [hmode a] at b
    exact absurd b (by decide)
  have hs1 : 1 ≤ hs := by omega
  have hvs1 : 1 ≤ vs := by omega
  have h4 : w / hs = cw := by rw [hw]; exact Nat.mul_div_cancel_left cw hs1
  have h5 : h / vs = ch := by rw [hh]; exact Nat.mul_div_cancel_left ch hvs1
  have h6 : 1 ≤ cw * ch := Nat.mul_pos hcw hch
  have hh0 : 1 ≤ h := by rw [hh]; exact Nat.mul_pos hvs1 hch
  have h7 : w ≤ w * h := Nat.le_mul_of_pos_right w hh0
  have h8 : 3 * w * h = 3 * (w * h) := Nat.mul_assoc 3 w h
  have c1 : ¬ (2 ^ 31 ≤ w * h ∨ 2 ^ 31 ≤ 3 * w ∨ 2 ^ 31 ≤ 3 * w * h ∨ 2 ^ 31 ≤ 3 * w * h) := by
    omega
  have c2 : ¬ (cw * ch = 0) := by omega
  have z1 : (hs = 0) = False := eq_false (by omega)
  have z2 : (vs = 0) = False := eq_false (by omega)
  unfold YUVFile.convert2YUV444
  simp only [ehs, evs, e3, h4, h5, z1, z2, if_false, Nat.mul_one]
  rw [if_neg c1, if_neg c2, if_neg n1, if_neg n2, if_neg n3, if_neg n4, if_neg n5,
    if_pos ⟨hpl, hbps⟩]
  apply convertHold_spec fmt src _ w h cw ch hs vs hfmt hw hh (by omega)
  split_ifs with hl
  · rw [resize_length]; omega
  · omega

theorem agrees3_unique (w h : Nat) (G : Nat → Nat → Nat → Byte) (s t : Buf) (hw : 0 < w)
    (hh : 0 < h) (hs : Agrees3 w h G (fun c x y => True) s)
    (ht : Agrees3 w h G (fun c x y => True) t) : s = t := by
  apply List.ext_getElem?
  intro p
  by_cases hp : p < 3 * (w * h)
  · have hwh : 0 < w * h := Nat.mul_pos hw hh
    have h1 : p % (w * h) < w * h := Nat.mod_lt _ hwh
    have h2 : p % (w * h) / w < h := Nat.div_lt_of_lt_mul h1
    have h3 : p % (w * h) % w < w := Nat.mod_lt _ hw
    have h4 : p / (w * h) < 3 := Nat.div_lt_of_lt_mul (by rw [Nat.mul_comm]; exact hp)
    have h5 : p = p / (w * h) * (w * h) + p % (w * h) / w * w + p % (w * h) % w := by
      have a1 := Nat.div_add_mod p (w * h)
      have a2 := Nat.div_add_mod (p % (w * h)) w
      have a3 : w * h * (p / (w * h)) = p / (w * h) * (w * h) := Nat.mul_comm _ _
      have a4 : w * (p % (w * h) / w) = p % (w * h) / w * w := Nat.mul_comm _ _
      omega
    rw [h5, hs.2 _ _ _ h4 h3 h2 trivial, ht.2 _ _ _ h4 h3 h2 trivial]
  · rw [List.getElem?_eq_none (by rw [hs.1]; omega), List.getElem?_eq_none (by rw [ht.1]; omega)]

theorem agrees3_congr (w h : Nat) (G G' : Nat → Nat → Nat → Byte) (s : Buf)
    (hs : Agrees3 w h G (fun c x y => True) s)
    (hG : ∀ c x y, c < 3 → x < w → y < h → G c x y = G' c x y) :
    Agrees3 w h G' (fun c x y => True) s :=
  ⟨hs.1, fun c x y hc hx hy _ => by rw [← hG c x y hc hx hy]; exact hs.2 c x y hc hx hy trivial⟩

theorem swapChroma_length (src : Buf) (n m : Nat) : (swapChroma src n m).length = src.length := by
  simp [swapChroma]

theorem swapChroma_getD (src : Buf) (n m p : Nat) (hp : p < src.length) :
    (swapChroma src n m).getD p 0 =
      if p < n then src.getD p 0
      else if p < n + m then src.getD (p + m) 0
      else src.getD (p - m) 0 := by
  unfold swapChroma
  rw [List.getD_eq_getElem?_getD, List.getElem?_map, List.getElem?_range hp]
  rfl

/-- C9: for every planar 8-bit format with chroma that the sample-and-hold
branch handles (4:4:4, 4:2:2, 4:1:1 and their Y'CrCb variants, 4:2:0 in
nearest-neighbour mode), with subsampling `hs`, `vs`, a width that is a
positive multiple of `hs` and a height that is a positive multiple of `vs`,
every output chroma sample `(x, y)` is the source sample
`x / hs + (y / vs) * (w / hs)` of the U (and V) plane, which starts at
`srcU` (and `srcV`) in the source. -/
theorem convert2YUV444_sample_and_hold (host : Host) (fresh : Nat → Byte)
    (fmt : YUVCPixelFormatType) (mode : InterpolationMode) (src dst : Buf) (w h : Nat)
    (hpl : YUVFile.isPlanar fmt = true) (hbps : YUVFile.bitsPerSample fmt = 8)
    (hchroma : YUVFile.horizontalSubSampling fmt ≠ 0)
    (hmode : fmt = YUVC_420YpCbCr8PlanarPixelFormat → mode = NearestNeighborInterpolation)
    (hw : w % YUVFile.horizontalSubSampling fmt = 0) (hw0 : 0 < w)
    (hh : h % YUVFile.verticalSubSampling fmt = 0) (hh0 : 0 < h)
    (hsrc : src.length = w * h + 2 * ((w / YUVFile.horizontalSubSampling fmt)
      * (h / YUVFile.verticalSubSampling fmt)))
    (hov : 3 * w * h < 2 ^ 31) :
    ∃ out, YUVFile.convert2YUV444 host fresh fmt mode src w h dst = some out ∧
      out.length = 3 * (w * h) ∧
      ∀ x y, x < w → y < h →
        out.getD (w * h + (x + y * w)) 0 =
          src.getD (w * h + (if YUVFile.reverseUV fmt then
              (w / YUVFile.horizontalSubSampling fmt) * (h / YUVFile.verticalSubSampling fmt)
              else 0)
            + (x / YUVFile.horizontalSubSampling fmt
              + (y / YUVFile.verticalSubSampling fmt)
                * (w / YUVFile.horizontalSubSampling fmt))) 0 ∧
        out.getD (2 * (w * h) + (x + y * w)) 0 =
          src.getD (w * h + (if YUVFile.reverseUV fmt then 0 else
              (w / YUVFile.horizontalSubSampling fmt) * (h / YUVFile.verticalSubSampling fmt))
            + (x / YUVFile.horizontalSubSampling fmt
              + (y / YUVFile.verticalSubSampling fmt)
                * (w / YUVFile.horizontalSubSampling fmt))) 0 := by
  have hsub := (hold_formats fmt hpl hbps hchroma).2.2.2.2
  have hvs0 : YUVFile.verticalSubSampling fmt ≠ 0 := by
    rcases hsub with ⟨_, b, _⟩ | ⟨b, _, _⟩ <;> omega
  have e1 : w = YUVFile.horizontalSubSampling fmt * (w / YUVFile.horizontalSubSampling fmt) :=
    (Nat.mul_div_cancel' (Nat.dvd_of_mod_eq_zero hw)).symm
  have e2 : h = YUVFile.verticalSubSampling fmt * (h / YUVFile.verticalSubSampling fmt) :=
    (Nat.mul_div_cancel' (Nat.dvd_of_mod_eq_zero hh)).symm
  have hcw : 1 ≤ w / YUVFile.horizontalSubSampling fmt :=
    Nat.div_pos (Nat.le_of_dvd hw0 (Nat.dvd_of_mod_eq_zero hw)) (Nat.pos_of_ne_zero hchroma)
  have hch : 1 ≤ h / YUVFile.verticalSubSampling fmt :=
    Nat.div_pos (Nat.le_of_dvd hh0 (Nat.dvd_of_mod_eq_zero hh)) (Nat.pos_of_ne_zero hvs0)
  obtain ⟨out, ho, ha⟩ := convert2YUV444_hold host fresh fmt mode src dst w h _ _ hpl hbps hchroma
    hmode e1 e2 hcw hch hsrc hov
  refine ⟨out, ho, ha.1, ?_⟩
  intro x y hx hy
  have g1 := agrees3_getD w h _ out 1 x y ha (by omega) hx hy
  have g2 := agrees3_getD w h _ out 2 x y ha (by omega) hx hy
  simp only [holdOut, one_ne_zero, OfNat.ofNat_ne_zero, OfNat.ofNat_ne_one, if_true, if_false]
    at g1 g2
  rw [← g1, ← g2]
  constructor
  · congr 1
    omega
  · congr 1
    omega

/-- C10: for the two reversed-plane-order formats and every valid frame,
`convert2YUV444` gives the output of the corresponding Y'CbCr format on the
source with its two chroma planes exchanged; the output U plane is expanded
from the second stored chroma plane and the output V plane from the first. -/
theorem convert2YUV444_reversed_planes (host : Host) (fresh : Nat → Byte)
    (fmtR fmtN : YUVCPixelFormatType) (mode : InterpolationMode) (src dst : Buf) (w h : Nat)
    (hfmt : (fmtR = YUVC_444YpCrCb8PlanarPixelFormat ∧ fmtN = YUVC_444YpCbCr8PlanarPixelFormat) ∨
      (fmtR = YUVC_422YpCrCb8PlanarPixelFormat ∧ fmtN = YUVC_422YpCbCr8PlanarPixelFormat))
    (hw : w % YUVFile.horizontalSubSampling fmtR = 0) (hw0 : 0 < w) (hh0 : 0 < h)
    (hsrc : src.length = w * h + 2 * ((w / YUVFile.horizontalSubSampling fmtR) * h))
    (hov : 3 * w * h < 2 ^ 31) :
    YUVFile.convert2YUV444 host fresh fmtR mode src w h dst =
        YUVFile.convert2YUV444 host fresh fmtN mode
          (swapChroma src (w * h) ((w / YUVFile.horizontalSubSampling fmtR) * h)) w h dst ∧
      ∃ out, YUVFile.convert2YUV444 host fresh fmtR mode src w h dst = some out ∧
        ∀ x y, x < w → y < h →
          out.getD (w * h + (x + y * w)) 0 =
            src.getD (w * h + (w / YUVFile.horizontalSubSampling fmtR) * h
              + (x / YUVFile.horizontalSubSampling fmtR
                + y * (w / YUVFile.horizontalSubSampling fmtR))) 0 ∧
          out.getD (2 * (w * h) + (x + y * w)) 0 =
            src.getD (w * h + (x / YUVFile.horizontalSubSampling fmtR
                + y * (w / YUVFile.horizontalSubSampling fmtR))) 0 := by
  have key : ∃ hs, YUVFile.horizontalSubSampling fmtR = hs ∧
      YUVFile.horizontalSubSampling fmtN = hs ∧ YUVFile.verticalSubSampling fmtR = 1 ∧
      YUVFile.verticalSubSampling fmtN = 1 ∧ hs ≠ 0 ∧ YUVFile.isPlanar fmtR = true ∧
      YUVFile.isPlanar fmtN = true ∧ YUVFile.bitsPerSample fmtR = 8 ∧
      YUVFile.bitsPerSample fmtN = 8 ∧ YUVFile.reverseUV fmtR = true ∧
      YUVFile.reverseUV fmtN = false ∧ fmtR ≠ YUVC_420YpCbCr8PlanarPixelFormat ∧
      fmtN ≠ YUVC_420YpCbCr8PlanarPixelFormat := by
    rcases hfmt with ⟨rfl, rfl⟩ | ⟨rfl, rfl⟩
    · exact ⟨1, by decide⟩
    · exact ⟨2, by decide⟩
  obtain ⟨hs, k1, k2, k3, k4, k5, k6, k7, k8, k9, k10, k11, k12, k13⟩ := key
  rw [k1] at hw hsrc ⊢
  have e1 : w = hs * (w / hs) := (Nat.mul_div_cancel' (Nat.dvd_of_mod_eq_zero hw)).symm
  have hcw : 1 ≤ w / hs :=
    Nat.div_pos (Nat.le_of_dvd hw0 (Nat.dvd_of_mod_eq_zero hw)) (Nat.pos_of_ne_zero k5)
  obtain ⟨out, ho, ha⟩ := convert2YUV444_hold host fresh fmtR mode src dst w h (w / hs) h k6 k8
    (by rw [k1]; exact k5) (fun hc => absurd hc k12) (by rw [k1]; exact e1)
    (by rw [k3, Nat.one_mul]) hcw hh0 hsrc hov
  obtain ⟨out', ho', ha'⟩ := convert2YUV444_hold host fresh fmtN mode
    (swapChroma src (w * h) ((w / hs) * h)) dst w h (w / hs) h k7 k9
    (by rw [k2]; exact k5) (fun hc => absurd hc k13) (by rw [k2]; exact e1)
    (by rw [k4, Nat.one_mul]) hcw hh0 (by rw [swapChroma_length]; exact hsrc) hov
  simp only [k1, k2, k3, k4, k10, k11, if_true, Bool.false_eq_true, if_false, Nat.add_zero,
    Nat.div_one] at ha ha'
  have hxy : ∀ x y, x < w → y < h → y * (w / hs) + x / hs < (w / hs) * h := by
    intro x y hx hy
    exact idx_lt (x / hs) y (w / hs) h (Nat.div_lt_of_lt_mul (by omega)) hy
  have heq : out = out' := by
    apply agrees3_unique w h _ out out' hw0 hh0 ha
    apply agrees3_congr w h _ _ out' ha'
    intro c x y hc hx hy
    have b1 := idx_lt x y w h hx hy
    have b2 := hxy x y hx hy
    simp only [holdOut, Nat.div_one]
    generalize x / hs = q at *
    generalize w / hs = cw at *
    rw [swapChroma_getD src _ _ _ (by omega), swapChroma_getD src _ _ _ (by omega),
      swapChroma_getD src _ _ _ (by omega)]
    split_ifs <;> first | rfl | omega | (congr 1; omega)
  refine ⟨by rw [ho, ho', heq], out, ho, ?_⟩
  intro x y hx hy
  have g1 := agrees3_getD w h _ out 1 x y ha (by omega) hx hy
  have g2 := agrees3_getD w h _ out 2 x y ha (by omega) hx hy
  simp only [holdOut, one_ne_zero, OfNat.ofNat_ne_zero, OfNat.ofNat_ne_one, if_true, if_false,
    Nat.div_one] at g1 g2
  rw [← g1, ← g2]
  constructor
  · congr 1
    omega
  · congr 1
    omega

/-- C7, at a 4 x 2 frame with the chroma rows `[10, 20]` and `[30, 50]`:
the conversion returns, and the second U sample is `(3*10+20+2)>>2 = 13`,
the third V sample of the second row `(30+3*50+2)>>2 = 45`. -/
theorem convert2YUV444_interstitial_kernel_witness :
    ∃ out, YUVFile.convert2YUV444 ⟨false, false, true⟩ (fun _ => 0)
        YUVC_420YpCbCr8PlanarPixelFormat InterstitialInterpolation
        [1, 2, 3, 4, 5, 6, 7, 8, 10, 20, 30, 50] 4 2 [] = some out ∧
      out.length = 24 ∧ sampleAt out 4 2 1 1 0 = 13 ∧ sampleAt out 4 2 2 2 1 = 45 := by
  obtain ⟨out, h1, h2, _, h4⟩ := convert2YUV444_interstitial_kernel ⟨false, false, true⟩
    (fun _ => 0) [1, 2, 3, 4, 5, 6, 7, 8, 10, 20, 30, 50] [] 4 2 (by decide) (by decide)
    (by decide) (by decide) (by decide) (by decide)
  refine ⟨out, h1, h2, ?_, ?_⟩
  · rw [(h4 rfl rfl 1 (Or.inl rfl) 0 (by decide)).2.1]
    decide
  · rw [(h4 rfl rfl 2 (Or.inr rfl) 1 (by decide)).2.2.1]
    decide

/-- C8, at a 4 x 2 frame with the chroma rows `[10, 20]` and `[30, 50]`:
the conversion returns, the second U sample is `(10+20+1)>>1 = 15` and the
last V sample of the second row is 50. -/
theorem convert2YUV444_bilinear_taps_witness :
    ∃ out, YUVFile.convert2YUV444 ⟨false, false, true⟩ (fun _ => 0)
        YUVC_420YpCbCr8PlanarPixelFormat BiLinearInterpolation
        [1, 2, 3, 4, 5, 6, 7, 8, 10, 20, 30, 50] 4 2 [] = some out ∧
      out.length = 24 ∧ sampleAt out 4 2 1 1 0 = 15 ∧ sampleAt out 4 2 2 (4 - 1) (2 - 1) = 50 := by
  obtain ⟨out, h1, h2, h3⟩ := convert2YUV444_bilinear_taps ⟨false, false, true⟩
    (fun _ => 0) [1, 2, 3, 4, 5, 6, 7, 8, 10, 20, 30, 50] [] 4 2 (by decide) (by decide)
    (by decide) (by decide) (by decide) (by decide)
  refine ⟨out, h1, h2, ?_, ?_⟩
  · rw [((h3 1 (Or.inl rfl)).1 0 0 (Or.inl ⟨rfl, rfl⟩)).2.1 0 (by decide)]
    decide
  · rw [((h3 2 (Or.inr rfl)).1 (2 - 1) (2 / 2 - 1) (Or.inr ⟨rfl, rfl⟩)).2.2]
    decide

/-- C9, at a 4 x 1 frame of the 4:1:1 format with U = `[10]` and V = `[30]`:
the conversion returns and every output chroma sample is the one source
sample of its plane. -/
theorem convert2YUV444_sample_and_hold_witness :
    ∃ out, YUVFile.convert2YUV444 ⟨false, false, true⟩ (fun _ => 0)
        YUVC_411YpCbCr8PlanarPixelFormat NearestNeighborInterpolation
        [1, 2, 3, 4, 10, 30] 4 1 [] = some out ∧
      out.length = 12 ∧ out.getD (4 * 1 + (3 + 0 * 4)) 0 = 10 ∧
      out.getD (2 * (4 * 1) + (2 + 0 * 4)) 0 = 30 := by
  obtain ⟨out, h1, h2, h3⟩ := convert2YUV444_sample_and_hold ⟨false, false, true⟩
    (fun _ => 0) YUVC_411YpCbCr8PlanarPixelFormat NearestNeighborInterpolation
    [1, 2, 3, 4, 10, 30] [] 4 1 (by decide) (by decide) (by decide) (by decide) (by decide)
    (by decide) (by decide) (by decide) (by decide) (by decide)
  refine ⟨out, h1, h2, ?_, ?_⟩
  · rw [(h3 3 0 (by decide) (by decide)).1]
    decide
  · rw [(h3 2 0 (by decide) (by decide)).2]
    decide

/-- C10, at a 2 x 2 frame of the 4:2:2 Y'CrCb format with the stored planes
`[10, 20]` and `[30, 50]`: the conversion agrees with the Y'CbCr conversion
of the frame with the planes exchanged, and the first U sample is 30, the
first sample of the second stored plane. -/
theorem convert2YUV444_reversed_planes_witness :
    YUVFile.convert2YUV444 ⟨false, false, true⟩ (fun _ => 0) YUVC_422YpCrCb8PlanarPixelFormat
        NearestNeighborInterpolation [1, 2, 3, 4, 10, 20, 30, 50] 2 2 [] =
      YUVFile.convert2YUV444 ⟨false, false, true⟩ (fun _ => 0) YUVC_422YpCbCr8PlanarPixelFormat
        NearestNeighborInterpolation [1, 2, 3, 4, 30, 50, 10, 20] 2 2 [] ∧
      ∃ out, YUVFile.convert2YUV444 ⟨false, false, true⟩ (fun _ => 0)
          YUVC_422YpCrCb8PlanarPixelFormat NearestNeighborInterpolation
          [1, 2, 3, 4, 10, 20, 30, 50] 2 2 [] = some out ∧
        out.getD (2 * 2 + (0 + 0 * 2)) 0 = 30 := by
  obtain ⟨h1, out, h2, h3⟩ := convert2YUV444_reversed_planes ⟨false, false, true⟩ (fun _ => 0)
    YUVC_422YpCrCb8PlanarPixelFormat YUVC_422YpCbCr8PlanarPixelFormat
    NearestNeighborInterpolation [1, 2, 3, 4, 10, 20, 30, 50] [] 2 2 (Or.inr ⟨rfl, rfl⟩)
    (by decide) (by decide) (by decide) (by decide) (by decide)
  refine ⟨?_, out, h2, ?_⟩
  · rw [h1]
    decide
  · rw [(h3 0 0 (by decide) (by decide)).1]
    decide

theorem memcpy_front (src dst : Buf) (n L : Nat) (hsrc : n ≤ src.length) (hn : n ≤ L)
    (hdst : dst.length = L) :
    ∃ s', memcpy dst 0 src 0 n = some s' ∧
      Agrees (fun p => src.getD p 0) (fun p => p < n) L s' := by
  exact forLoop_inv
    (fun i s => Agrees (fun p => src.getD p 0) (fun p => p < i) L s)
    (fun i d => do
      let v ← load src (0 + i)
      store d (0 + i) v) n dst ⟨hdst, fun k hk => by omega⟩
    (by
      intro i s hi hs
      dsimp only
      rw [load_of_lt src _ (by omega)]
      simp only [Option.bind_eq_bind, Option.some_bind]
      exact store_agrees _ _ _ _ s (0 + i) _ hs (by omega) (by simp) (by intro k hk; omega))

theorem memset_fill (G : Nat → Byte) (dst : Buf) (off n L : Nat) (v : Byte)
    (hG : ∀ p, off ≤ p → G p = v) (hL : off + n ≤ L)
    (hdst : Agrees G (fun p => p < off) L dst) :
    ∃ s', memset dst off v n = some s' ∧ Agrees G (fun p => p < off + n) L s' := by
  exact forLoop_inv (fun i s => Agrees G (fun p => p < off + i) L s)
    (fun i d => store d (off + i) v) n dst hdst
    (by
      intro i s hi hs
      exact store_agrees _ _ _ _ s (off + i) _ hs (by omega) (hG _ (by omega)).symm
        (by intro k hk; omega))

/-- The branch without chroma: the first `n` bytes are those of the source,
the other `2*n` bytes are 128. -/
theorem convertNoChroma_spec (src dst : Buf) (n : Nat) (hsrc : n ≤ src.length)
    (hdst : dst.length = 3 * n) :
    ∃ out, YUVFile.convertNoChroma n src dst = some out ∧ out.length = 3 * n ∧
      (∀ k, k < n → out[k]? = src[k]?) ∧
      (∀ k, n ≤ k → k < 3 * n → out[k]? = some 128) := by
  unfold YUVFile.convertNoChroma
  simp only [Option.bind_eq_bind]
  obtain ⟨s0, e0, a0⟩ := memcpy_front src dst n (3 * n) hsrc (by omega) hdst
  rw [e0, Option.some_bind]
  obtain ⟨s1, e1, a1⟩ := memset_fill (fun p => if p < n then src.getD p 0 else 128) s0 n (2 * n)
    (3 * n) 128 (by intro p hp; dsimp only; rw [if_neg (by omega)]) (by omega)
    ⟨a0.1, fun k hk hkL => by
      have hk' : k < n := hk
      rw [a0.2 k hk hkL]
      dsimp only
      rw [if_pos hk']⟩
  refine ⟨s1, e1, a1.1, ?_, ?_⟩
  · intro k hk
    rw [a1.2 k (show k < n + 2 * n by omega) (by omega)]
    dsimp only
    rw [if_pos hk, List.getElem?_eq_getElem (by omega), List.getD_eq_getElem _ _ (by omega)]
  · intro k hk hk3
    rw [a1.2 k (show k < n + 2 * n by omega) (by omega)]
    dsimp only
    rw [if_neg (by omega)]

/-- C11: for the monochrome format (4:0:0 8-bit) and every `w`, `h` of at
least 1, `convert2YUV444` applied to a frame of `w*h` bytes yields a buffer
of `3*w*h` bytes (a size that fits an `int`) whose first `w*h` bytes are the
source luma bytes and whose other `2*w*h` bytes are all 128. -/
theorem convert2YUV444_monochrome (host : Host) (fresh : Nat → Byte) (mode : InterpolationMode)
    (src dst : Buf) (w h : Nat) (hw : 1 ≤ w) (hh : 1 ≤ h) (hsrc : src.length = w * h)
    (hov : 3 * w * h < 2 ^ 31) :
    ∃ out, YUVFile.convert2YUV444 host fresh YUVC_8GrayPixelFormat mode src w h dst = some out ∧
      out.length = 3 * w * h ∧
      (∀ k, k < w * h → out[k]? = src[k]?) ∧
      (∀ k, w * h ≤ k → k < 3 * w * h → out[k]? = some 128) := by
  have h1 : YUVFile.horizontalSubSampling YUVC_8GrayPixelFormat = 0 := rfl
  have h2 : YUVFile.verticalSubSampling YUVC_8GrayPixelFormat = 0 := rfl
  have h3 : YUVFile.bytePerComponent YUVC_8GrayPixelFormat = 1 := rfl
  have h7 : w ≤ w * h := Nat.le_mul_of_pos_right w hh
  have h8 : 3 * w * h = 3 * (w * h) := Nat.mul_assoc 3 w h
  have c1 : ¬ (2 ^ 31 ≤ w * h ∨ 2 ^ 31 ≤ 3 * w ∨ 2 ^ 31 ≤ 3 * w * h ∨ 2 ^ 31 ≤ 3 * w * h) := by
    omega
  unfold YUVFile.convert2YUV444
  simp only [h1, h2, h3, if_true, Nat.mul_one, Nat.mul_zero]
  rw [if_neg c1, h8]
  apply convertNoChroma_spec src _ (w * h) (by omega)
  split_ifs with hl
  · rw [resize_length]
  · omega

/-- C11, at a 2 x 1 monochrome frame. -/
theorem convert2YUV444_monochrome_witness :
    ∃ out, YUVFile.convert2YUV444 ⟨false, false, true⟩ (fun _ => 0) YUVC_8GrayPixelFormat
        NearestNeighborInterpolation [1, 2] 2 1 [] = some out ∧
      out.length = 3 * 2 * 1 ∧
      (∀ k, k < 2 * 1 → out[k]? = ([1, 2] : Buf)[k]?) ∧
      (∀ k, 2 * 1 ≤ k → k < 3 * 2 * 1 → out[k]? = some 128) :=
  convert2YUV444_monochrome ⟨false, false, true⟩ (fun _ => 0) NearestNeighborInterpolation
    [1, 2] [] 2 1 (by decide) (by decide) rfl (by decide)

theorem mul_even (y w : Nat) (hw : w % 2 = 0) : y * w = 2 * (y * (w / 2)) := by
  have h1 : w = 2 * (w / 2) := by omega
  calc y * w = y * (2 * (w / 2)) := by rw [← h1]
    _ = 2 * (y * (w / 2)) := by ring

theorem uyvyBody_step (src : Buf) (w h y x : Nat) (t : Buf) (hw : w % 2 = 0)
    (hy : y < h) (hx : x < w) (hsrc : src.length = 2 * (w * h))
    (ht : Agrees3 w h (uyvyOut src w) (fun c x' y' => y' < y ∨ (y' = y ∧ x' < x)) t) :
    ∃ t', YUVFile.uyvyBody w (w * h) src y x t = some t' ∧
      Agrees3 w h (uyvyOut src w) (fun c x' y' => y' < y ∨ (y' = y ∧ x' < x + 1)) t' := by
  have hb := idx_lt x y w h hx hy
  have hb2 := idx_lt (2 * (x / 2) + 1) y w h (by omega) hy
  have e1 : y * w + x = x + y * w := Nat.add_comm _ _
  unfold YUVFile.uyvyBody
  simp only [Nat.shiftLeft_eq, Nat.shiftRight_eq_div_pow, pow_one] at *
  rw [load_of_lt src _ (by omega), load_of_lt src _ (by omega), load_of_lt src _ (by omega)]
  simp only [Option.bind_eq_bind, Option.some_bind]
  refine store_bind3 0 x y ht (by omega) (by omega) (by omega) (by omega) ?_ ?_
  · simp only [uyvyOut, if_true, Nat.shiftLeft_eq, pow_one]
  intro s1 a1
  refine store_bind3 1 x y a1 (by omega) (by omega) (by omega) (by omega) ?_ ?_
  · simp only [uyvyOut, one_ne_zero, if_true, if_false, Nat.shiftLeft_eq,
      Nat.shiftRight_eq_div_pow, pow_one]
  intro s2 a2
  refine store_agrees3 w h _ _ _ s2 _ _ 2 x y a2 (by omega) (by omega) (by omega) (by omega) ?_ ?_
  · simp only [uyvyOut, OfNat.ofNat_ne_zero, OfNat.ofNat_ne_one, if_true, if_false,
      Nat.shiftLeft_eq, Nat.shiftRight_eq_div_pow, pow_one]
  · intro c' x' y' hc' _ _ hd
    clear ht a1 a2 hb hb2 hsrc
    omega

theorem convertUYVY_spec (src dst : Buf) (w h : Nat) (hw : w % 2 = 0)
    (hsrc : src.length = 2 * (w * h)) (hdst : dst.length = 3 * (w * h)) :
    ∃ out, YUVFile.convertUYVY w h src dst = some out ∧
      Agrees3 w h (uyvyOut src w) (fun c x y => True) out := by
  unfold YUVFile.convertUYVY
  obtain ⟨out, e, a⟩ := forLoop_inv
    (fun y s => Agrees3 w h (uyvyOut src w) (fun c x' y' => y' < y) s)
    (fun y d => forLoop w (YUVFile.uyvyBody w (w * h) src y) d) h dst
    ⟨hdst, by intro c x y _ _ _ hd; omega⟩
    (by
      intro y s hy hst
      obtain ⟨s', e', a'⟩ := forLoop_inv
        (fun x t => Agrees3 w h (uyvyOut src w) (fun c x' y' => y' < y ∨ (y' = y ∧ x' < x)) t)
        (YUVFile.uyvyBody w (w * h) src y) w s
        (agrees3_mono w h _ _ _ s hst (by intro c x' y' _ _ _ hd; omega))
        (fun x t hx ht => uyvyBody_step src w h y x t hw hy hx hsrc ht)
      exact ⟨s', e', agrees3_mono w h _ _ _ s' a' (by intro c x' y' _ _ _ hd; omega)⟩)
  exact ⟨out, e, agrees3_mono w h _ _ _ out a (by intro c x' y' _ _ _ hd; omega)⟩

theorem convert2YUV444_uyvy (host : Host) (fresh : Nat → Byte) (mode : InterpolationMode)
    (src dst : Buf) (w h : Nat) (hw : w % 2 = 0) (hw2 : 2 ≤ w) (hh : 1 ≤ h)
    (hsrc : src.length = 2 * (w * h)) (hov : 3 * w * h < 2 ^ 31) :
    ∃ out, YUVFile.convert2YUV444 host fresh YUVC_UYVY422PixelFormat mode src w h dst = some out ∧
      Agrees3 w h (uyvyOut src w) (fun c x y => True) out := by
  have h1 : YUVFile.horizontalSubSampling YUVC_UYVY422PixelFormat = 2 := rfl
  have h2 : YUVFile.verticalSubSampling YUVC_UYVY422PixelFormat = 1 := rfl
  have h3 : YUVFile.bytePerComponent YUVC_UYVY422PixelFormat = 1 := rfl
  have h6 : 1 ≤ w / 2 * h := Nat.mul_pos (by omega) hh
  have h7 : w ≤ w * h := Nat.le_mul_of_pos_right w hh
  have h8 : 3 * w * h = 3 * (w * h) := Nat.mul_assoc 3 w h
  have h9 : ((2 : Nat) = 0) = False := eq_false (by decide)
  have h10 : ((1 : Nat) = 0) = False := eq_false (by decide)
  have c1 : ¬ (2 ^ 31 ≤ w * h ∨ 2 ^ 31 ≤ 3 * w ∨ 2 ^ 31 ≤ 3 * w * h ∨ 2 ^ 31 ≤ 3 * w * h) := by
    omega
  have c2 : ¬ (w / 2 * h = 0) := by omega
  unfold YUVFile.convert2YUV444
  simp only [h1, h2, h3, h9, h10, if_false, if_true, Nat.mul_one, Nat.div_one]
  rw [if_neg c1, if_neg c2]
  apply convertUYVY_spec src _ w h hw hsrc
  split_ifs with hl
  · rw [resize_length]; omega
  · omega

/-- C12: for the packed 8-bit format `UYVY`, every even `w` of at least 2 and
every `h` of at least 1, a source frame of `2*w*h` bytes and an output size
`3*w*h` that fits an `int`, with `p = x + y*w`: the luma output at `p` is the
source byte `2*p + 1`, the U output the source byte `4*(p div 2)` and the V
output the source byte `4*(p div 2) + 2`; so the two pixels `2k` and `2k+1` of
a line get the same U and the same V. -/
theorem convert2YUV444_uyvy_samples (host : Host) (fresh : Nat → Byte)
    (mode : InterpolationMode) (src dst : Buf) (w h : Nat) (hw : w % 2 = 0) (hw2 : 2 ≤ w)
    (hh : 1 ≤ h) (hsrc : src.length = 2 * (w * h)) (hov : 3 * w * h < 2 ^ 31) :
    ∃ out, YUVFile.convert2YUV444 host fresh YUVC_UYVY422PixelFormat mode src w h dst = some out ∧
      out.length = 3 * (w * h) ∧
      (∀ x y, x < w → y < h →
        out[x + y * w]? = src[2 * (x + y * w) + 1]? ∧
        out[w * h + (x + y * w)]? = src[4 * ((x + y * w) / 2)]? ∧
        out[2 * (w * h) + (x + y * w)]? = src[4 * ((x + y * w) / 2) + 2]?) ∧
      (∀ k y, 2 * k + 1 < w → y < h →
        out[w * h + (2 * k + y * w)]? = out[w * h + (2 * k + 1 + y * w)]? ∧
        out[2 * (w * h) + (2 * k + y * w)]? = out[2 * (w * h) + (2 * k + 1 + y * w)]?) := by
  obtain ⟨out, ho, ha⟩ := convert2YUV444_uyvy host fresh mode src dst w h hw hw2 hh hsrc hov
  have key : ∀ x y, x < w → y < h →
      out[x + y * w]? = src[2 * (x + y * w) + 1]? ∧
      out[w * h + (x + y * w)]? = src[4 * ((x + y * w) / 2)]? ∧
      out[2 * (w * h) + (x + y * w)]? = src[4 * ((x + y * w) / 2) + 2]? := by
    intro x y hx hy
    have hb := idx_lt x y w h hx hy
    have hb2 := idx_lt (2 * (x / 2) + 1) y w h (by omega) hy
    have hm := mul_even y w hw
    have g0 := ha.2 0 x y (by omega) hx hy trivial
    have g1 := ha.2 1 x y (by omega) hx hy trivial
    have g2 := ha.2 2 x y (by omega) hx hy trivial
    simp only [uyvyOut, one_ne_zero, OfNat.ofNat_ne_zero, OfNat.ofNat_ne_one, if_true, if_false,
      Nat.shiftLeft_eq, Nat.shiftRight_eq_div_pow, pow_one, Nat.zero_mul, Nat.zero_add,
      Nat.one_mul] at g0 g1 g2
    have i0 : x + y * w = y * w + x := Nat.add_comm _ _
    have i1 : w * h + (x + y * w) = w * h + y * w + x := by omega
    have i2 : 2 * (w * h) + (x + y * w) = 2 * (w * h) + y * w + x := by omega
    have j0 : 2 * (x + y * w) + 1 = (x + y * w) * 2 + 1 := by omega
    have j1 : 4 * ((x + y * w) / 2) = (x / 2 * 2 + y * w) * 2 := by omega
    rw [i1, i2, j0, j1, g1, g2]
    rw [i0] at g0 ⊢
    rw [g0]
    refine ⟨?_, ?_, ?_⟩ <;> exact (load_of_lt src _ (by omega)).symm
  refine ⟨out, ho, ha.1, key, ?_⟩
  intro k y hk hy
  have a := key (2 * k) y (by omega) hy
  have b := key (2 * k + 1) y (by omega) hy
  have hm := mul_even y w hw
  have e : (2 * k + 1 + y * w) / 2 = (2 * k + y * w) / 2 := by omega
  rw [a.2.1, a.2.2, b.2.1, b.2.2, e]
  exact ⟨rfl, rfl⟩

/-- C12, at a 2 x 1 frame of the packed format `UYVY`. -/
theorem convert2YUV444_uyvy_samples_witness :
    ∃ out, YUVFile.convert2YUV444 ⟨false, false, true⟩ (fun _ => 0) YUVC_UYVY422PixelFormat
        NearestNeighborInterpolation [10, 11, 12, 13] 2 1 [] = some out ∧
      out.length = 3 * (2 * 1) ∧
      (∀ x y, x < 2 → y < 1 →
        out[x + y * 2]? = ([10, 11, 12, 13] : Buf)[2 * (x + y * 2) + 1]? ∧
        out[2 * 1 + (x + y * 2)]? = ([10, 11, 12, 13] : Buf)[4 * ((x + y * 2) / 2)]? ∧
        out[2 * (2 * 1) + (x + y * 2)]? = ([10, 11, 12, 13] : Buf)[4 * ((x + y * 2) / 2) + 2]?) ∧
      (∀ k y, 2 * k + 1 < 2 → y < 1 →
        out[2 * 1 + (2 * k + y * 2)]? = out[2 * 1 + (2 * k + 1 + y * 2)]? ∧
        out[2 * (2 * 1) + (2 * k + y * 2)]? = out[2 * (2 * 1) + (2 * k + 1 + y * 2)]?) :=
  convert2YUV444_uyvy_samples ⟨false, false, true⟩ (fun _ => 0) NearestNeighborInterpolation
    [10, 11, 12, 13] [] 2 1 (by decide) (by decide) (by decide) rfl (by decide)

theorem and_shiftLeft_mask (w m a : Nat) : w &&& (m <<< a) = ((w >>> a) &&& m) <<< a := by
  apply Nat.eq_of_testBit_eq
  intro i
  simp only [Nat.testBit_and, Nat.testBit_shiftLeft, Nat.testBit_shiftRight]
  by_cases h1 : a ≤ i
  · have e : a + (i - a) = i := by omega
    simp only [h1, e, ge_iff_le, decide_True, Bool.true_and]
  · simp [h1]

theorem and_mask10 (w a : Nat) : w &&& (1023 <<< a) = ((w >>> a) % 1024) <<< a := by
  rw [and_shiftLeft_mask]
  exact congrArg (fun t => t <<< a) (Nat.and_pow_two_sub_one_eq_mod (w >>> a) 10)

theorem SwapInt16_bytes (b0 b1 : Nat) (h0 : b0 < 256) (h1 : b1 < 256) :
    SwapInt16 (256 * b0 + b1) = b0 + 256 * b1 := by
  unfold SwapInt16
  have m1 : (0xFF00 : Nat) = 255 <<< 8 := by decide
  have e1 : ((256 * b0 + b1) <<< 8) &&& 0xFF00 = 2 ^ 8 * b1 := by
    rw [m1, and_shiftLeft_mask, Nat.shiftLeft_shiftRight]
    have := Nat.and_pow_two_sub_one_eq_mod (256 * b0 + b1) 8
    norm_num at this
    rw [this, Nat.shiftLeft_eq]
    omega
  have e2 : ((256 * b0 + b1) >>> 8) &&& 0xFF = b0 := by
    have := Nat.and_pow_two_sub_one_eq_mod ((256 * b0 + b1) >>> 8) 8
    norm_num at this
    rw [this, Nat.shiftRight_eq_div_pow]
    omega
  rw [e1, e2, ← Nat.mul_add_lt_is_or (by omega)]
  omega

theorem toUChar_lo (v : Nat) : ((toUChar (v : Int)).val : Nat) = v % 256 := by
  simp only [toUChar]
  omega

theorem store16_spec (be : Bool) (buf : Buf) (p v : Nat) (hp : 2 * p + 1 < buf.length)
    (hv : v < 65536) :
    ∃ d, store16 be buf p v = some d ∧ d.length = buf.length ∧ load16 be d p = some v ∧
      ∀ q, q ≠ p → load16 be d q = load16 be buf q := by
  unfold store16
  rw [if_pos hp]
  have a1 : ((toUChar (v : Int)).val : Nat) = v % 256 := toUChar_lo v
  have a2 : ((toUChar ((v : Int) / 256)).val : Nat) = v / 256 := by
    simp only [toUChar]
    omega
  cases be
  · refine ⟨_, rfl, by simp, ?_, ?_⟩
    · unfold load16
      rw [List.getElem?_set_ne (by omega), List.getElem?_set_self (by simpa using by omega),
        List.getElem?_set_self (by simpa using by omega)]
      simp only [Bool.false_eq_true, if_false, a1, a2]
      exact congrArg some (by omega)
    · intro q hq
      unfold load16
      rw [List.getElem?_set_ne (by omega), List.getElem?_set_ne (by omega),
        List.getElem?_set_ne (by omega), List.getElem?_set_ne (by omega)]
  · refine ⟨_, rfl, by simp, ?_, ?_⟩
    · unfold load16
      rw [List.getElem?_set_ne (by omega), List.getElem?_set_self (by simpa using by omega),
        List.getElem?_set_self (by simpa using by omega)]
      simp only [if_true, a1, a2]
      exact congrArg some (by omega)
    · intro q hq
      unfold load16
      rw [List.getElem?_set_ne (by omega), List.getElem?_set_ne (by omega),
        List.getElem?_set_ne (by omega), List.getElem?_set_ne (by omega)]

theorem load16_of_lt (be : Bool) (buf : Buf) (p : Nat) (hp : 2 * p + 1 < buf.length) :
    load16 be buf p = some (if be then 256 * (buf.getD (2 * p) 0).val + (buf.getD (2 * p + 1) 0).val
      else (buf.getD (2 * p) 0).val + 256 * (buf.getD (2 * p + 1) 0).val) := by
  unfold load16
  rw [List.getElem?_eq_getElem (show 2 * p < buf.length by omega),
    List.getElem?_eq_getElem hp, List.getD_eq_getElem _ _ (show 2 * p < buf.length by omega),
    List.getD_eq_getElem _ _ hp]
  cases be <;> rfl

/-- A sample read through an `unsigned short` pointer and passed through
`qFromLittleEndian` is the little-endian value of its two bytes, on either
kind of host. -/
theorem qFromLittleEndian_load16 (host : Host) (buf : Buf) (p : Nat)
    (hp : 2 * p + 1 < buf.length) :
    (load16 host.bigEndian buf p).map (qFromLittleEndian host) = some (sample16LE buf p) := by
  rw [load16_of_lt _ buf p hp]
  unfold qFromLittleEndian sample16LE
  cases host.bigEndian
  · rfl
  · simp only [if_true, Option.map_some']
    exact congrArg some (SwapInt16_bytes _ _ (Fin.is_lt _) (Fin.is_lt _))

theorem sample16LE_lt (buf : Buf) (p : Nat) : sample16LE buf p < 65536 := by
  unfold sample16LE
  omega

theorem load16_le (host : Host) (buf : Buf) (p : Nat) (hp : 2 * p + 1 < buf.length) :
    ∃ a, load16 host.bigEndian buf p = some a ∧ qFromLittleEndian host a = sample16LE buf p := by
  have h := qFromLittleEndian_load16 host buf p hp
  cases hl : load16 host.bigEndian buf p with
  | none => rw [hl] at h; exact absurd h (by simp)
  | some a =>
    rw [hl] at h
    exact ⟨a, rfl, Option.some.inj h⟩

theorem store16_bind {be : Bool} {w h : Nat} {G : Nat → Nat → Nat → Nat}
    {D : Nat → Nat → Nat → Prop} {s : Buf} {p v : Nat} {k : Buf → Option Buf} {Q : Buf → Prop}
    (c x y : Nat) (hs : Agrees16 be w h G D s) (hc : c < 3) (hx : x < w) (hy : y < h)
    (hp : p = c * (w * h) + y * w + x) (hv : v = G c x y) (hlt : G c x y < 65536)
    (hk : ∀ s1, Agrees16 be w h G (fun c' x' y' => D c' x' y' ∨ (c' = c ∧ x' = x ∧ y' = y)) s1 →
      ∃ s', k s1 = some s' ∧ Q s') :
    ∃ s', (store16 be s p v).bind k = some s' ∧ Q s' := by
  obtain ⟨hl, hg⟩ := hs
  have hpl := pos_lt c x y w h hc hx hy
  obtain ⟨d, e, dl, dv, dq⟩ := store16_spec be s p v (by omega) (by rw [hv]; exact hlt)
  rw [e, Option.some_bind]
  apply hk d
  refine ⟨by omega, ?_⟩
  intro c' x' y' hc' hx' hy' hd
  by_cases hpp : c' * (w * h) + y' * w + x' = p
  · obtain ⟨e1, e2, e3⟩ := pos_inj c x y c' x' y' w h hx hy hx' hy' (by omega)
    subst e1 e2 e3
    rw [hpp, dv, hv]
  · rw [dq _ hpp]
    rcases hd with hd | ⟨e1, e2, e3⟩
    · exact hg c' x' y' hc' hx' hy' hd
    · subst e1 e2 e3
      exact absurd hp.symm hpp

theorem agrees16_mono (be : Bool) (w h : Nat) (G : Nat → Nat → Nat → Nat)
    (D D' : Nat → Nat → Nat → Prop) (s : Buf) (hs : Agrees16 be w h G D s)
    (hD : ∀ c x y, c < 3 → x < w → y < h → D' c x y → D c x y) : Agrees16 be w h G D' s :=
  ⟨hs.1, fun c x y hc hx hy hd => hs.2 c x y hc hx hy (hD c x y hc hx hy hd)⟩

theorem planar10Out_lt (src : Buf) (w h cw ch c x y : Nat) :
    planar10Out src w h cw ch c x y < 65536 := by
  unfold planar10Out
  split_ifs <;> exact sample16LE_lt _ _

theorem planar10Body_step (host : Host) (src : Buf) (w h cw ch y x : Nat) (t : Buf)
    (hw : w = 2 * cw) (hh : h = 2 * ch) (hy : y < h) (hx : x < w)
    (hsrc : src.length = 2 * (w * h + 2 * (cw * ch)))
    (ht : Agrees16 host.bigEndian w h (planar10Out src w h cw ch)
      (fun c x' y' => y' < y ∨ (y' = y ∧ x' < x)) t) :
    ∃ t', YUVFile.planar10Body host w cw (w * h) (cw * ch) src y x t = some t' ∧
      Agrees16 host.bigEndian w h (planar10Out src w h cw ch)
        (fun c x' y' => y' < y ∨ (y' = y ∧ x' < x + 1)) t' := by
  have hb := idx_lt x y w h hx hy
  have hc := idx_lt (x / 2) (y / 2) cw ch (by omega) (by omega)
  obtain ⟨a, ea, va⟩ := load16_le host src (x + y * w) (by omega)
  obtain ⟨u, eu, vu⟩ := load16_le host src (w * h + (x / 2 + y / 2 * cw)) (by omega)
  obtain ⟨v, ev, vv⟩ := load16_le host src (w * h + cw * ch + (x / 2 + y / 2 * cw)) (by omega)
  unfold YUVFile.planar10Body
  simp only [ea, eu, ev, va, vu, vv, Option.bind_eq_bind, Option.some_bind]
  refine store16_bind 0 x y ht (by omega) (by omega) (by omega) (by omega) ?_
    (planar10Out_lt _ _ _ _ _ _ _ _) ?_
  · simp only [planar10Out, if_true]
  intro s1 a1
  refine store16_bind 0 x y a1 (by omega) (by omega) (by omega) (by omega) ?_
    (planar10Out_lt _ _ _ _ _ _ _ _) ?_
  · simp only [planar10Out, if_true]
  intro s2 a2
  refine store16_bind 1 x y a2 (by omega) (by omega) (by omega) (by omega) ?_
    (planar10Out_lt _ _ _ _ _ _ _ _) ?_
  · simp only [planar10Out, one_ne_zero, if_true, if_false]
  intro s3 a3
  have fin := store16_bind (k := some)
    (Q := fun t' => Agrees16 host.bigEndian w h (planar10Out src w h cw ch)
      (fun c x' y' => y' < y ∨ (y' = y ∧ x' < x + 1)) t')
    (p := w * h + w * h + (x + y * w))
    (v := sample16LE src (w * h + cw * ch + (x / 2 + y / 2 * cw)))
    2 x y a3 (by omega) (by omega) (by omega) (by omega)
    (by simp only [planar10Out, OfNat.ofNat_ne_zero, OfNat.ofNat_ne_one, if_true, if_false])
    (planar10Out_lt _ _ _ _ _ _ _ _)
    (fun s4 a4 => ⟨s4, rfl, agrees16_mono _ w h _ _ _ s4 a4 (by
      intro c' x' y' _ _ _ hd
      clear ht a1 a2 a3 a4 hb hc hsrc
      omega)⟩)
  simpa only [Option.bind_some] using fin

theorem planar10_loops (host : Host) (src dst : Buf) (w h cw ch : Nat)
    (hw : w = 2 * cw) (hh : h = 2 * ch) (hsrc : src.length = 2 * (w * h + 2 * (cw * ch)))
    (hdst : dst.length = 2 * (3 * (w * h))) :
    ∃ out, forLoop h (fun y d => forLoop w
        (YUVFile.planar10Body host w cw (w * h) (cw * ch) src y) d) dst = some out ∧
      Agrees16 host.bigEndian w h (planar10Out src w h cw ch) (fun c x y => True) out := by
  obtain ⟨out, e, a⟩ := forLoop_inv
    (fun y s => Agrees16 host.bigEndian w h (planar10Out src w h cw ch)
      (fun c x' y' => y' < y) s)
    (fun y d => forLoop w (YUVFile.planar10Body host w cw (w * h) (cw * ch) src y) d) h dst
    ⟨hdst, by intro c x y _ _ _ hd; omega⟩
    (by
      intro y s hy hst
      obtain ⟨s', e', a'⟩ := forLoop_inv
        (fun x t => Agrees16 host.bigEndian w h (planar10Out src w h cw ch)
          (fun c x' y' => y' < y ∨ (y' = y ∧ x' < x)) t)
        (YUVFile.planar10Body host w cw (w * h) (cw * ch) src y) w s
        (agrees16_mono _ w h _ _ _ s hst (by intro c x' y' _ _ _ hd; omega))
        (fun x t hx ht => planar10Body_step host src w h cw ch y x t hw hh hy hx hsrc ht)
      exact ⟨s', e', agrees16_mono _ w h _ _ _ s' a' (by intro c x' y' _ _ _ hd; omega)⟩)
  exact ⟨out, e, agrees16_mono _ w h _ _ _ out a (by intro c x' y' _ _ _ hd; omega)⟩

theorem convert2YUV444_planar10 (host : Host) (fresh : Nat → Byte) (mode : InterpolationMode)
    (src dst : Buf) (w h cw ch : Nat) (hw : w = 2 * cw) (hh : h = 2 * ch) (hcw : 1 ≤ cw)
    (hch : 1 ≤ ch) (hsrc : src.length = 2 * (w * h + 2 * (cw * ch)))
    (hov : 2 * (3 * w * h) < 2 ^ 31) :
    ∃ out, YUVFile.convert2YUV444 host fresh YUVC_420YpCbCr10LEPlanarPixelFormat mode src w h dst
        = some out ∧
      Agrees16 host.bigEndian w h (planar10Out src w h cw ch) (fun c x y => True) out := by
  have h1 : YUVFile.horizontalSubSampling YUVC_420YpCbCr10LEPlanarPixelFormat = 2 := rfl
  have h2 : YUVFile.verticalSubSampling YUVC_420YpCbCr10LEPlanarPixelFormat = 2 := rfl
  have h3 : YUVFile.bytePerComponent YUVC_420YpCbCr10LEPlanarPixelFormat = 2 := rfl
  have h4 : w / 2 = cw := by omega
  have h5 : h / 2 = ch := by omega
  have h6 : 1 ≤ cw * ch := Nat.mul_pos hcw hch
  have h7 : w ≤ w * h := Nat.le_mul_of_pos_right w (by omega)
  have h8 : 3 * w * h = 3 * (w * h) := Nat.mul_assoc 3 w h
  have h9 : ((2 : Nat) = 0) = False := eq_false (by decide)
  have c1 : ¬ (2 ^ 31 ≤ w * h ∨ 2 ^ 31 ≤ 3 * w ∨ 2 ^ 31 ≤ 3 * w * h ∨
      2 ^ 31 ≤ 3 * w * h * 2) := by
    omega
  have c2 : ¬ (cw * ch = 0) := by omega
  have n4 : ¬ (YUVC_420YpCbCr10LEPlanarPixelFormat = YUVC_420YpCbCr8PlanarPixelFormat ∧
      mode = BiLinearInterpolation) := fun a => absurd a.1 (by decide)
  have n5 : ¬ (YUVC_420YpCbCr10LEPlanarPixelFormat = YUVC_420YpCbCr8PlanarPixelFormat ∧
      mode = InterstitialInterpolation) := fun a => absurd a.1 (by decide)
  unfold YUVFile.convert2YUV444
  simp only [h1, h2, h3, h4, h5, h9, if_false, if_true]
  rw [if_neg c1, if_neg c2, if_neg (by decide), if_neg (by decide), if_neg (by decide),
    if_neg n4, if_neg n5, if_neg (by decide)]
  apply planar10_loops host src _ w h cw ch hw hh hsrc
  split_ifs with hl
  · rw [resize_length]; omega
  · omega

/-- C14: for the planar 4:2:0 10-bit little-endian format and all even `w`,
`h` of at least 2, a source frame of `3*w*h` bytes and an output size
`6*w*h` that fits an `int`, with the source samples read as 16-bit
little-endian values (luma from sample 0, U from sample `w*h`, V from sample
`w*h + (w/2)*(h/2)`) and the output read through an `unsigned short`
pointer: luma output `x + y*w` is luma sample `x + y*w`, U and V output
`x + y*w` are the U and V samples `x div 2 + (y div 2)*(w div 2)`, the values
unchanged. -/
theorem convert2YUV444_planar10_samples (host : Host) (fresh : Nat → Byte)
    (mode : InterpolationMode) (src dst : Buf) (w h : Nat) (hw : w % 2 = 0) (hw2 : 2 ≤ w)
    (hh : h % 2 = 0) (hh2 : 2 ≤ h)
    (hsrc : src.length = 2 * (w * h + 2 * ((w / 2) * (h / 2))))
    (hov : 2 * (3 * w * h) < 2 ^ 31) :
    ∃ out, YUVFile.convert2YUV444 host fresh YUVC_420YpCbCr10LEPlanarPixelFormat mode src w h dst
        = some out ∧
      out.length = 2 * (3 * (w * h)) ∧
      ∀ x y, x < w → y < h →
        load16 host.bigEndian out (x + y * w) = some (sample16LE src (x + y * w)) ∧
        load16 host.bigEndian out (w * h + (x + y * w)) =
          some (sample16LE src (w * h + (x / 2 + (y / 2) * (w / 2)))) ∧
        load16 host.bigEndian out (2 * (w * h) + (x + y * w)) =
          some (sample16LE src (w * h + (w / 2) * (h / 2) + (x / 2 + (y / 2) * (w / 2)))) := by
  obtain ⟨out, ho, ha⟩ := convert2YUV444_planar10 host fresh mode src dst w h (w / 2) (h / 2)
    (by omega) (by omega) (by omega) (by omega) hsrc hov
  refine ⟨out, ho, ha.1, ?_⟩
  intro x y hx hy
  have g0 := ha.2 0 x y (by omega) hx hy trivial
  have g1 := ha.2 1 x y (by omega) hx hy trivial
  have g2 := ha.2 2 x y (by omega) hx hy trivial
  simp only [planar10Out, one_ne_zero, OfNat.ofNat_ne_zero, OfNat.ofNat_ne_one, if_true,
    if_false, Nat.zero_mul, Nat.zero_add, Nat.one_mul] at g0 g1 g2
  have i0 : x + y * w = y * w + x := Nat.add_comm _ _
  have i1 : w * h + (x + y * w) = w * h + y * w + x := by omega
  have i2 : 2 * (w * h) + (x + y * w) = 2 * (w * h) + y * w + x := by omega
  rw [i1, i2, g1, g2]
  rw [i0] at g0 ⊢
  rw [g0]
  exact ⟨rfl, rfl, rfl⟩

/-- C14, at a 2 x 2 frame of the planar 10-bit format on a little-endian host. -/
theorem convert2YUV444_planar10_samples_witness :
    ∃ out, YUVFile.convert2YUV444 ⟨false, false, true⟩ (fun _ => 0)
        YUVC_420YpCbCr10LEPlanarPixelFormat NearestNeighborInterpolation
        [1, 0, 2, 0, 3, 0, 4, 0, 5, 1, 6, 2] 2 2 [] = some out ∧
      out.length = 2 * (3 * (2 * 2)) ∧
      ∀ x y, x < 2 → y < 2 →
        load16 false out (x + y * 2) =
          some (sample16LE [1, 0, 2, 0, 3, 0, 4, 0, 5, 1, 6, 2] (x + y * 2)) ∧
        load16 false out (2 * 2 + (x + y * 2)) =
          some (sample16LE [1, 0, 2, 0, 3, 0, 4, 0, 5, 1, 6, 2]
            (2 * 2 + (x / 2 + (y / 2) * (2 / 2)))) ∧
        load16 false out (2 * (2 * 2) + (x + y * 2)) =
          some (sample16LE [1, 0, 2, 0, 3, 0, 4, 0, 5, 1, 6, 2]
            (2 * 2 + (2 / 2) * (2 / 2) + (x / 2 + (y / 2) * (2 / 2)))) :=
  convert2YUV444_planar10_samples ⟨false, false, true⟩ (fun _ => 0) NearestNeighborInterpolation
    [1, 0, 2, 0, 3, 0, 4, 0, 5, 1, 6, 2] [] 2 2 (by decide) (by decide) (by decide) (by decide)
    rfl (by decide)

theorem field10_shift (lo w k : Nat) : field10 lo w k <<< 6 < 65536 := by
  unfold field10
  rw [Nat.shiftLeft_eq]
  have := Nat.mod_lt (w / 2 ^ (lo + 10 * k)) (show 0 < 1024 by decide)
  omega

theorem mask_down (w a b : Nat) (hb : b + 6 = a) :
    YUVFile.toUInt16 ((w &&& (1023 <<< a)) >>> b) = ((w / 2 ^ a) % 1024) <<< 6 := by
  rw [and_mask10, Nat.shiftRight_eq_div_pow w a]
  have := Nat.mod_lt (w / 2 ^ a) (show 0 < 1024 by decide)
  generalize (w / 2 ^ a) % 1024 = f at *
  subst hb
  unfold YUVFile.toUInt16
  rw [Nat.shiftLeft_eq, Nat.shiftLeft_eq, Nat.shiftRight_eq_div_pow, Nat.pow_add,
    ← Nat.mul_assoc, Nat.mul_right_comm, Nat.mul_div_cancel _ (Nat.two_pow_pos b)]
  omega

theorem mask_up (w a b : Nat) (hb : a + b = 6) :
    YUVFile.toUInt16 ((w &&& (1023 <<< a)) <<< b) = ((w / 2 ^ a) % 1024) <<< 6 := by
  rw [and_mask10, Nat.shiftRight_eq_div_pow w a]
  have := Nat.mod_lt (w / 2 ^ a) (show 0 < 1024 by decide)
  generalize (w / 2 ^ a) % 1024 = f at *
  unfold YUVFile.toUInt16
  rw [← Nat.shiftLeft_add, hb, Nat.shiftLeft_eq]
  omega

theorem uyvy10_hi (w : Nat) :
    YUVFile.toUInt16 ((w &&& 0xffc00000) >>> (22 - 6)) = field10 2 w 2 <<< 6 :=
  mask_down w 22 16 rfl

theorem uyvy10_mid (w : Nat) :
    YUVFile.toUInt16 ((w &&& 0x003ff000) >>> (12 - 6)) = field10 2 w 1 <<< 6 :=
  mask_down w 12 6 rfl

theorem uyvy10_lo (w : Nat) :
    YUVFile.toUInt16 ((w &&& 0x00000ffc) <<< (6 - 2)) = field10 2 w 0 <<< 6 :=
  mask_up w 2 4 rfl

theorem v210_hi (w : Nat) :
    YUVFile.toUInt16 ((w &&& 0x3ff00000) >>> (20 - 6)) = field10 0 w 2 <<< 6 :=
  mask_down w 20 14 rfl

theorem v210_mid (w : Nat) :
    YUVFile.toUInt16 ((w &&& 0x000ffc00) >>> (10 - 6)) = field10 0 w 1 <<< 6 :=
  mask_down w 10 4 rfl

theorem v210_lo (w : Nat) :
    YUVFile.toUInt16 ((w &&& 0x000003ff) <<< 6) = field10 0 w 0 <<< 6 :=
  mask_up w 0 6 rfl

theorem storeAll16_append (be : Bool) (a b : List (Nat × Nat)) (d : Buf) :
    YUVFile.storeAll16 be (a ++ b) d = (YUVFile.storeAll16 be a d).bind (YUVFile.storeAll16 be b) := by
  induction a generalizing d with
  | nil => rfl
  | cons pv a ih =>
    obtain ⟨p, v⟩ := pv
    simp only [List.cons_append, YUVFile.storeAll16]
    cases store16 be d p v with
    | none => rfl
    | some d1 => exact ih d1

theorem uyvy10Body_eq (host : Host) (cl i : Nat) (src dst : Buf) (r0 r1 r2 r3 : Nat)
    (h0 : load32 host.bigEndian src (i * 4) = some r0)
    (h1 : load32 host.bigEndian src (i * 4 + 1) = some r1)
    (h2 : load32 host.bigEndian src (i * 4 + 2) = some r2)
    (h3 : load32 host.bigEndian src (i * 4 + 3) = some r3) :
    YUVFile.uyvy10Body host cl src i dst =
      YUVFile.storeAll16 host.bigEndian
        (groupWrites 2 cl i ([r0, r1, r2, r3].map (SwapInt32BigToHost host)) uyvy10Taps) dst := by
  unfold YUVFile.uyvy10Body
  simp only [h0, h1, h2, h3, Option.bind_eq_bind, Option.some_bind, uyvy10_hi, uyvy10_mid,
    uyvy10_lo, ← storeAll16_append, List.cons_append, List.nil_append]
  simp only [groupWrites, uyvy10Taps, List.map, tapPos, tapVal, Nat.two_mul, Nat.one_mul,
    Nat.zero_mul, Nat.zero_add, Nat.add_zero, List.getD_cons_zero, List.getD_cons_succ]

theorem v210Body_eq (host : Host) (cl i : Nat) (src dst : Buf) (r0 r1 r2 r3 : Nat)
    (h0 : load32 host.bigEndian src (i * 4) = some r0)
    (h1 : load32 host.bigEndian src (i * 4 + 1) = some r1)
    (h2 : load32 host.bigEndian src (i * 4 + 2) = some r2)
    (h3 : load32 host.bigEndian src (i * 4 + 3) = some r3) :
    YUVFile.v210Body host cl src i dst =
      YUVFile.storeAll16 host.bigEndian
        (groupWrites 0 cl i ([r0, r1, r2, r3].map (SwapInt32LittleToHost host)) v210Taps)
        dst := by
  unfold YUVFile.v210Body
  simp only [h0, h1, h2, h3, Option.bind_eq_bind, Option.some_bind, v210_hi, v210_mid,
    v210_lo, ← storeAll16_append, List.cons_append, List.nil_append]
  simp only [groupWrites, v210Taps, List.map, tapPos, tapVal, Nat.two_mul, Nat.one_mul,
    Nat.zero_mul, Nat.zero_add, Nat.add_zero, List.getD_cons_zero, List.getD_cons_succ]

theorem tapVal_shape (lo : Nat) (words : List Nat) (t : Tap) :
    tapVal lo words t = field10 lo (words.getD t.word 0) t.field * 64 ∧
      field10 lo (words.getD t.word 0) t.field < 1024 ∧
      tapVal lo words t % 64 = 0 ∧ tapVal lo words t ≤ 65472 := by
  unfold tapVal
  rw [Nat.shiftLeft_eq]
  have h : field10 lo (words.getD t.word 0) t.field < 1024 := by
    unfold field10
    exact Nat.mod_lt _ (by decide)
  omega

/-- A run of writes to distinct elements inside the buffer returns, and every
element written holds its value afterwards. -/
theorem storeAll16_readback (be : Bool) (ws : List (Nat × Nat)) (d : Buf)
    (hin : ∀ pv, pv ∈ ws → 2 * pv.1 + 1 < d.length ∧ pv.2 < 65536)
    (hnd : (ws.map Prod.fst).Nodup) :
    ∃ out, YUVFile.storeAll16 be ws d = some out ∧ out.length = d.length ∧
      (∀ pv, pv ∈ ws → load16 be out pv.1 = some pv.2) ∧
      ∀ q, q ∉ ws.map Prod.fst → load16 be out q = load16 be d q := by
  induction ws generalizing d with
  | nil => exact ⟨d, rfl, rfl, fun pv h => absurd h (List.not_mem_nil pv), fun q _ => rfl⟩
  | cons pv ws ih =>
    obtain ⟨p, v⟩ := pv
    have hp := hin (p, v) (List.mem_cons_self _ _)
    obtain ⟨d1, e1, l1, v1, q1⟩ := store16_spec be d p v hp.1 hp.2
    rw [List.map_cons, List.nodup_cons] at hnd
    obtain ⟨out, e, l, hv, hq⟩ := ih d1
      (fun pv h => by rw [l1]; exact hin pv (List.mem_cons_of_mem _ h)) hnd.2
    refine ⟨out, ?_, by rw [l, l1], ?_, ?_⟩
    · simp only [YUVFile.storeAll16, e1, Option.some_bind, e]
    · intro pv h
      rcases List.mem_cons.mp h with h | h
      · subst h
        rw [hq p hnd.1, v1]
      · exact hv pv h
    · intro q hqn
      rw [List.map_cons, List.mem_cons, not_or] at hqn
      rw [hq q hqn.2, q1 q hqn.1]

theorem tapPos_inj (cl i : Nat) (s t : Tap) (hcl : 6 ≤ cl) (hs : s.plane < 3 ∧ s.pos < 6)
    (ht : t.plane < 3 ∧ t.pos < 6) (he : tapPos cl i s = tapPos cl i t) :
    s.plane = t.plane ∧ s.pos = t.pos := by
  unfold tapPos at he
  have a : s.plane = 0 ∨ s.plane = 1 ∨ s.plane = 2 := by omega
  have b : t.plane = 0 ∨ t.plane = 1 ∨ t.plane = 2 := by omega
  rcases a with a | a | a <;> rcases b with b | b | b <;> rw [a, b] at he ⊢ <;> omega

theorem groupWrites_readback (be : Bool) (lo cl i : Nat) (words : List Nat) (taps : List Tap)
    (dst : Buf) (htaps : taps = uyvy10Taps ∨ taps = v210Taps) (hcl : 6 ≤ cl)
    (hdst : 2 * (2 * cl + i * 6 + 5) + 1 < dst.length) :
    ∃ out, YUVFile.storeAll16 be (groupWrites lo cl i words taps) dst = some out ∧
      out.length = dst.length ∧
      ∀ t, t ∈ taps → load16 be out (tapPos cl i t) = some (tapVal lo words t) := by
  have hr : ∀ t, t ∈ taps → t.plane < 3 ∧ t.pos < 6 := by
    rcases htaps with rfl | rfl <;> decide
  have hu : ∀ s, s ∈ taps → ∀ t, t ∈ taps → s.plane = t.plane → s.pos = t.pos → s = t := by
    rcases htaps with rfl | rfl <;> decide
  have hn : taps.Nodup := by
    rcases htaps with rfl | rfl <;> decide
  obtain ⟨out, e, l, hv, _⟩ := storeAll16_readback be (groupWrites lo cl i words taps) dst
    (by
      intro pv hpv
      unfold groupWrites at hpv
      obtain ⟨t, ht, rfl⟩ := List.mem_map.mp hpv
      have h1 := hr t ht
      have h2 := (tapVal_shape lo words t).2.2.2
      refine ⟨?_, by omega⟩
      show 2 * tapPos cl i t + 1 < dst.length
      unfold tapPos
      have a : t.plane = 0 ∨ t.plane = 1 ∨ t.plane = 2 := by omega
      rcases a with a | a | a <;> rw [a] <;> omega)
    (by
      unfold groupWrites
      rw [List.map_map]
      exact List.Nodup.map_on (fun s hs t ht he => by
        have hst := tapPos_inj cl i s t hcl (hr s hs) (hr t ht) he
        exact hu s hs t ht hst.1 hst.2) hn)
  refine ⟨out, e, l, ?_⟩
  intro t ht
  exact hv (tapPos cl i t, tapVal lo words t) (by
    unfold groupWrites
    exact List.mem_map.mpr ⟨t, ht, rfl⟩)

/-- The loop bodies of the two packed 10-bit branches, for a group `i` of
four source words `r0 .. r3`, byte-order corrected by `SwapInt32BigToHost`
(`UYVY`) or `SwapInt32LittleToHost` (`v210`): the body is the run of the
eighteen writes of its table, each of the value `field <<< 6` of one 10-bit
field of the group, a multiple of 64 of at most 65472; the table gives every
position `0 .. 5` of every plane once, the same field to the positions `2m`
and `2m+1` of a chroma plane, and uses the twelve fields once each for the
six luma, three U and three V values; and on a destination that holds the
`quint16` positions of the group, with planes of at least six samples, the
run returns and every position written holds its value. Such a destination
has `6 * componentLength` bytes or more; the one `convert2YUV444` builds has
`3 * componentLength`. -/
theorem packed10_group_fields (host : Host) (cl i : Nat) (src dst : Buf) (r0 r1 r2 r3 : Nat)
    (h0 : load32 host.bigEndian src (i * 4) = some r0)
    (h1 : load32 host.bigEndian src (i * 4 + 1) = some r1)
    (h2 : load32 host.bigEndian src (i * 4 + 2) = some r2)
    (h3 : load32 host.bigEndian src (i * 4 + 3) = some r3) :
    YUVFile.uyvy10Body host cl src i dst =
      YUVFile.storeAll16 host.bigEndian
        (groupWrites 2 cl i ([r0, r1, r2, r3].map (SwapInt32BigToHost host)) uyvy10Taps) dst ∧
    YUVFile.v210Body host cl src i dst =
      YUVFile.storeAll16 host.bigEndian
        (groupWrites 0 cl i ([r0, r1, r2, r3].map (SwapInt32LittleToHost host)) v210Taps) dst ∧
    (∀ lo words t, tapVal lo words t = field10 lo (words.getD t.word 0) t.field * 64 ∧
      field10 lo (words.getD t.word 0) t.field < 1024 ∧
      tapVal lo words t % 64 = 0 ∧ tapVal lo words t ≤ 65472) ∧
    tapsUseEachFieldOnce uyvy10Taps ∧ tapsUseEachFieldOnce v210Taps ∧
    (6 ≤ cl → 2 * (2 * cl + i * 6 + 5) + 1 < dst.length →
      ∀ lo words taps, taps = uyvy10Taps ∨ taps = v210Taps →
        ∃ out, YUVFile.storeAll16 host.bigEndian (groupWrites lo cl i words taps) dst
            = some out ∧
          out.length = dst.length ∧
          ∀ t, t ∈ taps → load16 host.bigEndian out (tapPos cl i t) = some (tapVal lo words t)) :=
  ⟨uyvy10Body_eq host cl i src dst r0 r1 r2 r3 h0 h1 h2 h3,
    v210Body_eq host cl i src dst r0 r1 r2 r3 h0 h1 h2 h3,
    fun lo words t => tapVal_shape lo words t,
    by unfold tapsUseEachFieldOnce; decide,
    by unfold tapsUseEachFieldOnce; decide,
    fun hcl hdst lo words taps htaps =>
      groupWrites_readback host.bigEndian lo cl i words taps dst htaps hcl hdst⟩

/-- A loop whose body is a fault at index 0 on the buffer it starts with is
a fault when it runs at least once. -/
theorem forLoop_first_faults (n : Nat) (body : Nat → Buf → Option Buf) (s : Buf)
    (h : body 0 s = none) : forLoop (n + 1) body s = none := by
  induction n with
  | zero =>
    unfold forLoop
    unfold forLoop
    exact h
  | succ n ih =>
    rw [forLoop, ih]
    rfl

/-- The first write of a group of the packed 10-bit loops, the element
`dstV[dstPos + 1]` of `quint16` values, lies outside a destination of at most
`3 * componentLength` bytes: the body is a fault for every group. -/
theorem packed10Body_overruns (host : Host) (cl i : Nat) (src d : Buf)
    (hd : d.length ≤ 3 * cl) :
    YUVFile.uyvy10Body host cl src i d = none ∧ YUVFile.v210Body host cl src i d = none := by
  constructor
  · unfold YUVFile.uyvy10Body
    dsimp only
    cases load32 host.bigEndian src (i * 4) with
    | none => rfl
    | some r =>
      simp only [Option.bind_eq_bind, Option.some_bind, YUVFile.storeAll16, store16]
      rw [if_neg (by omega)]
      rfl
  · unfold YUVFile.v210Body
    dsimp only
    cases load32 host.bigEndian src (i * 4) with
    | none => rfl
    | some r =>
      simp only [Option.bind_eq_bind, Option.some_bind, YUVFile.storeAll16, store16]
      rw [if_neg (by omega)]
      rfl

/-- C13 (the code at fault): the two packed 10-bit branches write `quint16`
samples into three planes `componentLength` elements apart, `6 * w * h` bytes
in all, but `convert2YUV444` sizes the destination with `bytePerComponent`,
which is 1 for both formats, to `3 * w * h` bytes. The first write of every
group, to the V plane, is outside a destination of that size, and the call is
a fault for every frame of a width of at least 2 (a width of 1 has no chroma
sample and is taken by the branch without chroma), every source and every
destination passed in: no sample of the claim is written where it belongs. -/
theorem convert2YUV444_packed10_overruns (host : Host) (fresh : Nat → Byte)
    (fmt : YUVCPixelFormatType) (mode : InterpolationMode) (src dst : Buf) (w h : Nat)
    (hfmt : fmt = YUVC_UYVY422YpCbCr10PixelFormat ∨ fmt = YUVC_422YpCbCr10PixelFormat)
    (hw : 2 ≤ w) (hh : 1 ≤ h) :
    YUVFile.bytePerComponent fmt = 1 ∧
    (∀ (i : Nat) (d : Buf), d.length = 3 * w * h * YUVFile.bytePerComponent fmt →
      YUVFile.uyvy10Body host (w * h) src i d = none ∧
      YUVFile.v210Body host (w * h) src i d = none) ∧
    YUVFile.convert2YUV444 host fresh fmt mode src w h dst = none := by
  have hb : YUVFile.bytePerComponent fmt = 1 := by
    rcases hfmt with rfl | rfl <;> rfl
  have hhs : YUVFile.horizontalSubSampling fmt = 2 := by
    rcases hfmt with rfl | rfl <;> rfl
  have hvs : YUVFile.verticalSubSampling fmt = 1 := by
    rcases hfmt with rfl | rfl <;> rfl
  have hbody : ∀ (i : Nat) (d : Buf), d.length = 3 * w * h * YUVFile.bytePerComponent fmt →
      YUVFile.uyvy10Body host (w * h) src i d = none ∧
      YUVFile.v210Body host (w * h) src i d = none := by
    intro i d hd
    rw [hb, Nat.mul_one, Nat.mul_assoc] at hd
    exact packed10Body_overruns host (w * h) i src d (le_of_eq hd)
  refine ⟨hb, hbody, ?_⟩
  have hpos : 0 < w * h := Nat.mul_pos (by omega) (by omega)
  obtain ⟨n, hn⟩ : ∃ n, (w * h + 5) / 6 = n + 1 := ⟨(w * h + 5) / 6 - 1, by omega⟩
  have hcw : 0 < w / 2 := Nat.div_pos hw (by decide)
  have hch : (w / 2) * (h / 1) ≠ 0 := by
    rw [Nat.div_one]
    exact Nat.pos_iff_ne_zero.1 (Nat.mul_pos hcw (by omega))
  have h20 : ((2 : Nat) = 0) = False := eq_false (by decide)
  have h10 : ((1 : Nat) = 0) = False := eq_false (by decide)
  have n1 : fmt ≠ YUVC_UYVY422PixelFormat := by
    rcases hfmt with rfl | rfl <;> decide
  unfold YUVFile.convert2YUV444
  simp only [hhs, hvs, hb, h10, h20, if_false, Nat.mul_one]
  by_cases c1 : 2 ^ 31 ≤ w * h ∨ 2 ^ 31 ≤ 3 * w ∨ 2 ^ 31 ≤ 3 * w * h ∨ 2 ^ 31 ≤ 3 * w * h
  · rw [if_pos c1]
  · rw [if_neg c1, if_neg hch, if_neg n1, hn]
    have hlen : (if dst.length ≠ 3 * w * h then resize dst (3 * w * h) fresh else dst).length
        = 3 * w * h * YUVFile.bytePerComponent fmt := by
      rw [hb, Nat.mul_one]
      split_ifs with hl
      · rw [resize_length]
      · exact not_not.1 hl
    rcases hfmt with e | e
    · rw [if_pos e]
      exact forLoop_first_faults n _ _ (hbody 0 _ hlen).1
    · rw [if_neg (by rw [e]; decide), if_pos e]
      exact forLoop_first_faults n _ _ (hbody 0 _ hlen).2

/-- C13 (the code at fault), at a frame of 6 x 1 samples, one group of four
words, 16 bytes, of the packed 10-bit format `UYVY`. -/
theorem convert2YUV444_packed10_overruns_witness :
    YUVFile.bytesPerFrame 6 1 YUVC_UYVY422YpCbCr10PixelFormat = some 16 ∧
    YUVFile.bytePerComponent YUVC_UYVY422YpCbCr10PixelFormat = 1 ∧
    (∀ (i : Nat) (d : Buf),
      d.length = 3 * 6 * 1 * YUVFile.bytePerComponent YUVC_UYVY422YpCbCr10PixelFormat →
      YUVFile.uyvy10Body ⟨false, false, true⟩ (6 * 1)
          [1, 2, 3, 4, 5, 6, 7, 8, 9, 10, 11, 12, 13, 14, 15, 16] i d = none ∧
      YUVFile.v210Body ⟨false, false, true⟩ (6 * 1)
          [1, 2, 3, 4, 5, 6, 7, 8, 9, 10, 11, 12, 13, 14, 15, 16] i d = none) ∧
    YUVFile.convert2YUV444 ⟨false, false, true⟩ (fun _ => 0) YUVC_UYVY422YpCbCr10PixelFormat
      NearestNeighborInterpolation [1, 2, 3, 4, 5, 6, 7, 8, 9, 10, 11, 12, 13, 14, 15, 16] 6 1 []
      = none :=
  ⟨by decide, convert2YUV444_packed10_overruns ⟨false, false, true⟩ (fun _ => 0)
    YUVC_UYVY422YpCbCr10PixelFormat NearestNeighborInterpolation
    [1, 2, 3, 4, 5, 6, 7, 8, 9, 10, 11, 12, 13, 14, 15, 16] [] 6 1 (Or.inl rfl) (by decide)
    (by decide)⟩

theorem store_length (s : Buf) (p : Nat) (v : Byte) (s' : Buf) (h : store s p v = some s') :
    s'.length = s.length := by
  unfold store at h
  split_ifs at h
  cases h
  simp

theorem store_out_of_bounds (s : Buf) (p : Nat) (v : Byte) (h : s.length ≤ p) :
    store s p v = none := by
  unfold store
  rw [if_neg (by omega)]

theorem forLoop_length (body : Nat → Buf → Option Buf) (n : Nat) (s t : Buf)
    (hb : ∀ i u u', body i u = some u' → u'.length = u.length)
    (h : forLoop n body s = some t) : t.length = s.length := by
  induction n generalizing t with
  | zero =>
    cases h
    rfl
  | succ n ih =>
    unfold forLoop at h
    cases hf : forLoop n body s with
    | none => rw [hf] at h; exact Option.noConfusion h
    | some u =>
      rw [hf, Option.some_bind] at h
      rw [hb n u t h, ih u hf]

theorem swabBody_length (src : Buf) (k : Nat) (u u' : Buf)
    (h : (do
      let a ← load src (2 * k)
      let b ← load src (2 * k + 1)
      let d ← store u (2 * k) b
      store d (2 * k + 1) a) = some u') : u'.length = u.length := by
  simp only [Option.bind_eq_bind] at h
  cases ha : load src (2 * k) with
  | none => rw [ha] at h; exact Option.noConfusion h
  | some a =>
    cases hb : load src (2 * k + 1) with
    | none => rw [ha, hb] at h; exact Option.noConfusion h
    | some b =>
      rw [ha, hb, Option.some_bind, Option.some_bind] at h
      cases hd : store u (2 * k) b with
      | none => rw [hd] at h; exact Option.noConfusion h
      | some d =>
        rw [hd, Option.some_bind] at h
        rw [store_length d _ _ u' h, store_length u _ _ d hd]

/-- The call `swab(src, dst, n)` with more than one byte to copy into a
destination of fewer than `n - 1` bytes writes past its end. -/
theorem swab_overruns (src dst : Buf) (n : Nat) (hn : 2 ≤ n) (hd : dst.length + 1 < n) :
    swab src dst n = none := by
  unfold swab
  obtain ⟨m, hm⟩ : ∃ m, n / 2 = m + 1 := ⟨n / 2 - 1, by omega⟩
  rw [hm]
  unfold forLoop
  cases hf : forLoop m (fun k d => do
      let a ← load src (2 * k)
      let b ← load src (2 * k + 1)
      let d ← store d (2 * k) b
      store d (2 * k + 1) a) dst with
  | none => rfl
  | some t =>
    have hl := forLoop_length _ m dst t (fun i u u' h => swabBody_length src i u u' h) hf
    simp only [Option.some_bind, Option.bind_eq_bind]
    cases load src (2 * m) with
    | none => rfl
    | some a =>
      cases load src (2 * m + 1) with
      | none => rfl
      | some b =>
        simp only [Option.some_bind]
        cases hs : store t (2 * m) b with
        | none => rfl
        | some d =>
          rw [Option.some_bind]
          exact store_out_of_bounds d _ _ (by rw [store_length t _ _ d hs]; omega)

theorem convert2YUV444_48bpp_overruns (host : Host) (fresh : Nat → Byte)
    (fmt : YUVCPixelFormatType) (mode : InterpolationMode) (src dst : Buf) (w h : Nat)
    (hfmt : fmt = YUVC_444YpCbCr12LEPlanarPixelFormat ∨ fmt = YUVC_444YpCbCr12BEPlanarPixelFormat ∨
      fmt = YUVC_444YpCbCr16LEPlanarPixelFormat ∨ fmt = YUVC_444YpCbCr16BEPlanarPixelFormat)
    (hsw : fmt = YUVC_444YpCbCr12SwappedPlanarPixelFormat host ∨
      fmt = YUVC_444YpCbCr16SwappedPlanarPixelFormat host)
    (hw : 1 ≤ w) (hh : 1 ≤ h) (hov : w * h * 48 + 8 ≤ 2 ^ 32) :
    YUVFile.convert2YUV444 host fresh fmt mode src w h dst = none := by
  have h1 : YUVFile.horizontalSubSampling fmt = 1 := by
    rcases hfmt with rfl | rfl | rfl | rfl <;> rfl
  have h2 : YUVFile.verticalSubSampling fmt = 1 := by
    rcases hfmt with rfl | rfl | rfl | rfl <;> rfl
  have h3 : YUVFile.bytePerComponent fmt = 1 := by
    rcases hfmt with rfl | rfl | rfl | rfl <;> rfl
  have h4 : ¬ (YUVFile.isPlanar fmt = true ∧ YUVFile.bitsPerSample fmt = 8) := by
    rcases hfmt with rfl | rfl | rfl | rfl <;> decide
  have n1 : fmt ≠ YUVC_UYVY422PixelFormat := by
    rcases hfmt with rfl | rfl | rfl | rfl <;> decide
  have n2 : fmt ≠ YUVC_UYVY422YpCbCr10PixelFormat := by
    rcases hfmt with rfl | rfl | rfl | rfl <;> decide
  have n3 : fmt ≠ YUVC_422YpCbCr10PixelFormat := by
    rcases hfmt with rfl | rfl | rfl | rfl <;> decide
  have n4 : fmt ≠ YUVC_420YpCbCr8PlanarPixelFormat := by
    rcases hfmt with rfl | rfl | rfl | rfl <;> decide
  have n5 : fmt ≠ YUVC_420YpCbCr10LEPlanarPixelFormat := by
    rcases hfmt with rfl | rfl | rfl | rfl <;> decide
  have n6 : fmt ≠ YUVC_UnknownPixelFormat := by
    rcases hfmt with rfl | rfl | rfl | rfl <;> decide
  obtain ⟨pf, hpf, hnom, hden⟩ : ∃ pf, YUVFile.describe fmt = some pf ∧
      pf.bitsPerPixelNominator = 48 ∧ pf.bitsPerPixelDenominator = 1 := by
    rcases hfmt with rfl | rfl | rfl | rfl <;> exact ⟨_, rfl, rfl, rfl⟩
  have hbpf := bytesPerFrame_eval fmt pf hpf n6 w h (by rw [hnom]; exact hov)
  rw [hnom, hden] at hbpf
  have h6 : 1 ≤ w * h := Nat.mul_pos hw hh
  have h7 : w ≤ w * h := Nat.le_mul_of_pos_right w hh
  have h8 : 3 * w * h = 3 * (w * h) := Nat.mul_assoc 3 w h
  have h10 : ((1 : Nat) = 0) = False := eq_false (by decide)
  have c1 : ¬ (2 ^ 31 ≤ w * h ∨ 2 ^ 31 ≤ 3 * w ∨ 2 ^ 31 ≤ 3 * w * h ∨ 2 ^ 31 ≤ 3 * w * h) := by
    omega
  have c2 : ¬ (w * h = 0) := by omega
  have n7 : ¬ (fmt = YUVC_420YpCbCr8PlanarPixelFormat ∧ mode = BiLinearInterpolation) :=
    fun a => n4 a.1
  have n8 : ¬ (fmt = YUVC_420YpCbCr8PlanarPixelFormat ∧ mode = InterstitialInterpolation) :=
    fun a => n4 a.1
  unfold YUVFile.convert2YUV444
  simp only [h1, h2, h3, h10, if_false, Nat.mul_one, Nat.div_one]
  rw [if_neg c1, if_neg c2, if_neg n1, if_neg n2, if_neg n3, if_neg n7, if_neg n8, if_neg h4,
    if_neg n5, if_pos hsw, hbpf]
  apply swab_overruns
  · omega
  · split_ifs with hl
    · rw [resize_length]; omega
    · omega

/-- C15 (the code at fault): for the 12-bit and the 16-bit byte-swapped
planar 4:4:4 format and every `w`, `h` of at least 1, `convert2YUV444` sizes
the destination to `3*w*h` bytes, the catalogue giving these formats one byte
per component, and `swab` then copies the `6*w*h` bytes of the frame into it:
the copy runs past the end of the destination and no converted frame is
returned. -/
theorem convert2YUV444_swapped_overruns (host : Host) (fresh : Nat → Byte)
    (fmt : YUVCPixelFormatType) (mode : InterpolationMode) (src dst : Buf) (w h : Nat)
    (hsw : fmt = YUVC_444YpCbCr12SwappedPlanarPixelFormat host ∨
      fmt = YUVC_444YpCbCr16SwappedPlanarPixelFormat host)
    (hw : 1 ≤ w) (hh : 1 ≤ h) (hov : w * h * 48 + 8 ≤ 2 ^ 32) :
    YUVFile.bytePerComponent fmt = 1 ∧
      YUVFile.bytesPerFrame w h fmt = some (6 * (w * h)) ∧
      YUVFile.convert2YUV444 host fresh fmt mode src w h dst = none := by
  have hfmt : fmt = YUVC_444YpCbCr12LEPlanarPixelFormat ∨
      fmt = YUVC_444YpCbCr12BEPlanarPixelFormat ∨
      fmt = YUVC_444YpCbCr16LEPlanarPixelFormat ∨ fmt = YUVC_444YpCbCr16BEPlanarPixelFormat := by
    unfold YUVC_444YpCbCr12SwappedPlanarPixelFormat YUVC_444YpCbCr16SwappedPlanarPixelFormat
      at hsw
    rcases hsw with hsw | hsw <;> split_ifs at hsw <;> simp [hsw]
  refine ⟨?_, ?_, convert2YUV444_48bpp_overruns host fresh fmt mode src dst w h hfmt hsw hw hh hov⟩
  · rcases hfmt with rfl | rfl | rfl | rfl <;> rfl
  · obtain ⟨pf, hpf, hnom, hden⟩ : ∃ pf, YUVFile.describe fmt = some pf ∧
        pf.bitsPerPixelNominator = 48 ∧ pf.bitsPerPixelDenominator = 1 := by
      rcases hfmt with rfl | rfl | rfl | rfl <;> exact ⟨_, rfl, rfl, rfl⟩
    have hbpf := bytesPerFrame_eval fmt pf hpf
      (by rcases hfmt with rfl | rfl | rfl | rfl <;> decide) w h (by rw [hnom]; exact hov)
    rw [hbpf, hnom, hden]
    exact congrArg some (by omega)

/-- C15 (the code at fault), at a 1 x 1 frame of the 16-bit big-endian format on a
little-endian host. -/
theorem convert2YUV444_swapped_overruns_witness :
    YUVFile.bytePerComponent YUVC_444YpCbCr16BEPlanarPixelFormat = 1 ∧
      YUVFile.bytesPerFrame (1 : Nat) (1 : Nat) YUVC_444YpCbCr16BEPlanarPixelFormat
        = some (6 * (1 * 1)) ∧
      YUVFile.convert2YUV444 ⟨false, false, true⟩ (fun _ => 0)
        YUVC_444YpCbCr16BEPlanarPixelFormat NearestNeighborInterpolation [1, 2, 3, 4, 5, 6] 1 1 []
        = none :=
  convert2YUV444_swapped_overruns ⟨false, false, true⟩ (fun _ => 0)
    YUVC_444YpCbCr16BEPlanarPixelFormat NearestNeighborInterpolation [1, 2, 3, 4, 5, 6] [] 1 1
    (Or.inr rfl) (by decide) (by decide) (by decide)

theorem row_le (r w h : Nat) (hr : r < h) : r * w + w ≤ w * h := by
  have h1 : (r + 1) * w ≤ h * w := Nat.mul_le_mul_right w hr
  have h2 : (r + 1) * w = r * w + w := by ring
  have h3 : h * w = w * h := Nat.mul_comm h w
  omega

theorem store_keep {G : Nat → Byte} {n L : Nat} {s : Buf} {p : Nat} {v : Byte}
    (hs : Agrees G (fun q => q < n) L s) (hlo : n ≤ p) (hhi : p < L) :
    ∃ s', store s p v = some s' ∧ Agrees G (fun q => q < n) L s' := by
  obtain ⟨hl, hg⟩ := hs
  refine ⟨s.set p v, ?_, ?_, ?_⟩
  · unfold store
    rw [if_pos (by omega)]
  · simp [hl]
  · intro k hk hkL
    have hk' : k < n := hk
    rw [List.getElem?_set_ne (by omega)]
    exact hg k hk hkL

theorem store_keep_bind {G : Nat → Byte} {n L : Nat} {s : Buf} {p : Nat} {v : Byte}
    {k : Buf → Option Buf} {Q : Buf → Prop}
    (hs : Agrees G (fun q => q < n) L s) (hlo : n ≤ p) (hhi : p < L)
    (hk : ∀ s1, Agrees G (fun q => q < n) L s1 → ∃ s', k s1 = some s' ∧ Q s') :
    ∃ s', (store s p v).bind k = some s' ∧ Q s' := by
  obtain ⟨s1, e1, a1⟩ := store_keep (v := v) hs hlo hhi
  rw [e1]
  exact hk s1 a1

theorem load_some_bind {buf : Buf} {p : Nat} {k : Byte → Option Buf} {Q : Buf → Prop}
    (hp : p < buf.length) (hk : ∀ v, ∃ s', k v = some s' ∧ Q s') :
    ∃ s', (load buf p).bind k = some s' ∧ Q s' := by
  rw [load_of_lt buf p hp]
  exact hk _

theorem loadInt_some_bind {buf : Buf} {p : Nat} {k : Int → Option Buf} {Q : Buf → Prop}
    (hp : p < buf.length) (hk : ∀ v, ∃ s', k v = some s' ∧ Q s') :
    ∃ s', (loadInt buf p).bind k = some s' ∧ Q s' := by
  rw [loadInt_of_lt buf p hp]
  exact hk _

theorem bilinearLineBody_keeps (G : Nat → Byte) (n L srcUV dstUV srcLine dstLine i : Nat)
    (src t : Buf) (hsrc : srcUV + (srcLine + i + 1) < src.length) (hlo : n ≤ dstUV)
    (hhi : dstUV + (dstLine + i * 2 + 2) < L) (ht : Agrees G (fun q => q < n) L t) :
    ∃ t', YUVFile.bilinearLineBody srcUV dstUV srcLine dstLine src i t = some t' ∧
      Agrees G (fun q => q < n) L t' := by
  unfold YUVFile.bilinearLineBody
  simp only [Option.bind_eq_bind]
  repeat' (first
    | refine load_some_bind (by omega) (fun _ => ?_)
    | refine loadInt_some_bind (by omega) (fun _ => ?_)
    | refine store_keep_bind (by assumption) (by omega) (by omega) (fun _ _ => ?_)
    | exact store_keep (by assumption) (by omega) (by omega))

theorem bilinearLine_keeps (G : Nat → Byte) (n L w cw srcUV dstUV srcLine dstLine : Nat)
    (src t : Buf) (hw : 2 * cw ≤ w) (hcw : 1 ≤ cw) (hsrc : srcUV + (srcLine + cw) ≤ src.length)
    (hlo : n ≤ dstUV) (hhi : dstUV + (dstLine + w) ≤ L) (ht : Agrees G (fun q => q < n) L t) :
    ∃ t', YUVFile.bilinearLine w cw srcUV dstUV srcLine dstLine src t = some t' ∧
      Agrees G (fun q => q < n) L t' := by
  unfold YUVFile.bilinearLine
  simp only [Option.bind_eq_bind]
  refine load_some_bind (by omega) (fun _ => ?_)
  refine store_keep_bind ht (by omega) (by omega) (fun s1 a1 => ?_)
  refine forLoop_bind (I := fun _ u => Agrees G (fun q => q < n) L u) a1
    (fun i u hi hu => bilinearLineBody_keeps G n L srcUV dstUV srcLine dstLine i src u (by omega)
      hlo (by omega) hu) (fun s2 a2 => ?_)
  refine load_some_bind (by rw [a2.1]; omega) (fun _ => ?_)
  exact store_keep a2 (by omega) (by omega)

theorem bilinearInnerBody_keeps (G : Nat → Byte) (n L srcUV dstUV srcTop srcBot dstTop dstBot
    i : Nat) (src t : Buf) (hs1 : srcUV + (srcTop + i + 1) < src.length)
    (hs2 : srcUV + (srcBot + i + 1) < src.length) (hlo : n ≤ dstUV)
    (hd1 : dstUV + (dstTop + i * 2 + 2) < L) (hd2 : dstUV + (dstBot + i * 2 + 2) < L)
    (ht : Agrees G (fun q => q < n) L t) :
    ∃ t', YUVFile.bilinearInnerBody srcUV dstUV srcTop srcBot dstTop dstBot src i t = some t' ∧
      Agrees G (fun q => q < n) L t' := by
  unfold YUVFile.bilinearInnerBody
  simp only [Option.bind_eq_bind]
  repeat' (first
    | refine loadInt_some_bind (by omega) (fun _ => ?_)
    | refine store_keep_bind (by assumption) (by omega) (by omega) (fun _ _ => ?_)
    | exact store_keep (by assumption) (by omega) (by omega))

theorem bilinearRowsBody_keeps (G : Nat → Byte) (n L w h cw ch srcUV dstUV j : Nat)
    (src t : Buf) (hw : 2 * cw ≤ w) (hh : 2 * ch ≤ h) (hcw : 1 ≤ cw) (hj : j < ch - 1)
    (hsrc : srcUV + cw * ch ≤ src.length) (hlo : n ≤ dstUV) (hhi : dstUV + w * h ≤ L)
    (ht : Agrees G (fun q => q < n) L t) :
    ∃ t', YUVFile.bilinearRowsBody w cw srcUV dstUV src j t = some t' ∧
      Agrees G (fun q => q < n) L t' := by
  have r1 := row_le (j * 2 + 1) w h (by omega)
  have r2 := row_le (j * 2 + 2) w h (by omega)
  have s1 := row_le j cw ch (by omega)
  have s2 := row_le (j + 1) cw ch (by omega)
  unfold YUVFile.bilinearRowsBody
  simp only [Option.bind_eq_bind]
  refine loadInt_some_bind (by omega) (fun _ => ?_)
  refine loadInt_some_bind (by omega) (fun _ => ?_)
  refine store_keep_bind ht (by omega) (by omega) (fun t1 a1 => ?_)
  refine store_keep_bind a1 (by omega) (by omega) (fun t2 a2 => ?_)
  refine forLoop_bind (I := fun _ u => Agrees G (fun q => q < n) L u) a2
    (fun i u hi hu => bilinearInnerBody_keeps G n L srcUV dstUV _ _ _ _ i src u (by omega)
      (by omega) hlo (by omega) (by omega) hu) (fun t3 a3 => ?_)
  refine load_some_bind (by rw [a3.1]; omega) (fun _ => ?_)
  refine store_keep_bind a3 (by omega) (by omega) (fun t4 a4 => ?_)
  refine load_some_bind (by rw [a4.1]; omega) (fun _ => ?_)
  exact store_keep a4 (by omega) (by omega)

theorem bilinearPlane_keeps (G : Nat → Byte) (n L w h cw ch srcUV dstUV : Nat) (src t : Buf)
    (hw : 2 * cw ≤ w) (hh : 2 * ch ≤ h) (hcw : 1 ≤ cw) (hch : 1 ≤ ch)
    (hsrc : srcUV + cw * ch ≤ src.length) (hlo : n ≤ dstUV) (hhi : dstUV + w * h ≤ L)
    (ht : Agrees G (fun q => q < n) L t) :
    ∃ t', YUVFile.bilinearPlane w h cw ch srcUV dstUV src t = some t' ∧
      Agrees G (fun q => q < n) L t' := by
  have r1 := row_le 0 w h (by omega)
  have r2 := row_le (h - 1) w h (by omega)
  have s1 := row_le 0 cw ch (by omega)
  have s2 := row_le (ch - 1) cw ch (by omega)
  unfold YUVFile.bilinearPlane
  simp only [Option.bind_eq_bind]
  obtain ⟨t1, e1, a1⟩ := bilinearLine_keeps G n L w cw srcUV dstUV 0 0 src t hw hcw (by omega) hlo
    (by omega) ht
  rw [e1, Option.some_bind]
  refine forLoop_bind (I := fun _ u => Agrees G (fun q => q < n) L u) a1
    (fun j u hj hu => bilinearRowsBody_keeps G n L w h cw ch srcUV dstUV j src u hw hh hcw hj hsrc
      hlo hhi hu) (fun t2 a2 => ?_)
  exact bilinearLine_keeps G n L w cw srcUV dstUV _ _ src t2 hw hcw (by omega) hlo (by omega) a2

theorem convertBilinear_keeps (src dst : Buf) (w h cw ch : Nat) (hw : 2 * cw ≤ w)
    (hh : 2 * ch ≤ h) (hcw : 1 ≤ cw) (hch : 1 ≤ ch)
    (hsrc : w * h + 2 * (cw * ch) ≤ src.length) (hdst : dst.length = 3 * (w * h)) :
    ∃ out, YUVFile.convertBilinear w h cw ch src dst = some out ∧
      Agrees (fun p => src.getD p 0) (fun q => q < w * h) (3 * (w * h)) out := by
  unfold YUVFile.convertBilinear
  simp only [Option.bind_eq_bind]
  obtain ⟨s0, e0, a0⟩ := memcpy_front src dst (w * h) (3 * (w * h)) (by omega) (by omega) hdst
  rw [e0, Option.some_bind]
  obtain ⟨s1, e1, a1⟩ := bilinearPlane_keeps _ (w * h) (3 * (w * h)) w h cw ch (w * h) (w * h)
    src s0 hw hh hcw hch (by omega) (by omega) (by omega) a0
  rw [e1, Option.some_bind]
  exact bilinearPlane_keeps _ (w * h) (3 * (w * h)) w h cw ch (w * h + cw * ch) (w * h + w * h)
    src s1 hw hh hcw hch (by omega) (by omega) (by omega) a1

theorem interstitialLineBody_keeps (G : Nat → Byte) (n L srcUV dstUV srcLine dstLine i : Nat)
    (src t : Buf) (hsrc : srcUV + (srcLine + i + 1) < src.length) (hlo : n ≤ dstUV)
    (hhi : dstUV + (dstLine + i * 2 + 2) < L) (ht : Agrees G (fun q => q < n) L t) :
    ∃ t', YUVFile.interstitialLineBody srcUV dstUV srcLine dstLine src i t = some t' ∧
      Agrees G (fun q => q < n) L t' := by
  unfold YUVFile.interstitialLineBody
  simp only [Option.bind_eq_bind]
  repeat' (first
    | refine loadInt_some_bind (by omega) (fun _ => ?_)
    | refine store_keep_bind (by assumption) (by omega) (by omega) (fun _ _ => ?_)
    | exact store_keep (by assumption) (by omega) (by omega))

theorem interstitialLine_keeps (G : Nat → Byte) (n L w cw srcUV dstUV srcLine dstLine : Nat)
    (src t : Buf) (hw : 2 * cw ≤ w) (hcw : 1 ≤ cw) (hsrc : srcUV + (srcLine + cw) ≤ src.length)
    (hlo : n ≤ dstUV) (hhi : dstUV + (dstLine + w) ≤ L) (ht : Agrees G (fun q => q < n) L t) :
    ∃ t', YUVFile.interstitialLine w cw srcUV dstUV srcLine dstLine src t = some t' ∧
      Agrees G (fun q => q < n) L t' := by
  unfold YUVFile.interstitialLine
  simp only [Option.bind_eq_bind]
  refine load_some_bind (by omega) (fun _ => ?_)
  refine store_keep_bind ht (by omega) (by omega) (fun s1 a1 => ?_)
  refine forLoop_bind (I := fun _ u => Agrees G (fun q => q < n) L u) a1
    (fun i u hi hu => interstitialLineBody_keeps G n L srcUV dstUV srcLine dstLine i src u
      (by omega) hlo (by omega) hu) (fun s2 a2 => ?_)
  refine load_some_bind (by omega) (fun _ => ?_)
  exact store_keep a2 (by omega) (by omega)

theorem interstitialInnerBody_keeps (G : Nat → Byte) (n L srcUV dstUV srcTop srcBot dstTop
    dstBot i : Nat) (src t : Buf) (hs1 : srcUV + (srcTop + i + 1) < src.length)
    (hs2 : srcUV + (srcBot + i + 1) < src.length) (hlo : n ≤ dstUV)
    (hd1 : dstUV + (dstTop + i * 2 + 2) < L) (hd2 : dstUV + (dstBot + i * 2 + 2) < L)
    (ht : Agrees G (fun q => q < n) L t) :
    ∃ t', YUVFile.interstitialInnerBody srcUV dstUV srcTop srcBot dstTop dstBot src i t
        = some t' ∧
      Agrees G (fun q => q < n) L t' := by
  unfold YUVFile.interstitialInnerBody
  simp only [Option.bind_eq_bind]
  repeat' (first
    | refine loadInt_some_bind (by omega) (fun _ => ?_)
    | refine store_keep_bind (by assumption) (by omega) (by omega) (fun _ _ => ?_)
    | exact store_keep (by assumption) (by omega) (by omega))

theorem interstitialRowsBody_keeps (G : Nat → Byte) (n L w h cw ch srcUV dstUV j : Nat)
    (src t : Buf) (hw : 2 * cw ≤ w) (hh : 2 * ch ≤ h) (hcw : 1 ≤ cw) (hj : j < ch - 1)
    (hsrc : srcUV + cw * ch ≤ src.length) (hlo : n ≤ dstUV) (hhi : dstUV + w * h ≤ L)
    (ht : Agrees G (fun q => q < n) L t) :
    ∃ t', YUVFile.interstitialRowsBody w cw srcUV dstUV src j t = some t' ∧
      Agrees G (fun q => q < n) L t' := by
  have r1 := row_le (j * 2 + 1) w h (by omega)
  have r2 := row_le (j * 2 + 2) w h (by omega)
  have s1 := row_le j cw ch (by omega)
  have s2 := row_le (j + 1) cw ch (by omega)
  unfold YUVFile.interstitialRowsBody
  simp only [Option.bind_eq_bind]
  refine loadInt_some_bind (by omega) (fun _ => ?_)
  refine loadInt_some_bind (by omega) (fun _ => ?_)
  refine store_keep_bind ht (by omega) (by omega) (fun t1 a1 => ?_)
  refine store_keep_bind a1 (by omega) (by omega) (fun t2 a2 => ?_)
  refine forLoop_bind (I := fun _ u => Agrees G (fun q => q < n) L u) a2
    (fun i u hi hu => interstitialInnerBody_keeps G n L srcUV dstUV _ _ _ _ i src u (by omega)
      (by omega) hlo (by omega) (by omega) hu) (fun t3 a3 => ?_)
  refine loadInt_some_bind (by omega) (fun _ => ?_)
  refine loadInt_some_bind (by omega) (fun _ => ?_)
  refine store_keep_bind a3 (by omega) (by omega) (fun t4 a4 => ?_)
  exact store_keep a4 (by omega) (by omega)

theorem interstitialPlane_keeps (G : Nat → Byte) (n L w h cw ch srcUV dstUV : Nat) (src t : Buf)
    (hw : 2 * cw ≤ w) (hh : 2 * ch ≤ h) (hcw : 1 ≤ cw) (hch : 1 ≤ ch)
    (hsrc : srcUV + cw * ch ≤ src.length) (hlo : n ≤ dstUV) (hhi : dstUV + w * h ≤ L)
    (ht : Agrees G (fun q => q < n) L t) :
    ∃ t', YUVFile.interstitialPlane w h cw ch srcUV dstUV src t = some t' ∧
      Agrees G (fun q => q < n) L t' := by
  have r1 := row_le 0 w h (by omega)
  have r2 := row_le (h - 1) w h (by omega)
  have s1 := row_le 0 cw ch (by omega)
  have s2 := row_le (ch - 1) cw ch (by omega)
  unfold YUVFile.interstitialPlane
  simp only [Option.bind_eq_bind]
  obtain ⟨t1, e1, a1⟩ := interstitialLine_keeps G n L w cw srcUV dstUV 0 0 src t hw hcw (by omega)
    hlo (by omega) ht
  rw [e1, Option.some_bind]
  refine forLoop_bind (I := fun _ u => Agrees G (fun q => q < n) L u) a1
    (fun j u hj hu => interstitialRowsBody_keeps G n L w h cw ch srcUV dstUV j src u hw hh hcw hj
      hsrc hlo hhi hu) (fun t2 a2 => ?_)
  exact interstitialLine_keeps G n L w cw srcUV dstUV _ _ src t2 hw hcw (by omega) hlo (by omega)
    a2

theorem convertInterstitial_keeps (src dst : Buf) (w h cw ch : Nat) (hw : 2 * cw ≤ w)
    (hh : 2 * ch ≤ h) (hcw : 1 ≤ cw) (hch : 1 ≤ ch)
    (hsrc : w * h + 2 * (cw * ch) ≤ src.length) (hdst : dst.length = 3 * (w * h)) :
    ∃ out, YUVFile.convertInterstitial w h cw ch src dst = some out ∧
      Agrees (fun p => src.getD p 0) (fun q => q < w * h) (3 * (w * h)) out := by
  unfold YUVFile.convertInterstitial
  simp only [Option.bind_eq_bind]
  obtain ⟨s0, e0, a0⟩ := memcpy_front src dst (w * h) (3 * (w * h)) (by omega) (by omega) hdst
  rw [e0, Option.some_bind]
  obtain ⟨s1, e1, a1⟩ := interstitialPlane_keeps _ (w * h) (3 * (w * h)) w h cw ch (w * h)
    (w * h) src s0 hw hh hcw hch (by omega) (by omega) (by omega) a0
  rw [e1, Option.some_bind]
  exact interstitialPlane_keeps _ (w * h) (3 * (w * h)) w h cw ch (w * h + cw * ch)
    (w * h + w * h) src s1 hw hh hcw hch (by omega) (by omega) (by omega) a1

theorem hold420Body_keeps (G : Nat → Byte) (n L w h cw ch srcU srcV dstU dstV y x : Nat)
    (src t : Buf) (hw : 2 * cw ≤ w) (hh : 2 * ch ≤ h) (hy : y < ch) (hx : x < cw)
    (hU : srcU + cw * ch ≤ src.length) (hV : srcV + cw * ch ≤ src.length)
    (hlo : n ≤ dstU) (hlo' : n ≤ dstV) (hhi : dstU + w * h ≤ L) (hhi' : dstV + w * h ≤ L)
    (ht : Agrees G (fun q => q < n) L t) :
    ∃ t', YUVFile.hold420Body w cw srcU srcV dstU dstV src y x t = some t' ∧
      Agrees G (fun q => q < n) L t' := by
  have r1 := row_le (2 * y) w h (by omega)
  have s1 := row_le y cw ch hy
  unfold YUVFile.hold420Body
  simp only [Option.bind_eq_bind]
  repeat' (first
    | refine load_some_bind (by omega) (fun _ => ?_)
    | refine store_keep_bind (by assumption) (by omega) (by omega) (fun _ _ => ?_)
    | exact store_keep (by assumption) (by omega) (by omega))

theorem memcpyWithin_keeps (G : Nat → Byte) (n L dOff sOff m : Nat) (t : Buf)
    (hs : sOff + m ≤ L) (hlo : n ≤ dOff) (hhi : dOff + m ≤ L)
    (ht : Agrees G (fun q => q < n) L t) :
    ∃ t', memcpyWithin t dOff sOff m = some t' ∧ Agrees G (fun q => q < n) L t' := by
  unfold memcpyWithin
  exact forLoop_inv (fun _ u => Agrees G (fun q => q < n) L u) _ m t ht
    (fun i u hi hu => by
      dsimp only
      simp only [Option.bind_eq_bind]
      refine load_some_bind (by rw [hu.1]; omega) (fun _ => ?_)
      exact store_keep hu (by omega) (by omega))

theorem hold420Rows_keeps (G : Nat → Byte) (n L w h cw ch srcU srcV dstU dstV y : Nat)
    (src t : Buf) (hw : 2 * cw ≤ w) (hh : 2 * ch ≤ h) (hy : y < ch)
    (hU : srcU + cw * ch ≤ src.length) (hV : srcV + cw * ch ≤ src.length)
    (hlo : n ≤ dstU) (hlo' : n ≤ dstV) (hhi : dstU + w * h ≤ L) (hhi' : dstV + w * h ≤ L)
    (ht : Agrees G (fun q => q < n) L t) :
    ∃ t', YUVFile.hold420Rows w cw srcU srcV dstU dstV src y t = some t' ∧
      Agrees G (fun q => q < n) L t' := by
  have r1 := row_le (2 * y) w h (by omega)
  have r2 := row_le (2 * y + 1) w h (by omega)
  unfold YUVFile.hold420Rows
  simp only [Option.bind_eq_bind]
  refine forLoop_bind (I := fun _ u => Agrees G (fun q => q < n) L u) ht
    (fun x u hx hu => hold420Body_keeps G n L w h cw ch srcU srcV dstU dstV y x src u hw hh hy hx
      hU hV hlo hlo' hhi hhi' hu) (fun t1 a1 => ?_)
  obtain ⟨t2, e2, a2⟩ := memcpyWithin_keeps G n L (dstU + (2 * y + 1) * w) (dstU + 2 * y * w) w
    t1 (by omega) (by omega) (by omega) a1
  rw [e2, Option.some_bind]
  exact memcpyWithin_keeps G n L (dstV + (2 * y + 1) * w) (dstV + 2 * y * w) w t2 (by omega)
    (by omega) (by omega) a2

theorem holdDivBody_keeps (G : Nat → Byte) (n L w h cw hs vs srcU srcV dstU dstV y x : Nat)
    (src t : Buf) (hy : y < h) (hx : x < w)
    (hU : srcU + (x / hs + y / vs * cw) < src.length)
    (hV : srcV + (x / hs + y / vs * cw) < src.length)
    (hlo : n ≤ dstU) (hlo' : n ≤ dstV) (hhi : dstU + w * h ≤ L) (hhi' : dstV + w * h ≤ L)
    (ht : Agrees G (fun q => q < n) L t) :
    ∃ t', YUVFile.holdDivBody w cw hs vs srcU srcV dstU dstV src y x t = some t' ∧
      Agrees G (fun q => q < n) L t' := by
  have r1 := idx_lt x y w h hx hy
  unfold YUVFile.holdDivBody
  simp only [Option.bind_eq_bind]
  repeat' (first
    | refine load_some_bind (by omega) (fun _ => ?_)
    | refine store_keep_bind (by assumption) (by omega) (by omega) (fun _ _ => ?_)
    | exact store_keep (by assumption) (by omega) (by omega))

theorem convertHold_keeps (fmt : YUVCPixelFormatType) (src dst : Buf) (w h cw ch hs vs : Nat)
    (hfmt : (hs = 2 ∧ vs = 2 ∧ 2 * cw ≤ w ∧ 2 * ch ≤ h) ∨
      (vs = 1 ∧ (hs = 1 ∨ hs = 2 ∨ hs = 4) ∧
        ∀ x y, x < w → y < h → w * h + cw * ch + (x / hs + y / vs * cw) < src.length))
    (hsrc : w * h + 2 * (cw * ch) ≤ src.length) (hdst : dst.length = 3 * (w * h)) :
    ∃ out, YUVFile.convertHold fmt w h cw ch hs vs src dst = some out ∧
      Agrees (fun p => src.getD p 0) (fun q => q < w * h) (3 * (w * h)) out := by
  unfold YUVFile.convertHold
  simp only [Option.bind_eq_bind]
  obtain ⟨s0, e0, a0⟩ := memcpy_front src dst (w * h) (3 * (w * h)) (by omega) (by omega) hdst
  rw [e0, Option.some_bind]
  have hU : w * h + (if YUVFile.reverseUV fmt then cw * ch else 0) + cw * ch ≤ src.length := by
    split_ifs <;> omega
  have hV : w * h + (if YUVFile.reverseUV fmt then 0 else cw * ch) + cw * ch ≤ src.length := by
    split_ifs <;> omega
  have hU' : w * h + (if YUVFile.reverseUV fmt then cw * ch else 0) ≤ w * h + cw * ch := by
    split_ifs <;> omega
  have hV' : w * h + (if YUVFile.reverseUV fmt then 0 else cw * ch) ≤ w * h + cw * ch := by
    split_ifs <;> omega
  generalize w * h + (if YUVFile.reverseUV fmt then cw * ch else 0) = srcU at *
  generalize w * h + (if YUVFile.reverseUV fmt then 0 else cw * ch) = srcV at *
  rcases hfmt with ⟨rfl, rfl, hw, hh⟩ | ⟨rfl, hhs, hidx⟩
  · rw [if_pos (by decide)]
    exact forLoop_inv (fun _ u => Agrees _ (fun q => q < w * h) (3 * (w * h)) u) _ ch s0 a0
      (fun y u hy hu => hold420Rows_keeps _ (w * h) (3 * (w * h)) w h cw ch srcU srcV (w * h)
        (w * h + w * h) y src u hw hh hy hU hV (by omega) (by omega) (by omega) (by omega) hu)
  · have hdiv : ∃ out, forLoop h (fun y d => forLoop w
          (YUVFile.holdDivBody w cw hs 1 srcU srcV (w * h) (w * h + w * h) src y) d) s0
          = some out ∧
        Agrees (fun p => src.getD p 0) (fun q => q < w * h) (3 * (w * h)) out :=
      forLoop_inv (fun _ u => Agrees _ (fun q => q < w * h) (3 * (w * h)) u) _ h s0 a0
        (fun y u hy hu => forLoop_inv
          (fun _ u => Agrees _ (fun q => q < w * h) (3 * (w * h)) u) _ w u hu
          (fun x v hx hv => holdDivBody_keeps _ (w * h) (3 * (w * h)) w h cw hs 1 srcU srcV
            (w * h) (w * h + w * h) y x src v hy hx
            (by have := hidx x y hx hy; omega) (by have := hidx x y hx hy; omega)
            (by omega) (by omega) (by omega) (by omega) hv))
    rcases hhs with rfl | rfl | rfl
    · rw [if_neg (by decide), if_neg (by decide), if_neg (by decide)]
      exact hdiv
    · rw [if_neg (by decide), if_neg (by decide), if_neg (by decide)]
      exact hdiv
    · rw [if_neg (by decide), if_neg (by decide), if_neg (by decide)]
      exact hdiv

theorem agrees_front (src out : Buf) (n L : Nat) (hn : n ≤ src.length) (hL : n ≤ L)
    (ha : Agrees (fun p => src.getD p 0) (fun q => q < n) L out) :
    out.length = L ∧ ∀ k, k < n → out[k]? = src[k]? := by
  refine ⟨ha.1, fun k hk => ?_⟩
  rw [ha.2 k hk (by omega)]
  exact (load_of_lt src k (by omega)).symm

theorem ite_div_zero (w hs : Nat) : (if hs = 0 then 0 else w / hs) = w / hs := by
  split_ifs with h
  · rw [h, Nat.div_zero]
  · rfl

theorem convert2YUV444_planar8_keeps (host : Host) (fresh : Nat → Byte)
    (fmt : YUVCPixelFormatType) (mode : InterpolationMode) (src dst : Buf) (w h hs vs : Nat)
    (e1 : YUVFile.horizontalSubSampling fmt = hs) (e2 : YUVFile.verticalSubSampling fmt = vs)
    (e3 : YUVFile.bytePerComponent fmt = 1) (hpl : YUVFile.isPlanar fmt = true)
    (hbps : YUVFile.bitsPerSample fmt = 8) (n1 : fmt ≠ YUVC_UYVY422PixelFormat)
    (n2 : fmt ≠ YUVC_UYVY422YpCbCr10PixelFormat) (n3 : fmt ≠ YUVC_422YpCbCr10PixelFormat)
    (hsub : (hs = 0 ∧ vs = 0) ∨ (hs = 2 ∧ vs = 2 ∧ fmt = YUVC_420YpCbCr8PlanarPixelFormat) ∨
      (vs = 1 ∧ (hs = 1 ∨ hs = 2 ∨ hs = 4) ∧ fmt ≠ YUVC_420YpCbCr8PlanarPixelFormat))
    (hw : 1 ≤ w) (hh : 1 ≤ h) (hov : 3 * w * h < 2 ^ 31)
    (hsrc : w * h + 2 * ((w / hs) * (h / vs)) ≤ src.length)
    (hidx : vs = 1 → ∀ x y, x < w → y < h →
      w * h + (w / hs) * (h / vs) + (x / hs + y / vs * (w / hs)) < src.length) :
    ∃ out, YUVFile.convert2YUV444 host fresh fmt mode src w h dst = some out ∧
      out.length = 3 * (w * h) ∧ ∀ k, k < w * h → out[k]? = src[k]? := by
  have h7 : w ≤ w * h := Nat.le_mul_of_pos_right w hh
  have h8 : 3 * w * h = 3 * (w * h) := Nat.mul_assoc 3 w h
  have c1 : ¬ (2 ^ 31 ≤ w * h ∨ 2 ^ 31 ≤ 3 * w ∨ 2 ^ 31 ≤ 3 * w * h ∨ 2 ^ 31 ≤ 3 * w * h) := by
    omega
  have hz : hs = 0 → w / hs = 0 := fun a => by rw [a, Nat.div_zero]
  have hm1 : hs * (w / hs) ≤ w := Nat.mul_div_le w hs
  have hm2 : vs * (h / vs) ≤ h := Nat.mul_div_le h vs
  unfold YUVFile.convert2YUV444
  simp only [e1, e2, e3, ite_div_zero, Nat.mul_one]
  rw [if_neg c1]
  generalize w / hs = cw at *
  generalize h / vs = ch at *
  have hdst : (if dst.length ≠ 3 * w * h then resize dst (3 * w * h) fresh else dst).length
      = 3 * (w * h) := by
    split_ifs with hl
    · rw [resize_length]; omega
    · omega
  generalize (if dst.length ≠ 3 * w * h then resize dst (3 * w * h) fresh else dst) = tgt at *
  by_cases c2 : cw * ch = 0
  · rw [if_pos c2]
    obtain ⟨out, e, l, a, _⟩ := convertNoChroma_spec src tgt (w * h) (by omega) hdst
    exact ⟨out, e, l, a⟩
  · rw [if_neg c2, if_neg n1, if_neg n2, if_neg n3]
    obtain ⟨hcw, hch⟩ := Nat.mul_ne_zero_iff.mp c2
    have hsub' : (hs = 2 ∧ vs = 2 ∧ fmt = YUVC_420YpCbCr8PlanarPixelFormat) ∨
        (vs = 1 ∧ (hs = 1 ∨ hs = 2 ∨ hs = 4) ∧ fmt ≠ YUVC_420YpCbCr8PlanarPixelFormat) := by
      rcases hsub with ⟨a, _⟩ | b | b
      · exact absurd (hz a) hcw
      · exact Or.inl b
      · exact Or.inr b
    by_cases cb : fmt = YUVC_420YpCbCr8PlanarPixelFormat ∧ mode = BiLinearInterpolation
    · rw [if_pos cb]
      rcases hsub' with ⟨rfl, rfl, _⟩ | ⟨_, _, b⟩
      · obtain ⟨out, e, a⟩ := convertBilinear_keeps src tgt w h cw ch hm1 hm2 (by omega) (by omega)
          hsrc hdst
        exact ⟨out, e, agrees_front src out (w * h) _ (by omega) (by omega) a⟩
      · exact absurd cb.1 b
    · rw [if_neg cb]
      by_cases ci : fmt = YUVC_420YpCbCr8PlanarPixelFormat ∧ mode = InterstitialInterpolation
      · rw [if_pos ci]
        rcases hsub' with ⟨rfl, rfl, _⟩ | ⟨_, _, b⟩
        · obtain ⟨out, e, a⟩ := convertInterstitial_keeps src tgt w h cw ch hm1 hm2 (by omega)
            (by omega) hsrc hdst
          exact ⟨out, e, agrees_front src out (w * h) _ (by omega) (by omega) a⟩
        · exact absurd ci.1 b
      · rw [if_neg ci, if_pos ⟨hpl, hbps⟩]
        obtain ⟨out, e, a⟩ := convertHold_keeps fmt src tgt w h cw ch hs vs
          (by
            rcases hsub' with ⟨a, b, _⟩ | ⟨a, b, _⟩
            · exact Or.inl ⟨a, b, by rw [a] at hm1; exact hm1, by rw [b] at hm2; exact hm2⟩
            · exact Or.inr ⟨a, b, hidx a⟩) hsrc hdst
        exact ⟨out, e, agrees_front src out (w * h) _ (by omega) (by omega) a⟩

/-- The planar 8-bit formats of the catalogue: their subsampling and their
bits per pixel. -/
theorem planar8_formats (fmt : YUVCPixelFormatType) (hpl : YUVFile.isPlanar fmt = true)
    (hbps : YUVFile.bitsPerSample fmt = 8) :
    ∃ hs vs n pf, YUVFile.horizontalSubSampling fmt = hs ∧ YUVFile.verticalSubSampling fmt = vs ∧
      YUVFile.describe fmt = some pf ∧ pf.bitsPerPixelNominator = n ∧
      pf.bitsPerPixelDenominator = 1 ∧ YUVFile.bytePerComponent fmt = 1 ∧
      fmt ≠ YUVC_UYVY422PixelFormat ∧ fmt ≠ YUVC_UYVY422YpCbCr10PixelFormat ∧
      fmt ≠ YUVC_422YpCbCr10PixelFormat ∧ fmt ≠ YUVC_UnknownPixelFormat ∧
      ((hs = 0 ∧ vs = 0 ∧ n = 8) ∨
        (hs = 2 ∧ vs = 2 ∧ n = 12 ∧ fmt = YUVC_420YpCbCr8PlanarPixelFormat) ∨
        (vs = 1 ∧ fmt ≠ YUVC_420YpCbCr8PlanarPixelFormat ∧
          ((hs = 1 ∧ n = 24) ∨ (hs = 2 ∧ n = 16) ∨ (hs = 4 ∧ n = 12)))) := by
  cases fmt <;> first
    | exact absurd hpl (by decide)
    | exact absurd hbps (by decide)
    | exact absurd hpl Bool.false_ne_true
    | exact ⟨_, _, _, _, rfl, rfl, rfl, rfl, rfl, rfl, by decide, by decide, by decide, by decide,
        by decide⟩

theorem chroma_rows (w h hs : Nat) (hh : 1 ≤ h) :
    hs * (w / hs * h) + (w - hs * (w / hs)) * h = w * h ∧
      w - hs * (w / hs) ≤ (w - hs * (w / hs)) * h := by
  have h1 : hs * (w / hs) ≤ w := Nat.mul_div_le w hs
  have h2 : (hs * (w / hs) + (w - hs * (w / hs))) * h = w * h := by
    rw [Nat.add_sub_cancel' h1]
  rw [Nat.add_mul, Nat.mul_assoc] at h2
  exact ⟨h2, Nat.le_mul_of_pos_right _ hh⟩

theorem chroma420 (w h : Nat) : 4 * (w / 2 * (h / 2)) ≤ w * h := by
  have h1 := Nat.mul_le_mul (Nat.mul_div_le w 2) (Nat.mul_div_le h 2)
  have h2 : 2 * (w / 2) * (2 * (h / 2)) = 4 * (w / 2 * (h / 2)) := by ring
  omega

/-- C17: for every planar 8-bit format of the catalogue (monochrome, 4:2:0 in
each of the three interpolation modes, 4:2:2, 4:1:1, 4:4:4 and the variants
that store Cr first) and every `w`, `h` of at least 1, also odd ones, with
the frame-size arithmetic within 32 bits, `convert2YUV444` applied to a
source frame of `bytesPerFrame` bytes returns a buffer of `3*w*h` bytes whose
first `w*h` bytes are the first `w*h` bytes of the source. -/
theorem convert2YUV444_luma_passthrough (host : Host) (fresh : Nat → Byte)
    (fmt : YUVCPixelFormatType) (mode : InterpolationMode) (src dst : Buf) (w h : Nat)
    (hpl : YUVFile.isPlanar fmt = true) (hbps : YUVFile.bitsPerSample fmt = 8)
    (hw : 1 ≤ w) (hh : 1 ≤ h) (hsrc : YUVFile.bytesPerFrame w h fmt = some src.length)
    (hov : w * h * 24 + 8 ≤ 2 ^ 32) :
    ∃ out, YUVFile.convert2YUV444 host fresh fmt mode src w h dst = some out ∧
      out.length = 3 * (w * h) ∧ ∀ k, k < w * h → out[k]? = src[k]? := by
  obtain ⟨hs, vs, n, pf, e1, e2, hpf, hn, hd, e3, n1, n2, n3, n4, hsub⟩ :=
    planar8_formats fmt hpl hbps
  have hn24 : n = 8 ∨ n = 12 ∨ n = 16 ∨ n = 24 := by
    rcases hsub with ⟨_, _, a⟩ | ⟨_, _, a, _⟩ | ⟨_, _, ⟨_, a⟩ | ⟨_, a⟩ | ⟨_, a⟩⟩ <;> omega
  have hb := bytesPerFrame_eval fmt pf hpf n4 w h (by
    rw [hn]
    rcases hn24 with a | a | a | a <;> rw [a] <;> omega)
  rw [hsrc, hn, hd] at hb
  have hlen : src.length = (w * h * n + 7) / 8 := by
    have := Option.some.inj hb
    rw [this, Nat.add_sub_cancel, Nat.div_one]
  clear hb hsrc
  have c420 := chroma420 w h
  have h8 : 3 * w * h = 3 * (w * h) := Nat.mul_assoc 3 w h
  apply convert2YUV444_planar8_keeps host fresh fmt mode src dst w h hs vs e1 e2 e3 hpl hbps n1 n2
    n3 _ hw hh (by omega)
  · rcases hsub with ⟨rfl, rfl, rfl⟩ | ⟨rfl, rfl, rfl, _⟩ |
      ⟨rfl, _, ⟨rfl, rfl⟩ | ⟨rfl, rfl⟩ | ⟨rfl, rfl⟩⟩
    · simp only [Nat.div_zero, Nat.zero_mul, Nat.mul_zero, Nat.add_zero]
      omega
    · omega
    · simp only [Nat.div_one]
      omega
    · have a := chroma_rows w h 2 hh
      simp only [Nat.div_one]
      omega
    · have a := chroma_rows w h 4 hh
      simp only [Nat.div_one]
      omega
  · intro hv x y hx hy
    have i1 := idx_lt x y w h hx hy
    rcases hsub with ⟨rfl, rfl, rfl⟩ | ⟨rfl, rfl, rfl, _⟩ |
      ⟨rfl, _, ⟨rfl, rfl⟩ | ⟨rfl, rfl⟩ | ⟨rfl, rfl⟩⟩
    · exact absurd hv (by decide)
    · exact absurd hv (by decide)
    · simp only [Nat.div_one]
      omega
    · have a := chroma_rows w h 2 hh
      have b := row_le y (w / 2) h hy
      simp only [Nat.div_one]
      omega
    · have a := chroma_rows w h 4 hh
      have b := row_le y (w / 4) h hy
      simp only [Nat.div_one]
      omega
  · rcases hsub with ⟨a, b, _⟩ | ⟨a, b, _, c⟩ | ⟨a, c, ⟨b, _⟩ | ⟨b, _⟩ | ⟨b, _⟩⟩
    · exact Or.inl ⟨a, b⟩
    · exact Or.inr (Or.inl ⟨a, b, c⟩)
    · exact Or.inr (Or.inr ⟨a, Or.inl b, c⟩)
    · exact Or.inr (Or.inr ⟨a, Or.inr (Or.inl b), c⟩)
    · exact Or.inr (Or.inr ⟨a, Or.inr (Or.inr b), c⟩)

/-- C17, at a 3 x 3 frame of the 8-bit 4:2:0 format in bilinear mode. -/
theorem convert2YUV444_luma_passthrough_witness :
    ∃ out, YUVFile.convert2YUV444 ⟨false, false, true⟩ (fun _ => 0)
        YUVC_420YpCbCr8PlanarPixelFormat BiLinearInterpolation
        [1, 2, 3, 4, 5, 6, 7, 8, 9, 10, 11, 12, 13, 14] 3 3 [] = some out ∧
      out.length = 3 * (3 * 3) ∧
      ∀ k, k < 3 * 3 → out[k]? = ([1, 2, 3, 4, 5, 6, 7, 8, 9, 10, 11, 12, 13, 14] : Buf)[k]? :=
  convert2YUV444_luma_passthrough ⟨false, false, true⟩ (fun _ => 0)
    YUVC_420YpCbCr8PlanarPixelFormat BiLinearInterpolation
    [1, 2, 3, 4, 5, 6, 7, 8, 9, 10, 11, 12, 13, 14] [] 3 3 rfl rfl (by decide) (by decide)
    (by decide) (by decide)

theorem toInt32_of_lt (x : Nat) (h : x < 2 ^ 31) : toInt32 (x : Int) = x := by
  unfold toInt32
  omega

/-- C18 (as stated, refuted): for a file of `2^31` bytes and 1 x 1 frames of
the monochrome format, of 1 byte each, the quotient `2^31` does not fit the
`int` that is returned, and `getNumberFrames` returns `-2^31`. -/
theorem getNumberFrames_floor_counterexample :
    YUVFile.bytesPerFrame 1 1 YUVC_8GrayPixelFormat = some 1 ∧
      YUVFile.getNumberFrames (2 ^ 31) YUVC_8GrayPixelFormat 1 1 = some (-2 ^ 31) ∧
      ¬ (YUVFile.getNumberFrames (2 ^ 31) YUVC_8GrayPixelFormat 1 1
        = some (((2 ^ 31 / 1 : Nat)) : Int)) := by
  decide

/-- C18 (amended): for every file size and every format, `getNumberFrames`
returns the quotient `fileSize / bpf` rounded down for every width and height
above 0 for which `bytesPerFrame` gives a frame size `bpf` other than 0 with
`fileSize / bpf` below `2^31`; and it returns -1 for every width and height
of which one is not above 0, whatever the format and the file size. -/
theorem getNumberFrames_floor (fileSize : Nat) (fmt : YUVCPixelFormatType) :
    (∀ (width height : Int) (bpf : Nat), 0 < width → 0 < height →
      YUVFile.bytesPerFrame width height fmt = some bpf → bpf ≠ 0 → fileSize / bpf < 2 ^ 31 →
      YUVFile.getNumberFrames fileSize fmt width height = some ((fileSize / bpf : Nat) : Int)) ∧
    (∀ (width height : Int), width ≤ 0 ∨ height ≤ 0 →
      YUVFile.getNumberFrames fileSize fmt width height = some (-1)) := by
  constructor
  · intro width height bpf hw hh hbpf hne hq
    unfold YUVFile.getNumberFrames
    rw [if_pos ⟨hw, hh⟩, hbpf]
    simp only [hne, if_false]
    rw [toInt32_of_lt _ hq]
  · intro width height hwh
    unfold YUVFile.getNumberFrames
    rw [if_neg (by omega)]

/-- C18 (amended), at a file of 100 bytes and the 8-bit 4:2:0 format: 8
frames of 4 x 2 samples, 12 bytes each, and -1 for the sizes 0 x 2 and
4 x -3. -/
theorem getNumberFrames_floor_witness :
    YUVFile.bytesPerFrame 4 2 YUVC_420YpCbCr8PlanarPixelFormat = some 12 ∧
    YUVFile.getNumberFrames 100 YUVC_420YpCbCr8PlanarPixelFormat 4 2
      = some ((100 / 12 : Nat) : Int) ∧
    YUVFile.getNumberFrames 100 YUVC_420YpCbCr8PlanarPixelFormat 0 2 = some (-1) ∧
    YUVFile.getNumberFrames 100 YUVC_420YpCbCr8PlanarPixelFormat 4 (-3) = some (-1) :=
  ⟨by decide,
    (getNumberFrames_floor 100 YUVC_420YpCbCr8PlanarPixelFormat).1 4 2 12 (by decide)
      (by decide) (by decide) (by decide) (by decide),
    (getNumberFrames_floor 100 YUVC_420YpCbCr8PlanarPixelFormat).2 0 2 (Or.inl (by decide)),
    (getNumberFrames_floor 100 YUVC_420YpCbCr8PlanarPixelFormat).2 4 (-3)
      (Or.inr (by decide))⟩

theorem readFrameStart_of_lt (i bpf : Nat) (h : i * bpf < 2 ^ 32) :
    YUVFile.readFrameStart i bpf = i * bpf := by
  unfold YUVFile.readFrameStart toInt32
  omega

theorem readFrameStart_mod (i bpf : Nat) :
    YUVFile.readFrameStart i bpf = (i * bpf) % 2 ^ 32 := by
  unfold YUVFile.readFrameStart toInt32
  omega

theorem take_drop_length_le (data : Buf) (s n : Nat) : ((data.drop s).take n).length ≤ n := by
  rw [List.length_take]
  omega

/-- What `readFrame` does with a file: the bytes the file holds from the start
position on, at most a frame of them, are put in front of the rest of the
resized target, and the frame size is returned. -/
theorem readFrame_eval (f : QFile) (fmt : YUVCPixelFormatType) (fresh : Nat → Byte) (tgt : Buf)
    (i : Nat) (width height : Int) (bpf : Nat)
    (hbpf : YUVFile.bytesPerFrame width height fmt = some bpf) :
    YUVFile.readFrame (some f) fmt fresh tgt i width height =
      some (some ⟨f.data, YUVFile.readFrameStart i bpf +
          ((f.data.drop (YUVFile.readFrameStart i bpf)).take bpf).length⟩,
        (f.data.drop (YUVFile.readFrameStart i bpf)).take bpf ++
          (if tgt.length ≠ bpf then resize tgt bpf fresh else tgt).drop
            ((f.data.drop (YUVFile.readFrameStart i bpf)).take bpf).length,
        (bpf : Int)) := by
  have hl : (if tgt.length ≠ bpf then resize tgt bpf fresh else tgt).length = bpf := by
    split_ifs with h
    · exact resize_length _ _ _
    · omega
  have hg := take_drop_length_le f.data (YUVFile.readFrameStart i bpf) bpf
  unfold YUVFile.readFrame
  rw [hbpf]
  dsimp only
  unfold YUVFile.readBytes QFile.read QFile.seek
  dsimp only
  rw [if_pos (by rw [hl]; exact hg)]

/-- C19 (as stated, refuted): for 2 x 1 frames of the monochrome format, of 2
bytes each, and the frame index `2^31` the start position `2^31 * 2` wraps to
0 in its 32-bit variable: from a file of `2^32 + 2` bytes that ends in
`[1, 2]` after `2^32` zero bytes, `readFrame` delivers the first two bytes
`[0, 0]`, not the two bytes `[1, 2]` at the offset `2^31 * 2`. -/
theorem readFrame_offset_counterexample :
    YUVFile.bytesPerFrame 2 1 YUVC_8GrayPixelFormat = some 2 ∧
      (2 ^ 31 + 1) * 2 ≤ (List.replicate (2 ^ 32) (0 : Byte) ++ [1, 2]).length ∧
      YUVFile.readFrameStart (2 ^ 31) 2 = 0 ∧
      YUVFile.readFrame (some ⟨List.replicate (2 ^ 32) 0 ++ [1, 2], 0⟩) YUVC_8GrayPixelFormat
          (fun _ => 9) [] (2 ^ 31) 2 1 =
        some (some ⟨List.replicate (2 ^ 32) 0 ++ [1, 2], 2⟩, [0, 0], 2) ∧
      ((List.replicate (2 ^ 32) (0 : Byte) ++ [1, 2]).drop (2 ^ 31 * 2)).take 2 = [1, 2] := by
  have h0 : YUVFile.readFrameStart (2 ^ 31) 2 = 0 := by
    rw [readFrameStart_mod]
    norm_num
  have h1 : (List.replicate (2 ^ 32) (0 : Byte) ++ [1, 2]).take 2 = [0, 0] := by
    rw [List.take_append_of_le_length (by rw [List.length_replicate]; norm_num),
      List.take_replicate]
    rfl
  have h2 : (List.replicate (2 ^ 32) (0 : Byte) ++ [1, 2]).drop (2 ^ 31 * 2) = [1, 2] :=
    List.drop_left' (by rw [List.length_replicate]; norm_num)
  refine ⟨by decide, ?_, h0, ?_, ?_⟩
  · rw [List.length_append, List.length_replicate]
    norm_num
  · rw [readFrame_eval _ _ _ _ _ _ _ 2 (by decide), h0, List.drop_zero, h1]
    rfl
  · rw [h2]
    rfl

/-- C19 (amended): for every frame index `i` and geometry with a frame size
`bpf` such that `i * bpf` is below `2^32`, `readFrame` positions the file at
the byte offset `i * bpf`, and when the file holds at least `(i+1) * bpf`
bytes it leaves the target holding exactly the `bpf` bytes of the file at the
offsets from `i * bpf` up to `(i+1) * bpf`, the file positioned behind them,
and returns `bpf`. -/
theorem readFrame_reads_frame (f : QFile) (fmt : YUVCPixelFormatType) (fresh : Nat → Byte)
    (tgt : Buf) (i : Nat) (width height : Int) (bpf : Nat)
    (hbpf : YUVFile.bytesPerFrame width height fmt = some bpf) (hlt : i * bpf < 2 ^ 32)
    (hfile : (i + 1) * bpf ≤ f.data.length) :
    YUVFile.readFrameStart i bpf = i * bpf ∧
      YUVFile.readFrame (some f) fmt fresh tgt i width height =
        some (some ⟨f.data, (i + 1) * bpf⟩, (f.data.drop (i * bpf)).take bpf, (bpf : Int)) ∧
      ((f.data.drop (i * bpf)).take bpf).length = bpf ∧
      ∀ k, k < bpf → ((f.data.drop (i * bpf)).take bpf)[k]? = f.data[i * bpf + k]? := by
  have hs := readFrameStart_of_lt i bpf hlt
  have e1 : (i + 1) * bpf = i * bpf + bpf := Nat.succ_mul i bpf
  have hg : ((f.data.drop (i * bpf)).take bpf).length = bpf := by
    rw [List.length_take, List.length_drop]
    omega
  have hl : (if tgt.length ≠ bpf then resize tgt bpf fresh else tgt).length = bpf := by
    split_ifs with h
    · exact resize_length _ _ _
    · omega
  have hd : (if tgt.length ≠ bpf then resize tgt bpf fresh else tgt).drop bpf = [] :=
    List.drop_of_length_le (by omega)
  refine ⟨hs, ?_, hg, ?_⟩
  · rw [readFrame_eval f fmt fresh tgt i width height bpf hbpf, hs, hg, e1, hd, List.append_nil]
  · intro k hk
    rw [List.getElem?_take_of_lt hk, List.getElem?_drop]

/-- C19 (amended), at frame 1 of a file of five bytes and 2 x 1 monochrome frames. -/
theorem readFrame_reads_frame_witness :
    YUVFile.readFrameStart 1 2 = 1 * 2 ∧
      YUVFile.readFrame (some ⟨[1, 2, 3, 4, 5], 0⟩) YUVC_8GrayPixelFormat (fun _ => 9) [] 1 2 1 =
        some (some ⟨[1, 2, 3, 4, 5], (1 + 1) * 2⟩, (([1, 2, 3, 4, 5] : Buf).drop (1 * 2)).take 2,
          ((2 : Nat) : Int)) ∧
      ((([1, 2, 3, 4, 5] : Buf).drop (1 * 2)).take 2).length = 2 ∧
      ∀ k, k < 2 →
        ((([1, 2, 3, 4, 5] : Buf).drop (1 * 2)).take 2)[k]? = ([1, 2, 3, 4, 5] : Buf)[1 * 2 + k]? :=
  readFrame_reads_frame ⟨[1, 2, 3, 4, 5], 0⟩ YUVC_8GrayPixelFormat (fun _ => 9) [] 1 2 1 2
    (by decide) (by decide) (by decide)

/-- C20 (as stated, refuted): from an empty file `readFrame` for frame 0 of
1 x 1 frames of the monochrome format, of 1 byte each, returns 1 and leaves a
target of 1 byte, the byte the resized target held: neither is smaller than
the frame size. -/
theorem readFrame_short_read_counterexample :
    YUVFile.bytesPerFrame 1 1 YUVC_8GrayPixelFormat = some 1 ∧
      ([] : Buf).length < (0 + 1) * 1 ∧
      YUVFile.readFrame (some ⟨[], 0⟩) YUVC_8GrayPixelFormat (fun _ => 9) [] 0 1 1 =
        some (some ⟨[], 0⟩, [9], 1) := by
  decide

/-- C20 (amended): for every frame index `i` and geometry with a frame size
`bpf`, `readFrame` returns `bpf` and leaves a target of exactly `bpf` bytes,
whatever the file holds; with `i * bpf` below `2^32`, byte `k` of the target
is the byte of the file at the offset `i * bpf + k` where the file holds one,
and the byte the resized target held where the file has ended: a short read
does not show in the length returned. -/
theorem readFrame_returns_frame_size (f : QFile) (fmt : YUVCPixelFormatType)
    (fresh : Nat → Byte) (tgt : Buf) (i : Nat) (width height : Int) (bpf : Nat)
    (hbpf : YUVFile.bytesPerFrame width height fmt = some bpf) :
    ∃ file buf, YUVFile.readFrame (some f) fmt fresh tgt i width height
        = some (file, buf, (bpf : Int)) ∧
      buf.length = bpf ∧
      (i * bpf < 2 ^ 32 → ∀ k, k < bpf →
        buf[k]? = if i * bpf + k < f.data.length then f.data[i * bpf + k]?
          else (if tgt.length ≠ bpf then resize tgt bpf fresh else tgt)[k]?) := by
  have hl : (if tgt.length ≠ bpf then resize tgt bpf fresh else tgt).length = bpf := by
    split_ifs with h
    · exact resize_length _ _ _
    · omega
  have hg := take_drop_length_le f.data (YUVFile.readFrameStart i bpf) bpf
  refine ⟨_, _, readFrame_eval f fmt fresh tgt i width height bpf hbpf, ?_, ?_⟩
  · rw [List.length_append, List.length_drop, hl]
    omega
  · intro hlt k hk
    rw [readFrameStart_of_lt i bpf hlt]
    generalize (if tgt.length ≠ bpf then resize tgt bpf fresh else tgt) = t at *
    have hgl : ((f.data.drop (i * bpf)).take bpf).length = min bpf (f.data.length - i * bpf) := by
      rw [List.length_take, List.length_drop]
    by_cases hin : i * bpf + k < f.data.length
    · rw [if_pos hin, List.getElem?_append_left (by rw [hgl]; omega),
        List.getElem?_take_of_lt hk, List.getElem?_drop]
    · rw [if_neg hin, List.getElem?_append_right (by rw [hgl]; omega), List.getElem?_drop, hgl]
      congr 1
      omega

/-- C20 (amended), at frame 2 of a file of five bytes and 2 x 1 monochrome frames, of
which the file holds one byte. -/
theorem readFrame_returns_frame_size_witness :
    ∃ file buf, YUVFile.readFrame (some ⟨[1, 2, 3, 4, 5], 0⟩) YUVC_8GrayPixelFormat (fun _ => 9)
        [] 2 2 1 = some (file, buf, ((2 : Nat) : Int)) ∧
      buf.length = 2 ∧
      (2 * 2 < 2 ^ 32 → ∀ k, k < 2 →
        buf[k]? = if 2 * 2 + k < ([1, 2, 3, 4, 5] : Buf).length
          then ([1, 2, 3, 4, 5] : Buf)[2 * 2 + k]?
          else (if ([] : Buf).length ≠ 2 then resize [] 2 (fun _ => 9) else [])[k]?) :=
  readFrame_returns_frame_size ⟨[1, 2, 3, 4, 5], 0⟩ YUVC_8GrayPixelFormat (fun _ => 9) [] 2 2 1 2
    (by decide)

/-- C21 (as stated, refuted): for width -1 and height -1 the monochrome frame
size is 1 byte, so for a file of 5 bytes `getStatus` returns "OK"; but
`getNumberFrames` returns -1 for a width that is not above 0, and -1 times the
frame size is not the file size. -/
theorem getStatus_multiple_counterexample :
    YUVFile.bytesPerFrame (-1) (-1) YUVC_8GrayPixelFormat = some 1 ∧
      YUVFile.getStatus 5 YUVC_8GrayPixelFormat (-1) (-1) = some "OK" ∧
      YUVFile.getNumberFrames 5 YUVC_8GrayPixelFormat (-1) (-1) = some (-1) ∧
      ¬ ((-1 : Int) * 1 = 5) := by
  decide

/-- C21 (amended): for every file size and every width, height and format
with a frame size `bpf` above 0, `getStatus` returns "OK" if and only if the
file size is an exact multiple of `bpf`, and otherwise
"Error: File Size and resolution do not match."; when the width and the
height are above 0 and `fileSize / bpf` is below `2^31`, that is so if and
only if `getNumberFrames(width, height) * bpf` equals the file size. -/
theorem getStatus_multiple (fileSize : Nat) (fmt : YUVCPixelFormatType) (width height : Int)
    (bpf : Nat) (hbpf : YUVFile.bytesPerFrame width height fmt = some bpf) (hpos : 0 < bpf) :
    (YUVFile.getStatus fileSize fmt width height = some "OK" ↔ fileSize % bpf = 0) ∧
    (fileSize % bpf ≠ 0 → YUVFile.getStatus fileSize fmt width height
      = some "Error: File Size and resolution do not match.") ∧
    (0 < width → 0 < height → fileSize / bpf < 2 ^ 31 →
      (YUVFile.getStatus fileSize fmt width height = some "OK" ↔
        ∃ n, YUVFile.getNumberFrames fileSize fmt width height = some n ∧
          n * (bpf : Int) = (fileSize : Int))) := by
  have hne : bpf ≠ 0 := by omega
  have hst : YUVFile.getStatus fileSize fmt width height =
      if fileSize % bpf ≠ 0 then some "Error: File Size and resolution do not match."
      else some "OK" := by
    unfold YUVFile.getStatus
    rw [hbpf]
    simp only [hne, if_false]
  have h1 : YUVFile.getStatus fileSize fmt width height = some "OK" ↔ fileSize % bpf = 0 := by
    rw [hst]
    by_cases h : fileSize % bpf = 0
    · simp [h]
    · simp only [h, ne_eq, not_false_eq_true, if_true, iff_false]
      decide
  refine ⟨h1, ?_, ?_⟩
  · intro h
    rw [hst, if_pos h]
  · intro hw hh hq
    have hn : YUVFile.getNumberFrames fileSize fmt width height
        = some ((fileSize / bpf : Nat) : Int) := by
      unfold YUVFile.getNumberFrames
      rw [if_pos ⟨hw, hh⟩, hbpf]
      simp only [hne, if_false]
      rw [toInt32_of_lt _ hq]
    rw [h1, hn]
    have hdm := Nat.div_add_mod fileSize bpf
    constructor
    · intro h0
      refine ⟨_, rfl, ?_⟩
      have : fileSize / bpf * bpf = fileSize := by
        rw [Nat.mul_comm]; omega
      exact_mod_cast this
    · rintro ⟨n, hn', he⟩
      have hn'' := Option.some.inj hn'
      rw [← hn''] at he
      have : fileSize / bpf * bpf = fileSize := by exact_mod_cast he
      rw [Nat.mul_comm] at this
      omega

/-- C21 (amended), at a file of 24 bytes and 4 x 2 frames of the 8-bit 4:2:0
format, of 12 bytes each. -/
theorem getStatus_multiple_witness :
    (YUVFile.getStatus 24 YUVC_420YpCbCr8PlanarPixelFormat 4 2 = some "OK" ↔ 24 % 12 = 0) ∧
    (24 % 12 ≠ 0 → YUVFile.getStatus 24 YUVC_420YpCbCr8PlanarPixelFormat 4 2
      = some "Error: File Size and resolution do not match.") ∧
    (0 < (4 : Int) → 0 < (2 : Int) → 24 / 12 < 2 ^ 31 →
      (YUVFile.getStatus 24 YUVC_420YpCbCr8PlanarPixelFormat 4 2 = some "OK" ↔
        ∃ n, YUVFile.getNumberFrames 24 YUVC_420YpCbCr8PlanarPixelFormat 4 2 = some n ∧
          n * ((12 : Nat) : Int) = ((24 : Nat) : Int))) :=
  getStatus_multiple 24 YUVC_420YpCbCr8PlanarPixelFormat 4 2 12 (by decide) (by decide)

/-- C29 (the code at fault): with the first frame object present, of 10
frames, and the second absent, `numFrames` returns 10, not `INT_INVALID`. With
both present it returns the smaller count; with the first absent it returns
`INT_INVALID` unless the count of the second is below it. -/
theorem numFrames_second_absent_returns_first :
    DifferenceObject.numFrames (some ⟨10, none⟩) none = 10 ∧ (10 : Int) ≠ INT_INVALID ∧
      (∀ f0 f1, DifferenceObject.numFrames (some f0) (some f1)
        = min f0.numFrames f1.numFrames) ∧
      (∀ f0, DifferenceObject.numFrames (some f0) none = f0.numFrames) ∧
      (∀ f1, DifferenceObject.numFrames none (some f1)
        = if f1.numFrames < INT_INVALID then f1.numFrames else INT_INVALID) ∧
      DifferenceObject.numFrames none none = INT_INVALID := by
  refine ⟨by decide, by decide, ?_, fun _ => rfl, fun _ => rfl, rfl⟩
  intro f0 f1
  unfold DifferenceObject.numFrames
  simp only
  split_ifs with h
  · exact (min_eq_right (le_of_lt h)).symm
  · exact (min_eq_left (not_lt.mp h)).symm

/-- C30 (the code at fault): the samples are read through the `char` pointer
`QByteArray::data()` returns. Where `char` is signed, the luma samples 200
and 100 of two 1 x 1 frames of the 8-bit 4:4:4 format give the difference
-156 and the V samples 20 and 250 the difference 26; read as unsigned values,
as where `char` is unsigned, they give 100 and -230. A point outside the
frame and a missing source give the empty list. -/
theorem getValuesAt_reads_signed_char :
    DifferenceObject.getValuesAt true ⟨false, false, true⟩ (fun _ => 0)
        (some ⟨1, some ⟨some ⟨[200, 10, 20], 0⟩, YUVC_444YpCbCr8PlanarPixelFormat,
          NearestNeighborInterpolation, []⟩⟩)
        (some ⟨1, some ⟨some ⟨[100, 30, 250], 0⟩, YUVC_444YpCbCr8PlanarPixelFormat,
          NearestNeighborInterpolation, []⟩⟩) 1 1 0 0 0
      = some [("Diff Y", -156), ("Diff U", -20), ("Diff V", 26)] ∧
    DifferenceObject.getValuesAt false ⟨false, false, true⟩ (fun _ => 0)
        (some ⟨1, some ⟨some ⟨[200, 10, 20], 0⟩, YUVC_444YpCbCr8PlanarPixelFormat,
          NearestNeighborInterpolation, []⟩⟩)
        (some ⟨1, some ⟨some ⟨[100, 30, 250], 0⟩, YUVC_444YpCbCr8PlanarPixelFormat,
          NearestNeighborInterpolation, []⟩⟩) 1 1 0 0 0
      = some [("Diff Y", 100), ("Diff U", -20), ("Diff V", -230)] ∧
    DifferenceObject.getValuesAt true ⟨false, false, true⟩ (fun _ => 0)
        (some ⟨1, some ⟨some ⟨[200, 10, 20], 0⟩, YUVC_444YpCbCr8PlanarPixelFormat,
          NearestNeighborInterpolation, []⟩⟩)
        (some ⟨1, some ⟨some ⟨[100, 30, 250], 0⟩, YUVC_444YpCbCr8PlanarPixelFormat,
          NearestNeighborInterpolation, []⟩⟩) 1 1 0 1 0 = some [] ∧
    (∀ c host fresh f w h i x y,
      DifferenceObject.getValuesAt c host fresh none f w h i x y = some [] ∧
      DifferenceObject.getValuesAt c host fresh f none w h i x y = some [] ∧
      DifferenceObject.getValuesAt c host fresh (some ⟨1, none⟩) f w h i x y = some []) := by
  refine ⟨by decide, by decide, by decide, ?_⟩
  intro c host fresh f w h i x y
  refine ⟨rfl, ?_, ?_⟩
  · cases f <;> rfl
  · cases f with
    | none => rfl
    | some f1 => cases hf : f1.yuvFile <;> simp [DifferenceObject.getValuesAt, hf]

theorem spanDigits_run (ds rest : List Char) (c : Char) (hds : ∀ d, d ∈ ds → d.isDigit = true)
    (hc : c.isDigit = false) : spanDigits (ds ++ c :: rest) = (ds, c :: rest) := by
  unfold spanDigits
  rw [List.span_eq_take_drop, List.takeWhile_append_of_pos hds, List.dropWhile_append_of_pos hds,
    List.takeWhile_cons_of_neg (by simp [hc]), List.dropWhile_cons_of_neg (by simp [hc]),
    List.append_nil]

theorem spanDigits_none (rest : List Char) (c : Char) (hc : c.isDigit = false) :
    spanDigits (c :: rest) = ([], c :: rest) :=
  spanDigits_run [] rest c (fun d hd => absurd hd (List.not_mem_nil d)) hc

theorem matchExtendedAt_none (rest : List Char) (c : Char) (hc : c.isDigit = false) :
    matchExtendedAt (c :: rest) = none := by
  unfold matchExtendedAt
  rw [spanDigits_none rest c hc]
  rfl

theorem matchDefaultAt_none (rest : List Char) (c : Char) (hc : c.isDigit = false) :
    matchDefaultAt (c :: rest) = none := by
  unfold matchDefaultAt
  rw [spanDigits_none rest c hc]
  rfl

/-- A search skips a front without digits. -/
theorem indexInExtended_skip (pre s : List Char) (hpre : ∀ c, c ∈ pre → c.isDigit = false) :
    indexInExtended (pre ++ s) = indexInExtended s := by
  induction pre with
  | nil => rfl
  | cons c pre ih =>
    rw [List.cons_append, indexInExtended,
      matchExtendedAt_none _ c (hpre c (List.mem_cons_self _ _))]
    exact ih (fun d hd => hpre d (List.mem_cons_of_mem _ hd))

theorem indexInDefault_skip (pre s : List Char) (hpre : ∀ c, c ∈ pre → c.isDigit = false) :
    indexInDefault (pre ++ s) = indexInDefault s := by
  induction pre with
  | nil => rfl
  | cons c pre ih =>
    rw [List.cons_append, indexInDefault,
      matchDefaultAt_none _ c (hpre c (List.mem_cons_self _ _))]
    exact ih (fun d hd => hpre d (List.mem_cons_of_mem _ hd))

theorem matchDefaultTail_run (hs rs rest : List Char) (c : Char) (hh : hs ≠ [])
    (hhd : ∀ d, d ∈ hs → d.isDigit = true) (hr : rs ≠ [])
    (hrd : ∀ d, d ∈ rs → d.isDigit = true) (hc : c.isDigit = false) :
    matchDefaultTail ('x' :: (hs ++ '_' :: (rs ++ c :: rest))) = some (hs, rs, c :: rest) := by
  unfold matchDefaultTail
  simp only [spanDigits_run hs _ '_' hhd (by decide), spanDigits_run rs rest c hrd hc, hh, hr,
    if_false]

theorem matchExtendedTail_run (hs rs bs rest : List Char) (c : Char) (hh : hs ≠ [])
    (hhd : ∀ d, d ∈ hs → d.isDigit = true) (hr : rs ≠ [])
    (hrd : ∀ d, d ∈ rs → d.isDigit = true) (hb : bs ≠ [])
    (hbd : ∀ d, d ∈ bs → d.isDigit = true) (hc : c.isDigit = false) :
    matchExtendedTail ('x' :: (hs ++ '_' :: (rs ++ '_' :: (bs ++ c :: rest))))
      = some (hs, rs, bs) := by
  unfold matchExtendedTail
  rw [matchDefaultTail_run hs rs _ '_' hh hhd hr hrd (by decide)]
  simp only [spanDigits_run bs rest c hbd hc, hb, if_false]

/-- In a name that goes on with a character other than `_` behind the third
group, the pattern with four groups does not match behind the first group. -/
theorem matchExtendedTail_short (hs rs rest : List Char) (c : Char) (hh : hs ≠ [])
    (hhd : ∀ d, d ∈ hs → d.isDigit = true) (hr : rs ≠ [])
    (hrd : ∀ d, d ∈ rs → d.isDigit = true) (hc : c.isDigit = false) (hcu : c ≠ '_') :
    matchExtendedTail ('x' :: (hs ++ '_' :: (rs ++ c :: rest))) = none := by
  unfold matchExtendedTail
  rw [matchDefaultTail_run hs rs rest c hh hhd hr hrd hc]
  split
  · rename_i h f r6 he
    have := congrArg (fun t => t.2.2) (Option.some.inj he)
    simp only at this
    exact absurd (List.cons.inj this).1 hcu
  · rfl

theorem matchExtendedTail_underscore (t : List Char) : matchExtendedTail ('_' :: t) = none := by
  simp [matchExtendedTail, matchDefaultTail]

theorem indexInExtended_digits (ds s : List Char) (c : Char)
    (hds : ∀ d, d ∈ ds → d.isDigit = true) (hc : c.isDigit = false)
    (htail : matchExtendedTail (c :: s) = none) (hrest : indexInExtended (c :: s) = none) :
    indexInExtended (ds ++ c :: s) = none := by
  induction ds with
  | nil => exact hrest
  | cons d ds ih =>
    have h1 : matchExtendedAt (d :: ds ++ c :: s) = none := by
      unfold matchExtendedAt
      rw [spanDigits_run (d :: ds) s c hds hc]
      simp only [htail, Option.map_none', ite_self]
    rw [List.cons_append] at h1 ⊢
    rw [indexInExtended, h1]
    exact ih (fun e he => hds e (List.mem_cons_of_mem _ he))

theorem indexInExtended_nondigit (c : Char) (s : List Char) (hc : c.isDigit = false) :
    indexInExtended (c :: s) = indexInExtended s := by
  rw [indexInExtended, matchExtendedAt_none s c hc]

/-- A name of the short form holds no match of the pattern with four groups. -/
theorem indexInExtended_short (ws hs rs : List Char) (hh : hs ≠ [])
    (hwd : ∀ d, d ∈ ws → d.isDigit = true)
    (hhd : ∀ d, d ∈ hs → d.isDigit = true) (hr : rs ≠ [])
    (hrd : ∀ d, d ∈ rs → d.isDigit = true) :
    indexInExtended (ws ++ 'x' :: (hs ++ '_' :: (rs ++ ".yuv".toList))) = none := by
  have e : ".yuv".toList = '.' :: "yuv".toList := rfl
  rw [e]
  refine indexInExtended_digits ws _ 'x' hwd (by decide)
    (matchExtendedTail_short hs rs _ '.' hh hhd hr hrd (by decide) (by decide)) ?_
  rw [indexInExtended_nondigit _ _ (by decide)]
  refine indexInExtended_digits hs _ '_' hhd (by decide) (matchExtendedTail_underscore _) ?_
  rw [indexInExtended_nondigit _ _ (by decide)]
  exact indexInExtended_digits rs _ '.' hrd (by decide) (by decide) (by decide)

theorem indexInExtended_long (ws hs rs bs : List Char) (hw : ws ≠ []) (hh : hs ≠ [])
    (hwd : ∀ d, d ∈ ws → d.isDigit = true)
    (hhd : ∀ d, d ∈ hs → d.isDigit = true) (hr : rs ≠ [])
    (hrd : ∀ d, d ∈ rs → d.isDigit = true) (hb : bs ≠ [])
    (hbd : ∀ d, d ∈ bs → d.isDigit = true) :
    indexInExtended (ws ++ 'x' :: (hs ++ '_' :: (rs ++ '_' :: (bs ++ ".yuv".toList))))
      = some (ws, hs, rs, bs) := by
  have e : ".yuv".toList = '.' :: "yuv".toList := rfl
  rw [e]
  obtain ⟨d, ds, rfl⟩ := List.exists_cons_of_ne_nil hw
  have h1 : matchExtendedAt (d :: ds ++ 'x' :: (hs ++ '_' :: (rs ++ '_' :: (bs ++ '.' :: "yuv".toList))))
      = some (d :: ds, hs, rs, bs) := by
    unfold matchExtendedAt
    rw [spanDigits_run (d :: ds) _ 'x' hwd (by decide)]
    simp only [matchExtendedTail_run hs rs bs _ '.' hh hhd hr hrd hb hbd (by decide),
      Option.map_some', if_neg hw]
  rw [List.cons_append] at h1 ⊢
  rw [indexInExtended, h1]

theorem indexInDefault_short (ws hs rs : List Char) (hw : ws ≠ []) (hh : hs ≠ [])
    (hwd : ∀ d, d ∈ ws → d.isDigit = true)
    (hhd : ∀ d, d ∈ hs → d.isDigit = true) (hr : rs ≠ [])
    (hrd : ∀ d, d ∈ rs → d.isDigit = true) :
    indexInDefault (ws ++ 'x' :: (hs ++ '_' :: (rs ++ ".yuv".toList))) = some (ws, hs, rs) := by
  have e : ".yuv".toList = '.' :: "yuv".toList := rfl
  rw [e]
  obtain ⟨d, ds, rfl⟩ := List.exists_cons_of_ne_nil hw
  have h1 : matchDefaultAt (d :: ds ++ 'x' :: (hs ++ '_' :: (rs ++ '.' :: "yuv".toList)))
      = some (d :: ds, hs, rs) := by
    unfold matchDefaultAt
    rw [spanDigits_run (d :: ds) _ 'x' hwd (by decide)]
    simp only [matchDefaultTail_run hs rs _ '.' hh hhd hr hrd (by decide),
      Option.map_some', if_neg hw]
  rw [List.cons_append] at h1 ⊢
  rw [indexInDefault, h1]

/-- The decimal digits of a number: a digit string that is not empty and has
the number as its value. -/
theorem toDigitsCore_spec (fuel : Nat) : ∀ (n : Nat) (acc : List Char), n < fuel →
    ∃ ds, Nat.toDigitsCore 10 fuel n acc = ds ++ acc ∧ ds ≠ [] ∧
      (∀ d, d ∈ ds → d.isDigit = true) ∧ decimalValue ds = n := by
  induction fuel with
  | zero => intro n acc h; omega
  | succ fuel ih =>
    intro n acc hn
    have hd : (Nat.digitChar (n % 10)).isDigit = true ∧ (Nat.digitChar (n % 10)).toNat - 48 = n % 10 := by
      have : n % 10 < 10 := Nat.mod_lt _ (by decide)
      generalize n % 10 = k at this
      interval_cases k <;> decide
    rw [Nat.toDigitsCore]
    by_cases h0 : n / 10 = 0
    · refine ⟨[Nat.digitChar (n % 10)], ?_, by simp, ?_, ?_⟩
      · simp [h0]
      · intro d hdm
        rw [List.mem_singleton] at hdm
        rw [hdm]; exact hd.1
      · simp only [decimalValue, List.foldl_cons, List.foldl_nil]
        rw [hd.2]; omega
    · obtain ⟨ds, e, hne, hdig, hval⟩ := ih (n / 10) (Nat.digitChar (n % 10) :: acc) (by omega)
      refine ⟨ds ++ [Nat.digitChar (n % 10)], ?_, by simp, ?_, ?_⟩
      · simp only [h0, if_false, e, List.append_assoc, List.singleton_append]
      · intro d hdm
        rcases List.mem_append.1 hdm with a | a
        · exact hdig d a
        · rw [List.mem_singleton] at a
          rw [a]; exact hd.1
      · unfold decimalValue at hval ⊢
        rw [List.foldl_append, hval]
        simp only [List.foldl_cons, List.foldl_nil]
        rw [hd.2]; omega

theorem toDigits_spec (n : Nat) :
    Nat.toDigits 10 n ≠ [] ∧ (∀ d, d ∈ Nat.toDigits 10 n → d.isDigit = true) ∧
      decimalValue (Nat.toDigits 10 n) = n := by
  obtain ⟨ds, e, hne, hdig, hval⟩ := toDigitsCore_spec (n + 1) n [] (by omega)
  rw [List.append_nil] at e
  unfold Nat.toDigits
  rw [e]
  exact ⟨hne, hdig, hval⟩

theorem toInt_toDigits (n : Nat) (h : n < 2 ^ 31) : toInt (Nat.toDigits 10 n) = (n : Int) := by
  unfold toInt
  rw [(toDigits_spec n).2.2, if_pos h]

theorem toDouble_toDigits (n : Nat) (h : n < 2 ^ 31) :
    toDouble (Nat.toDigits 10 n) = some (n : Int) := by
  unfold toDouble
  rw [(toDigits_spec n).2.2, if_pos (by omega)]

theorem parseFilename_extendedName (front : List Char) (W H R B : Nat)
    (hfront : ∀ c, c ∈ front → c.isDigit = false)
    (hW : W < 2 ^ 31) (hH : H < 2 ^ 31) (hR : R < 2 ^ 31) (hB : B < 2 ^ 31) :
    YUVFile.parseFilename (extendedName front W H R B) = some ⟨W, H, R, -1, B⟩ := by
  have e := indexInExtended_long _ _ _ _ (toDigits_spec W).1 (toDigits_spec H).1
    (toDigits_spec W).2.1 (toDigits_spec H).2.1 (toDigits_spec R).1 (toDigits_spec R).2.1
    (toDigits_spec B).1 (toDigits_spec B).2.1
  unfold YUVFile.parseFilename extendedName
  rw [indexInExtended_skip front _ hfront, e]
  simp only [toDouble_toDigits R hR, toInt_toDigits W hW, toInt_toDigits H hH,
    toInt_toDigits B hB, Option.map_some']

theorem parseFilename_defaultName (front : List Char) (W H R : Nat)
    (hfront : ∀ c, c ∈ front → c.isDigit = false)
    (hW : W < 2 ^ 31) (hH : H < 2 ^ 31) (hR : R < 2 ^ 31) :
    YUVFile.parseFilename (defaultName front W H R) = some ⟨W, H, R, -1, 8⟩ := by
  have e := indexInExtended_short _ _ _ (toDigits_spec H).1
    (toDigits_spec W).2.1 (toDigits_spec H).2.1 (toDigits_spec R).1 (toDigits_spec R).2.1
  have e2 := indexInDefault_short _ _ _ (toDigits_spec W).1 (toDigits_spec H).1
    (toDigits_spec W).2.1 (toDigits_spec H).2.1 (toDigits_spec R).1 (toDigits_spec R).2.1
  unfold YUVFile.parseFilename defaultName
  rw [indexInExtended_skip front _ hfront, e, indexInDefault_skip front _ hfront, e2]
  simp only [toDouble_toDigits R hR, toInt_toDigits W hW, toInt_toDigits H hH,
    Option.map_some']

/-- What the second part of `formatFromFilename` leaves of the parsed values:
everything but the number of frames. -/
theorem formatFromFilename_keeps (fileSize : Nat) (filePath : List Char) (out : FilenameFormat)
    (isYUV : Bool) (p : FilenameFormat) (hne : filePath ≠ [])
    (hp : YUVFile.parseFilename filePath = some p)
    (h8 : p.bitDepth = 8 → 0 < p.width → 0 < p.height → ∃ bpf,
      YUVFile.bytesPerFrame p.width p.height YUVC_420YpCbCr8PlanarPixelFormat = some bpf ∧ bpf ≠ 0)
    (h10 : p.bitDepth = 10 → 0 < p.width → 0 < p.height → ∃ bpf,
      YUVFile.bytesPerFrame p.width p.height YUVC_420YpCbCr10LEPlanarPixelFormat = some bpf ∧
        bpf ≠ 0) :
    ∃ r, YUVFile.formatFromFilename fileSize filePath out isYUV = some r ∧ r.width = p.width ∧
      r.height = p.height ∧ r.frameRate = p.frameRate ∧ r.bitDepth = p.bitDepth := by
  unfold YUVFile.formatFromFilename
  rw [if_neg hne, hp]
  dsimp only
  split_ifs with c1 c2 c3
  · obtain ⟨bpf, e, h0⟩ := h8 c2 c1.2.1 c1.2.2.1
    rw [e]
    dsimp only
    rw [if_neg h0]
    exact ⟨_, rfl, rfl, rfl, rfl, rfl⟩
  · obtain ⟨bpf, e, h0⟩ := h10 c3 c1.2.1 c1.2.2.1
    rw [e]
    dsimp only
    rw [if_neg h0]
    exact ⟨_, rfl, rfl, rfl, rfl, rfl⟩
  · exact ⟨_, rfl, rfl, rfl, rfl, rfl⟩
  · exact ⟨_, rfl, rfl, rfl, rfl, rfl⟩

theorem extendedName_ne_nil (front : List Char) (W H R B : Nat) :
    extendedName front W H R B ≠ [] := by
  unfold extendedName
  simp [(toDigits_spec W).1]

theorem defaultName_ne_nil (front : List Char) (W H R : Nat) :
    defaultName front W H R ≠ [] := by
  unfold defaultName
  simp [(toDigits_spec W).1]

/-- C22 (as stated, refuted): the numbers of `foo_65536x65536_30_8.yuv` and
of `foo_65536x65536_30.yuv` all fit a 32-bit `int`, and the call gives no
result for either name: the frame size, which the function goes on to compute
for the number of frames, needs the product 65536 * 65536, which leaves the
range of `int`. -/
theorem formatFromFilename_parses_counterexample :
    (65536 : Nat) < 2 ^ 31 ∧
      YUVFile.parseFilename (extendedName "foo_".toList 65536 65536 30 8)
        = some ⟨65536, 65536, 30, -1, 8⟩ ∧
      YUVFile.formatFromFilename 0 (extendedName "foo_".toList 65536 65536 30 8)
        ⟨0, 0, 0, 0, 0⟩ isYUVDefault = none ∧
      YUVFile.formatFromFilename 0 (defaultName "foo_".toList 65536 65536 30)
        ⟨0, 0, 0, 0, 0⟩ isYUVDefault = none := by
  have e1 := parseFilename_extendedName "foo_".toList 65536 65536 30 8 (by decide)
    (by decide) (by decide) (by decide) (by decide)
  have e2 := parseFilename_defaultName "foo_".toList 65536 65536 30 (by decide)
    (by decide) (by decide) (by decide)
  refine ⟨by decide, e1, ?_, ?_⟩
  · unfold YUVFile.formatFromFilename
    rw [if_neg (extendedName_ne_nil _ _ _ _ _), e1]
    decide
  · unfold YUVFile.formatFromFilename
    rw [if_neg (defaultName_ne_nil _ _ _ _), e2]
    decide

/-- C22 (amended): for all natural numbers W, H, R, B below 2^31 and every
front without a digit (such as `foo_`), `formatFromFilename` applied to the
name front ++ `WxH_R_B.yuv` returns with width W, height H, frame rate R and
bit depth B, and applied to front ++ `WxH_R.yuv` returns with width W,
height H, frame rate R and bit depth 8, provided the 4:2:0 frame size that
the function computes for W x H when both are positive (8-bit for depth 8,
10-bit little-endian for depth 10) is defined and not 0. -/
theorem formatFromFilename_parses (fileSize : Nat) (out : FilenameFormat) (isYUV : Bool)
    (front : List Char) (W H R B : Nat) (hfront : ∀ c, c ∈ front → c.isDigit = false)
    (hW : W < 2 ^ 31) (hH : H < 2 ^ 31) (hR : R < 2 ^ 31) (hB : B < 2 ^ 31)
    (h8 : 0 < W → 0 < H → ∃ bpf,
      YUVFile.bytesPerFrame W H YUVC_420YpCbCr8PlanarPixelFormat = some bpf ∧ bpf ≠ 0)
    (h10 : B = 10 → 0 < W → 0 < H → ∃ bpf,
      YUVFile.bytesPerFrame W H YUVC_420YpCbCr10LEPlanarPixelFormat = some bpf ∧ bpf ≠ 0) :
    (∃ r, YUVFile.formatFromFilename fileSize (extendedName front W H R B) out isYUV = some r ∧
      r.width = W ∧ r.height = H ∧ r.frameRate = R ∧ r.bitDepth = B) ∧
    (∃ r, YUVFile.formatFromFilename fileSize (defaultName front W H R) out isYUV = some r ∧
      r.width = W ∧ r.height = H ∧ r.frameRate = R ∧ r.bitDepth = 8) := by
  constructor
  · exact formatFromFilename_keeps fileSize _ out isYUV ⟨W, H, R, -1, B⟩
      (extendedName_ne_nil _ _ _ _ _) (parseFilename_extendedName front W H R B hfront hW hH hR hB)
      (fun _ (a : (0 : Int) < (W : Int)) (b : (0 : Int) < (H : Int)) => h8 (by omega) (by omega))
      (fun (c : (B : Int) = 10) (a : (0 : Int) < (W : Int)) (b : (0 : Int) < (H : Int)) =>
        h10 (by omega) (by omega) (by omega))
  · exact formatFromFilename_keeps fileSize _ out isYUV ⟨W, H, R, -1, 8⟩
      (defaultName_ne_nil _ _ _ _) (parseFilename_defaultName front W H R hfront hW hH hR)
      (fun _ (a : (0 : Int) < (W : Int)) (b : (0 : Int) < (H : Int)) => h8 (by omega) (by omega))
      (fun (c : (8 : Int) = 10) _ _ => absurd c (by decide))

/-- C22 (amended), at `foo_1920x1080_30_8.yuv` and `foo_1920x1080_30.yuv`
for a file of ten frames. -/
theorem formatFromFilename_parses_witness :
    extendedName "foo_".toList 1920 1080 30 8 = "foo_1920x1080_30_8.yuv".toList ∧
    defaultName "foo_".toList 1920 1080 30 = "foo_1920x1080_30.yuv".toList ∧
    (∃ r, YUVFile.formatFromFilename 31104000 (extendedName "foo_".toList 1920 1080 30 8)
        ⟨0, 0, 0, 0, 0⟩ isYUVDefault = some r ∧
      r.width = (1920 : Nat) ∧ r.height = (1080 : Nat) ∧ r.frameRate = (30 : Nat) ∧
      r.bitDepth = (8 : Nat)) ∧
    (∃ r, YUVFile.formatFromFilename 31104000 (defaultName "foo_".toList 1920 1080 30)
        ⟨0, 0, 0, 0, 0⟩ isYUVDefault = some r ∧
      r.width = (1920 : Nat) ∧ r.height = (1080 : Nat) ∧ r.frameRate = (30 : Nat) ∧
      r.bitDepth = 8) :=
  ⟨by decide, by decide,
    formatFromFilename_parses 31104000 ⟨0, 0, 0, 0, 0⟩ isYUVDefault "foo_".toList 1920 1080 30 8
      (by decide) (by decide) (by decide) (by decide) (by decide)
      (fun _ _ => ⟨3110400, by decide, by decide⟩) (fun c => absurd c (by decide))⟩

/-- The first part of `formatFromFilename` never sets the number of frames. -/
theorem parseFilename_numFrames (filePath : List Char) (p : FilenameFormat)
    (hp : YUVFile.parseFilename filePath = some p) : p.numFrames = -1 := by
  unfold YUVFile.parseFilename at hp
  dsimp only at hp
  split at hp
  · rename_i w h r b _
    cases hr : toDouble r with
    | none => rw [hr] at hp; exact absurd hp (by simp)
    | some v =>
      rw [hr] at hp
      rw [← Option.some.inj hp]
  · split at hp
    · rename_i w h r _
      cases hr : toDouble r with
      | none => rw [hr] at hp; exact absurd hp (by simp)
      | some v =>
        rw [hr] at hp
        rw [← Option.some.inj hp]
    · split_ifs at hp <;> rw [← Option.some.inj hp]

/-- C23 (as stated, refuted): from `foo_2x2_30_12.yuv` the function resolves
width 2, height 2 and bit depth 12, all positive, and leaves the number of
frames at -1, here for a file of 1200 bytes: the branch for depths other than
8 and 10 is empty. -/
theorem formatFromFilename_frame_count_counterexample :
    YUVFile.formatFromFilename 1200 "foo_2x2_30_12.yuv".toList ⟨0, 0, 0, 0, 0⟩ isYUVDefault
      = some ⟨2, 2, 30, -1, 12⟩ := by
  decide

/-- C23 (amended): let the name, not empty, give the values `p` with a
positive width and a positive height. If the depth is 8 (resp. 10), the
frame size `bpf` of the 4:2:0 8-bit (resp. 10-bit little-endian) format is
defined and not 0 and the quotient fits an `int`, the function returns the
values of `p` with the number of frames `fileSize div bpf`; for every other
positive depth it returns `p` with the number of frames left at -1. -/
theorem formatFromFilename_frame_count (fileSize : Nat) (filePath : List Char)
    (out p : FilenameFormat) (hne : filePath ≠ [])
    (hp : YUVFile.parseFilename filePath = some p) (hw : 0 < p.width) (hh : 0 < p.height) :
    (∀ fmt bpf, (p.bitDepth = 8 ∧ fmt = YUVC_420YpCbCr8PlanarPixelFormat) ∨
        (p.bitDepth = 10 ∧ fmt = YUVC_420YpCbCr10LEPlanarPixelFormat) →
      YUVFile.bytesPerFrame p.width p.height fmt = some bpf → bpf ≠ 0 →
      fileSize / bpf < 2 ^ 31 →
      YUVFile.formatFromFilename fileSize filePath out true
        = some { p with numFrames := ((fileSize / bpf : Nat) : Int) }) ∧
    (0 < p.bitDepth → p.bitDepth ≠ 8 → p.bitDepth ≠ 10 →
      YUVFile.formatFromFilename fileSize filePath out true = some p ∧ p.numFrames = -1) := by
  constructor
  · intro fmt bpf hd hbpf h0 hq
    unfold YUVFile.formatFromFilename
    rw [if_neg hne, hp]
    dsimp only
    rcases hd with ⟨d, rfl⟩ | ⟨d, rfl⟩
    · rw [if_pos ⟨rfl, hw, hh, by omega⟩, if_pos d, hbpf]
      dsimp only
      rw [if_neg h0, toInt32_of_lt _ hq]
    · rw [if_pos ⟨rfl, hw, hh, by omega⟩, if_neg (by omega), if_pos d, hbpf]
      dsimp only
      rw [if_neg h0, toInt32_of_lt _ hq]
  · intro hd h8 h10
    refine ⟨?_, parseFilename_numFrames filePath p hp⟩
    unfold YUVFile.formatFromFilename
    rw [if_neg hne, hp]
    dsimp only
    rw [if_pos ⟨rfl, hw, hh, hd⟩, if_neg h8, if_neg h10]

/-- C23 (amended), at `foo_4x2_30_8.yuv` for a file of 24 bytes, two frames
of 12 bytes. -/
theorem formatFromFilename_frame_count_witness :
    YUVFile.formatFromFilename 24 "foo_4x2_30_8.yuv".toList ⟨0, 0, 0, 0, 0⟩ true
      = some ⟨4, 2, 30, 2, 8⟩ :=
  (formatFromFilename_frame_count 24 "foo_4x2_30_8.yuv".toList ⟨0, 0, 0, 0, 0⟩ ⟨4, 2, 30, -1, 8⟩
    (by decide) (by decide) (by decide) (by decide)).1 YUVC_420YpCbCr8PlanarPixelFormat 12
    (Or.inl ⟨rfl, rfl⟩) (by decide) (by decide) (by decide)

theorem roundFloat_zero : roundFloat 0 = 0 := by
  unfold roundFloat
  rw [if_pos rfl]

theorem roundFloat_nonneg (q : ℚ) (h : 0 ≤ q) : 0 ≤ roundFloat q := by
  unfold roundFloat
  by_cases h0 : q = 0
  · rw [if_pos h0]
  · rw [if_neg h0]
    dsimp only
    rw [if_neg (not_lt.2 h)]
    have hu : (0 : ℚ) < 2 ^ (Int.log 2 |q| - 23) := zpow_pos (by norm_num) _
    have ht : (0 : ℚ) ≤ |q| / 2 ^ (Int.log 2 |q| - 23) := div_nonneg (abs_nonneg q) hu.le
    have hm : (0 : Int) ≤ ⌊|q| / (2 : ℚ) ^ (Int.log 2 |q| - 23)⌋ := Int.floor_nonneg.2 ht
    refine mul_nonneg ?_ hu.le
    split_ifs
    · exact_mod_cast hm
    · have : (0 : Int) ≤ ⌊|q| / (2 : ℚ) ^ (Int.log 2 |q| - 23)⌋ + 1 := by omega
      exact_mod_cast this
    · exact_mod_cast hm
    · have : (0 : Int) ≤ ⌊|q| / (2 : ℚ) ^ (Int.log 2 |q| - 23)⌋ + 1 := by omega
      exact_mod_cast this

/-- The loop of `computeMSE` runs through when the samples lie in the buffer,
and a sum that is not negative stays so. -/
theorem mseLoop_some (buf : Buf) (ptr ptr2 : Nat) : ∀ (n i : Nat) (mse : ℚ),
    ptr + i + n ≤ buf.length → ptr2 + i + n ≤ buf.length → 0 ≤ mse →
    ∃ m, mseLoop buf ptr ptr2 n i mse = some m ∧ 0 ≤ m := by
  intro n
  induction n with
  | zero => intro i mse _ _ h; exact ⟨mse, rfl, h⟩
  | succ n ih =>
    intro i mse h1 h2 h
    have e1 : load buf (ptr + i) = some (buf.get ⟨ptr + i, by omega⟩) := by
      unfold load; exact List.getElem?_eq_getElem _
    have e2 : load buf (ptr2 + i) = some (buf.get ⟨ptr2 + i, by omega⟩) := by
      unfold load; exact List.getElem?_eq_getElem _
    rw [mseLoop, e1, e2]
    exact ih (i + 1) _ (by omega) (by omega) (roundFloat_nonneg _ (add_nonneg h (roundFloat_nonneg _ (mul_self_nonneg _))))

/-- The loop of `computeMSE` over two runs of equal samples leaves a sum of 0
at 0. -/
theorem mseLoop_equal (buf : Buf) (ptr ptr2 : Nat) : ∀ (n i : Nat),
    ptr + i + n ≤ buf.length →
    (∀ j, i ≤ j → j < i + n → load buf (ptr2 + j) = load buf (ptr + j)) →
    mseLoop buf ptr ptr2 n i 0 = some 0 := by
  intro n
  induction n with
  | zero => intro i _ _; rfl
  | succ n ih =>
    intro i h1 heq
    have e1 : load buf (ptr + i) = some (buf.get ⟨ptr + i, by omega⟩) := by
      unfold load; exact List.getElem?_eq_getElem _
    have e2 := heq i (le_refl i) (by omega)
    rw [mseLoop, e2, e1]
    simp only [sub_self, roundFloat_zero, mul_zero, add_zero]
    exact ih (i + 1) (by omega) (fun j a b => heq j (by omega) (by omega))

theorem computeMSE_some (buf : Buf) (picSize : Nat) (hp : 0 < picSize)
    (hlen : picSize * 2 ≤ buf.length) :
    ∃ m, computeMSE buf 0 picSize picSize = some m ∧ 0 ≤ m := by
  obtain ⟨m, e, hm⟩ := mseLoop_some buf 0 picSize picSize 0 0 (by omega) (by omega) (le_refl 0)
  unfold computeMSE
  rw [if_pos (by exact_mod_cast hp), Int.toNat_ofNat, e]
  exact ⟨_, rfl, roundFloat_nonneg _ (div_nonneg hm (roundFloat_nonneg _ (by positivity)))⟩

theorem computeMSE_equal (buf : Buf) (picSize : Nat) (hp : 0 < picSize)
    (hlen : picSize * 2 ≤ buf.length)
    (heq : ∀ j, j < picSize → load buf (picSize + j) = load buf j) :
    computeMSE buf 0 picSize picSize = some 0 := by
  have e := mseLoop_equal buf 0 picSize picSize 0 (by omega)
    (fun j _ b => by rw [Nat.zero_add]; exact heq j (by omega))
  unfold computeMSE
  rw [if_pos (by exact_mod_cast hp), Int.toNat_ofNat, e]
  simp only [zero_div, roundFloat_zero]

theorem firstFrames_length (data : Buf) (picSize : Nat) :
    (firstFrames data picSize).length = picSize * 2 := by
  unfold firstFrames
  simp only [List.length_append, List.length_take, List.length_drop, List.length_replicate]
  omega

theorem firstFrames_of_le (data : Buf) (picSize : Nat) (h : picSize * 2 ≤ data.length) :
    firstFrames data picSize = data.take (picSize * 2) := by
  unfold firstFrames
  have : (List.replicate (picSize * 2) (0 : Byte)).drop (data.take (picSize * 2)).length = [] := by
    apply List.drop_of_length_le
    simp only [List.length_take, List.length_replicate]
    omega
  rw [this, List.append_nil]

/-- The call of `readBytes` in step 2 of `formatFromCorrelation`. -/
theorem readBytes_firstFrames (file : QFile) (picSize : Nat) :
    YUVFile.readBytes (some file) (List.replicate (picSize * 2) 0) 0 (picSize * 2)
      = some (some ⟨file.data, (file.data.take (picSize * 2)).length⟩,
          firstFrames file.data picSize) := by
  unfold YUVFile.readBytes QFile.read QFile.seek
  dsimp only
  rw [List.drop_zero, if_pos (by simp only [List.length_take, List.length_replicate]; omega)]
  simp only [Nat.zero_add, firstFrames]

theorem computeMSE_firstFrames (data : Buf) (picSize : Nat) (hp : 0 < picSize) :
    computeMSE (firstFrames data picSize) 0 picSize picSize = some (errorValue data picSize) ∧
      0 ≤ errorValue data picSize := by
  obtain ⟨m, e, hm⟩ := computeMSE_some (firstFrames data picSize) picSize hp
    (by rw [firstFrames_length])
  unfold errorValue
  rw [e]
  exact ⟨rfl, hm⟩

theorem picSize_eq (c : candMode_t) (h : 0 < c.picSize) :
    YUVFile.bytesPerFrame c.width c.height c.pixelFormat = some c.picSize := by
  unfold candMode_t.picSize at h ⊢
  cases e : YUVFile.bytesPerFrame c.width c.height c.pixelFormat with
  | none => rw [e] at h; exact absurd h (by decide)
  | some P => rfl

theorem passes_eq (S : Nat) (c : candMode_t) (h : LiveEntry c) :
    c.passes S = decide (c.picSize * 2 ≤ S ∧ S % c.picSize = 0) := by
  unfold candMode_t.passes
  simp only [h.1, h.2.1, ne_eq, not_false_eq_true, true_and]

/-- Step 1 of `formatFromCorrelation` over a table. -/
theorem markInteresting_eval (S : Nat) (t : candMode_t) (rest : List candMode_t)
    (ht : t.pixelFormat = YUVC_UnknownPixelFormat) : ∀ (cs : List candMode_t),
    (∀ c, c ∈ cs → LiveEntry c) →
    YUVFile.markInteresting S (cs ++ t :: rest)
      = some (cs.map (candMode_t.mark S) ++ t :: rest, cs.any (candMode_t.passes S)) := by
  intro cs
  induction cs with
  | nil => intro _; simp only [List.nil_append, YUVFile.markInteresting, if_pos ht, List.map_nil, List.any_nil]
  | cons c cs ih =>
    intro hl
    have hc := hl c (List.mem_cons_self _ _)
    have ih2 := ih (fun d hd => hl d (List.mem_cons_of_mem _ hd))
    have hp := passes_eq S c hc
    rw [List.cons_append, YUVFile.markInteresting, if_neg hc.1, picSize_eq c hc.2.1]
    dsimp only
    rw [ih2]
    by_cases h1 : c.picSize * 2 ≤ S
    · rw [if_pos h1, if_neg (by have := hc.2.1; omega)]
      by_cases h2 : S % c.picSize = 0
      · have hp2 : c.passes S = true := by rw [hp]; exact decide_eq_true ⟨h1, h2⟩
        rw [if_pos h2]
        simp only [List.map_cons, List.any_cons, candMode_t.mark, hp2, if_true, Bool.true_or,
          List.cons_append]
      · have hp2 : c.passes S = false := by
          rw [hp]; exact decide_eq_false (fun a => h2 a.2)
        rw [if_neg h2]
        simp only [List.map_cons, List.any_cons, candMode_t.mark, hp2, Bool.false_or,
          List.cons_append, Bool.false_eq_true, if_false]
    · have hp2 : c.passes S = false := by
        rw [hp]; exact decide_eq_false (fun a => h1 a.1)
      rw [if_neg h1]
      simp only [List.map_cons, List.any_cons, candMode_t.mark, hp2, Bool.false_or,
        List.cons_append, Bool.false_eq_true, if_false]

/-- Step 2 of `formatFromCorrelation` over a table. -/
theorem measureInteresting_eval (data : Buf) (t : candMode_t) (rest : List candMode_t)
    (ht : t.pixelFormat = YUVC_UnknownPixelFormat) : ∀ (cs : List candMode_t) (pos : Nat),
    (∀ c, c ∈ cs → LiveEntry c) →
    ∃ pos2, YUVFile.measureInteresting ⟨data, pos⟩ (cs ++ t :: rest)
      = some (cs.map (candMode_t.measure data) ++ t :: rest, ⟨data, pos2⟩, readsOf cs) := by
  intro cs
  induction cs with
  | nil =>
    intro pos _
    exact ⟨pos, by simp only [List.nil_append, YUVFile.measureInteresting, if_pos ht,
      List.map_nil, readsOf, List.filter_nil]⟩
  | cons c cs ih =>
    intro pos hl
    have hc := hl c (List.mem_cons_self _ _)
    have hl2 : ∀ d, d ∈ cs → LiveEntry d := fun d hd => hl d (List.mem_cons_of_mem _ hd)
    rw [List.cons_append, YUVFile.measureInteresting, if_neg hc.1]
    by_cases hi : c.interesting = true
    · obtain ⟨pos2, e⟩ := ih (data.take (c.picSize * 2)).length hl2
      refine ⟨pos2, ?_⟩
      rw [if_pos hi, picSize_eq c hc.2.1]
      dsimp only
      rw [if_neg (by have := hc.2.2; omega), readBytes_firstFrames ⟨data, pos⟩ c.picSize]
      dsimp only
      rw [(computeMSE_firstFrames data c.picSize hc.2.1).1]
      dsimp only
      rw [e]
      simp only [List.map_cons, candMode_t.measure, hi, if_true, List.cons_append, readsOf,
        List.filter_cons_of_pos]
    · obtain ⟨pos2, e⟩ := ih pos hl2
      refine ⟨pos2, ?_⟩
      rw [if_neg hi, e]
      simp only [List.map_cons, candMode_t.measure, hi, if_false, List.cons_append, readsOf,
        Bool.false_eq_true]
      rw [List.filter_cons_of_neg (by simpa using hi)]

/-- Step 3 of `formatFromCorrelation` over a table. -/
theorem selectBest_eval (t : candMode_t) (rest : List candMode_t)
    (ht : t.pixelFormat = YUVC_UnknownPixelFormat) : ∀ (cs : List candMode_t) (i : Nat) (L : ℚ)
    (b : Nat), (∀ c, c ∈ cs → c.pixelFormat ≠ YUVC_UnknownPixelFormat) →
    YUVFile.selectBest (cs ++ t :: rest) i L b = some (selectFold cs i L b) := by
  intro cs
  induction cs with
  | nil => intro i L b _; simp only [List.nil_append, YUVFile.selectBest, if_pos ht, selectFold]
  | cons c cs ih =>
    intro i L b hl
    have hc := hl c (List.mem_cons_self _ _)
    have hl2 : ∀ d, d ∈ cs → d.pixelFormat ≠ YUVC_UnknownPixelFormat :=
      fun d hd => hl d (List.mem_cons_of_mem _ hd)
    rw [List.cons_append, YUVFile.selectBest, if_neg hc, selectFold]
    split_ifs
    · exact ih _ _ _ hl2
    · exact ih _ _ _ hl2

/-- What the third loop leaves: either nothing beat the start value, or the
earliest flagged entry with the least error value. -/
theorem selectFold_spec : ∀ (cs : List candMode_t) (i : Nat) (L : ℚ) (b : Nat),
    ((selectFold cs i L b) = (L, b) ∧ ∀ c, c ∈ cs → c.interesting = true → L ≤ c.mseY) ∨
    (∃ k c, cs[k]? = some c ∧ selectFold cs i L b = (c.mseY, i + k) ∧ c.interesting = true ∧
      c.mseY < L ∧
      (∀ (j : Nat) (d : candMode_t), cs[j]? = some d → d.interesting = true → c.mseY ≤ d.mseY) ∧
      (∀ (j : Nat) (d : candMode_t), j < k → cs[j]? = some d → d.interesting = true →
        c.mseY < d.mseY)) := by
  intro cs
  induction cs with
  | nil => intro i L b; exact Or.inl ⟨rfl, fun c hc => absurd hc (List.not_mem_nil c)⟩
  | cons c cs ih =>
    intro i L b
    rw [selectFold]
    by_cases h : c.interesting = true ∧ c.mseY < L
    · rw [if_pos h]
      rcases ih (i + 1) c.mseY i with ⟨e, hall⟩ | ⟨k, d, hk, e, hi, hlt, hle, hbefore⟩
      · refine Or.inr ⟨0, c, List.getElem?_cons_zero, e, h.1, h.2, ?_, ?_⟩
        · intro j d hj hd
          cases j with
          | zero => rw [List.getElem?_cons_zero] at hj; rw [← Option.some.inj hj]
          | succ j =>
            rw [List.getElem?_cons_succ] at hj
            exact hall d (List.mem_iff_getElem?.2 ⟨j, hj⟩) hd
        · intro j d hj; omega
      · refine Or.inr ⟨k + 1, d, by rw [List.getElem?_cons_succ]; exact hk,
          by rw [e]; congr 1; omega, hi, lt_trans hlt h.2, ?_, ?_⟩
        · intro j d2 hj hd
          cases j with
          | zero =>
            rw [List.getElem?_cons_zero] at hj; rw [← Option.some.inj hj]; exact le_of_lt hlt
          | succ j => rw [List.getElem?_cons_succ] at hj; exact hle j d2 hj hd
        · intro j d2 hjk hj hd
          cases j with
          | zero => rw [List.getElem?_cons_zero] at hj; rw [← Option.some.inj hj]; exact hlt
          | succ j =>
            rw [List.getElem?_cons_succ] at hj; exact hbefore j d2 (by omega) hj hd
    · rw [if_neg h]
      have hc : c.interesting = true → L ≤ c.mseY := fun a => not_lt.1 (fun x => h ⟨a, x⟩)
      rcases ih (i + 1) L b with ⟨e, hall⟩ | ⟨k, d, hk, e, hi, hlt, hle, hbefore⟩
      · refine Or.inl ⟨e, ?_⟩
        intro d hd hdi
        rcases List.mem_cons.1 hd with a | a
        · rw [a]; exact hc (a ▸ hdi)
        · exact hall d a hdi
      · refine Or.inr ⟨k + 1, d, by rw [List.getElem?_cons_succ]; exact hk,
          by rw [e]; congr 1; omega, hi, hlt, ?_, ?_⟩
        · intro j d2 hj hd
          cases j with
          | zero =>
            rw [List.getElem?_cons_zero] at hj; rw [← Option.some.inj hj] at hd ⊢
            exact le_of_lt (lt_of_lt_of_le hlt (hc hd))
          | succ j => rw [List.getElem?_cons_succ] at hj; exact hle j d2 hj hd
        · intro j d2 hjk hj hd
          cases j with
          | zero =>
            rw [List.getElem?_cons_zero] at hj; rw [← Option.some.inj hj] at hd ⊢
            exact lt_of_lt_of_le hlt (hc hd)
          | succ j =>
            rw [List.getElem?_cons_succ] at hj; exact hbefore j d2 (by omega) hj hd

theorem mark_of_not_passes (S : Nat) : ∀ (cs : List candMode_t),
    cs.any (candMode_t.passes S) = false → cs.map (candMode_t.mark S) = cs := by
  intro cs
  induction cs with
  | nil => intro _; rfl
  | cons c cs ih =>
    intro h
    rw [List.any_cons, Bool.or_eq_false_iff] at h
    rw [List.map_cons, ih h.2]
    unfold candMode_t.mark
    rw [h.1]
    rfl

theorem mark_key (S : Nat) (c : candMode_t) : (c.mark S).key = c.key := by
  unfold candMode_t.mark
  split_ifs <;> rfl

theorem measure_key (data : Buf) (c : candMode_t) : (c.measure data).key = c.key := by
  unfold candMode_t.measure
  split_ifs <;> rfl

theorem liveEntry_of_key (c d : candMode_t) (h : c.key = d.key) (hd : LiveEntry d) :
    LiveEntry c := by
  unfold candMode_t.key at h
  have h1 : c.width = d.width := congrArg (fun p => p.1) h
  have h2 : c.height = d.height := congrArg (fun p => p.2.1) h
  have h3 : c.pixelFormat = d.pixelFormat := congrArg (fun p => p.2.2) h
  unfold LiveEntry candMode_t.picSize at hd ⊢
  rw [h1, h2, h3]
  exact hd

theorem picSize_of_key (c d : candMode_t) (h : c.key = d.key) : c.picSize = d.picSize := by
  unfold candMode_t.key at h
  have h1 : c.width = d.width := congrArg (fun p => p.1) h
  have h2 : c.height = d.height := congrArg (fun p => p.2.1) h
  have h3 : c.pixelFormat = d.pixelFormat := congrArg (fun p => p.2.2) h
  unfold candMode_t.picSize
  rw [h1, h2, h3]

theorem passes_of_key (S : Nat) (c d : candMode_t) (h : c.key = d.key) :
    c.passes S = d.passes S := by
  have hp := picSize_of_key c d h
  have h3 : c.pixelFormat = d.pixelFormat := congrArg (fun p => p.2.2) h
  unfold candMode_t.passes
  rw [hp, h3]

/-- The entries of the table after steps 1 and 2. -/
theorem measured_entry (S : Nat) (data : Buf) (cs : List candMode_t) (j : Nat) (d : candMode_t)
    (h : ((cs.map (candMode_t.mark S)).map (candMode_t.measure data))[j]? = some d) :
    ∃ c, cs[j]? = some c ∧ d.key = c.key ∧ d.picSize = c.picSize ∧
      d.interesting = (c.interesting || c.passes S) ∧
      (d.interesting = true → d.mseY = errorValue data c.picSize) ∧
      (d.interesting = false → d.mseY = c.mseY) := by
  rw [List.getElem?_map, List.getElem?_map] at h
  cases hc : cs[j]? with
  | none => rw [hc] at h; exact absurd h (by simp)
  | some c =>
    rw [hc] at h
    simp only [Option.map_some'] at h
    have hd := Option.some.inj h
    have hk : d.key = c.key := by rw [← hd, measure_key, mark_key]
    refine ⟨c, rfl, hk, picSize_of_key d c hk, ?_, ?_, ?_⟩
    · rw [← hd]
      unfold candMode_t.measure candMode_t.mark
      cases hp : c.passes S <;> cases hi : c.interesting <;> simp [hi]
    · rw [← hd]
      unfold candMode_t.measure candMode_t.mark
      cases hp : c.passes S <;> cases hi : c.interesting <;> simp [hi, candMode_t.picSize]
    · rw [← hd]
      unfold candMode_t.measure candMode_t.mark
      cases hp : c.passes S <;> cases hi : c.interesting <;> simp [hi]

theorem FLT_MAX_gt : (100 : ℚ) < FLT_MAX := by
  unfold FLT_MAX
  norm_num

/-- A call of `formatFromCorrelation` on a table of entries with frame sizes
that are not 0, ended by one entry of the unknown format: without an entry
that passes the test of step 1 nothing changes and nothing is read; with one,
the flagged entries are measured and the earliest with the least error value
is taken if that value is below 100. -/
theorem formatFromCorrelation_eval (fileName : List Char) (data : Buf) (pos : Nat)
    (cs : List candMode_t) (t : candMode_t) (out : CorrelationFormat) (hname : fileName ≠ [])
    (hl : ∀ c, c ∈ cs → LiveEntry c) (ht : t.pixelFormat = YUVC_UnknownPixelFormat)
    (hS : 1 ≤ data.length) :
    (cs.any (candMode_t.passes data.length) = false →
      YUVFile.formatFromCorrelation fileName ⟨data, pos⟩ (cs ++ [t]) out
        = some ⟨cs ++ [t], ⟨data, pos⟩, out, []⟩) ∧
    (cs.any (candMode_t.passes data.length) = true →
      ∃ pos2 r, YUVFile.formatFromCorrelation fileName ⟨data, pos⟩ (cs ++ [t]) out = some r ∧
        r.table = (cs.map (candMode_t.mark data.length)).map (candMode_t.measure data) ++ [t] ∧
        r.file = ⟨data, pos2⟩ ∧ r.reads = readsOf (cs.map (candMode_t.mark data.length)) ∧
        ((∃ k c, ((cs.map (candMode_t.mark data.length)).map (candMode_t.measure data))[k]?
              = some c ∧ c.interesting = true ∧ c.mseY < 100 ∧
            (∀ (j : Nat) (d : candMode_t),
              ((cs.map (candMode_t.mark data.length)).map (candMode_t.measure data))[j]? = some d →
              d.interesting = true → c.mseY ≤ d.mseY) ∧
            (∀ (j : Nat) (d : candMode_t), j < k →
              ((cs.map (candMode_t.mark data.length)).map (candMode_t.measure data))[j]? = some d →
              d.interesting = true → c.mseY < d.mseY) ∧
            r.out = ⟨c.width, c.height, c.pixelFormat,
              toInt32 ((data.length / c.picSize : Nat) : Int)⟩) ∨
          ((∀ (j : Nat) (d : candMode_t),
              ((cs.map (candMode_t.mark data.length)).map (candMode_t.measure data))[j]? = some d →
              d.interesting = true → 100 ≤ d.mseY) ∧ r.out = out))) := by
  have e1 := markInteresting_eval data.length t [] ht cs hl
  constructor
  · intro hf
    unfold YUVFile.formatFromCorrelation
    rw [if_neg hname]
    dsimp only
    rw [if_neg (by omega), e1, hf, mark_of_not_passes _ cs hf]
    rfl
  · intro hf
    generalize hT1 : cs.map (candMode_t.mark data.length) = T1 at *
    have hl1 : ∀ c, c ∈ T1 → LiveEntry c := by
      intro c hc
      rw [← hT1] at hc
      obtain ⟨c0, hc0, e⟩ := List.mem_map.1 hc
      exact liveEntry_of_key c c0 (by rw [← e, mark_key]) (hl c0 hc0)
    obtain ⟨pos2, e2⟩ := measureInteresting_eval data t [] ht T1 pos hl1
    generalize hT2 : T1.map (candMode_t.measure data) = T2 at *
    have hl2 : ∀ c, c ∈ T2 → LiveEntry c := by
      intro c hc
      rw [← hT2] at hc
      obtain ⟨c0, hc0, e⟩ := List.mem_map.1 hc
      exact liveEntry_of_key c c0 (by rw [← e, measure_key]) (hl1 c0 hc0)
    have e3 := selectBest_eval t [] ht T2 0 FLT_MAX 0 (fun c hc => (hl2 c hc).1)
    unfold YUVFile.formatFromCorrelation
    rw [if_neg hname]
    dsimp only
    rw [if_neg (by omega), e1, hf]
    dsimp only
    rw [if_neg (by decide), e2]
    dsimp only
    rw [e3]
    dsimp only
    rcases selectFold_spec T2 0 FLT_MAX 0 with ⟨e, hall⟩ | ⟨k, c, hk, e, hi, hlt, hle, hbefore⟩
    · rw [e]
      dsimp only
      rw [if_neg (not_lt.2 (le_of_lt FLT_MAX_gt))]
      refine ⟨pos2, _, rfl, rfl, rfl, rfl, Or.inr ⟨?_, rfl⟩⟩
      intro j d hj hd
      exact le_trans (le_of_lt FLT_MAX_gt) (hall d (List.mem_iff_getElem?.2 ⟨j, hj⟩) hd)
    · rw [e]
      dsimp only
      by_cases h100 : c.mseY < 100
      · have hc := hl2 c (List.mem_iff_getElem?.2 ⟨k, hk⟩)
        have hklt : k < T2.length := by
          rcases Nat.lt_or_ge k T2.length with a | a
          · exact a
          · rw [List.getElem?_eq_none a] at hk; exact absurd hk (by simp)
        have hk2 : (T2 ++ [t])[0 + k]? = some c := by
          rw [Nat.zero_add, List.getElem?_append_left hklt]; exact hk
        rw [if_pos h100, hk2]
        dsimp only
        rw [picSize_eq c hc.2.1]
        dsimp only
        rw [if_neg (by have := hc.2.1; omega)]
        exact ⟨pos2, _, rfl, rfl, rfl, rfl, Or.inl ⟨k, c, hk, hi, h100, hle, hbefore, rfl⟩⟩
      · rw [if_neg h100]
        refine ⟨pos2, _, rfl, rfl, rfl, rfl, Or.inr ⟨?_, rfl⟩⟩
        intro j d hj hd
        exact le_trans (not_lt.1 h100) (hle j d hj hd)

theorem key_fields (c d : candMode_t) (h : c.key = d.key) :
    c.width = d.width ∧ c.height = d.height ∧ c.pixelFormat = d.pixelFormat :=
  ⟨congrArg (fun p => p.1) h, congrArg (fun p => p.2.1) h, congrArg (fun p => p.2.2) h⟩

/-- A call of `formatFromCorrelation` in which some entry passes the test of
step 1: when an entry that is flagged after step 1 has the error value 0 and
no flagged entry before it has, it is the one taken. -/
theorem formatFromCorrelation_zero (fileName : List Char) (data : Buf) (pos : Nat)
    (cs : List candMode_t) (t : candMode_t) (out : CorrelationFormat) (hname : fileName ≠ [])
    (hl : ∀ c, c ∈ cs → LiveEntry c) (ht : t.pixelFormat = YUVC_UnknownPixelFormat)
    (hS : 1 ≤ data.length) (hf : cs.any (candMode_t.passes data.length) = true)
    (k0 : Nat) (c0 : candMode_t) (hk0 : cs[k0]? = some c0)
    (hflag : (c0.interesting || c0.passes data.length) = true)
    (hz : errorValue data c0.picSize = 0)
    (hbefore : ∀ (j : Nat) (c : candMode_t), j < k0 → cs[j]? = some c →
      (c.interesting || c.passes data.length) = true → errorValue data c.picSize ≠ 0) :
    ∃ pos2 r, YUVFile.formatFromCorrelation fileName ⟨data, pos⟩ (cs ++ [t]) out = some r ∧
      r.table = (cs.map (candMode_t.mark data.length)).map (candMode_t.measure data) ++ [t] ∧
      r.file = ⟨data, pos2⟩ ∧ r.reads = readsOf (cs.map (candMode_t.mark data.length)) ∧
      r.out = ⟨c0.width, c0.height, c0.pixelFormat,
        toInt32 ((data.length / c0.picSize : Nat) : Int)⟩ := by
  obtain ⟨pos2, r, e, htab, hfile, hreads, hsel⟩ :=
    (formatFromCorrelation_eval fileName data pos cs t out hname hl ht hS).2 hf
  refine ⟨pos2, r, e, htab, hfile, hreads, ?_⟩
  have hd0 : ((cs.map (candMode_t.mark data.length)).map (candMode_t.measure data))[k0]?
      = some ((c0.mark data.length).measure data) := by
    rw [List.getElem?_map, List.getElem?_map, hk0]; rfl
  obtain ⟨c0', h1, hkey0, hps0, hi0, hm0, _⟩ := measured_entry data.length data cs k0 _ hd0
  rw [hk0] at h1
  have h1 := Option.some.inj h1
  subst h1
  rw [hflag] at hi0
  have hm0 := hm0 hi0
  rw [hz] at hm0
  rcases hsel with ⟨k, c, hk, hi, h100, hle, hlt, hout⟩ | ⟨hall, _⟩
  · obtain ⟨c', h1, hkey, hps, hi', hm, _⟩ := measured_entry data.length data cs k c hk
    have hcm := hm hi
    have hnn := (computeMSE_firstFrames data c'.picSize
      (hl c' (List.mem_iff_getElem?.2 ⟨k, h1⟩)).2.1).2
    rcases Nat.lt_trichotomy k k0 with a | a | a
    · have h2 := hbefore k c' a h1 (by rw [← hi']; exact hi)
      have h3 := hle k0 _ hd0 hi0
      rw [hm0, hcm] at h3
      exact absurd (le_antisymm h3 hnn) h2
    · subst a
      rw [hk0] at h1
      have h1 := Option.some.inj h1
      subst h1
      obtain ⟨a1, a2, a3⟩ := key_fields c c0 hkey
      rw [hout, a1, a2, a3, hps]
    · have h3 := hlt k0 _ a hd0 hi0
      rw [hm0, hcm] at h3
      exact absurd h3 (not_lt.2 hnn)
  · have h3 := hall k0 _ hd0 hi0
    rw [hm0] at h3
    exact absurd h3 (by norm_num)

/-- The error value of two frames of equal bytes is 0. -/
theorem errorValue_equal (data : Buf) (picSize : Nat) (hp : 0 < picSize)
    (heq : ∀ j, j < picSize →
      load (firstFrames data picSize) (picSize + j) = load (firstFrames data picSize) j) :
    errorValue data picSize = 0 := by
  unfold errorValue
  rw [computeMSE_equal (firstFrames data picSize) picSize hp (by rw [firstFrames_length]) heq]
  rfl

/-- The error value on a file of zero bytes is 0. -/
theorem errorValue_zeros (data : Buf) (picSize : Nat) (hp : 0 < picSize)
    (hz : ∀ b, b ∈ data → b = 0) : errorValue data picSize = 0 := by
  have hall : ∀ b, b ∈ firstFrames data picSize → b = 0 := by
    intro b hb
    unfold firstFrames at hb
    rcases List.mem_append.1 hb with a | a
    · exact hz b (List.mem_of_mem_take a)
    · exact List.eq_of_mem_replicate (List.mem_of_mem_drop a)
  have hload : ∀ p, p < picSize * 2 → load (firstFrames data picSize) p = some 0 := by
    intro p hp2
    have hlt : p < (firstFrames data picSize).length := by rw [firstFrames_length]; exact hp2
    unfold load
    rw [List.getElem?_eq_getElem hlt]
    exact congrArg some (hall _ (List.getElem_mem _))
  exact errorValue_equal data picSize hp
    (fun j hj => by rw [hload _ (by omega), hload _ (by omega)])

/-- The error value on a file that is a frame and a copy of it is 0. -/
theorem errorValue_copy (F : Buf) (hp : 0 < F.length) : errorValue (F ++ F) F.length = 0 := by
  have e : firstFrames (F ++ F) F.length = F ++ F := by
    rw [firstFrames_of_le _ _ (by rw [List.length_append]; omega)]
    exact List.take_of_length_le (by rw [List.length_append]; omega)
  apply errorValue_equal _ _ hp
  intro j hj
  rw [e]
  unfold load
  rw [List.getElem?_append_right (by omega), List.getElem?_append_left hj]
  congr 1
  omega

theorem candidateModes_split :
    candidateModes = candidateModes.take 29 ++ [⟨-1, -1, YUVC_UnknownPixelFormat, false, 0⟩] := rfl

theorem candidateModes_live : ∀ c, c ∈ candidateModes.take 29 → LiveEntry c := by
  decide

theorem candidateModes_size_ge : ∀ c, c ∈ candidateModes.take 29 → 38016 ≤ c.picSize := by
  decide

/-- A state of the table is a list of 29 entries with frame sizes that are
not 0 and one entry of the unknown format. -/
theorem tableState_split (table : List candMode_t) (h : TableState table) :
    ∃ cs t, table = cs ++ [t] ∧ t.pixelFormat = YUVC_UnknownPixelFormat ∧
      cs.map candMode_t.key = (candidateModes.take 29).map candMode_t.key ∧
      (∀ c, c ∈ cs → LiveEntry c) := by
  unfold TableState at h
  have e : candidateModes.map candMode_t.key
      = (candidateModes.take 29).map candMode_t.key ++ [(-1, -1, YUVC_UnknownPixelFormat)] := rfl
  rw [e] at h
  obtain ⟨cs, ts, e1, e2, e3⟩ := List.map_eq_append_iff.1 h
  obtain ⟨t, rest, e4, e5, e6⟩ := List.map_eq_cons_iff.1 e3
  have e7 : rest = [] := List.map_eq_nil_iff.1 e6
  subst e7
  refine ⟨cs, t, by rw [e1, e4], congrArg (fun p => p.2.2) e5, e2, ?_⟩
  intro c hc
  have hm : c.key ∈ (candidateModes.take 29).map candMode_t.key := by
    rw [← e2]; exact List.mem_map_of_mem _ hc
  obtain ⟨d, hd, e8⟩ := List.mem_map.1 hm
  exact liveEntry_of_key c d e8.symm (candidateModes_live d hd)

theorem any_passes_of_keys (S : Nat) : ∀ (cs ds : List candMode_t),
    cs.map candMode_t.key = ds.map candMode_t.key →
    cs.any (candMode_t.passes S) = ds.any (candMode_t.passes S) := by
  intro cs
  induction cs with
  | nil =>
    intro ds h
    cases ds with
    | nil => rfl
    | cons d ds => exact absurd h (by simp)
  | cons c cs ih =>
    intro ds h
    cases ds with
    | nil => exact absurd h (by simp)
    | cons d ds =>
      rw [List.map_cons, List.map_cons] at h
      obtain ⟨h1, h2⟩ := List.cons.inj h
      rw [List.any_cons, List.any_cons, ih ds h2, passes_of_key S c d h1]

theorem mem_take_candidateModes (c : candMode_t) (h : c ∈ candidateModes.take 29) :
    c ∈ candidateModes := List.mem_of_mem_take h

theorem short_of_lt (S : Nat) (h : S < 76032) : ∀ c, c ∈ candidateModes →
    c.pixelFormat ≠ YUVC_UnknownPixelFormat → ∀ P,
    YUVFile.bytesPerFrame c.width c.height c.pixelFormat = some P → S < 2 * P := by
  intro c hc hne P hP
  rw [candidateModes_split] at hc
  rcases List.mem_append.1 hc with a | a
  · have h1 := candidateModes_size_ge c a
    unfold candMode_t.picSize at h1
    rw [hP] at h1
    have h2 : 38016 ≤ P := h1
    omega
  · rw [List.mem_singleton] at a
    rw [a] at hne
    exact absurd rfl hne

/-- A call of `formatFromCorrelation` in which no entry passes the test of
step 1 changes nothing and reads nothing, whatever the table holds. -/
theorem formatFromCorrelation_not_found (fileName : List Char) (file : QFile)
    (table : List candMode_t) (out : CorrelationFormat) (htable : TableState table)
    (hnone : (candidateModes.take 29).any (candMode_t.passes file.data.length) = false) :
    YUVFile.formatFromCorrelation fileName file table out = some ⟨table, file, out, []⟩ := by
  obtain ⟨cs, t, e, ht, hkeys, hl⟩ := tableState_split table htable
  obtain ⟨data, pos⟩ := file
  by_cases hname : fileName = []
  · unfold YUVFile.formatFromCorrelation
    rw [if_pos hname]
  · by_cases hS : data.length < 1
    · unfold YUVFile.formatFromCorrelation
      rw [if_neg hname]
      dsimp only
      rw [if_pos hS]
    · rw [e]
      apply (formatFromCorrelation_eval fileName data pos cs t out hname hl ht (by omega)).1
      rw [any_passes_of_keys data.length cs _ hkeys]
      exact hnone

theorem not_passes_of_short (S : Nat)
    (hshort : ∀ c, c ∈ candidateModes → c.pixelFormat ≠ YUVC_UnknownPixelFormat → ∀ P,
      YUVFile.bytesPerFrame c.width c.height c.pixelFormat = some P → S < 2 * P) :
    (candidateModes.take 29).any (candMode_t.passes S) = false := by
  rw [List.any_eq_false]
  intro c hc
  have hl := candidateModes_live c hc
  have h1 := hshort c (mem_take_candidateModes c hc) hl.1 c.picSize (picSize_eq c hl.2.1)
  rw [passes_eq S c hl]
  simp only [decide_eq_true_eq, not_and]
  intro h2
  omega

/-- C28: for a file whose size is below twice the frame size of every
candidate of the table, `formatFromCorrelation` returns with width, height,
pixel format and number of frames as they were, without a call of
`readBytes`, and leaves the table and the file as they were, whatever flags
and error values earlier calls left in the table and whatever the name of the
file; every file shorter than 76032 bytes, the empty file among them, is such
a file. -/
theorem formatFromCorrelation_short_file (fileName : List Char) (file : QFile)
    (table : List candMode_t) (out : CorrelationFormat) (htable : TableState table)
    (hshort : ∀ c, c ∈ candidateModes → c.pixelFormat ≠ YUVC_UnknownPixelFormat → ∀ P,
      YUVFile.bytesPerFrame c.width c.height c.pixelFormat = some P →
      file.data.length < 2 * P) :
    YUVFile.formatFromCorrelation fileName file table out = some ⟨table, file, out, []⟩ ∧
    (∀ file2 : QFile, file2.data.length < 76032 →
      YUVFile.formatFromCorrelation fileName file2 table out = some ⟨table, file2, out, []⟩) ∧
    (∀ pos, YUVFile.formatFromCorrelation fileName ⟨[], pos⟩ table out
      = some ⟨table, ⟨[], pos⟩, out, []⟩) :=
  ⟨formatFromCorrelation_not_found fileName file table out htable
      (not_passes_of_short _ hshort),
    fun file2 h2 => formatFromCorrelation_not_found fileName file2 table out htable
      (not_passes_of_short _ (short_of_lt _ h2)),
    fun pos => formatFromCorrelation_not_found fileName ⟨[], pos⟩ table out htable
      (not_passes_of_short _ (short_of_lt 0 (by decide)))⟩

/-- C28, at a file of three bytes and the table as the program starts with
it. -/
theorem formatFromCorrelation_short_file_witness :
    TableState candidateModes ∧
    YUVFile.formatFromCorrelation "a.yuv".toList ⟨[1, 2, 3], 0⟩ candidateModes
      ⟨-1, -1, YUVC_UnknownPixelFormat, -1⟩
      = some ⟨candidateModes, ⟨[1, 2, 3], 0⟩, ⟨-1, -1, YUVC_UnknownPixelFormat, -1⟩, []⟩ :=
  ⟨rfl, (formatFromCorrelation_short_file "a.yuv".toList ⟨[1, 2, 3], 0⟩ candidateModes
    ⟨-1, -1, YUVC_UnknownPixelFormat, -1⟩ rfl (short_of_lt 3 (by decide))).1⟩

theorem tableState_length (cs : List candMode_t)
    (h : cs.map candMode_t.key = (candidateModes.take 29).map candMode_t.key) :
    cs.length = 29 := by
  have := congrArg List.length h
  rw [List.length_map, List.length_map] at this
  exact this

theorem measured_keys (S : Nat) (data : Buf) (cs : List candMode_t) :
    ((cs.map (candMode_t.mark S)).map (candMode_t.measure data)).map candMode_t.key
      = cs.map candMode_t.key := by
  rw [List.map_map, List.map_map]
  apply List.map_congr_left
  intro c _
  simp only [Function.comp_apply, measure_key, mark_key]

/-- A call of `formatFromCorrelation` on a state of the table, for a file of
which some candidate passes the test of step 1: when an entry flagged after
step 1 has the error value 0 and no flagged entry before it has, it is the
one taken; the flags of the table after the call are those from before and
those the test sets. -/
theorem formatFromCorrelation_zero_table (fileName : List Char) (data : Buf) (pos : Nat)
    (table : List candMode_t) (out : CorrelationFormat) (hname : fileName ≠ [])
    (htable : TableState table) (hS : 1 ≤ data.length)
    (hf : (candidateModes.take 29).any (candMode_t.passes data.length) = true)
    (k0 : Nat) (d0 : candMode_t) (hk0 : table[k0]? = some d0) (hk29 : k0 < 29)
    (hflag : (d0.interesting || d0.passes data.length) = true)
    (hz : errorValue data d0.picSize = 0)
    (hbefore : ∀ (j : Nat) (d : candMode_t), j < k0 → table[j]? = some d →
      (d.interesting || d.passes data.length) = true → errorValue data d.picSize ≠ 0) :
    ∃ r, YUVFile.formatFromCorrelation fileName ⟨data, pos⟩ table out = some r ∧
      TableState r.table ∧ r.file.data = data ∧
      (∀ (j : Nat) (d : candMode_t), j < 29 → table[j]? = some d →
        ∃ d2, r.table[j]? = some d2 ∧ d2.key = d.key ∧
          d2.interesting = (d.interesting || d.passes data.length)) ∧
      r.out = ⟨d0.width, d0.height, d0.pixelFormat,
        toInt32 ((data.length / d0.picSize : Nat) : Int)⟩ := by
  obtain ⟨cs, t, e, ht, hkeys, hl⟩ := tableState_split table htable
  have hlen := tableState_length cs hkeys
  have hidx : ∀ j, j < 29 → table[j]? = cs[j]? := by
    intro j hj
    rw [e, List.getElem?_append_left (by omega)]
  rw [hidx k0 hk29] at hk0
  obtain ⟨pos2, r, e1, htab, hfile, hreads, hout⟩ :=
    formatFromCorrelation_zero fileName data pos cs t out hname hl ht hS
      (by rw [any_passes_of_keys data.length cs _ hkeys]; exact hf) k0 d0 hk0 hflag hz
      (fun j c hj hc => hbefore j c hj (by rw [hidx j (by omega)]; exact hc))
  refine ⟨r, by rw [e]; exact e1, ?_, by rw [hfile], ?_, hout⟩
  · unfold TableState at htable ⊢
    rw [htab, List.map_append, measured_keys, ← htable, e, List.map_append]
  · intro j d hj hd
    rw [hidx j hj] at hd
    refine ⟨(d.mark data.length).measure data, ?_, by rw [measure_key, mark_key], ?_⟩
    · rw [htab, List.getElem?_append_left (by
        rw [List.length_map, List.length_map]; omega), List.getElem?_map, List.getElem?_map, hd]
      rfl
    · unfold candMode_t.measure candMode_t.mark
      cases hp : d.passes data.length <;> cases hi : d.interesting <;> simp [hi]

theorem before_of_take (table : List candMode_t) (k0 : Nat) (p : candMode_t → Bool)
    (h : (table.take k0).all p = true) :
    ∀ (j : Nat) (d : candMode_t), j < k0 → table[j]? = some d → p d = true := by
  intro j d hj hd
  rw [List.all_eq_true] at h
  apply h
  rw [List.mem_iff_getElem?]
  exact ⟨j, by rw [List.getElem?_take_of_lt hj]; exact hd⟩

/-- A call of `formatFromCorrelation` on the table as the program starts with
it, for a file of zero bytes: the earliest candidate that passes the test of
step 1 is taken. -/
theorem formatFromCorrelation_zeros_first (fileName : List Char) (data : Buf) (pos : Nat)
    (out : CorrelationFormat) (S : Nat) (hname : fileName ≠ []) (hlen : data.length = S)
    (hz : ∀ b, b ∈ data → b = 0) (k0 : Nat) (d0 : candMode_t)
    (hk0 : candidateModes[k0]? = some d0) (hk29 : k0 < 29) (hflag : d0.passes S = true)
    (hbefore : (candidateModes.take k0).all (fun d => !(d.interesting || d.passes S)) = true) :
    ∃ r, YUVFile.formatFromCorrelation fileName ⟨data, pos⟩ candidateModes out = some r ∧
      TableState r.table ∧ r.file.data = data ∧
      (∀ (j : Nat) (d : candMode_t), j < 29 → candidateModes[j]? = some d →
        ∃ d2, r.table[j]? = some d2 ∧ d2.key = d.key ∧
          d2.interesting = (d.interesting || d.passes S)) ∧
      r.out = ⟨d0.width, d0.height, d0.pixelFormat, toInt32 ((S / d0.picSize : Nat) : Int)⟩ := by
  subst hlen
  have hlive : LiveEntry d0 := candidateModes_live d0 (by
    rw [List.mem_iff_getElem?]
    exact ⟨k0, by rw [List.getElem?_take_of_lt hk29]; exact hk0⟩)
  have hS : 1 ≤ data.length := by
    rw [passes_eq _ d0 hlive] at hflag
    have := (of_decide_eq_true hflag).1
    have := hlive.2.1
    omega
  apply formatFromCorrelation_zero_table fileName data pos candidateModes out hname rfl hS
    (List.any_eq_true.2 ⟨d0, by
      rw [List.mem_iff_getElem?]
      exact ⟨k0, by rw [List.getElem?_take_of_lt hk29]; exact hk0⟩, hflag⟩)
    k0 d0 hk0 hk29 (by rw [hflag, Bool.or_true])
    (errorValue_zeros data d0.picSize hlive.2.1 hz)
  intro j d hj hd hfl
  have := before_of_take candidateModes k0 _ hbefore j d hj hd
  rw [hfl] at this
  exact absurd this (by decide)

/-- C26 (the code at fault): the flags of the global table outlast a call.
F is a file of 76032 zero bytes, two frames of 176 x 144 in 4:2:0; G is a
file of 101376 zero bytes, two frames of 176 x 144 in 4:2:2. A call on G
made first returns 176 x 144 in 4:2:2 with 2 frames; a call on G made after
a call on F returns 176 x 144 in 4:2:0 with 2 frames, because the entry the
call on F flagged is still flagged, is measured again on G and comes first. -/
theorem formatFromCorrelation_stale_flags :
    ∃ rF rG rG1,
      YUVFile.formatFromCorrelation "F.yuv".toList ⟨List.replicate 76032 0, 0⟩ candidateModes
        ⟨-1, -1, YUVC_UnknownPixelFormat, -1⟩ = some rF ∧
      YUVFile.formatFromCorrelation "G.yuv".toList ⟨List.replicate 101376 0, 0⟩ rF.table
        ⟨-1, -1, YUVC_UnknownPixelFormat, -1⟩ = some rG ∧
      YUVFile.formatFromCorrelation "G.yuv".toList ⟨List.replicate 101376 0, 0⟩ candidateModes
        ⟨-1, -1, YUVC_UnknownPixelFormat, -1⟩ = some rG1 ∧
      rF.out = ⟨176, 144, YUVC_420YpCbCr8PlanarPixelFormat, 2⟩ ∧
      rG.out = ⟨176, 144, YUVC_420YpCbCr8PlanarPixelFormat, 2⟩ ∧
      rG1.out = ⟨176, 144, YUVC_422YpCbCr8PlanarPixelFormat, 2⟩ := by
  have hzF : ∀ b, b ∈ List.replicate 76032 (0 : Byte) → b = 0 :=
    fun b hb => List.eq_of_mem_replicate hb
  have hzG : ∀ b, b ∈ List.replicate 101376 (0 : Byte) → b = 0 :=
    fun b hb => List.eq_of_mem_replicate hb
  obtain ⟨rF, eF, hTF, _, hflagsF, houtF⟩ :=
    formatFromCorrelation_zeros_first "F.yuv".toList (List.replicate 76032 0) 0
      ⟨-1, -1, YUVC_UnknownPixelFormat, -1⟩ 76032 (by decide) (List.length_replicate _ _) hzF
      0 ⟨176, 144, YUVC_420YpCbCr8PlanarPixelFormat, false, 0⟩ rfl (by decide) (by decide) rfl
  obtain ⟨rG1, eG1, _, _, _, houtG1⟩ :=
    formatFromCorrelation_zeros_first "G.yuv".toList (List.replicate 101376 0) 0
      ⟨-1, -1, YUVC_UnknownPixelFormat, -1⟩ 101376 (by decide) (List.length_replicate _ _) hzG
      14 ⟨176, 144, YUVC_422YpCbCr8PlanarPixelFormat, false, 0⟩ rfl (by decide) (by decide)
      (by decide)
  obtain ⟨d2, hd2, hkey, hint⟩ := hflagsF 0 _ (by decide) rfl
  have hint2 : d2.interesting = true := by rw [hint]; decide
  obtain ⟨a1, a2, a3⟩ := key_fields d2 _ hkey
  have hps := picSize_of_key d2 _ hkey
  have hlenG : (List.replicate 101376 (0 : Byte)).length = 101376 := List.length_replicate _ _
  obtain ⟨rG, eG, _, _, _, houtG⟩ :=
    formatFromCorrelation_zero_table "G.yuv".toList (List.replicate 101376 0) 0 rF.table
      ⟨-1, -1, YUVC_UnknownPixelFormat, -1⟩ (by decide) hTF (by rw [hlenG]; decide)
      (by rw [hlenG]; decide) 0 d2 hd2 (by decide) (by rw [hint2]; rfl)
      (errorValue_zeros _ _ (by rw [hps]; decide) hzG)
      (fun j d hj => absurd hj (by omega))
  refine ⟨rF, rG, rG1, eF, eG, eG1, ?_, ?_, ?_⟩
  · rw [houtF]; decide
  · rw [houtG, a1, a2, a3, hps, hlenG]; decide
  · rw [houtG1]; decide

theorem candidateModes_unflagged : ∀ d, d ∈ candidateModes → d.interesting = false := by
  decide

theorem candidateModes_index (k : Nat) (c : candMode_t) (hk : candidateModes[k]? = some c)
    (hc : c.pixelFormat ≠ YUVC_UnknownPixelFormat) : k < 29 ∧ c ∈ candidateModes.take 29 := by
  have h30 : k < 30 := by
    rcases Nat.lt_or_ge k 30 with a | a
    · exact a
    · rw [List.getElem?_eq_none (by exact a)] at hk; exact absurd hk (by simp)
  have h29 : k < 29 := by
    rcases Nat.lt_or_ge k 29 with a | a
    · exact a
    · have e : k = 29 := by omega
      subst e
      have : c = ⟨-1, -1, YUVC_UnknownPixelFormat, false, 0⟩ := (Option.some.inj hk).symm
      rw [this] at hc
      exact absurd rfl hc
  refine ⟨h29, ?_⟩
  rw [List.mem_iff_getElem?]
  exact ⟨k, by rw [List.getElem?_take_of_lt h29]; exact hk⟩

/-- C27 (as stated, refuted): the third candidate of the table is 352 x 288
in 4:2:0 with frames of 152064 bytes. For the frame F of 152064 zero bytes
the file F followed by F is also eight frames of 176 x 144 in 4:2:0, the
first candidate, which has the error value 0 as well and comes first: the
call returns 176 x 144 with 8 frames. -/
theorem formatFromCorrelation_identical_frames_counterexample :
    candidateModes[2]? = some ⟨352, 288, YUVC_420YpCbCr8PlanarPixelFormat, false, 0⟩ ∧
    YUVFile.bytesPerFrame 352 288 YUVC_420YpCbCr8PlanarPixelFormat
      = some (List.replicate 152064 (0 : Byte)).length ∧
    ∃ r, YUVFile.formatFromCorrelation "a.yuv".toList
        ⟨List.replicate 152064 0 ++ List.replicate 152064 0, 0⟩ candidateModes
        ⟨-1, -1, YUVC_UnknownPixelFormat, -1⟩ = some r ∧
      r.out = ⟨176, 144, YUVC_420YpCbCr8PlanarPixelFormat, 8⟩ := by
  refine ⟨rfl, by rw [List.length_replicate]; decide, ?_⟩
  obtain ⟨r, e, _, _, _, hout⟩ :=
    formatFromCorrelation_zeros_first "a.yuv".toList
      (List.replicate 152064 0 ++ List.replicate 152064 0) 0
      ⟨-1, -1, YUVC_UnknownPixelFormat, -1⟩ 304128 (by decide)
      (by rw [List.length_append, List.length_replicate])
      (fun b hb => by
        rcases List.mem_append.1 hb with a | a <;> exact List.eq_of_mem_replicate a)
      0 ⟨176, 144, YUVC_420YpCbCr8PlanarPixelFormat, false, 0⟩ rfl (by decide) (by decide) rfl
  exact ⟨r, e, by rw [hout]; decide⟩

/-- C27 (amended): on the table as the program starts with it, for a
candidate of the table with frames of the size of F, `formatFromCorrelation`
applied to the file F followed by F returns the width, the height and the
pixel format of that candidate with 2 frames, provided no candidate before it
in the table, of a frame size P that divides the size of the file and fits
twice into it, has the error value 0 on the first two runs of P bytes of the
file. For the first candidate of the table no such candidate exists. -/
theorem formatFromCorrelation_identical_frames (fileName : List Char) (pos : Nat)
    (out : CorrelationFormat) (k : Nat) (c : candMode_t) (F : Buf) (hname : fileName ≠ [])
    (hk : candidateModes[k]? = some c) (hc : c.pixelFormat ≠ YUVC_UnknownPixelFormat)
    (hF : YUVFile.bytesPerFrame c.width c.height c.pixelFormat = some F.length)
    (hbefore : ∀ (j : Nat) (d : candMode_t) (P : Nat), j < k → candidateModes[j]? = some d →
      YUVFile.bytesPerFrame d.width d.height d.pixelFormat = some P →
      P * 2 ≤ F.length * 2 → (F.length * 2) % P = 0 →
      computeMSE ((F ++ F).take (P * 2)) 0 P P ≠ some 0) :
    ∃ r, YUVFile.formatFromCorrelation fileName ⟨F ++ F, pos⟩ candidateModes out = some r ∧
      r.out = ⟨c.width, c.height, c.pixelFormat, 2⟩ := by
  obtain ⟨hk29, hmem⟩ := candidateModes_index k c hk hc
  have hlive := candidateModes_live c hmem
  have hps : c.picSize = F.length := by
    unfold candMode_t.picSize; rw [hF]; rfl
  have hpos : 0 < F.length := by rw [← hps]; exact hlive.2.1
  have hlen : (F ++ F).length = F.length * 2 := by rw [List.length_append]; omega
  have hpass : c.passes (F ++ F).length = true := by
    rw [passes_eq _ c hlive, hps, hlen]
    exact decide_eq_true ⟨le_refl _, Nat.mul_mod_right _ _⟩
  obtain ⟨r, e, _, _, _, hout⟩ :=
    formatFromCorrelation_zero_table fileName (F ++ F) pos candidateModes out hname rfl
      (by rw [hlen]; omega)
      (List.any_eq_true.2 ⟨c, hmem, hpass⟩) k c hk hk29 (by rw [hpass, Bool.or_true])
      (by rw [hps]; exact errorValue_copy F hpos)
      (by
        intro j d hj hd hfl
        have hdmem : d ∈ candidateModes.take 29 := by
          rw [List.mem_iff_getElem?]
          exact ⟨j, by rw [List.getElem?_take_of_lt (by omega)]; exact hd⟩
        have hdl := candidateModes_live d hdmem
        rw [candidateModes_unflagged d (List.mem_of_mem_take hdmem), Bool.false_or,
          passes_eq _ d hdl, hlen] at hfl
        obtain ⟨h1, h2⟩ := of_decide_eq_true hfl
        have h3 := hbefore j d d.picSize hj hd (picSize_eq d hdl.2.1) h1 h2
        intro h0
        apply h3
        rw [← firstFrames_of_le _ _ (by rw [hlen]; exact h1),
          (computeMSE_firstFrames (F ++ F) d.picSize hdl.2.1).1, h0])
  refine ⟨r, e, ?_⟩
  rw [hout, hps, hlen, Nat.mul_div_cancel_left 2 hpos]
  rfl

/-- C27 (amended), at the first candidate of the table, 176 x 144 in 4:2:0,
and a frame of 38016 bytes of the value 128. -/
theorem formatFromCorrelation_identical_frames_witness :
    ∃ r, YUVFile.formatFromCorrelation "a.yuv".toList
        ⟨List.replicate 38016 128 ++ List.replicate 38016 128, 0⟩ candidateModes
        ⟨-1, -1, YUVC_UnknownPixelFormat, -1⟩ = some r ∧
      r.out = ⟨176, 144, YUVC_420YpCbCr8PlanarPixelFormat, 2⟩ :=
  formatFromCorrelation_identical_frames "a.yuv".toList 0 ⟨-1, -1, YUVC_UnknownPixelFormat, -1⟩
    0 ⟨176, 144, YUVC_420YpCbCr8PlanarPixelFormat, false, 0⟩ (List.replicate 38016 128)
    (by decide) rfl (by decide) (by rw [List.length_replicate]; decide)
    (fun j d P hj => absurd hj (by omega))

/-- C25 (as stated, refuted): for a file of 2^31 * 38016 zero bytes the first
candidate, 176 x 144 in 4:2:0 with frames of 38016 bytes, is examined and
taken with the error value 0; the quotient of the sizes is 2^31, and the
number of frames returned, an `int`, is -2^31. -/
theorem formatFromCorrelation_first_call_counterexample :
    YUVFile.bytesPerFrame 176 144 YUVC_420YpCbCr8PlanarPixelFormat = some 38016 ∧
    (List.replicate 81638738362368 (0 : Byte)).length / 38016 = 2147483648 ∧
    ∃ r, YUVFile.formatFromCorrelation "a.yuv".toList ⟨List.replicate 81638738362368 0, 0⟩
        candidateModes ⟨-1, -1, YUVC_UnknownPixelFormat, -1⟩ = some r ∧
      r.out = ⟨176, 144, YUVC_420YpCbCr8PlanarPixelFormat, -2147483648⟩ := by
  refine ⟨by decide, by rw [List.length_replicate], ?_⟩
  obtain ⟨r, e, _, _, _, hout⟩ :=
    formatFromCorrelation_zeros_first "a.yuv".toList (List.replicate 81638738362368 0) 0
      ⟨-1, -1, YUVC_UnknownPixelFormat, -1⟩ 81638738362368 (by decide)
      (List.length_replicate _ _) (fun b hb => List.eq_of_mem_replicate hb)
      0 ⟨176, 144, YUVC_420YpCbCr8PlanarPixelFormat, false, 0⟩ rfl (by decide) (by decide) rfl
  exact ⟨r, e, by rw [hout]; decide⟩

theorem table_entry_flagged (T2 : List candMode_t) (t : candMode_t) (hlen : T2.length = 29)
    (ht : t.interesting = false) (j : Nat) (e : candMode_t) (h : (T2 ++ [t])[j]? = some e)
    (he : e.interesting = true) : T2[j]? = some e := by
  rcases Nat.lt_or_ge j T2.length with a | a
  · rw [List.getElem?_append_left a] at h; exact h
  · rw [List.getElem?_append_right a] at h
    cases hj : j - T2.length with
    | zero =>
      rw [hj] at h
      have : t = e := Option.some.inj h
      rw [← this, ht] at he
      exact absurd he (by decide)
    | succ n => rw [hj] at h; exact absurd h (by simp)

/-- C25 (amended): a first call of `formatFromCorrelation`, on the table as
the program starts with it, for a named file of a size S with
0 < S < 2^31 * 38016, so that the quotient of S by every frame size of the
table fits an `int`. The call returns. A candidate with the frame size P is
flagged, and its error value computed from the first 2P bytes of the file,
iff S >= 2P and S mod P = 0. Either some flagged candidate has an error value
below 100, and the outputs are the width, height and pixel format of the
earliest flagged candidate with the least error value and the number of
frames S div P; or no flagged candidate has, and the outputs are as they
were. -/
theorem formatFromCorrelation_first_call (fileName : List Char) (file : QFile)
    (out : CorrelationFormat) (hname : fileName ≠ []) (hS : 0 < file.data.length)
    (hfit : file.data.length < 2 ^ 31 * 38016) :
    ∃ r, YUVFile.formatFromCorrelation fileName file candidateModes out = some r ∧
      (∀ (j : Nat) (c : candMode_t), candidateModes[j]? = some c →
        c.pixelFormat ≠ YUVC_UnknownPixelFormat →
        ∃ P d, YUVFile.bytesPerFrame c.width c.height c.pixelFormat = some P ∧
          r.table[j]? = some d ∧ d.key = c.key ∧
          (d.interesting = true ↔ (P * 2 ≤ file.data.length ∧ file.data.length % P = 0)) ∧
          (d.interesting = true → computeMSE (file.data.take (P * 2)) 0 P P = some d.mseY)) ∧
      ((∃ k d P, r.table[k]? = some d ∧ d.interesting = true ∧ d.mseY < 100 ∧
          (∀ (j : Nat) (e : candMode_t), r.table[j]? = some e → e.interesting = true →
            d.mseY ≤ e.mseY) ∧
          (∀ (j : Nat) (e : candMode_t), j < k → r.table[j]? = some e → e.interesting = true →
            d.mseY < e.mseY) ∧
          YUVFile.bytesPerFrame d.width d.height d.pixelFormat = some P ∧
          r.out = ⟨d.width, d.height, d.pixelFormat, ((file.data.length / P : Nat) : Int)⟩) ∨
        ((∀ (j : Nat) (e : candMode_t), r.table[j]? = some e → e.interesting = true →
            100 ≤ e.mseY) ∧ r.out = out)) := by
  obtain ⟨data, pos⟩ := file
  dsimp only at hS hfit ⊢
  have hev := formatFromCorrelation_eval fileName data pos (candidateModes.take 29)
    ⟨-1, -1, YUVC_UnknownPixelFormat, false, 0⟩ out hname candidateModes_live rfl hS
  rw [← candidateModes_split] at hev
  cases hf : (candidateModes.take 29).any (candMode_t.passes data.length) with
  | false =>
    refine ⟨_, hev.1 hf, ?_, Or.inr ⟨?_, rfl⟩⟩
    · intro j c hj hc
      obtain ⟨hj29, hmem⟩ := candidateModes_index j c hj hc
      have hl := candidateModes_live c hmem
      refine ⟨c.picSize, c, picSize_eq c hl.2.1, hj, rfl, ?_, ?_⟩
      · have hnp := List.any_eq_false.1 hf c hmem
        rw [passes_eq _ c hl] at hnp
        rw [candidateModes_unflagged c (List.mem_of_mem_take hmem)]
        constructor
        · intro a; exact absurd a (by decide)
        · intro a; exact absurd (decide_eq_true a) hnp
      · intro a
        rw [candidateModes_unflagged c (List.mem_of_mem_take hmem)] at a
        exact absurd a (by decide)
    · intro j e hj he
      rw [candidateModes_unflagged e (List.mem_iff_getElem?.2 ⟨j, hj⟩)] at he
      exact absurd he (by decide)
  | true =>
    obtain ⟨pos2, r, e, htab, _, _, hsel⟩ := hev.2 hf
    have hlen2 : ((List.map (candMode_t.mark data.length) (candidateModes.take 29)).map
        (candMode_t.measure data)).length = 29 := by
      rw [List.length_map, List.length_map]; rfl
    have hback : ∀ (j : Nat) (e : candMode_t), r.table[j]? = some e → e.interesting = true →
        ((List.map (candMode_t.mark data.length) (candidateModes.take 29)).map
          (candMode_t.measure data))[j]? = some e := by
      intro j e hj he
      rw [htab] at hj
      exact table_entry_flagged _ _ hlen2 rfl j e hj he
    have hfwd : ∀ (j : Nat) (e : candMode_t),
        ((List.map (candMode_t.mark data.length) (candidateModes.take 29)).map
          (candMode_t.measure data))[j]? = some e → r.table[j]? = some e := by
      intro j e hj
      have hlt : j < 29 := by
        rcases Nat.lt_or_ge j 29 with a | a
        · exact a
        · rw [List.getElem?_eq_none (by rw [hlen2]; exact a)] at hj; exact absurd hj (by simp)
      rw [htab, List.getElem?_append_left (by rw [hlen2]; exact hlt)]
      exact hj
    refine ⟨r, e, ?_, ?_⟩
    · intro j c hj hc
      obtain ⟨hj29, hmem⟩ := candidateModes_index j c hj hc
      have hl := candidateModes_live c hmem
      have hj2 : (candidateModes.take 29)[j]? = some c := by
        rw [List.getElem?_take_of_lt hj29]; exact hj
      have hd : ((List.map (candMode_t.mark data.length) (candidateModes.take 29)).map
          (candMode_t.measure data))[j]? = some ((c.mark data.length).measure data) := by
        rw [List.getElem?_map, List.getElem?_map, hj2]; rfl
      obtain ⟨c2, h1, hkey, hps, hi, hm, _⟩ := measured_entry data.length data _ j _ hd
      rw [hj2] at h1
      have h1 := Option.some.inj h1
      subst h1
      rw [candidateModes_unflagged c (List.mem_of_mem_take hmem), Bool.false_or,
        passes_eq _ c hl] at hi
      refine ⟨c.picSize, _, picSize_eq c hl.2.1, hfwd j _ hd, hkey, ?_, ?_⟩
      · rw [hi]; exact decide_eq_true_iff
      · intro a
        have hcond := a
        rw [hi] at hcond
        rw [hm a, ← firstFrames_of_le _ _ (of_decide_eq_true hcond).1]
        exact (computeMSE_firstFrames data c.picSize hl.2.1).1
    · rcases hsel with ⟨k, c, hk, hi, h100, hle, hlt, hout⟩ | ⟨hall, hout⟩
      · left
        obtain ⟨c0, h1, hkey, hps, _, _, _⟩ := measured_entry data.length data _ k c hk
        have hmem0 : c0 ∈ candidateModes.take 29 := List.mem_iff_getElem?.2 ⟨k, h1⟩
        have hl0 := candidateModes_live c0 hmem0
        have hl := liveEntry_of_key c c0 hkey hl0
        have hge : 38016 ≤ c.picSize := by rw [hps]; exact candidateModes_size_ge c0 hmem0
        have hq : data.length / c.picSize < 2 ^ 31 := by
          rw [Nat.div_lt_iff_lt_mul hl.2.1]
          calc data.length < 2 ^ 31 * 38016 := hfit
            _ ≤ 2 ^ 31 * c.picSize := Nat.mul_le_mul_left _ hge
        refine ⟨k, c, c.picSize, hfwd k c hk, hi, h100,
          fun j e hj he => hle j e (hback j e hj he) he,
          fun j e hjk hj he => hlt j e hjk (hback j e hj he) he, picSize_eq c hl.2.1, ?_⟩
        rw [hout, toInt32_of_lt _ hq]
      · right
        exact ⟨fun j e hj he => hall j e (hback j e hj he) he, hout⟩

/-- C25 (amended), at a file of 76032 zero bytes, two frames of the first
candidate, 176 x 144 in 4:2:0, which is flagged and taken with the error
value 0 and 2 frames; and at a file of four zero bytes, for which no
candidate is flagged and the outputs stay as they were. -/
theorem formatFromCorrelation_first_call_witness :
    (∃ r, YUVFile.formatFromCorrelation "a.yuv".toList ⟨List.replicate 76032 0, 0⟩
        candidateModes ⟨-1, -1, YUVC_UnknownPixelFormat, -1⟩ = some r ∧
      r.out = ⟨176, 144, YUVC_420YpCbCr8PlanarPixelFormat, 2⟩) ∧
    (∃ r, YUVFile.formatFromCorrelation "a.yuv".toList ⟨[0, 0, 0, 0], 0⟩ candidateModes
        ⟨-1, -1, YUVC_UnknownPixelFormat, -1⟩ = some r ∧
      r.out = ⟨-1, -1, YUVC_UnknownPixelFormat, -1⟩) := by
  constructor
  · obtain ⟨r, e, hA, hB⟩ := formatFromCorrelation_first_call "a.yuv".toList
      ⟨List.replicate 76032 0, 0⟩ ⟨-1, -1, YUVC_UnknownPixelFormat, -1⟩ (by decide)
      (by rw [List.length_replicate]; decide) (by rw [List.length_replicate]; decide)
    refine ⟨r, e, ?_⟩
    obtain ⟨r2, e2, _, _, _, hout⟩ := formatFromCorrelation_zeros_first "a.yuv".toList
      (List.replicate 76032 0) 0 ⟨-1, -1, YUVC_UnknownPixelFormat, -1⟩ 76032 (by decide)
      (List.length_replicate _ _) (fun b hb => List.eq_of_mem_replicate hb) 0
      ⟨176, 144, YUVC_420YpCbCr8PlanarPixelFormat, false, 0⟩ rfl (by decide)
      (by decide) (by decide)
    rw [e] at e2
    rw [Option.some.inj e2, hout]
    decide
  · obtain ⟨r, e, hA, hB⟩ := formatFromCorrelation_first_call "a.yuv".toList ⟨[0, 0, 0, 0], 0⟩
      ⟨-1, -1, YUVC_UnknownPixelFormat, -1⟩ (by decide) (by decide) (by decide)
    refine ⟨r, e, ?_⟩
    rcases hB with ⟨k, d, P, hk, hi, _⟩ | ⟨_, hout⟩
    · have e2 : YUVFile.formatFromCorrelation "a.yuv".toList ⟨[0, 0, 0, 0], 0⟩ candidateModes
          ⟨-1, -1, YUVC_UnknownPixelFormat, -1⟩
          = some ⟨candidateModes, ⟨[0, 0, 0, 0], 0⟩, ⟨-1, -1, YUVC_UnknownPixelFormat, -1⟩, []⟩ :=
        formatFromCorrelation_not_found _ _ _ _ rfl (by decide)
      rw [e2] at e
      rw [← Option.some.inj e] at hk
      rw [candidateModes_unflagged d (List.mem_iff_getElem?.2 ⟨k, hk⟩)] at hi
      exact absurd hi (by decide)
    · exact hout

theorem MAX_int (a b : Int) : YUVFile.MAX a b = max a b := by
  unfold YUVFile.MAX
  split_ifs <;> omega

theorem MAX_rat (a b : ℚ) : YUVFile.MAX a b = max a b := by
  unfold YUVFile.MAX
  split_ifs with h
  · exact (max_eq_left (le_of_lt h)).symm
  · exact (max_eq_right (not_lt.1 h)).symm

theorem toInt_nonneg (ds : List Char) : 0 ≤ toInt ds := by
  unfold toInt
  split_ifs
  · exact Int.ofNat_nonneg _
  · exact le_refl 0

/-- The width and the height the first part of `formatFromFilename` gives are
-1 or not negative. -/
theorem parseFilename_ge (filePath : List Char) (p : FilenameFormat)
    (hp : YUVFile.parseFilename filePath = some p) : -1 ≤ p.width ∧ -1 ≤ p.height := by
  unfold YUVFile.parseFilename at hp
  dsimp only at hp
  split at hp
  · rename_i w h r b _
    cases hr : toDouble r with
    | none => rw [hr] at hp; exact absurd hp (by simp)
    | some v =>
      rw [hr] at hp
      rw [← Option.some.inj hp]
      exact ⟨le_trans (by decide) (toInt_nonneg w), le_trans (by decide) (toInt_nonneg h)⟩
  · split at hp
    · rename_i w h r _
      cases hr : toDouble r with
      | none => rw [hr] at hp; exact absurd hp (by simp)
      | some v =>
        rw [hr] at hp
        rw [← Option.some.inj hp]
        exact ⟨le_trans (by decide) (toInt_nonneg w), le_trans (by decide) (toInt_nonneg h)⟩
    · split_ifs at hp <;> rw [← Option.some.inj hp] <;> exact ⟨by decide, by decide⟩

theorem formatFromFilename_ge (fileSize : Nat) (filePath : List Char) (isYUV : Bool)
    (o : FilenameFormat)
    (h : YUVFile.formatFromFilename fileSize filePath ⟨-1, -1, -1, -1, -1⟩ isYUV = some o) :
    -1 ≤ o.width ∧ -1 ≤ o.height := by
  unfold YUVFile.formatFromFilename at h
  split_ifs at h with h0
  · rw [← Option.some.inj h]; exact ⟨le_refl _, le_refl _⟩
  · cases hp : YUVFile.parseFilename filePath with
    | none => rw [hp] at h; exact absurd h (by simp)
    | some p =>
      have hge := parseFilename_ge filePath p hp
      rw [hp] at h
      dsimp only at h
      split_ifs at h
      · cases hb : YUVFile.bytesPerFrame p.width p.height YUVC_420YpCbCr8PlanarPixelFormat with
        | none => rw [hb] at h; exact absurd h (by simp)
        | some bpf =>
          rw [hb] at h
          dsimp only at h
          split_ifs at h
          rw [← Option.some.inj h]; exact hge
      · cases hb : YUVFile.bytesPerFrame p.width p.height YUVC_420YpCbCr10LEPlanarPixelFormat with
        | none => rw [hb] at h; exact absurd h (by simp)
        | some bpf =>
          rw [hb] at h
          dsimp only at h
          split_ifs at h
          rw [← Option.some.inj h]; exact hge
      · rw [← Option.some.inj h]; exact hge
      · rw [← Option.some.inj h]; exact hge

theorem candidateModes_ge : ∀ c, c ∈ (candidateModes.take 29).map candMode_t.key →
    -1 ≤ c.1 ∧ -1 ≤ c.2.1 := by
  decide

/-- The width and the height `formatFromCorrelation` leaves are those from
before the call or those of an entry of the table. -/
theorem formatFromCorrelation_out (fileName : List Char) (file : QFile)
    (table : List candMode_t) (out : CorrelationFormat) (r : CorrelationResult)
    (htable : TableState table)
    (h : YUVFile.formatFromCorrelation fileName file table out = some r) :
    r.out = out ∨ (-1 ≤ r.out.width ∧ -1 ≤ r.out.height) := by
  obtain ⟨cs, t, e, ht, hkeys, hl⟩ := tableState_split table htable
  obtain ⟨data, pos⟩ := file
  by_cases hname : fileName = []
  · unfold YUVFile.formatFromCorrelation at h
    rw [if_pos hname] at h
    rw [← Option.some.inj h]
    exact Or.inl rfl
  · by_cases hS : data.length < 1
    · unfold YUVFile.formatFromCorrelation at h
      rw [if_neg hname] at h
      dsimp only at h
      rw [if_pos hS] at h
      rw [← Option.some.inj h]
      exact Or.inl rfl
    · have hev := formatFromCorrelation_eval fileName data pos cs t out hname hl ht (by omega)
      rw [← e] at hev
      cases hf : cs.any (candMode_t.passes data.length) with
      | false =>
        rw [hev.1 hf] at h
        rw [← Option.some.inj h]
        exact Or.inl rfl
      | true =>
        obtain ⟨pos2, r2, e2, _, _, _, hsel⟩ := hev.2 hf
        rw [e2] at h
        have h := Option.some.inj h
        subst h
        rcases hsel with ⟨k, c, hk, _, _, _, _, hout⟩ | ⟨_, hout⟩
        · right
          obtain ⟨c0, h1, hkey, _⟩ := measured_entry data.length data cs k c hk
          have hm : c0.key ∈ (candidateModes.take 29).map candMode_t.key := by
            rw [← hkeys]
            exact List.mem_map_of_mem _ (List.mem_iff_getElem?.2 ⟨k, h1⟩)
          have hge := candidateModes_ge _ hm
          obtain ⟨a1, a2, _⟩ := key_fields c c0 hkey
          rw [hout]
          exact ⟨by rw [a1]; exact hge.1, by rw [a2]; exact hge.2⟩
        · exact Or.inl hout

/-- What `extractFormat` returns when both strategies return. -/
theorem extractFormat_eval (formatValue : YUVCPixelFormatType → Int)
    (fileName : List Char) (file : QFile) (table : List candMode_t) (frameRate : ℚ)
    (o1 : FilenameFormat) (r2 : CorrelationResult)
    (h1 : YUVFile.formatFromFilename file.data.length fileName ⟨-1, -1, -1, -1, -1⟩
      isYUVDefault = some o1)
    (h2 : YUVFile.formatFromCorrelation fileName file table
      ⟨-1, -1, YUVC_UnknownPixelFormat, -1⟩ = some r2) :
    ∃ e, YUVFile.extractFormat formatValue fileName file table frameRate = some e ∧
      e.width = max o1.width r2.out.width ∧ e.height = max o1.height r2.out.height ∧
      e.numFrames = max o1.numFrames r2.out.numFrames ∧
      ((0 : ℚ) < o1.frameRate ∨ (0 : ℚ) < -1 → e.frameRate = max (o1.frameRate : ℚ) (-1)) := by
  unfold YUVFile.extractFormat
  dsimp only
  rw [h1, h2]
  dsimp only
  refine ⟨_, rfl, MAX_int _ _, MAX_int _ _, MAX_int _ _, ?_⟩
  intro hpos
  dsimp only
  rw [if_pos hpos, MAX_rat]

/-- C24 (as stated, refuted): for the file `foo_1x1_30.yuv` of 2^32 zero
bytes the filename strategy reports 1 x 1 at the rate 30 with the number of
frames -2^31, the quotient 2^31 converted to `int`; the correlation strategy
reports nothing, no frame size of the table divides 2^32; and `extractFormat`
returns the number of frames -1, not that of the filename strategy. -/
theorem extractFormat_maximum_counterexample :
    YUVFile.formatFromFilename (List.replicate 4294967296 (0 : Byte)).length
      "foo_1x1_30.yuv".toList ⟨-1, -1, -1, -1, -1⟩ isYUVDefault
      = some ⟨1, 1, 30, -2147483648, 8⟩ ∧
    YUVFile.formatFromCorrelation "foo_1x1_30.yuv".toList ⟨List.replicate 4294967296 0, 0⟩
      candidateModes ⟨-1, -1, YUVC_UnknownPixelFormat, -1⟩
      = some ⟨candidateModes, ⟨List.replicate 4294967296 0, 0⟩,
          ⟨-1, -1, YUVC_UnknownPixelFormat, -1⟩, []⟩ ∧
    ∃ e, YUVFile.extractFormat (fun _ => 0) "foo_1x1_30.yuv".toList
        ⟨List.replicate 4294967296 0, 0⟩ candidateModes 0 = some e ∧
      e.width = 1 ∧ e.height = 1 ∧ e.numFrames = -1 := by
  have hlen : (List.replicate 4294967296 (0 : Byte)).length = 4294967296 :=
    List.length_replicate _ _
  have h1 : YUVFile.formatFromFilename (List.replicate 4294967296 (0 : Byte)).length
      "foo_1x1_30.yuv".toList ⟨-1, -1, -1, -1, -1⟩ isYUVDefault
      = some ⟨1, 1, 30, -2147483648, 8⟩ := by
    rw [hlen]; decide
  have h2 : YUVFile.formatFromCorrelation "foo_1x1_30.yuv".toList
      ⟨List.replicate 4294967296 0, 0⟩ candidateModes ⟨-1, -1, YUVC_UnknownPixelFormat, -1⟩
      = some ⟨candidateModes, ⟨List.replicate 4294967296 0, 0⟩,
          ⟨-1, -1, YUVC_UnknownPixelFormat, -1⟩, []⟩ :=
    formatFromCorrelation_not_found _ _ _ _ rfl (by
      show (candidateModes.take 29).any
        (candMode_t.passes (List.replicate 4294967296 (0 : Byte)).length) = false
      rw [hlen]; decide)
  refine ⟨h1, h2, ?_⟩
  obtain ⟨e, he, hw, hh, hn, _⟩ := extractFormat_eval (fun _ => 0) "foo_1x1_30.yuv".toList
    ⟨List.replicate 4294967296 0, 0⟩ candidateModes 0 _ _ h1 h2
  exact ⟨e, he, by rw [hw]; decide, by rw [hh]; decide, by rw [hn]; decide⟩

/-- C24 (amended): when the filename strategy returns `o1` and the
correlation strategy returns the outputs `r2.out`, both started from -1 and
the unknown format, `extractFormat` returns with the width, the height and
the number of frames the maxima of the two, and with the frame rate the
maximum of the rate of the filename strategy and -1, the rate the correlation
strategy never sets, when one of the two is positive. Hence when the
correlation strategy reports nothing the width and the height are those of
the filename strategy, and when the filename strategy reports nothing they
are those of the correlation strategy; the number of frames is that of the
other strategy too unless that number is below -1. -/
theorem extractFormat_maximum (formatValue : YUVCPixelFormatType → Int)
    (fileName : List Char) (file : QFile) (table : List candMode_t) (frameRate : ℚ)
    (o1 : FilenameFormat) (r2 : CorrelationResult) (htable : TableState table)
    (h1 : YUVFile.formatFromFilename file.data.length fileName ⟨-1, -1, -1, -1, -1⟩
      isYUVDefault = some o1)
    (h2 : YUVFile.formatFromCorrelation fileName file table
      ⟨-1, -1, YUVC_UnknownPixelFormat, -1⟩ = some r2) :
    ∃ e, YUVFile.extractFormat formatValue fileName file table frameRate = some e ∧
      e.width = max o1.width r2.out.width ∧ e.height = max o1.height r2.out.height ∧
      e.numFrames = max o1.numFrames r2.out.numFrames ∧
      ((0 : ℚ) < o1.frameRate ∨ (0 : ℚ) < -1 → e.frameRate = max (o1.frameRate : ℚ) (-1)) ∧
      (r2.out.width = -1 → r2.out.height = -1 → r2.out.numFrames = -1 →
        e.width = o1.width ∧ e.height = o1.height ∧
          (-1 ≤ o1.numFrames → e.numFrames = o1.numFrames)) ∧
      (o1.width = -1 → o1.height = -1 → o1.numFrames = -1 →
        e.width = r2.out.width ∧ e.height = r2.out.height ∧
          (-1 ≤ r2.out.numFrames → e.numFrames = r2.out.numFrames)) := by
  have hge1 := formatFromFilename_ge _ _ _ _ h1
  have hge2 : -1 ≤ r2.out.width ∧ -1 ≤ r2.out.height := by
    rcases formatFromCorrelation_out _ _ _ _ _ htable h2 with a | a
    · rw [a]; exact ⟨le_refl _, le_refl _⟩
    · exact a
  obtain ⟨e, he, hw, hh, hn, hr⟩ :=
    extractFormat_eval formatValue fileName file table frameRate o1 r2 h1 h2
  refine ⟨e, he, hw, hh, hn, hr, ?_, ?_⟩
  · intro a b c
    rw [hw, hh, hn, a, b, c]
    exact ⟨max_eq_left hge1.1, max_eq_left hge1.2, fun h => max_eq_left h⟩
  · intro a b c
    rw [hw, hh, hn, a, b, c]
    exact ⟨max_eq_right hge2.1, max_eq_right hge2.2, fun h => max_eq_right h⟩

/-- C24 (amended), at the file `foo_4x2_30_8.yuv` of 24 zero bytes: the
filename strategy reports 4 x 2 with 2 frames, the correlation strategy
nothing. -/
theorem extractFormat_maximum_witness :
    ∃ e, YUVFile.extractFormat (fun _ => 0) "foo_4x2_30_8.yuv".toList
        ⟨List.replicate 24 0, 0⟩ candidateModes 25 = some e ∧
      e.width = 4 ∧ e.height = 2 ∧ e.numFrames = 2 ∧ e.frameRate = 30 := by
  obtain ⟨e, he, hw, hh, hn, hr, _, _⟩ := extractFormat_maximum (fun _ => 0)
    "foo_4x2_30_8.yuv".toList ⟨List.replicate 24 0, 0⟩ candidateModes 25
    ⟨4, 2, 30, 2, 8⟩
    ⟨candidateModes, ⟨List.replicate 24 0, 0⟩, ⟨-1, -1, YUVC_UnknownPixelFormat, -1⟩, []⟩
    rfl (by decide) (formatFromCorrelation_not_found _ _ _ _ rfl (by decide))
  refine ⟨e, he, by rw [hw]; decide, by rw [hh]; decide, by rw [hn]; decide, ?_⟩
  rw [hr (Or.inl (by norm_num))]
  norm_num

/-- The bits-per-pixel fraction of a catalogue entry other than RGBA, by its
bits per sample and its chroma subsampling. -/
theorem describe_fraction (f : YUVCPixelFormatType) (pf : PixelFormat)
    (h : YUVFile.describe f = some pf) (hne : f ≠ YUVC_32RGBAPixelFormat) :
    (pf.bitsPerSample = 0 ∧ pf.bitsPerPixelNominator = 0 ∧ pf.bitsPerPixelDenominator = 0) ∨
    (pf.bitsPerSample = 12 ∧ pf.bitsPerPixelNominator = 48 ∧ pf.bitsPerPixelDenominator = 1) ∨
    (pf.bitsPerSample = 16 ∧ pf.bitsPerPixelNominator = 48 ∧ pf.bitsPerPixelDenominator = 1) ∨
    (pf.bitsPerSample = 8 ∧ pf.subsamplingHorizontal = 1 ∧ pf.subsamplingVertical = 1 ∧
      pf.bitsPerPixelNominator = 24 ∧ pf.bitsPerPixelDenominator = 1) ∨
    (pf.bitsPerSample = 8 ∧ pf.subsamplingHorizontal = 2 ∧ pf.subsamplingVertical = 1 ∧
      pf.bitsPerPixelNominator = 16 ∧ pf.bitsPerPixelDenominator = 1) ∨
    (pf.bitsPerSample = 10 ∧ pf.subsamplingHorizontal = 2 ∧ pf.subsamplingVertical = 1 ∧
      pf.bitsPerPixelNominator = 128 ∧ pf.bitsPerPixelDenominator = 6) ∨
    (pf.bitsPerSample = 10 ∧ pf.subsamplingHorizontal = 2 ∧ pf.subsamplingVertical = 2 ∧
      pf.bitsPerPixelNominator = 24 ∧ pf.bitsPerPixelDenominator = 1) ∨
    (pf.bitsPerSample = 8 ∧ pf.subsamplingHorizontal = 2 ∧ pf.subsamplingVertical = 2 ∧
      pf.bitsPerPixelNominator = 12 ∧ pf.bitsPerPixelDenominator = 1) ∨
    (pf.bitsPerSample = 8 ∧ pf.subsamplingHorizontal = 4 ∧ pf.subsamplingVertical = 1 ∧
      pf.bitsPerPixelNominator = 12 ∧ pf.bitsPerPixelDenominator = 1) ∨
    (pf.bitsPerSample = 8 ∧ pf.subsamplingHorizontal = 0 ∧ pf.subsamplingVertical = 0 ∧
      pf.bitsPerPixelNominator = 8 ∧ pf.bitsPerPixelDenominator = 1) := by
  cases f <;>
    first
    | exact absurd rfl hne
    | (cases (Option.some.inj h); decide)
    | exact Option.noConfusion h

/-- C31 (as stated, refuted): the RGBA and the RGB format both have 8 bits per
sample and the subsampling 1 x 1, and a frame of one sample takes 4 bytes in
the first and 3 bytes in the second: the catalogue gives RGBA 32 bits per
pixel for its four components. -/
theorem bytesPerFrame_by_depth_counterexample :
    (YUVFile.describe YUVC_32RGBAPixelFormat).isSome = true ∧
    (YUVFile.describe YUVC_24RGBPixelFormat).isSome = true ∧
    YUVFile.bitsPerSample YUVC_32RGBAPixelFormat = YUVFile.bitsPerSample YUVC_24RGBPixelFormat ∧
    YUVFile.horizontalSubSampling YUVC_32RGBAPixelFormat
      = YUVFile.horizontalSubSampling YUVC_24RGBPixelFormat ∧
    YUVFile.verticalSubSampling YUVC_32RGBAPixelFormat
      = YUVFile.verticalSubSampling YUVC_24RGBPixelFormat ∧
    YUVFile.bytesPerFrame 1 1 YUVC_32RGBAPixelFormat = some 4 ∧
    YUVFile.bytesPerFrame 1 1 YUVC_24RGBPixelFormat = some 3 := by
  decide

/-- C31 (amended): for any two formats of the catalogue other than RGBA with
equal bits per sample, equal horizontal and equal vertical subsampling,
`bytesPerFrame` gives the same for all widths and heights (the same size, or
a fault for both). -/
theorem bytesPerFrame_by_depth (f1 f2 : YUVCPixelFormatType) (pf1 pf2 : PixelFormat)
    (width height : Int)
    (h1 : YUVFile.describe f1 = some pf1) (h2 : YUVFile.describe f2 = some pf2)
    (n1 : f1 ≠ YUVC_32RGBAPixelFormat) (n2 : f2 ≠ YUVC_32RGBAPixelFormat)
    (hb : YUVFile.bitsPerSample f1 = YUVFile.bitsPerSample f2)
    (hh : YUVFile.horizontalSubSampling f1 = YUVFile.horizontalSubSampling f2)
    (hv : YUVFile.verticalSubSampling f1 = YUVFile.verticalSubSampling f2) :
    YUVFile.bytesPerFrame width height f1 = YUVFile.bytesPerFrame width height f2 := by
  unfold YUVFile.bitsPerSample at hb
  unfold YUVFile.horizontalSubSampling at hh
  unfold YUVFile.verticalSubSampling at hv
  rw [h1, h2] at hb hh hv
  dsimp only at hb hh hv
  have k1 := describe_fraction f1 pf1 h1 n1
  have k2 := describe_fraction f2 pf2 h2 n2
  have e : pf1.bitsPerPixelNominator = pf2.bitsPerPixelNominator ∧
      pf1.bitsPerPixelDenominator = pf2.bitsPerPixelDenominator := by omega
  unfold YUVFile.bytesPerFrame
  rw [h1, h2]
  dsimp only
  rw [e.1, e.2]

/-- C31 (amended), at the two planar 4:2:2 formats and a frame of 4 x 2. -/
theorem bytesPerFrame_by_depth_witness :
    YUVFile.bytesPerFrame 4 2 YUVC_422YpCbCr8PlanarPixelFormat
      = YUVFile.bytesPerFrame 4 2 YUVC_UYVY422PixelFormat :=
  bytesPerFrame_by_depth YUVC_422YpCbCr8PlanarPixelFormat YUVC_UYVY422PixelFormat _ _ 4 2
    rfl rfl (by decide) (by decide) (by decide) (by decide) (by decide)

/-- C32 (the code at fault): the divisions of the sizing functions are not
guarded. The catalogue entry of the unknown format, the format of a file
object just constructed, has the bits-per-pixel denominator 0, so
`bytesPerFrame` takes a remainder by 0 for it, and with it `getNumberFrames`
and `getStatus`. For a format that is no key of the catalogue, for a width or
height of 0, and for 32768 x 32768 samples of the 8-bit 4:2:0 format (a bit
count of 2^32, which wraps) `bytesPerFrame` returns 0, and `getNumberFrames`,
`getStatus` and `formatFromFilename` divide the file size by it. -/
theorem sizing_divides_by_zero :
    (YUVFile.describe YUVC_UnknownPixelFormat).map PixelFormat.bitsPerPixelDenominator
      = some 0 ∧
    YUVFile.bytesPerFrame 1 1 YUVC_UnknownPixelFormat = none ∧
    YUVFile.getNumberFrames 100 YUVC_UnknownPixelFormat 1 1 = none ∧
    YUVFile.getStatus 100 YUVC_UnknownPixelFormat 1 1 = none ∧
    YUVFile.bytesPerFrame 1 1 (YUVC_OtherPixelFormat 0) = some 0 ∧
    YUVFile.getNumberFrames 100 (YUVC_OtherPixelFormat 0) 1 1 = none ∧
    YUVFile.getStatus 100 (YUVC_OtherPixelFormat 0) 1 1 = none ∧
    YUVFile.bytesPerFrame 0 0 YUVC_420YpCbCr8PlanarPixelFormat = some 0 ∧
    YUVFile.getStatus 100 YUVC_420YpCbCr8PlanarPixelFormat 0 0 = none ∧
    YUVFile.bytesPerFrame 32768 32768 YUVC_420YpCbCr8PlanarPixelFormat = some 0 ∧
    YUVFile.getNumberFrames 100 YUVC_420YpCbCr8PlanarPixelFormat 32768 32768 = none ∧
    YUVFile.formatFromFilename 100 "foo_32768x32768_30_8.yuv".toList ⟨-1, -1, -1, -1, -1⟩
      isYUVDefault = none := by
  decide

/-- The loop of the shift count ends at a bit of the subsampling value that
is not set, or when the fuel is used up. -/
theorem shiftWhile_spec : ∀ (fuel s tmp : Nat),
    ((1 <<< YUVFile.shiftWhile fuel s tmp) &&& s = 0 ∨
      YUVFile.shiftWhile fuel s tmp = tmp + fuel) ∧
    YUVFile.shiftWhile fuel s tmp ≤ tmp + fuel := by
  intro fuel
  induction fuel with
  | zero => intro s tmp; exact ⟨Or.inr rfl, le_refl _⟩
  | succ fuel ih =>
    intro s tmp
    rw [YUVFile.shiftWhile]
    by_cases h : (1 <<< tmp) &&& s = 0
    · rw [if_neg (by simpa using h)]
      exact ⟨Or.inl h, by omega⟩
    · rw [if_pos h]
      obtain ⟨h1, h2⟩ := ih s (tmp + 1)
      refine ⟨?_, by omega⟩
      rcases h1 with a | a
      · exact Or.inl a
      · exact Or.inr (by omega)

theorem shiftWhile_ne (s : Nat) (hs : s < 2 ^ 31) :
    (1 <<< YUVFile.shiftWhile 31 s 0) ≠ s ∧
      toInt32 ((1 <<< YUVFile.shiftWhile 31 s 0 : Nat) : Int) ≠ (s : Int) := by
  obtain ⟨h1, h2⟩ := shiftWhile_spec 31 s 0
  generalize YUVFile.shiftWhile 31 s 0 = t at *
  have hpow : 1 <<< t = 2 ^ t := Nat.one_shiftLeft t
  have hpos : 0 < 2 ^ t := Nat.two_pow_pos t
  rcases h1 with a | a
  · have hne : (1 <<< t) ≠ s := by
      intro e
      rw [e, Nat.and_self] at a
      rw [a] at e
      omega
    refine ⟨hne, ?_⟩
    have ht : t ≤ 31 := by omega
    rcases Nat.lt_or_ge t 31 with b | b
    · have hlt : 2 ^ t < 2 ^ 31 := Nat.pow_lt_pow_right (by decide) b
      rw [hpow] at hne ⊢
      rw [toInt32_of_lt _ hlt]
      exact_mod_cast hne
    · have e : t = 31 := by omega
      rw [e]
      have : toInt32 ((1 <<< 31 : Nat) : Int) = -2147483648 := by decide
      rw [this]
      omega
  · have e : t = 31 := by omega
    rw [e]
    have : toInt32 ((1 <<< 31 : Nat) : Int) = -2147483648 := by decide
    rw [this]
    have : (1 <<< 31 : Nat) = 2147483648 := by decide
    rw [this]
    constructor <;> omega

/-- C39: for every subsampling value `s` of an `int` that is not negative,
the count `t` the loop `while (((1<<t) & s) != 0) t++` leaves, started at 0,
has `(1 << t) != s`, also when `1 << 31` is taken as the `int` it wraps to.
Hence for all subsampling values of that kind the path of the sample-and-hold
branch guarded by `(1<<horiShift) == horiSubsampling &&
(1<<vertShift) == vertSubsampling` is not taken: when the factors are not
2 x 2 and neither is 0 the branch copies the luma and runs the loops with the
integer divisions. The subsampling values of every pixel format are such
values. -/
theorem shift_path_never_taken (s : Nat) (hs : s < 2 ^ 31) :
    (1 <<< YUVFile.shiftWhile 31 s 0) ≠ s ∧
    toInt32 ((1 <<< YUVFile.shiftWhile 31 s 0 : Nat) : Int) ≠ (s : Int) ∧
    (∀ (fmt : YUVCPixelFormatType) (w h cw ch vs : Nat) (src dst : Buf),
      ¬ (2 = s ∧ 2 = vs) → s ≠ 0 → vs ≠ 0 →
      YUVFile.convertHold fmt w h cw ch s vs src dst =
        (memcpy dst 0 src 0 (w * h)).bind (fun d =>
          forLoop h (fun y d => forLoop w
            (YUVFile.holdDivBody w cw s vs
              (w * h + (if YUVFile.reverseUV fmt then cw * ch else 0))
              (w * h + (if YUVFile.reverseUV fmt then 0 else cw * ch))
              (w * h) (w * h + w * h) src y) d) d)) ∧
    (∀ fmt : YUVCPixelFormatType, YUVFile.horizontalSubSampling fmt < 2 ^ 31 ∧
      YUVFile.verticalSubSampling fmt < 2 ^ 31) := by
  have h1 := shiftWhile_ne s hs
  refine ⟨h1.1, h1.2, ?_, ?_⟩
  · intro fmt w h cw ch vs src dst h22 hs0 hv0
    unfold YUVFile.convertHold
    simp only [if_neg h22, if_neg (fun a : _ ∧ _ => h1.1 a.1),
      if_neg (fun a : s = 0 ∨ vs = 0 => a.elim hs0 hv0)]
    rfl
  · intro fmt
    cases fmt <;> first | decide | exact ⟨Nat.two_pow_pos 31, Nat.two_pow_pos 31⟩

/-- C39, at the subsampling value 2. -/
theorem shift_path_never_taken_witness :
    (1 <<< YUVFile.shiftWhile 31 2 0) ≠ 2 ∧ YUVFile.shiftWhile 31 2 0 = 0 ∧
      YUVFile.shiftWhile 31 1 0 = 1 ∧ YUVFile.shiftWhile 31 4 0 = 0 :=
  ⟨(shift_path_never_taken 2 (by decide)).1, by decide, by decide, by decide⟩

/-- C36: for a frame of the 8-bit 4:2:0 planar format with even `w`, `h` of
at least 2, in each of the three interpolation modes, `convert2YUV444`
returns the same buffer of `3*w*h` bytes whatever the destination held and
whatever memory a `resize` of it brings in: every output position is written,
and the output is a function of the source frame alone. -/
theorem convert2YUV444_independent_of_target (host : Host) (fresh1 fresh2 : Nat → Byte)
    (mode : InterpolationMode) (src dst1 dst2 : Buf) (w h : Nat)
    (hw : w % 2 = 0) (hw2 : 2 ≤ w) (hh : h % 2 = 0) (hh2 : 2 ≤ h)
    (hsrc : src.length = w * h + 2 * ((w / 2) * (h / 2))) (hov : 3 * w * h < 2 ^ 31) :
    ∃ out, YUVFile.convert2YUV444 host fresh1 YUVC_420YpCbCr8PlanarPixelFormat mode src w h dst1
        = some out ∧
      YUVFile.convert2YUV444 host fresh2 YUVC_420YpCbCr8PlanarPixelFormat mode src w h dst2
        = some out ∧
      out.length = 3 * (w * h) := by
  have e1 : w = 2 * (w / 2) := by omega
  have e2 : h = 2 * (h / 2) := by omega
  have c1 : 1 ≤ w / 2 := by omega
  have c2 : 1 ≤ h / 2 := by omega
  cases mode with
  | NearestNeighborInterpolation =>
    obtain ⟨o1, a1, b1⟩ := convert2YUV444_hold host fresh1 YUVC_420YpCbCr8PlanarPixelFormat
      NearestNeighborInterpolation src dst1 w h (w / 2) (h / 2) (by decide) (by decide)
      (by decide) (fun _ => rfl) e1 e2 c1 c2 hsrc hov
    obtain ⟨o2, a2, b2⟩ := convert2YUV444_hold host fresh2 YUVC_420YpCbCr8PlanarPixelFormat
      NearestNeighborInterpolation src dst2 w h (w / 2) (h / 2) (by decide) (by decide)
      (by decide) (fun _ => rfl) e1 e2 c1 c2 hsrc hov
    have e := agrees3_unique w h _ o1 o2 (by omega) (by omega) b1 b2
    exact ⟨o1, a1, by rw [e]; exact a2, b1.1⟩
  | BiLinearInterpolation =>
    obtain ⟨o1, a1, b1⟩ := convert2YUV444_bilinear host fresh1 src dst1 w h (w / 2) (h / 2)
      e1 e2 c1 c2 hsrc hov
    obtain ⟨o2, a2, b2⟩ := convert2YUV444_bilinear host fresh2 src dst2 w h (w / 2) (h / 2)
      e1 e2 c1 c2 hsrc hov
    have e := agrees3_unique w h _ o1 o2 (by omega) (by omega) b1 b2
    exact ⟨o1, a1, by rw [e]; exact a2, b1.1⟩
  | InterstitialInterpolation =>
    obtain ⟨o1, a1, b1⟩ := convert2YUV444_interstitial host fresh1 src dst1 w h (w / 2) (h / 2)
      e1 e2 c1 c2 hsrc hov
    obtain ⟨o2, a2, b2⟩ := convert2YUV444_interstitial host fresh2 src dst2 w h (w / 2) (h / 2)
      e1 e2 c1 c2 hsrc hov
    have e := agrees3_unique w h _ o1 o2 (by omega) (by omega) b1 b2
    exact ⟨o1, a1, by rw [e]; exact a2, b1.1⟩

/-- C36, at a 2 x 2 frame in bilinear mode, with an empty destination and a
destination of twelve bytes of the value 7. -/
theorem convert2YUV444_independent_of_target_witness :
    ∃ out, YUVFile.convert2YUV444 ⟨false, false, true⟩ (fun _ => 0)
        YUVC_420YpCbCr8PlanarPixelFormat BiLinearInterpolation [1, 2, 3, 4, 5, 6] 2 2 []
        = some out ∧
      YUVFile.convert2YUV444 ⟨false, false, true⟩ (fun _ => 9)
        YUVC_420YpCbCr8PlanarPixelFormat BiLinearInterpolation [1, 2, 3, 4, 5, 6] 2 2
        [7, 7, 7, 7, 7, 7, 7, 7, 7, 7, 7, 7] = some out ∧
      out.length = 3 * (2 * 2) :=
  convert2YUV444_independent_of_target ⟨false, false, true⟩ (fun _ => 0) (fun _ => 9)
    BiLinearInterpolation [1, 2, 3, 4, 5, 6] [] [7, 7, 7, 7, 7, 7, 7, 7, 7, 7, 7, 7] 2 2
    (by decide) (by decide) (by decide) (by decide) (by decide) (by decide)

theorem between_avg2 (a b lo hi : Int) (ha : lo ≤ a ∧ a ≤ hi) (hb : lo ≤ b ∧ b ≤ hi) :
    lo ≤ (a + b + 1) / 2 ^ 1 ∧ (a + b + 1) / 2 ^ 1 ≤ hi := by
  norm_num; omega

theorem between_avg31 (a b lo hi : Int) (ha : lo ≤ a ∧ a ≤ hi) (hb : lo ≤ b ∧ b ≤ hi) :
    lo ≤ (3 * a + b + 2) / 2 ^ 2 ∧ (3 * a + b + 2) / 2 ^ 2 ≤ hi := by
  norm_num; omega

theorem between_avg13 (a b lo hi : Int) (ha : lo ≤ a ∧ a ≤ hi) (hb : lo ≤ b ∧ b ≤ hi) :
    lo ≤ (a + 3 * b + 2) / 2 ^ 2 ∧ (a + 3 * b + 2) / 2 ^ 2 ≤ hi := by
  norm_num; omega

theorem between_avg16 (a b c d lo hi : Int) (ha : lo ≤ a ∧ a ≤ hi) (hb : lo ≤ b ∧ b ≤ hi)
    (hc : lo ≤ c ∧ c ≤ hi) (hd : lo ≤ d ∧ d ≤ hi) :
    (lo ≤ (6 * a + 6 * b + 2 * c + 2 * d + 8) / 2 ^ 4 ∧
      (6 * a + 6 * b + 2 * c + 2 * d + 8) / 2 ^ 4 ≤ hi) ∧
    (lo ≤ (2 * a + 2 * b + 6 * c + 6 * d + 8) / 2 ^ 4 ∧
      (2 * a + 2 * b + 6 * c + 6 * d + 8) / 2 ^ 4 ≤ hi) ∧
    (lo ≤ (9 * a + 3 * b + 3 * c + d + 8) / 2 ^ 4 ∧
      (9 * a + 3 * b + 3 * c + d + 8) / 2 ^ 4 ≤ hi) ∧
    (lo ≤ (3 * a + 9 * b + c + 3 * d + 8) / 2 ^ 4 ∧
      (3 * a + 9 * b + c + 3 * d + 8) / 2 ^ 4 ≤ hi) ∧
    (lo ≤ (3 * a + b + 9 * c + 3 * d + 8) / 2 ^ 4 ∧
      (3 * a + b + 9 * c + 3 * d + 8) / 2 ^ 4 ≤ hi) ∧
    (lo ≤ (a + 3 * b + 3 * c + 9 * d + 8) / 2 ^ 4 ∧
      (a + 3 * b + 3 * c + 9 * d + 8) / 2 ^ 4 ≤ hi) := by
  norm_num; omega

/-- The value the bilinear branch computes lies between any two bounds of the
source samples it is computed from, those of the `cw` x `ch` plane. -/
theorem bilinearChroma_between (S : Nat → Nat → Int) (cw ch x y : Nat) (lo hi : Int)
    (hx : x < 2 * cw) (hy : y < 2 * ch)
    (hS : ∀ k r, k < cw → r < ch → lo ≤ S k r ∧ S k r ≤ hi) :
    lo ≤ bilinearChroma S cw ch x y ∧ bilinearChroma S cw ch x y ≤ hi := by
  unfold bilinearChroma
  simp only [Int.shiftRight_eq_div_pow]
  generalize hxe : (if x = 2 * cw - 1 then x - 1 else x) = xe
  have hxe1 : xe ≤ x := by rw [← hxe]; split_ifs <;> omega
  have hxe2 : xe % 2 = 1 → xe + 2 < 2 * cw := by
    rw [← hxe]; split_ifs <;> omega
  clear hxe
  split_ifs with c1 c2 c3 c4 c5 c6 c7
  · exact hS _ _ (by omega) (by omega)
  · exact between_avg2 _ _ _ _ (hS _ _ (by omega) (by omega)) (hS _ _ (by omega) (by omega))
  · exact hS _ _ (by omega) (by omega)
  · exact between_avg2 _ _ _ _ (hS _ _ (by omega) (by omega)) (hS _ _ (by omega) (by omega))
  · exact between_avg31 _ _ _ _ (hS _ _ (by omega) (by omega)) (hS _ _ (by omega) (by omega))
  · exact (between_avg16 _ _ _ _ _ _ (hS _ _ (by omega) (by omega))
      (hS _ _ (by omega) (by omega)) (hS _ _ (by omega) (by omega))
      (hS _ _ (by omega) (by omega))).1
  · exact between_avg13 _ _ _ _ (hS _ _ (by omega) (by omega)) (hS _ _ (by omega) (by omega))
  · exact (between_avg16 _ _ _ _ _ _ (hS _ _ (by omega) (by omega))
      (hS _ _ (by omega) (by omega)) (hS _ _ (by omega) (by omega))
      (hS _ _ (by omega) (by omega))).2.1

/-- The value the interstitial branch computes lies between any two bounds of
the source samples of the `cw` x `ch` plane. -/
theorem interstitialChroma_between (S : Nat → Nat → Int) (cw ch x y : Nat) (lo hi : Int)
    (hx : x < 2 * cw) (hy : y < 2 * ch)
    (hS : ∀ k r, k < cw → r < ch → lo ≤ S k r ∧ S k r ≤ hi) :
    lo ≤ interstitialChroma S cw ch x y ∧ interstitialChroma S cw ch x y ≤ hi := by
  unfold interstitialChroma
  simp only [Int.shiftRight_eq_div_pow]
  split_ifs with c1 c2 c3 c4 c5 c6 c7 c8
  · exact hS _ _ (by omega) (by omega)
  · exact between_avg31 _ _ _ _ (hS _ _ (by omega) (by omega)) (hS _ _ (by omega) (by omega))
  · exact between_avg13 _ _ _ _ (hS _ _ (by omega) (by omega)) (hS _ _ (by omega) (by omega))
  · exact between_avg31 _ _ _ _ (hS _ _ (by omega) (by omega)) (hS _ _ (by omega) (by omega))
  · exact (between_avg16 _ _ _ _ _ _ (hS _ _ (by omega) (by omega))
      (hS _ _ (by omega) (by omega)) (hS _ _ (by omega) (by omega))
      (hS _ _ (by omega) (by omega))).2.2.1
  · exact (between_avg16 _ _ _ _ _ _ (hS _ _ (by omega) (by omega))
      (hS _ _ (by omega) (by omega)) (hS _ _ (by omega) (by omega))
      (hS _ _ (by omega) (by omega))).2.2.2.1
  · exact between_avg13 _ _ _ _ (hS _ _ (by omega) (by omega)) (hS _ _ (by omega) (by omega))
  · exact (between_avg16 _ _ _ _ _ _ (hS _ _ (by omega) (by omega))
      (hS _ _ (by omega) (by omega)) (hS _ _ (by omega) (by omega))
      (hS _ _ (by omega) (by omega))).2.2.2.2.1
  · exact (between_avg16 _ _ _ _ _ _ (hS _ _ (by omega) (by omega))
      (hS _ _ (by omega) (by omega)) (hS _ _ (by omega) (by omega))
      (hS _ _ (by omega) (by omega))).2.2.2.2.2

/-- C37: for a frame of the 8-bit 4:2:0 planar format with even `w`, `h` of
at least 2, in bilinear and in interstitial mode, every output sample of a
chroma plane is the sum the branch computes, without a wrap in the
conversion to a byte, and lies between `lo` and `hi` whenever all samples of
the source chroma plane do, so between the minimum and the maximum of that
plane; a source chroma plane of the constant value `v` gives an output plane
of the constant value `v`. -/
theorem convert2YUV444_chroma_within_source_range (host : Host) (fresh : Nat → Byte)
    (mode : InterpolationMode) (src dst : Buf) (w h : Nat)
    (hmode : mode = BiLinearInterpolation ∨ mode = InterstitialInterpolation)
    (hw : w % 2 = 0) (hw2 : 2 ≤ w) (hh : h % 2 = 0) (hh2 : 2 ≤ h)
    (hsrc : src.length = w * h + 2 * ((w / 2) * (h / 2))) (hov : 3 * w * h < 2 ^ 31) :
    ∃ out, YUVFile.convert2YUV444 host fresh YUVC_420YpCbCr8PlanarPixelFormat mode src w h dst
        = some out ∧
      out.length = 3 * (w * h) ∧
      ∀ c, c = 1 ∨ c = 2 →
        (∀ x y, x < w → y < h → sampleAt out w h c x y =
          if mode = BiLinearInterpolation then
            bilinearChroma (chromaAt src w h (w / 2) (h / 2) c) (w / 2) (h / 2) x y
          else interstitialChroma (chromaAt src w h (w / 2) (h / 2) c) (w / 2) (h / 2) x y) ∧
        (∀ lo hi : Int,
          (∀ k r, k < w / 2 → r < h / 2 → lo ≤ chromaAt src w h (w / 2) (h / 2) c k r ∧
            chromaAt src w h (w / 2) (h / 2) c k r ≤ hi) →
          ∀ x y, x < w → y < h → lo ≤ sampleAt out w h c x y ∧ sampleAt out w h c x y ≤ hi) ∧
        (∀ v : Int,
          (∀ k r, k < w / 2 → r < h / 2 → chromaAt src w h (w / 2) (h / 2) c k r = v) →
          ∀ x y, x < w → y < h → sampleAt out w h c x y = v) := by
  have e1 : w = 2 * (w / 2) := by omega
  have e2 : h = 2 * (h / 2) := by omega
  have c1 : 1 ≤ w / 2 := by omega
  have c2 : 1 ≤ h / 2 := by omega
  rcases hmode with rfl | rfl
  · obtain ⟨out, a, b⟩ := convert2YUV444_bilinear host fresh src dst w h (w / 2) (h / 2)
      e1 e2 c1 c2 hsrc hov
    refine ⟨out, a, b.1, ?_⟩
    intro c hc
    have hval : ∀ x y, x < w → y < h → sampleAt out w h c x y =
        bilinearChroma (chromaAt src w h (w / 2) (h / 2) c) (w / 2) (h / 2) x y :=
      fun x y hx hy => bilinear_sample src out w h (w / 2) (h / 2) c x y b hc hx hy
    have hbtw : ∀ lo hi : Int,
        (∀ k r, k < w / 2 → r < h / 2 → lo ≤ chromaAt src w h (w / 2) (h / 2) c k r ∧
          chromaAt src w h (w / 2) (h / 2) c k r ≤ hi) →
        ∀ x y, x < w → y < h → lo ≤ sampleAt out w h c x y ∧ sampleAt out w h c x y ≤ hi := by
      intro lo hi hS x y hx hy
      rw [hval x y hx hy]
      exact bilinearChroma_between _ _ _ x y lo hi (by omega) (by omega) hS
    refine ⟨fun x y hx hy => by rw [if_pos rfl]; exact hval x y hx hy, hbtw, ?_⟩
    intro v hv x y hx hy
    have := hbtw v v (fun k r hk hr => by rw [hv k r hk hr]; exact ⟨le_refl _, le_refl _⟩)
      x y hx hy
    omega
  · obtain ⟨out, a, b⟩ := convert2YUV444_interstitial host fresh src dst w h (w / 2) (h / 2)
      e1 e2 c1 c2 hsrc hov
    refine ⟨out, a, b.1, ?_⟩
    intro c hc
    have hval : ∀ x y, x < w → y < h → sampleAt out w h c x y =
        interstitialChroma (chromaAt src w h (w / 2) (h / 2) c) (w / 2) (h / 2) x y :=
      fun x y hx hy => interstitial_sample src out w h (w / 2) (h / 2) c x y b hc hx hy
    have hbtw : ∀ lo hi : Int,
        (∀ k r, k < w / 2 → r < h / 2 → lo ≤ chromaAt src w h (w / 2) (h / 2) c k r ∧
          chromaAt src w h (w / 2) (h / 2) c k r ≤ hi) →
        ∀ x y, x < w → y < h → lo ≤ sampleAt out w h c x y ∧ sampleAt out w h c x y ≤ hi := by
      intro lo hi hS x y hx hy
      rw [hval x y hx hy]
      exact interstitialChroma_between _ _ _ x y lo hi (by omega) (by omega) hS
    refine ⟨fun x y hx hy => by rw [if_neg (by decide)]; exact hval x y hx hy, hbtw, ?_⟩
    intro v hv x y hx hy
    have := hbtw v v (fun k r hk hr => by rw [hv k r hk hr]; exact ⟨le_refl _, le_refl _⟩)
      x y hx hy
    omega

/-- C37, at a 2 x 2 frame in interstitial mode with the chroma samples 50
and 60. -/
theorem convert2YUV444_chroma_within_source_range_witness :
    YUVFile.convert2YUV444 ⟨false, false, true⟩ (fun _ => 0) YUVC_420YpCbCr8PlanarPixelFormat
        InterstitialInterpolation [1, 2, 3, 4, 50, 60] 2 2 []
      = some [1, 2, 3, 4, 50, 50, 50, 50, 60, 60, 60, 60] ∧
    ∃ out, YUVFile.convert2YUV444 ⟨false, false, true⟩ (fun _ => 0)
        YUVC_420YpCbCr8PlanarPixelFormat InterstitialInterpolation [1, 2, 3, 4, 50, 60] 2 2 []
        = some out ∧ sampleAt out 2 2 1 1 1 = 50 :=
  ⟨by decide, by
    obtain ⟨out, a, _, hc⟩ := convert2YUV444_chroma_within_source_range ⟨false, false, true⟩
      (fun _ => 0) InterstitialInterpolation [1, 2, 3, 4, 50, 60] [] 2 2 (Or.inr rfl)
      (by decide) (by decide) (by decide) (by decide) (by decide) (by decide)
    refine ⟨out, a, (hc 1 (Or.inl rfl)).2.2 50 ?_ 1 1 (by decide) (by decide)⟩
    intro k r hk hr
    have hk0 : k = 0 := by omega
    have hr0 : r = 0 := by omega
    subst hk0 hr0
    decide⟩

theorem taps_in_group : ∀ t, t ∈ uyvy10Taps ∨ t ∈ v210Taps → t.plane < 3 ∧ t.pos < 6 := by
  intro t ht
  rcases ht with h | h
  · revert t; decide
  · revert t; decide

/-- In a frame of a multiple of six samples the groups of the packed 10-bit
loops stay inside their planes, so two groups share no element and every
element lies inside the three planes. -/
theorem tapPos_disjoint (cl i j : Nat) (s t : Tap) (hcl : cl % 6 = 0) (hi : i < cl / 6)
    (hj : j < cl / 6) (hs : s.plane < 3 ∧ s.pos < 6) (ht : t.plane < 3 ∧ t.pos < 6) :
    tapPos cl i s < 3 * cl ∧ (tapPos cl i s = tapPos cl j t → i = j) := by
  unfold tapPos
  obtain ⟨hs1, hs2⟩ := hs
  obtain ⟨ht1, ht2⟩ := ht
  generalize s.plane = p at *
  generalize t.plane = q at *
  have hp : p = 0 ∨ p = 1 ∨ p = 2 := by omega
  have hq : q = 0 ∨ q = 1 ∨ q = 2 := by omega
  rcases hp with rfl | rfl | rfl <;> rcases hq with rfl | rfl | rfl <;> constructor <;> omega

/-- C34 (the code at fault): in the loops of the two packed 10-bit formats
group `i` writes the elements `6i .. 6i+5` of each plane, the planes
`componentLength` elements apart. For a frame of 8 samples (4 x 2) the loop
runs the groups 0 and 1; group 1 writes the luma element 8, which is the
element 0 of the U plane that group 0 writes: two iterations of the
parallel loop write the same destination element. For a frame of a multiple
of six samples no two groups share an element. -/
theorem packed10_iterations_share_position :
    (8 + 5) / 6 = 2 ∧
    ((⟨1, 0, 0, 0⟩ : Tap) ∈ uyvy10Taps ∧ (⟨0, 2, 1, 0⟩ : Tap) ∈ uyvy10Taps ∧
      tapPos 8 0 ⟨1, 0, 0, 0⟩ = 8 ∧ tapPos 8 1 ⟨0, 2, 1, 0⟩ = 8) ∧
    ((⟨1, 0, 0, 0⟩ : Tap) ∈ v210Taps ∧ (⟨0, 2, 1, 2⟩ : Tap) ∈ v210Taps ∧
      tapPos 8 0 ⟨1, 0, 0, 0⟩ = 8 ∧ tapPos 8 1 ⟨0, 2, 1, 2⟩ = 8) ∧
    (∀ (host : Host) (cl i : Nat) (src dst : Buf) (r0 r1 r2 r3 : Nat),
      load32 host.bigEndian src (i * 4) = some r0 →
      load32 host.bigEndian src (i * 4 + 1) = some r1 →
      load32 host.bigEndian src (i * 4 + 2) = some r2 →
      load32 host.bigEndian src (i * 4 + 3) = some r3 →
      YUVFile.uyvy10Body host cl src i dst =
        YUVFile.storeAll16 host.bigEndian
          (groupWrites 2 cl i ([r0, r1, r2, r3].map (SwapInt32BigToHost host)) uyvy10Taps) dst ∧
      YUVFile.v210Body host cl src i dst =
        YUVFile.storeAll16 host.bigEndian
          (groupWrites 0 cl i ([r0, r1, r2, r3].map (SwapInt32LittleToHost host)) v210Taps)
          dst) ∧
    (∀ (cl i j : Nat) (s t : Tap), cl % 6 = 0 → i < (cl + 5) / 6 → j < (cl + 5) / 6 → i ≠ j →
      s ∈ uyvy10Taps ∨ s ∈ v210Taps → t ∈ uyvy10Taps ∨ t ∈ v210Taps →
      tapPos cl i s ≠ tapPos cl j t) := by
  refine ⟨by decide, by decide, by decide, ?_, ?_⟩
  · intro host cl i src dst r0 r1 r2 r3 h0 h1 h2 h3
    exact ⟨uyvy10Body_eq host cl i src dst r0 r1 r2 r3 h0 h1 h2 h3,
      v210Body_eq host cl i src dst r0 r1 r2 r3 h0 h1 h2 h3⟩
  · intro cl i j s t hcl hi hj hij hs ht he
    exact hij ((tapPos_disjoint cl i j s t hcl (by omega) (by omega) (taps_in_group s hs)
      (taps_in_group t ht)).2 he)

/-- C35 (the code at fault): the packed branches have no bound for the last
samples. In the 8-bit `UYVY` branch the V sample of the last column of an odd
width is read two bytes behind its U sample: for a 3 x 1 frame of 6 bytes the
position 6, and the call is a fault. In the 10-bit branches the last group of
a frame that is no multiple of six samples runs past the planes: for 4 x 2,
a source of 32 bytes, group 1 writes the element 27 of a destination of
3 * 8 elements, a fault even on a destination of 48 bytes. For a frame of a
multiple of six samples every element written lies inside the three planes. -/
theorem packed_conversion_out_of_bounds :
    YUVFile.bytesPerFrame 3 1 YUVC_UYVY422PixelFormat = some 6 ∧
    ((((2 >>> 1) <<< 1) + 0 * 3) <<< 1) + 2 = 6 ∧
    YUVFile.convert2YUV444 ⟨false, false, true⟩ (fun _ => 0) YUVC_UYVY422PixelFormat
      NearestNeighborInterpolation [1, 2, 3, 4, 5, 6] 3 1 [] = none ∧
    YUVFile.bytesPerFrame 4 2 YUVC_UYVY422YpCbCr10PixelFormat = some 32 ∧
    YUVFile.bytesPerFrame 4 2 YUVC_422YpCbCr10PixelFormat = some 32 ∧
    ((⟨2, 5, 2, 0⟩ : Tap) ∈ uyvy10Taps ∧ tapPos 8 1 ⟨2, 5, 2, 0⟩ = 27 ∧ 3 * 8 ≤ 27) ∧
    ((⟨2, 5, 3, 1⟩ : Tap) ∈ v210Taps ∧ tapPos 8 1 ⟨2, 5, 3, 1⟩ = 27) ∧
    forLoop ((8 + 5) / 6) (YUVFile.uyvy10Body ⟨false, false, true⟩ 8 (List.replicate 32 0))
      (List.replicate 48 0) = none ∧
    forLoop ((8 + 5) / 6) (YUVFile.v210Body ⟨false, false, true⟩ 8 (List.replicate 32 0))
      (List.replicate 48 0) = none ∧
    (∀ (cl i : Nat) (t : Tap), cl % 6 = 0 → i < (cl + 5) / 6 →
      t ∈ uyvy10Taps ∨ t ∈ v210Taps → tapPos cl i t < 3 * cl) := by
  refine ⟨by decide, by decide, by decide, by decide, by decide, by decide, by decide,
    by decide, by decide, ?_⟩
  intro cl i t hcl hi ht
  exact (tapPos_disjoint cl i i t t hcl (by omega) (by omega) (taps_in_group t ht)
    (taps_in_group t ht)).1

/-- The outputs `formatFromCorrelation` leaves are those from before the call
or those of an entry of the table with the quotient of the file size by its
frame size. -/
theorem formatFromCorrelation_out_count (fileName : List Char) (file : QFile)
    (table : List candMode_t) (out : CorrelationFormat) (r : CorrelationResult)
    (htable : TableState table)
    (h : YUVFile.formatFromCorrelation fileName file table out = some r) :
    r.out = out ∨ ∃ c, LiveEntry c ∧
      r.out = ⟨c.width, c.height, c.pixelFormat,
        toInt32 ((file.data.length / c.picSize : Nat) : Int)⟩ := by
  obtain ⟨cs, t, e, ht, hkeys, hl⟩ := tableState_split table htable
  obtain ⟨data, pos⟩ := file
  by_cases hname : fileName = []
  · unfold YUVFile.formatFromCorrelation at h
    rw [if_pos hname] at h
    rw [← Option.some.inj h]
    exact Or.inl rfl
  · by_cases hS : data.length < 1
    · unfold YUVFile.formatFromCorrelation at h
      rw [if_neg hname] at h
      dsimp only at h
      rw [if_pos hS] at h
      rw [← Option.some.inj h]
      exact Or.inl rfl
    · have hev := formatFromCorrelation_eval fileName data pos cs t out hname hl ht (by omega)
      rw [← e] at hev
      cases hf : cs.any (candMode_t.passes data.length) with
      | false =>
        rw [hev.1 hf] at h
        rw [← Option.some.inj h]
        exact Or.inl rfl
      | true =>
        obtain ⟨pos2, r2, e2, _, _, _, hsel⟩ := hev.2 hf
        rw [e2] at h
        have h := Option.some.inj h
        subst h
        rcases hsel with ⟨k, c, hk, _, _, _, _, hout⟩ | ⟨_, hout⟩
        · right
          obtain ⟨c0, h1, hkey, _⟩ := measured_entry data.length data cs k c hk
          exact ⟨c, liveEntry_of_key c c0 hkey (hl c0 (List.mem_iff_getElem?.2 ⟨k, h1⟩)), hout⟩
        · exact Or.inl hout

/-- The number of frames `formatFromFilename` leaves with a positive width
and height and the depth 8 or 10, started from -1. -/
theorem formatFromFilename_count (fileSize : Nat) (filePath : List Char) (o : FilenameFormat)
    (h : YUVFile.formatFromFilename fileSize filePath ⟨-1, -1, -1, -1, -1⟩ true = some o)
    (hw : 0 < o.width) (hh : 0 < o.height) :
    (o.bitDepth = 8 → ∃ bpf,
      YUVFile.bytesPerFrame o.width o.height YUVC_420YpCbCr8PlanarPixelFormat = some bpf ∧
        bpf ≠ 0 ∧ o.numFrames = toInt32 ((fileSize / bpf : Nat) : Int)) ∧
    (o.bitDepth = 10 → ∃ bpf,
      YUVFile.bytesPerFrame o.width o.height YUVC_420YpCbCr10LEPlanarPixelFormat = some bpf ∧
        bpf ≠ 0 ∧ o.numFrames = toInt32 ((fileSize / bpf : Nat) : Int)) := by
  unfold YUVFile.formatFromFilename at h
  split_ifs at h with h0
  · rw [← Option.some.inj h] at hw
    exact absurd hw (by decide)
  · cases hp : YUVFile.parseFilename filePath with
    | none => rw [hp] at h; exact absurd h (by simp)
    | some p =>
      rw [hp] at h
      dsimp only at h
      by_cases hc : (true = true ∧ p.width > 0 ∧ p.height > 0 ∧ p.bitDepth > 0)
      · rw [if_pos hc] at h
        by_cases h8 : p.bitDepth = 8
        · rw [if_pos h8] at h
          cases hb : YUVFile.bytesPerFrame p.width p.height YUVC_420YpCbCr8PlanarPixelFormat with
          | none => rw [hb] at h; exact absurd h (by simp)
          | some bpf =>
            rw [hb] at h
            dsimp only at h
            by_cases hz : bpf = 0
            · rw [if_pos hz] at h; exact absurd h (by simp)
            · rw [if_neg hz] at h
              have ho := Option.some.inj h
              subst ho
              exact ⟨fun _ => ⟨bpf, hb, hz, rfl⟩,
                fun a => absurd ((h8 : p.bitDepth = 8).symm.trans (a : p.bitDepth = 10)) (by decide)⟩
        · rw [if_neg h8] at h
          by_cases h10 : p.bitDepth = 10
          · rw [if_pos h10] at h
            cases hb : YUVFile.bytesPerFrame p.width p.height
                YUVC_420YpCbCr10LEPlanarPixelFormat with
            | none => rw [hb] at h; exact absurd h (by simp)
            | some bpf =>
              rw [hb] at h
              dsimp only at h
              by_cases hz : bpf = 0
              · rw [if_pos hz] at h; exact absurd h (by simp)
              · rw [if_neg hz] at h
                have ho := Option.some.inj h
                subst ho
                exact ⟨fun a => absurd (a : p.bitDepth = 8) h8, fun _ => ⟨bpf, hb, hz, rfl⟩⟩
          · rw [if_neg h10] at h
            have ho := Option.some.inj h
            subst ho
            exact ⟨fun a => absurd a h8, fun a => absurd a h10⟩
      · rw [if_neg hc] at h
        have ho := Option.some.inj h
        subst ho
        have hd : ¬ (p.bitDepth > 0) := fun a => hc ⟨rfl, hw, hh, a⟩
        exact ⟨fun a => (hd (by rw [(a : p.bitDepth = 8)]; decide)).elim,
          fun a => (hd (by rw [(a : p.bitDepth = 10)]; decide)).elim⟩

/-- What `extractFormat` returns when both strategies return, with the pixel
format it selects. -/
theorem extractFormat_eval_format (formatValue : YUVCPixelFormatType → Int)
    (fileName : List Char) (file : QFile) (table : List candMode_t) (frameRate : ℚ)
    (o1 : FilenameFormat) (r2 : CorrelationResult)
    (h1 : YUVFile.formatFromFilename file.data.length fileName ⟨-1, -1, -1, -1, -1⟩
      isYUVDefault = some o1)
    (h2 : YUVFile.formatFromCorrelation fileName file table
      ⟨-1, -1, YUVC_UnknownPixelFormat, -1⟩ = some r2) :
    ∃ e, YUVFile.extractFormat formatValue fileName file table frameRate = some e ∧
      e.width = max o1.width r2.out.width ∧ e.height = max o1.height r2.out.height ∧
      e.numFrames = max o1.numFrames r2.out.numFrames ∧
      (r2.out.cFormat = YUVC_UnknownPixelFormat →
        e.p_srcPixelFormat =
          if o1.bitDepth = 8 then YUVC_420YpCbCr8PlanarPixelFormat
          else if o1.bitDepth = 10 then YUVC_420YpCbCr10LEPlanarPixelFormat
          else YUVC_UnknownPixelFormat) ∧
      (r2.out.cFormat ≠ YUVC_UnknownPixelFormat →
        ¬ (o1.bitDepth = 8 ∨ o1.bitDepth = 10) → e.p_srcPixelFormat ≠ YUVC_UnknownPixelFormat →
        e.p_srcPixelFormat = r2.out.cFormat) ∧
      (r2.out.cFormat ≠ YUVC_UnknownPixelFormat →
        ¬ (formatValue r2.out.cFormat < formatValue YUVC_UnknownPixelFormat) →
        e.p_srcPixelFormat = r2.out.cFormat) := by
  unfold YUVFile.extractFormat
  dsimp only
  rw [h1, h2]
  dsimp only
  refine ⟨_, rfl, MAX_int _ _, MAX_int _ _, MAX_int _ _, ?_, ?_, ?_⟩
  · intro hu
    dsimp only
    rw [hu]
    simp only [ite_self, if_true]
  · intro hu hd hk
    dsimp only at hk ⊢
    by_cases hv : formatValue r2.out.cFormat < formatValue YUVC_UnknownPixelFormat
    · rw [if_pos hv] at hk
      rw [if_pos rfl, if_neg (fun a => hd (Or.inl a)), if_neg (fun a => hd (Or.inr a))] at hk
      exact absurd rfl hk
    · rw [if_neg hv, if_neg hu]
  · intro hu hv
    dsimp only
    rw [if_neg hv, if_neg hu]

/-- C38 (as stated, refuted): for the file `foo_1920x1080_30.yuv` of 6220800
zero bytes the filename strategy reports 1920 x 1080 with 2 frames and the
correlation strategy 480 x 480 in 4:2:0 with 18 frames; `extractFormat`
returns the maxima, 1920 x 1080 with 18 frames, and selects the 8-bit 4:2:0
format, of which the file holds 2 frames of 3110400 bytes. -/
theorem extractFormat_consistent_counterexample :
    YUVFile.bytesPerFrame 1920 1080 YUVC_420YpCbCr8PlanarPixelFormat = some 3110400 ∧
    (List.replicate 6220800 (0 : Byte)).length / 3110400 = 2 ∧
    ∃ e, YUVFile.extractFormat (fun _ => 0) "foo_1920x1080_30.yuv".toList
        ⟨List.replicate 6220800 0, 0⟩ candidateModes 0 = some e ∧
      e.width = 1920 ∧ e.height = 1080 ∧
      e.p_srcPixelFormat = YUVC_420YpCbCr8PlanarPixelFormat ∧ e.numFrames = 18 := by
  have hlen : (List.replicate 6220800 (0 : Byte)).length = 6220800 :=
    List.length_replicate _ _
  have h1 : YUVFile.formatFromFilename (List.replicate 6220800 (0 : Byte)).length
      "foo_1920x1080_30.yuv".toList ⟨-1, -1, -1, -1, -1⟩ isYUVDefault
      = some ⟨1920, 1080, 30, 2, 8⟩ := by
    rw [hlen]; decide
  obtain ⟨r2, h2, _, _, _, hout⟩ :=
    formatFromCorrelation_zeros_first "foo_1920x1080_30.yuv".toList
      (List.replicate 6220800 0) 0 ⟨-1, -1, YUVC_UnknownPixelFormat, -1⟩ 6220800 (by decide)
      hlen (fun b hb => List.eq_of_mem_replicate hb)
      3 ⟨480, 480, YUVC_420YpCbCr8PlanarPixelFormat, false, 0⟩ rfl (by decide) (by decide)
      (by decide)
  obtain ⟨e, he, hw, hh, hn, _, _, hf⟩ := extractFormat_eval_format (fun _ => 0)
    "foo_1920x1080_30.yuv".toList ⟨List.replicate 6220800 0, 0⟩ candidateModes 0 _ r2 h1 h2
  refine ⟨by decide, by rw [hlen], e, he, ?_, ?_, ?_, ?_⟩
  · rw [hw, hout]; decide
  · rw [hh, hout]; decide
  · rw [hf (by rw [hout]; decide) (by decide), hout]
  · rw [hn, hout]; decide

/-- C38 (amended): let both strategies return, started from -1 and the
unknown format, on a state of the table, and let one of them report nothing
(all its values -1, the format unknown). Then `extractFormat` returns, and
whenever the width and the height it returns are positive and the pixel
format it selects is not the unknown one, the frame size `bpf` of the
returned width, height and selected format is defined and not 0, and the
number of frames returned is `fileSize div bpf` when that is below 2^31. -/
theorem extractFormat_consistent (formatValue : YUVCPixelFormatType → Int)
    (fileName : List Char) (file : QFile) (table : List candMode_t) (frameRate : ℚ)
    (o1 : FilenameFormat) (r2 : CorrelationResult) (htable : TableState table)
    (h1 : YUVFile.formatFromFilename file.data.length fileName ⟨-1, -1, -1, -1, -1⟩
      isYUVDefault = some o1)
    (h2 : YUVFile.formatFromCorrelation fileName file table
      ⟨-1, -1, YUVC_UnknownPixelFormat, -1⟩ = some r2)
    (hone : r2.out = ⟨-1, -1, YUVC_UnknownPixelFormat, -1⟩ ∨
      (o1.width = -1 ∧ o1.height = -1 ∧ o1.numFrames = -1 ∧ o1.bitDepth = -1)) :
    ∃ e, YUVFile.extractFormat formatValue fileName file table frameRate = some e ∧
      (0 < e.width → 0 < e.height → e.p_srcPixelFormat ≠ YUVC_UnknownPixelFormat →
        ∃ bpf, YUVFile.bytesPerFrame e.width e.height e.p_srcPixelFormat = some bpf ∧ bpf ≠ 0 ∧
          (file.data.length / bpf < 2 ^ 31 →
            e.numFrames = ((file.data.length / bpf : Nat) : Int))) := by
  obtain ⟨e, he, hw, hh, hn, hf1, hf2, _⟩ :=
    extractFormat_eval_format formatValue fileName file table frameRate o1 r2 h1 h2
  refine ⟨e, he, ?_⟩
  intro hpw hph hknown
  rcases hone with hnone | ⟨a1, a2, a3, a4⟩
  · have hge := formatFromFilename_ge _ _ _ _ h1
    rw [hnone] at hw hh hn
    dsimp only at hw hh hn
    rw [max_eq_left hge.1] at hw
    rw [max_eq_left hge.2] at hh
    have hfmt := hf1 (by rw [hnone])
    have hcnt := formatFromFilename_count _ _ _ h1 (by rw [← hw]; exact hpw)
      (by rw [← hh]; exact hph)
    by_cases h8 : o1.bitDepth = 8
    · rw [if_pos h8] at hfmt
      obtain ⟨bpf, hb, hz, hc⟩ := hcnt.1 h8
      refine ⟨bpf, by rw [hw, hh, hfmt]; exact hb, hz, ?_⟩
      intro hq
      rw [hn, hc, toInt32_of_lt _ hq]
      exact max_eq_left (le_trans (by decide : (-1 : Int) ≤ 0) (Int.ofNat_nonneg _))
    · rw [if_neg h8] at hfmt
      by_cases h10 : o1.bitDepth = 10
      · rw [if_pos h10] at hfmt
        obtain ⟨bpf, hb, hz, hc⟩ := hcnt.2 h10
        refine ⟨bpf, by rw [hw, hh, hfmt]; exact hb, hz, ?_⟩
        intro hq
        rw [hn, hc, toInt32_of_lt _ hq]
        exact max_eq_left (le_trans (by decide : (-1 : Int) ≤ 0) (Int.ofNat_nonneg _))
      · rw [if_neg h10] at hfmt
        exact absurd hfmt hknown
  · rw [a1] at hw
    rw [a2] at hh
    rw [a3] at hn
    rcases formatFromCorrelation_out_count _ _ _ _ _ htable h2 with hout | ⟨c, hl, hout⟩
    · rw [hout] at hw
      dsimp only at hw
      rw [hw] at hpw
      exact absurd hpw (by decide)
    · have hfmt := hf2 (by rw [hout]; exact hl.1)
        (fun a => by rcases a with a | a <;> rw [a4] at a <;> exact absurd a (by decide)) hknown
      rw [hout] at hw hh hn hfmt
      dsimp only at hw hh hn hfmt
      have hcw : 0 < c.width := by
        rw [hw] at hpw
        rcases le_total (-1 : Int) c.width with b | b
        · rw [max_eq_right b] at hpw; exact hpw
        · rw [max_eq_left b] at hpw; exact absurd hpw (by decide)
      have hch : 0 < c.height := by
        rw [hh] at hph
        rcases le_total (-1 : Int) c.height with b | b
        · rw [max_eq_right b] at hph; exact hph
        · rw [max_eq_left b] at hph; exact absurd hph (by decide)
      rw [max_eq_right (by omega)] at hw hh
      refine ⟨c.picSize, by rw [hw, hh, hfmt]; exact picSize_eq c hl.2.1,
        by have := hl.2.1; omega, ?_⟩
      intro hq
      rw [hn, toInt32_of_lt _ hq]
      exact max_eq_right (le_trans (by decide : (-1 : Int) ≤ 0) (Int.ofNat_nonneg _))

/-- C38 (amended), at the file `foo_4x2_30_8.yuv` of 24 zero bytes, two
frames of 12 bytes, for which the correlation strategy reports nothing. -/
theorem extractFormat_consistent_witness :
    ∃ e, YUVFile.extractFormat (fun _ => 0) "foo_4x2_30_8.yuv".toList
        ⟨List.replicate 24 0, 0⟩ candidateModes 25 = some e ∧
      (0 < e.width → 0 < e.height → e.p_srcPixelFormat ≠ YUVC_UnknownPixelFormat →
        ∃ bpf, YUVFile.bytesPerFrame e.width e.height e.p_srcPixelFormat = some bpf ∧ bpf ≠ 0 ∧
          ((⟨List.replicate 24 0, 0⟩ : QFile).data.length / bpf < 2 ^ 31 →
            e.numFrames = (((⟨List.replicate 24 0, 0⟩ : QFile).data.length / bpf : Nat) : Int))) :=
  extractFormat_consistent (fun _ => 0) "foo_4x2_30_8.yuv".toList ⟨List.replicate 24 0, 0⟩
    candidateModes 25 ⟨4, 2, 30, 2, 8⟩
    ⟨candidateModes, ⟨List.replicate 24 0, 0⟩, ⟨-1, -1, YUVC_UnknownPixelFormat, -1⟩, []⟩
    rfl (by decide) (formatFromCorrelation_not_found _ _ _ _ rfl (by decide)) (Or.inl rfl)

/-- The rounding leaves an integer below 2^24 as it is. -/
theorem roundFloat_int (z : Int) (hz : |z| < 2 ^ 24) : roundFloat (z : ℚ) = (z : ℚ) := by
  by_cases h0 : z = 0
  · rw [h0]; exact roundFloat_zero
  · have hq0 : (z : ℚ) ≠ 0 := by exact_mod_cast h0
    have habs : (1 : ℚ) ≤ |(z : ℚ)| := by
      have : (1 : Int) ≤ |z| := Int.one_le_abs h0
      exact_mod_cast this
    have hlt : |(z : ℚ)| < 2 ^ (24 : Int) := by
      have : ((|z| : Int) : ℚ) < ((2 ^ 24 : Int) : ℚ) := by exact_mod_cast hz
      rw [Int.cast_abs] at this
      norm_num at this ⊢
      exact this
    have hpos : (0 : ℚ) < |(z : ℚ)| := lt_of_lt_of_le one_pos habs
    have he0 : 0 ≤ Int.log 2 |(z : ℚ)| := by
      rw [Int.log_of_one_le_right 2 habs]
      exact Int.natCast_nonneg _
    have he23 : Int.log 2 |(z : ℚ)| < 24 := by
      have h1 := Int.zpow_log_le_self (b := 2) (by decide) hpos
      have h2 : ((2 : ℕ) : ℚ) ^ Int.log 2 |(z : ℚ)| < ((2 : ℕ) : ℚ) ^ (24 : Int) := by
        refine lt_of_le_of_lt h1 ?_
        exact_mod_cast hlt
      exact (zpow_lt_zpow_iff_right₀ (by norm_num : (1 : ℚ) < ((2 : ℕ) : ℚ))).1 h2
    obtain ⟨k, hk⟩ : ∃ k : ℕ, Int.log 2 |(z : ℚ)| - 23 = -(k : Int) :=
      ⟨(23 - Int.log 2 |(z : ℚ)|).toNat, by omega⟩
    unfold roundFloat
    rw [if_neg hq0]
    dsimp only
    rw [hk, zpow_neg, zpow_natCast]
    have ht : |(z : ℚ)| / ((2 : ℚ) ^ k)⁻¹ = ((|z| * 2 ^ k : Int) : ℚ) := by
      rw [div_inv_eq_mul]
      push_cast
      rfl
    rw [ht, Int.floor_intCast, sub_self]
    have hhalf : (0 : ℚ) < 1 / 2 := by norm_num
    simp only [hhalf, if_true]
    have hm : ((|z| * 2 ^ k : Int) : ℚ) * ((2 : ℚ) ^ k)⁻¹ = |(z : ℚ)| := by
      push_cast
      rw [mul_assoc, mul_inv_cancel₀ (by positivity), mul_one]
    rw [hm]
    split_ifs with hneg
    · rw [abs_of_neg hneg, neg_neg]
    · rw [abs_of_nonneg (not_lt.1 hneg)]

theorem roundFloat_nat (n : Nat) (hn : n < 2 ^ 24) : roundFloat (n : ℚ) = (n : ℚ) := by
  have := roundFloat_int (n : Int) (by rw [abs_of_nonneg (Int.natCast_nonneg n)]; exact_mod_cast hn)
  exact_mod_cast this

/-- The rounding of a positive number loses less than the part `2^-23` of
it. -/
theorem roundFloat_lower (q : ℚ) (hq : 0 < q) : q - q / 2 ^ 23 ≤ roundFloat q := by
  have hq0 : q ≠ 0 := ne_of_gt hq
  unfold roundFloat
  rw [if_neg hq0]
  dsimp only
  rw [if_neg (not_lt.2 hq.le), abs_of_pos hq]
  have hu : (0 : ℚ) < 2 ^ (Int.log 2 q - 23) := zpow_pos (by norm_num) _
  have hule : (2 : ℚ) ^ (Int.log 2 q - 23) ≤ q / 2 ^ 23 := by
    have h1 := Int.zpow_log_le_self (b := 2) (by decide) hq
    rw [zpow_sub₀ (by norm_num)]
    have h1' : (2 : ℚ) ^ Int.log 2 q ≤ q := by exact_mod_cast h1
    have : (2 : ℚ) ^ (23 : Int) = 2 ^ 23 := by norm_num
    rw [this]
    exact div_le_div_of_nonneg_right h1' (by positivity)
  generalize (2 : ℚ) ^ (Int.log 2 q - 23) = ulp at *
  have hfl : q / ulp - 1 < (⌊q / ulp⌋ : ℚ) := Int.sub_one_lt_floor _
  have hm : (⌊q / ulp⌋ : ℚ) ≤
      ((if q / ulp - ⌊q / ulp⌋ < 1 / 2 then ⌊q / ulp⌋
        else if 1 / 2 < q / ulp - ⌊q / ulp⌋ then ⌊q / ulp⌋ + 1
        else if ⌊q / ulp⌋ % 2 = 0 then ⌊q / ulp⌋ else ⌊q / ulp⌋ + 1 : Int) : ℚ) := by
    split_ifs <;> push_cast <;> linarith
  have h3 : (q / ulp - 1) * ulp ≤ (⌊q / ulp⌋ : ℚ) * ulp :=
    mul_le_mul_of_nonneg_right hfl.le hu.le
  have h4 : (q / ulp - 1) * ulp = q - ulp := by
    field_simp
  have h5 := mul_le_mul_of_nonneg_right hm hu.le
  linarith

/-- The loop of `computeMSE` over `n1 + n2` samples is the loop over `n1`
samples followed by the loop over `n2`. -/
theorem mseLoop_add (buf : Buf) (ptr ptr2 : Nat) : ∀ (n1 n2 i : Nat) (mse : ℚ),
    mseLoop buf ptr ptr2 (n1 + n2) i mse =
      (mseLoop buf ptr ptr2 n1 i mse).bind (fun m => mseLoop buf ptr ptr2 n2 (i + n1) m) := by
  intro n1
  induction n1 with
  | zero => intro n2 i mse; rw [Nat.zero_add]; rfl
  | succ n1 ih =>
    intro n2 i mse
    have e : n1 + 1 + n2 = (n1 + n2) + 1 := by omega
    rw [e, mseLoop, mseLoop]
    cases load buf (ptr + i) with
    | none => rfl
    | some a =>
      cases load buf (ptr2 + i) with
      | none => rfl
      | some b =>
        dsimp only
        rw [ih]
        have e2 : i + 1 + n1 = i + (n1 + 1) := by omega
        rw [e2]

/-- The loop of `computeMSE` over a run in which every pair of samples is
`a`, `b`: the sum grows by the square of the difference each time, without a
rounding error below 2^24. -/
theorem mseLoop_const (buf : Buf) (ptr ptr2 : Nat) (a b : Byte) (d2 : Nat)
    (hd : ((a.val : Int) - (b.val : Int)) * ((a.val : Int) - (b.val : Int)) = (d2 : Int)) :
    ∀ (n i acc : Nat),
    (∀ j, i ≤ j → j < i + n → load buf (ptr + j) = some a ∧ load buf (ptr2 + j) = some b) →
    acc + n * d2 < 2 ^ 24 →
    mseLoop buf ptr ptr2 n i (acc : ℚ) = some ((acc + n * d2 : Nat) : ℚ) := by
  have ha : roundFloat ((a.val : Nat) : ℚ) = ((a.val : Nat) : ℚ) :=
    roundFloat_nat _ (lt_trans a.isLt (by decide))
  have hb : roundFloat ((b.val : Nat) : ℚ) = ((b.val : Nat) : ℚ) :=
    roundFloat_nat _ (lt_trans b.isLt (by decide))
  have hz : |(a.val : Int) - (b.val : Int)| < 2 ^ 24 := by
    have := a.isLt
    have := b.isLt
    rw [abs_lt]
    constructor <;> omega
  have hdiff : roundFloat (((a.val : Nat) : ℚ) - ((b.val : Nat) : ℚ))
      = (((a.val : Int) - (b.val : Int) : Int) : ℚ) := by
    have := roundFloat_int _ hz
    push_cast at this ⊢
    exact this
  intro n
  induction n with
  | zero => intro i acc _ _; simp only [mseLoop, Nat.zero_mul, Nat.add_zero]
  | succ n ih =>
    intro i acc hl hacc
    obtain ⟨l1, l2⟩ := hl i (le_refl i) (by omega)
    have hd2 : d2 < 2 ^ 24 := by
      have : d2 ≤ (n + 1) * d2 := Nat.le_mul_of_pos_left d2 (by omega)
      omega
    have hsq : roundFloat ((((a.val : Int) - (b.val : Int) : Int) : ℚ) *
        (((a.val : Int) - (b.val : Int) : Int) : ℚ)) = (d2 : ℚ) := by
      have e : (((a.val : Int) - (b.val : Int) : Int) : ℚ) *
          (((a.val : Int) - (b.val : Int) : Int) : ℚ) = ((d2 : Int) : ℚ) := by
        rw [← hd]; push_cast; ring
      rw [e]
      have := roundFloat_nat d2 hd2
      exact_mod_cast this
    have hsum : roundFloat ((acc : ℚ) + (d2 : ℚ)) = ((acc + d2 : Nat) : ℚ) := by
      have hlt : acc + d2 < 2 ^ 24 := by
        have : d2 ≤ (n + 1) * d2 := Nat.le_mul_of_pos_left d2 (by omega)
        omega
      have := roundFloat_nat (acc + d2) hlt
      push_cast at this ⊢
      exact this
    rw [mseLoop, l1, l2]
    dsimp only
    rw [ha, hb, hdiff, hsq, hsum, ih (i + 1) (acc + d2)
      (fun j h1 h2 => hl j (by omega) (by omega)) (by
        have : (n + 1) * d2 = n * d2 + d2 := by ring
        omega)]
    congr 2
    ring

theorem load_replicate3 (n1 n2 n3 : Nat) (v : Byte) (j : Nat) :
    (j < n1 → load (List.replicate n1 0 ++ (List.replicate n2 v ++ List.replicate n3 0)) j
      = some 0) ∧
    (n1 ≤ j → j < n1 + n2 →
      load (List.replicate n1 0 ++ (List.replicate n2 v ++ List.replicate n3 0)) j = some v) ∧
    (n1 + n2 ≤ j → j < n1 + n2 + n3 →
      load (List.replicate n1 0 ++ (List.replicate n2 v ++ List.replicate n3 0)) j
        = some 0) := by
  unfold load
  refine ⟨?_, ?_, ?_⟩
  · intro h
    rw [List.getElem?_append_left (by rw [List.length_replicate]; exact h),
      List.getElem?_replicate, if_pos h]
  · intro h1 h2
    rw [List.getElem?_append_right (by rw [List.length_replicate]; exact h1),
      List.length_replicate,
      List.getElem?_append_left (by rw [List.length_replicate]; omega),
      List.getElem?_replicate, if_pos (by omega)]
  · intro h1 h2
    rw [List.getElem?_append_right (by rw [List.length_replicate]; omega),
      List.length_replicate,
      List.getElem?_append_right (by rw [List.length_replicate]; omega),
      List.length_replicate, List.getElem?_replicate, if_pos (by omega)]

/-- The error value of a file of two frames of `n1 + n2` bytes that are zero
but for the last `n2` bytes of the first frame, of the value `v`. -/
theorem errorValue_tail (n1 n2 P : Nat) (v : Byte) (hP : P = n1 + n2) (hpos : 0 < P)
    (hlt : P < 2 ^ 24) (hsum : n2 * (v.val * v.val) < 2 ^ 24) :
    computeMSE (List.replicate n1 0 ++ (List.replicate n2 v ++ List.replicate P 0)) 0 P P
      = some (roundFloat (((n2 * (v.val * v.val) : Nat) : ℚ) / (P : ℚ))) ∧
    errorValue (List.replicate n1 0 ++ (List.replicate n2 v ++ List.replicate P 0)) P
      = roundFloat (((n2 * (v.val * v.val) : Nat) : ℚ) / (P : ℚ)) := by
  have hlen : (List.replicate n1 (0 : Byte) ++ (List.replicate n2 v ++ List.replicate P 0)).length
      = P * 2 := by
    simp only [List.length_append, List.length_replicate]; omega
  have hc : computeMSE (List.replicate n1 0 ++ (List.replicate n2 v ++ List.replicate P 0)) 0 P P
      = some (roundFloat (((n2 * (v.val * v.val) : Nat) : ℚ) / (P : ℚ))) := by
    generalize hdata : List.replicate n1 (0 : Byte) ++ (List.replicate n2 v ++ List.replicate P 0)
      = data
    have hld := fun j => load_replicate3 n1 n2 P v j
    rw [hdata] at hld
    have s1 := mseLoop_const data 0 P 0 0 0 (by simp) n1 0 0
      (fun j _ h2 => ⟨by rw [Nat.zero_add]; exact (hld j).1 (by omega),
        (hld (P + j)).2.2 (by omega) (by omega)⟩) (by simp)
    have s2 := mseLoop_const data 0 P v 0 (v.val * v.val) (by simp) n2 n1 0
      (fun j h1 h2 => ⟨by rw [Nat.zero_add]; exact (hld j).2.1 (by omega) (by omega),
        (hld (P + j)).2.2 (by omega) (by omega)⟩) (by omega)
    unfold computeMSE
    rw [if_pos (by exact_mod_cast hpos), Int.toNat_ofNat]
    have e : mseLoop data 0 P P 0 0 = some (((n2 * (v.val * v.val) : Nat) : ℚ)) := by
      rw [hP, mseLoop_add]
      have s1' : mseLoop data 0 (n1 + n2) n1 0 0 = some 0 := by
        rw [← hP]
        have := s1
        simp only [Nat.cast_zero, Nat.mul_zero, Nat.add_zero] at this
        exact this
      rw [s1']
      simp only [Option.some_bind, Nat.zero_add]
      rw [← hP]
      have := s2
      simp only [Nat.cast_zero, Nat.zero_add] at this
      exact this
    rw [e]
    dsimp only
    have hPq : roundFloat (((P : Int) : ℚ)) = (P : ℚ) := by
      have := roundFloat_nat P hlt
      exact_mod_cast this
    rw [hPq]
  refine ⟨hc, ?_⟩
  unfold errorValue
  rw [firstFrames_of_le _ _ (by rw [hlen]), List.take_of_length_le (by rw [hlen]), hc]
  rfl

theorem candidateModes_two_frames : ∀ c, c ∈ candidateModes.take 29 →
    c.passes 76032 = true → c.picSize = 38016 := by
  decide

/-- A call of `formatFromCorrelation` on the table as the program starts with
it: when every candidate that passes the test of step 1 has an error value of
100 or more, the outputs stay as they were. -/
theorem formatFromCorrelation_rejects (fileName : List Char) (data : Buf) (pos : Nat)
    (out : CorrelationFormat) (hname : fileName ≠ []) (hS : 1 ≤ data.length)
    (herr : ∀ c, c ∈ candidateModes.take 29 → c.passes data.length = true →
      100 ≤ errorValue data c.picSize) :
    ∃ r, YUVFile.formatFromCorrelation fileName ⟨data, pos⟩ candidateModes out = some r ∧
      r.out = out := by
  have hev := formatFromCorrelation_eval fileName data pos (candidateModes.take 29)
    ⟨-1, -1, YUVC_UnknownPixelFormat, false, 0⟩ out hname candidateModes_live rfl hS
  rw [← candidateModes_split] at hev
  cases hf : (candidateModes.take 29).any (candMode_t.passes data.length) with
  | false => exact ⟨_, hev.1 hf, rfl⟩
  | true =>
    obtain ⟨pos2, r, e, _, _, _, hsel⟩ := hev.2 hf
    refine ⟨r, e, ?_⟩
    rcases hsel with ⟨k, c, hk, hi, h100, _, _, _⟩ | ⟨_, hout⟩
    · obtain ⟨c0, h1, _, _, hint, hm, _⟩ := measured_entry data.length data _ k c hk
      have hmem : c0 ∈ candidateModes.take 29 := List.mem_iff_getElem?.2 ⟨k, h1⟩
      rw [candidateModes_unflagged c0 (List.mem_of_mem_take hmem), Bool.false_or] at hint
      have := herr c0 hmem (by rw [← hint]; exact hi)
      rw [← hm hi] at this
      exact absurd h100 (not_lt.2 this)
    · exact hout

/-- C33 (the code at fault): step 2 of `formatFromCorrelation` passes the
size of a whole frame to `computeMSE`, so that the error value of a candidate
covers the chroma bytes of the two frames as well. Two files of two frames of
176x144 4:2:0 samples, 38016 bytes each, with the same luma samples, the
first 25344 bytes of either frame: the file of zero bytes has the error value
0 and is taken for two frames of this size, the file that differs from it in
the chroma bytes of its first frame has an error value of 100 or more, and
its outputs stay as they were. -/
theorem formatFromCorrelation_measures_chroma :
    candidateModes[0]? = some ⟨176, 144, YUVC_420YpCbCr8PlanarPixelFormat, false, 0⟩ ∧
    YUVFile.bytesPerFrame 176 144 YUVC_420YpCbCr8PlanarPixelFormat = some 38016 ∧
    176 * 144 = 25344 ∧
    (List.replicate 76032 (0 : Byte)).length = 76032 ∧
    (List.replicate 25344 (0 : Byte) ++
      (List.replicate 12672 32 ++ List.replicate 38016 0)).length = 76032 ∧
    (∀ j, j < 25344 →
      load (List.replicate 25344 0 ++ (List.replicate 12672 32 ++ List.replicate 38016 0)) j
        = load (List.replicate 76032 0) j ∧
      load (List.replicate 25344 0 ++ (List.replicate 12672 32 ++ List.replicate 38016 0))
          (38016 + j) = load (List.replicate 76032 0) (38016 + j)) ∧
    errorValue (List.replicate 76032 0) 38016 = 0 ∧
    100 ≤ errorValue
      (List.replicate 25344 0 ++ (List.replicate 12672 32 ++ List.replicate 38016 0)) 38016 ∧
    (∃ r, YUVFile.formatFromCorrelation "a.yuv".toList ⟨List.replicate 76032 0, 0⟩
        candidateModes ⟨-1, -1, YUVC_UnknownPixelFormat, -1⟩ = some r ∧
      r.out = ⟨176, 144, YUVC_420YpCbCr8PlanarPixelFormat, 2⟩) ∧
    (∃ r, YUVFile.formatFromCorrelation "a.yuv".toList
        ⟨List.replicate 25344 0 ++ (List.replicate 12672 32 ++ List.replicate 38016 0), 0⟩
        candidateModes ⟨-1, -1, YUVC_UnknownPixelFormat, -1⟩ = some r ∧
      r.out = ⟨-1, -1, YUVC_UnknownPixelFormat, -1⟩) := by
  have hlenB : (List.replicate 25344 (0 : Byte) ++
      (List.replicate 12672 32 ++ List.replicate 38016 0)).length = 76032 := by
    simp only [List.length_append, List.length_replicate]
  have hz : ∀ b, b ∈ List.replicate 76032 (0 : Byte) → b = 0 :=
    fun b hb => (List.mem_replicate.1 hb).2
  have hB := (errorValue_tail 25344 12672 38016 32 (by decide) (by decide) (by decide)
    (by decide)).2
  have hnum : 12672 * ((32 : Byte).val * (32 : Byte).val) = 12976128 := by decide
  have hB100 : (100 : ℚ) ≤ errorValue
      (List.replicate 25344 0 ++ (List.replicate 12672 32 ++ List.replicate 38016 0)) 38016 := by
    rw [hB, hnum]
    have := roundFloat_lower (((12976128 : Nat) : ℚ) / ((38016 : Nat) : ℚ)) (by norm_num)
    refine le_trans ?_ this
    norm_num
  refine ⟨rfl, by decide, by decide, List.length_replicate _ _, hlenB, ?_, ?_, hB100,
    ?_, ?_⟩
  · intro j hj
    have h3 := fun i => load_replicate3 25344 12672 38016 32 i
    constructor
    · rw [(h3 j).1 hj]
      unfold load
      rw [List.getElem?_replicate, if_pos (by omega)]
    · rw [(h3 (38016 + j)).2.2 (by omega) (by omega)]
      unfold load
      rw [List.getElem?_replicate, if_pos (by omega)]
  · exact errorValue_zeros _ 38016 (by decide) hz
  · obtain ⟨r, e, _, _, _, hout⟩ := formatFromCorrelation_zeros_first "a.yuv".toList
      (List.replicate 76032 0) 0 ⟨-1, -1, YUVC_UnknownPixelFormat, -1⟩ 76032 (by decide)
      (List.length_replicate _ _) hz 0
      ⟨176, 144, YUVC_420YpCbCr8PlanarPixelFormat, false, 0⟩ rfl (by decide)
      (by decide) (by decide)
    exact ⟨r, e, by rw [hout]; decide⟩
  · apply formatFromCorrelation_rejects _ _ _ _ (by decide) (by rw [hlenB]; decide)
    intro c hc hp
    rw [hlenB] at hp
    rw [candidateModes_two_frames c hc hp]
    exact hB100
